import Mathlib

/-!
# Enqueue-record codec of the linear store journal

A shallow embedding of `qpid/linearstore/jrnl/enq_rec.cpp` (class `enq_rec`:
`reset`, `encode`, `decode`, `get_xid`, `get_data`, `str`, `rec_size`) together with the parts of
the journal it relies on, and theorems about the embedding.

Conventions.
* A byte is a `Fin 256`; memory regions, files and buffers are lists of bytes.
* `uint32_t` and `std::size_t` values are natural numbers; every C++ operation
  that can wrap is written with an explicit `% 2 ^ 32` or `% 2 ^ 64`.
* A pointer is the region it points to (`none` is the null pointer).
* `assert` does not stop the embedding: the result records whether every
  assertion that was executed held.
-/

namespace journal

set_option maxRecDepth 100000

/-- One octet of memory or of a file. -/
abbrev Byte := Fin 256

/-- The low octet of a number. -/
def byte_of (n : Nat) : Byte := ⟨n % 256, Nat.mod_lt n (by decide)⟩

/-- Little-endian object representation of an unsigned integer of `w` octets. -/
def le_bytes : Nat → Nat → List Byte
  | 0, _ => []
  | w + 1, n => byte_of n :: le_bytes w (n / 256)

/-- The unsigned integer whose little-endian object representation is given. -/
def le_val : List Byte → Nat
  | [] => 0
  | b :: bs => b.val + 256 * le_val bs

/-! ## Layout constants (`jcfg.h`, not among the sources) -/

/-- Modelled from the spec: `DBLK_BYTES`, the size of a disk block; the spec
names 128 bytes as the value the source uses.  The spec takes the byte
positions `rec_offs_dblks * DBLK_BYTES` and `max_size_dblks * DBLK_BYTES`
without narrowing, so the constant is a `std::size_t` and the products of a
`uint32_t` block count and the block size do not wrap. -/
def QLS_DBLK_SIZE_BYTES : Nat := 128

/-- Modelled from the spec: `ENQ_MAGIC`, the 32-bit magic of an enqueue record.
The spec fixes no value; the theorems use only that it fits 32 bits. -/
def QLS_ENQ_MAGIC : Nat := 0x65534c51

/-- Modelled from the spec: `JRNL_VERSION`, the 8-bit format version.  The spec
fixes no value; the theorems use only that it fits 8 bits. -/
def QLS_JRNL_VERSION : Nat := 2

/-- Modelled from the spec: `CLEAN_CHAR`, the fill byte of the clean mode. -/
def QLS_CLEAN_CHAR : Byte := 0xff

/-! ## Header and tail structures (`utils/rec_hdr.h`, `utils/enq_hdr.h`,
`utils/rec_tail.h`, not among the sources) -/

/-- Modelled from the spec: the common record header, the fixed part every
record starts with: `magic` (32 bit), `version` (8 bit), `flags` (16 bit),
`serial` (64 bit), `rid` (64 bit). -/
structure rec_hdr_t where
  _magic : Nat
  _version : Nat
  _uflag : Nat
  _serial : Nat
  _rid : Nat
deriving DecidableEq, Repr

/-- Modelled from the spec: the enqueue header, the common header followed by
`xidsize` (64 bit) and `dsize` (64 bit). -/
structure enq_hdr_t where
  _rhdr : rec_hdr_t
  _xidsize : Nat
  _dsize : Nat
deriving DecidableEq, Repr

/-- Modelled from the spec: the record tail `xmagic` (32 bit), `checksum`
(32 bit), `serial` (64 bit), `rid` (64 bit). -/
structure rec_tail_t where
  _xmagic : Nat
  _checksum : Nat
  _serial : Nat
  _rid : Nat
deriving DecidableEq, Repr

/-- Modelled from the spec: `sizeof(rec_hdr_t)` of the packed layout. -/
def sizeof_rec_hdr : Nat := 23

/-- Modelled from the spec: `sizeof(enq_hdr_t)` of the packed layout. -/
def sizeof_enq_hdr : Nat := 39

/-- Modelled from the spec: `sizeof(rec_tail_t)` of the packed layout. -/
def sizeof_rec_tail : Nat := 24

/-- Modelled from the spec: object representation of the common header
(packed, fixed width, little-endian, fields in the order of the data model). -/
def rec_hdr_bytes (h : rec_hdr_t) : List Byte :=
  le_bytes 4 h._magic ++ le_bytes 1 h._version ++ le_bytes 2 h._uflag ++
    le_bytes 8 h._serial ++ le_bytes 8 h._rid

/-- Modelled from the spec: the common header held by 23 octets of memory. -/
def rec_hdr_of_bytes (b : List Byte) : rec_hdr_t :=
  { _magic := le_val (b.take 4)
    _version := le_val ((b.drop 4).take 1)
    _uflag := le_val ((b.drop 5).take 2)
    _serial := le_val ((b.drop 7).take 8)
    _rid := le_val ((b.drop 15).take 8) }

/-- Modelled from the spec: object representation of the enqueue header. -/
def enq_hdr_bytes (h : enq_hdr_t) : List Byte :=
  rec_hdr_bytes h._rhdr ++ le_bytes 8 h._xidsize ++ le_bytes 8 h._dsize

/-- Modelled from the spec: object representation of the record tail. -/
def rec_tail_bytes (t : rec_tail_t) : List Byte :=
  le_bytes 4 t._xmagic ++ le_bytes 4 t._checksum ++ le_bytes 8 t._serial ++
    le_bytes 8 t._rid

/-- Modelled from the spec: the tail held by 24 octets of memory. -/
def rec_tail_of_bytes (b : List Byte) : rec_tail_t :=
  { _xmagic := le_val (b.take 4)
    _checksum := le_val ((b.drop 4).take 4)
    _serial := le_val ((b.drop 8).take 8)
    _rid := le_val ((b.drop 16).take 8) }

/-- Modelled from the spec: mask of the `transient` bit of the flags. -/
def ENQ_HDR_TRANSIENT_MASK : Nat := 16

/-- Modelled from the spec: mask of the `external` bit of the flags. -/
def ENQ_HDR_EXTERNAL_MASK : Nat := 32

/-- Modelled from the spec: the 16-bit flags with the bit of mask `m` (a power
of two) cleared. -/
def clear_flag (u m : Nat) : Nat := u / (2 * m) * (2 * m) + u % m

/-- Modelled from the spec: the 16-bit flags with the bit of mask `m` set to
the given value. -/
def set_flag (u m : Nat) (b : Bool) : Nat := clear_flag u m + (if b then m else 0)

/-- Modelled from the spec: the predicate reading the `transient` bit. -/
def is_enq_transient (h : enq_hdr_t) : Bool :=
  decide (h._rhdr._uflag / ENQ_HDR_TRANSIENT_MASK % 2 = 1)

/-- Modelled from the spec: the predicate reading the `external` bit. -/
def is_enq_external (h : enq_hdr_t) : Bool :=
  decide (h._rhdr._uflag / ENQ_HDR_EXTERNAL_MASK % 2 = 1)

/-- Modelled from the spec: the setter of the `transient` bit. -/
def set_enq_transient (h : enq_hdr_t) (transient : Bool) : enq_hdr_t :=
  { h with _rhdr := { h._rhdr with
      _uflag := set_flag h._rhdr._uflag ENQ_HDR_TRANSIENT_MASK transient } }

/-- Modelled from the spec: the setter of the `external` bit. -/
def set_enq_external (h : enq_hdr_t) (external : Bool) : enq_hdr_t :=
  { h with _rhdr := { h._rhdr with
      _uflag := set_flag h._rhdr._uflag ENQ_HDR_EXTERNAL_MASK external } }

/-- Modelled from the spec: the constructor of a header,
`{magic, version, flags=0, serial, rid, xidsize, dsize}` with the transient
bit as given. -/
def enq_hdr_init (magic version serial rid xidsize dsize : Nat) (transient : Bool) :
    enq_hdr_t :=
  set_enq_transient
    { _rhdr := { _magic := magic, _version := version, _uflag := 0,
                 _serial := serial, _rid := rid }
      _xidsize := xidsize
      _dsize := dsize } transient

/-- The bitwise complement of a `uint32_t`. -/
def not32 (m : Nat) : Nat := 2 ^ 32 - 1 - m % 2 ^ 32

/-- Modelled from the spec: a tail made from a header, `xmagic = ~magic`,
serial and rid mirrored, checksum as given. -/
def rec_tail_copy (h : rec_hdr_t) (checksum : Nat) : rec_tail_t :=
  { _xmagic := not32 h._magic, _checksum := checksum, _serial := h._serial, _rid := h._rid }

/-- Modelled from the spec: copy of a common header. -/
def rec_hdr_copy (src : rec_hdr_t) : rec_hdr_t := src

/-- Modelled from the spec: validation of a tail against a header; `0` when
it passes, else the number of the first failing check: `xmagic == ~magic`
(1), serial (2), rid (3), checksum (4). -/
def rec_tail_check (t : rec_tail_t) (h : rec_hdr_t) (checksum : Nat) : Nat :=
  if t._xmagic ≠ not32 h._magic then 1
  else if t._serial ≠ h._serial then 2
  else if t._rid ≠ h._rid then 3
  else if t._checksum ≠ checksum then 4
  else 0

/-! ## Size arithmetic -/

/-- Modelled from the spec: `size_dblks(nbytes) = ceil(nbytes / DBLK_BYTES)`,
which is 0 for 0 bytes (`jrec.h`, not among the sources). -/
def size_dblks (size : Nat) : Nat :=
  (size + QLS_DBLK_SIZE_BYTES - 1) / QLS_DBLK_SIZE_BYTES

/-- Subtraction of two `std::size_t` values. -/
def sub_sz (a b : Nat) : Nat := (a % 2 ^ 64 + 2 ^ 64 - b % 2 ^ 64) % 2 ^ 64

/-- The class `enq_rec`: header, tail, the borrowed xid and data regions and
the owned buffer. -/
structure enq_rec where
  _enq_hdr : enq_hdr_t
  _enq_tail : rec_tail_t
  _xidp : Option (List Byte)
  _data : Option (List Byte)
  _buff : Option (List Byte)
deriving DecidableEq, Repr

/-- The constructor `enq_rec::enq_rec()` (its own name would shadow the class). -/
def enq_rec.ctor : enq_rec :=
  let hdr := enq_hdr_init QLS_ENQ_MAGIC QLS_JRNL_VERSION 0 0 0 0 false
  { _enq_hdr := hdr
    _enq_tail := rec_tail_copy hdr._rhdr 0
    _xidp := none
    _data := none
    _buff := none }

/-- The method `enq_rec::reset`. -/
def enq_rec.reset (r : enq_rec) (serial rid : Nat) (dbuf : Option (List Byte)) (dlen : Nat)
    (xidp : Option (List Byte)) (xidlen : Nat) (transient external : Bool) : enq_rec :=
  let h0 : enq_hdr_t :=
    { r._enq_hdr with _rhdr := { r._enq_hdr._rhdr with _serial := serial, _rid := rid } }
  let h1 := set_enq_transient h0 transient
  let h2 := set_enq_external h1 external
  { _enq_hdr := { h2 with _xidsize := xidlen, _dsize := dlen }
    _enq_tail := { r._enq_tail with _serial := serial, _rid := rid }
    _xidp := xidp
    _data := dbuf
    _buff := none }

/-- The static method `enq_rec::rec_size(xidsize, dsize, external)`. -/
def enq_rec.rec_size_of (xidsize dsize : Nat) (external : Bool) : Nat :=
  if external then (sizeof_enq_hdr + xidsize + sizeof_rec_tail) % 2 ^ 64
  else (sizeof_enq_hdr + xidsize + dsize + sizeof_rec_tail) % 2 ^ 64

/-- The method `enq_rec::rec_size()`. -/
def enq_rec.rec_size (r : enq_rec) : Nat :=
  enq_rec.rec_size_of r._enq_hdr._xidsize r._enq_hdr._dsize (is_enq_external r._enq_hdr)

/-- The method `jrec::rec_size_dblks()`: Modelled from the spec,
`rec_size_dblks() = size_dblks(rec_size())`. -/
def enq_rec.rec_size_dblks (r : enq_rec) : Nat := size_dblks r.rec_size

/-! ## Memory -/

/-- The `n` octets found at offset `offs` of the region behind a pointer;
octets outside the region read as 0. -/
def mem_read (p : Option (List Byte)) (offs n : Nat) : List Byte :=
  ((p.getD []).drop offs).take n ++
    List.replicate (n - (((p.getD []).drop offs).take n).length) 0

/-- The region `buf` after `memcpy(buf + offs, src, src.length)`. -/
def mem_write (buf : List Byte) (offs : Nat) (src : List Byte) : List Byte :=
  buf.take offs ++ List.replicate (offs - buf.length) 0 ++ src ++ buf.drop (offs + src.length)

/-- Addition of two `std::size_t` values. -/
def add_sz (a b : Nat) : Nat := (a + b) % 2 ^ 64

/-! ## The encoder -/

/-- The buffer behind `wptr`, the locals `rec_offs`, `rem` and `wr_cnt` of
`encode`, and whether every assertion executed so far held. -/
structure enc_st where
  wptr : List Byte
  rec_offs : Nat
  rem : Nat
  wr_cnt : Nat
  asserts : Bool
deriving DecidableEq, Repr

/-- Lines 80-121 of `encode`: continuation of a split record, further split
required. -/
def enq_rec.encode_cont_split (r : enq_rec) (s0 : enc_st) : enc_st :=
  let s1 : enc_st := { s0 with rec_offs := sub_sz s0.rec_offs sizeof_enq_hdr }
  let wsize := if r._enq_hdr._xidsize > s1.rec_offs
    then sub_sz r._enq_hdr._xidsize s1.rec_offs else 0
  let wsize2 := wsize
  let s2 : enc_st := if wsize ≠ 0 then
      let wsize := if wsize > s1.rem then s1.rem else wsize
      { s1 with wptr := mem_write s1.wptr 0 (mem_read r._xidp s1.rec_offs wsize)
                wr_cnt := wsize
                rem := sub_sz s1.rem wsize }
    else s1
  let s3 : enc_st := { s2 with rec_offs := sub_sz s2.rec_offs (sub_sz r._enq_hdr._xidsize wsize2) }
  let s4 : enc_st := if s3.rem ≠ 0 ∧ is_enq_external r._enq_hdr = false then
      let wsize := if r._enq_hdr._dsize > s3.rec_offs
        then sub_sz r._enq_hdr._dsize s3.rec_offs else 0
      let wsize2 := wsize
      let t : enc_st := if wsize ≠ 0 then
          let wsize := if wsize > s3.rem then s3.rem else wsize
          { s3 with wptr := mem_write s3.wptr s3.wr_cnt (mem_read r._data s3.rec_offs wsize)
                    wr_cnt := add_sz s3.wr_cnt wsize
                    rem := sub_sz s3.rem wsize }
        else s3
      { t with rec_offs := sub_sz t.rec_offs (sub_sz r._enq_hdr._dsize wsize2) }
    else s3
  let s5 : enc_st := if s4.rem ≠ 0 then
      let wsize := if sizeof_rec_tail > s4.rec_offs
        then sub_sz sizeof_rec_tail s4.rec_offs else 0
      let wsize2 := wsize
      let t : enc_st := if wsize ≠ 0 then
          let wsize := if wsize > s4.rem then s4.rem else wsize
          { s4 with wptr := mem_write s4.wptr s4.wr_cnt
                      (mem_read (some (rec_tail_bytes r._enq_tail)) s4.rec_offs wsize)
                    wr_cnt := add_sz s4.wr_cnt wsize
                    rem := sub_sz s4.rem wsize }
        else s4
      { t with rec_offs := sub_sz t.rec_offs (sub_sz sizeof_rec_tail wsize2) }
    else s4
  { s5 with asserts := s5.asserts && decide (s5.rem = 0) && decide (s5.rec_offs = 0) }

/-- Lines 125-152 of `encode`: continuation of a split record, no further
split required; `clean` tells whether `QLS_CLEAN` is defined. -/
def enq_rec.encode_cont_final (clean : Bool) (r : enq_rec) (rec_offs_dblks : Nat)
    (s0 : enc_st) : enc_st :=
  let s1 : enc_st := { s0 with rec_offs := sub_sz s0.rec_offs sizeof_enq_hdr }
  let wsize := if r._enq_hdr._xidsize > s1.rec_offs
    then sub_sz r._enq_hdr._xidsize s1.rec_offs else 0
  let s2 : enc_st := if wsize ≠ 0 then
      { s1 with wptr := mem_write s1.wptr 0 (mem_read r._xidp s1.rec_offs wsize)
                wr_cnt := add_sz s1.wr_cnt wsize }
    else s1
  let s3 : enc_st := { s2 with rec_offs := sub_sz s2.rec_offs (sub_sz r._enq_hdr._xidsize wsize) }
  let wsize := if r._enq_hdr._dsize > s3.rec_offs
    then sub_sz r._enq_hdr._dsize s3.rec_offs else 0
  let s4 : enc_st := if wsize ≠ 0 ∧ is_enq_external r._enq_hdr = false then
      { s3 with wptr := mem_write s3.wptr s3.wr_cnt (mem_read r._data s3.rec_offs wsize)
                wr_cnt := add_sz s3.wr_cnt wsize }
    else s3
  let s5 : enc_st := { s4 with rec_offs := sub_sz s4.rec_offs (sub_sz r._enq_hdr._dsize wsize) }
  let wsize := if sizeof_rec_tail > s5.rec_offs
    then sub_sz sizeof_rec_tail s5.rec_offs else 0
  let s6 : enc_st := if wsize ≠ 0 then
      let t : enc_st :=
        { s5 with
          wptr := mem_write s5.wptr s5.wr_cnt
            (mem_read (some (rec_tail_bytes r._enq_tail)) s5.rec_offs wsize)
          wr_cnt := add_sz s5.wr_cnt wsize }
      if clean then
        let rec_offs := rec_offs_dblks * QLS_DBLK_SIZE_BYTES
        let dblk_rec_size := size_dblks (sub_sz r.rec_size rec_offs) * QLS_DBLK_SIZE_BYTES % 2 ^ 64
        { t with wptr := mem_write t.wptr t.wr_cnt
                   (List.replicate (sub_sz dblk_rec_size t.wr_cnt) QLS_CLEAN_CHAR) }
      else t
    else s5
  let s7 : enc_st := { s6 with rec_offs := sub_sz s6.rec_offs (sub_sz sizeof_rec_tail wsize) }
  { s7 with asserts := s7.asserts && decide (s7.rec_offs = 0) }

/-- Lines 162-185 of `encode`: start of a record, split required (the header
is already in the buffer). -/
def enq_rec.encode_first_split (r : enq_rec) (s0 : enc_st) : enc_st :=
  let s1 : enc_st := { s0 with rem := sub_sz s0.rem sizeof_enq_hdr }
  let s2 : enc_st := if s1.rem ≠ 0 then
      let wsize := if s1.rem ≥ r._enq_hdr._xidsize then r._enq_hdr._xidsize else s1.rem
      { s1 with wptr := mem_write s1.wptr s1.wr_cnt (mem_read r._xidp 0 wsize)
                wr_cnt := add_sz s1.wr_cnt wsize
                rem := sub_sz s1.rem wsize }
    else s1
  let s3 : enc_st := if s2.rem ≠ 0 ∧ is_enq_external r._enq_hdr = false then
      let wsize := if s2.rem ≥ r._enq_hdr._dsize then r._enq_hdr._dsize else s2.rem
      { s2 with wptr := mem_write s2.wptr s2.wr_cnt (mem_read r._data 0 wsize)
                wr_cnt := add_sz s2.wr_cnt wsize
                rem := sub_sz s2.rem wsize }
    else s2
  let s4 : enc_st := if s3.rem ≠ 0 then
      let wsize := if s3.rem ≥ sizeof_rec_tail then sizeof_rec_tail else s3.rem
      { s3 with wptr := mem_write s3.wptr s3.wr_cnt
                  (mem_read (some (rec_tail_bytes r._enq_tail)) 0 wsize)
                wr_cnt := add_sz s3.wr_cnt wsize
                rem := sub_sz s3.rem wsize }
    else s3
  { s4 with asserts := s4.asserts && decide (s4.rem = 0) }

/-- Lines 189-204 of `encode`: start of a record, no split required (the
header is already in the buffer); `clean` tells whether `QLS_CLEAN` is
defined. -/
def enq_rec.encode_first_fit (clean : Bool) (r : enq_rec) (s0 : enc_st) : enc_st :=
  let s1 : enc_st := if r._enq_hdr._xidsize ≠ 0 then
      { s0 with wptr := mem_write s0.wptr s0.wr_cnt (mem_read r._xidp 0 r._enq_hdr._xidsize)
                wr_cnt := add_sz s0.wr_cnt r._enq_hdr._xidsize }
    else s0
  let s2 : enc_st := if is_enq_external r._enq_hdr = false then
      { s1 with wptr := mem_write s1.wptr s1.wr_cnt (mem_read r._data 0 r._enq_hdr._dsize)
                wr_cnt := add_sz s1.wr_cnt r._enq_hdr._dsize }
    else s1
  let s3 : enc_st :=
    { s2 with
      wptr := mem_write s2.wptr s2.wr_cnt
        (mem_read (some (rec_tail_bytes r._enq_tail)) 0 sizeof_rec_tail)
      wr_cnt := add_sz s2.wr_cnt sizeof_rec_tail }
  if clean then
    let dblk_rec_size := size_dblks r.rec_size * QLS_DBLK_SIZE_BYTES % 2 ^ 64
    { s3 with wptr := mem_write s3.wptr s3.wr_cnt
                (List.replicate (sub_sz dblk_rec_size s3.wr_cnt) QLS_CLEAN_CHAR) }
  else s3

/-- The body of `enq_rec::encode` up to its `return`: the buffer behind
`wptr` and the locals when the `return` is reached. -/
def enq_rec.encode_run (clean : Bool) (r : enq_rec) (wptr : List Byte)
    (rec_offs_dblks max_size_dblks : Nat) : enc_st :=
  let s0 : enc_st :=
    { wptr := wptr
      rec_offs := rec_offs_dblks * QLS_DBLK_SIZE_BYTES
      rem := max_size_dblks * QLS_DBLK_SIZE_BYTES
      wr_cnt := 0
      asserts := decide (max_size_dblks > 0) &&
        (r._xidp.isSome || decide (r._enq_hdr._xidsize = 0)) }
  if rec_offs_dblks ≠ 0 then
    if sub_sz (size_dblks r.rec_size) rec_offs_dblks > max_size_dblks then
      r.encode_cont_split s0
    else
      r.encode_cont_final clean rec_offs_dblks s0
  else
    let s1 : enc_st :=
      { s0 with
        wptr := mem_write s0.wptr 0 (enq_hdr_bytes r._enq_hdr)
        wr_cnt := sizeof_enq_hdr }
    if size_dblks r.rec_size > max_size_dblks then
      r.encode_first_split s1
    else
      r.encode_first_fit clean s1

/-- The value `enq_rec::encode` returns, `size_dblks(wr_cnt)` as a
`uint32_t`. -/
def enq_rec.encode (clean : Bool) (r : enq_rec) (wptr : List Byte)
    (rec_offs_dblks max_size_dblks : Nat) : Nat :=
  size_dblks (r.encode_run clean wptr rec_offs_dblks max_size_dblks).wr_cnt % 2 ^ 32

/-! ## The input stream

`std::ifstream` as the C++ standard describes it: `read` and `ignore` are
unformatted input functions, they extract nothing unless the stream is
`good()` and then set `failbit`; a `read` that meets the end of the file sets
`eofbit` and `failbit`, an `ignore` that meets it sets `eofbit` only. -/

/-- An open `std::ifstream`: the bytes of the file from the get position on,
the state bits, and the count of the last unformatted input. -/
structure ifstream where
  buf : List Byte
  eofbit : Bool
  failbit : Bool
  badbit : Bool
  gcount : Nat
deriving DecidableEq, Repr

/-- The member `good()`. -/
def ifstream.good (s : ifstream) : Bool := !s.eofbit && !s.failbit && !s.badbit

/-- The member `eof()`. -/
def ifstream.eof (s : ifstream) : Bool := s.eofbit

/-- The member `fail()`. -/
def ifstream.fail (s : ifstream) : Bool := s.failbit || s.badbit

/-- The member `bad()`. -/
def ifstream.bad (s : ifstream) : Bool := s.badbit

/-- The member `read(dst, n)`: the bytes stored at `dst` and the stream
afterwards. -/
def ifstream.read (s : ifstream) (n : Nat) : List Byte × ifstream :=
  if s.good then
    if n ≤ s.buf.length then
      (s.buf.take n, { s with buf := s.buf.drop n, gcount := n })
    else
      (s.buf, { s with buf := [], eofbit := true, failbit := true, gcount := s.buf.length })
  else
    ([], { s with failbit := true, gcount := 0 })

/-- The member `ignore(n)`, called with the `std::size_t` value `n`.  The
parameter of `ignore` is the signed `std::streamsize`: a value above
`2 ^ 63 - 1`, the largest `std::streamsize`, arrives as a negative count and
nothing is extracted; the largest `std::streamsize` itself means no limit, and
the characters are extracted up to the end of the file. -/
def ifstream.ignore (s : ifstream) (n : Nat) : ifstream :=
  if s.good then
    if n > 2 ^ 63 - 1 then
      { s with gcount := 0 }
    else if n = 2 ^ 63 - 1 then
      { s with buf := [], eofbit := true, gcount := min s.buf.length (2 ^ 63 - 1) }
    else if n ≤ s.buf.length then
      { s with buf := s.buf.drop n, gcount := n }
    else
      { s with buf := [], eofbit := true, gcount := s.buf.length }
  else
    { s with failbit := true, gcount := 0 }

/-- The call `clear(rdstate() & ~failbit)`. -/
def ifstream.clear_failbit (s : ifstream) : ifstream := { s with failbit := false }

/-! ## The decoder -/

/-- Error codes of `jerrno` that `enq_rec` raises. -/
inductive jerrno where
  | JERR__MALLOC
  | JERR_JREC_BADRECTAIL
deriving DecidableEq, Repr

/-- The exception class `jexception`: error code, additional information,
throwing class and throwing function. -/
structure jexception where
  err_code : jerrno
  additional_info : String
  throwing_class : String
  throwing_fn : String
deriving DecidableEq, Repr

/-- How a call of `decode` ends. -/
inductive dec_outcome where
  | returned (complete : Bool)
  | thrown (e : jexception)
deriving DecidableEq, Repr

/-- The record, the stream, the watermark `rec_offs` and whether every
assertion executed so far held. -/
structure dec_st where
  r : enq_rec
  ifs : ifstream
  rec_offs : Nat
  asserts : Bool
deriving DecidableEq, Repr

/-- A finished call of `decode`. -/
structure dec_result where
  outcome : dec_outcome
  st : dec_st
deriving DecidableEq, Repr

/-- Output of an unsigned integer after `std::hex`. -/
def hex (n : Nat) : String := String.mk (Nat.toDigits 16 n)

/-- The text `decode` builds for the result `res` of `rec_tail_check`
(lines 286-293). -/
def enq_rec.tail_msg (r : enq_rec) (checksum res : Nat) : String :=
  match res with
  | 1 => "Magic: expected 0x" ++ hex (not32 r._enq_hdr._rhdr._magic) ++
      "; found 0x" ++ hex r._enq_tail._xmagic
  | 2 => "Serial: expected 0x" ++ hex r._enq_hdr._rhdr._serial ++
      "; found 0x" ++ hex r._enq_tail._serial
  | 3 => "Record Id: expected 0x" ++ hex r._enq_hdr._rhdr._rid ++
      "; found 0x" ++ hex r._enq_tail._rid
  | 4 => "Checksum: expected 0x" ++ hex checksum ++
      "; found 0x" ++ hex r._enq_tail._checksum
  | _ => "Unknown error " ++ toString res

/-- The three identical blocks of `decode` that follow a short read
(lines 237-241, 255-259, 275-279). -/
def decode_eof (s : dec_st) : dec_result :=
  let a1 := s.ifs.eof
  let ifs := s.ifs.clear_failbit
  let a2 := !ifs.fail && !ifs.bad
  { outcome := dec_outcome.returned false
    st := { s with ifs := ifs, asserts := s.asserts && a1 && a2 } }

/-- Lines 282-296 of `decode`: skip the padding, check the tail. -/
def enq_rec.decode_finish (s : dec_st) : dec_result :=
  let checksum := 0
  let ifs := s.ifs.ignore (sub_sz (s.r.rec_size_dblks * QLS_DBLK_SIZE_BYTES % 2 ^ 64) s.r.rec_size)
  let s1 : dec_st := { s with ifs := ifs, asserts := s.asserts && (!ifs.fail && !ifs.bad) }
  let res := rec_tail_check s1.r._enq_tail s1.r._enq_hdr._rhdr checksum
  if res ≠ 0 then
    { outcome := dec_outcome.thrown
        { err_code := jerrno.JERR_JREC_BADRECTAIL
          additional_info := s1.r.tail_msg checksum res
          throwing_class := "enq_rec"
          throwing_fn := "decode" }
      st := s1 }
  else
    { outcome := dec_outcome.returned true, st := s1 }

/-- Lines 263-281 of `decode`: read the tail, or go on reading it. -/
def enq_rec.decode_tail (s : dec_st) : dec_result :=
  let h := s.r._enq_hdr
  if s.rec_offs < (sizeof_enq_hdr + h._xidsize +
      (if is_enq_external h then 0 else h._dsize) + sizeof_rec_tail) % 2 ^ 64 then
    let offs0 := sub_sz (sub_sz s.rec_offs sizeof_enq_hdr) h._xidsize
    let offs := if is_enq_external h = false then sub_sz offs0 h._dsize else offs0
    let rd := s.ifs.read (sub_sz sizeof_rec_tail offs)
    let tail := rec_tail_of_bytes (mem_write (rec_tail_bytes s.r._enq_tail) offs rd.1)
    let size_read := rd.2.gcount
    let s1 : dec_st :=
      { s with
        r := { s.r with _enq_tail := tail }
        ifs := rd.2
        rec_offs := add_sz s.rec_offs size_read }
    if size_read < sub_sz sizeof_rec_tail offs then decode_eof s1
    else enq_rec.decode_finish s1
  else enq_rec.decode_finish s

/-- Lines 244-262 of `decode`: skip the data, or go on skipping it. -/
def enq_rec.decode_data (s : dec_st) : dec_result :=
  let h := s.r._enq_hdr
  if is_enq_external h = false then
    if s.rec_offs < (sizeof_enq_hdr + h._xidsize + h._dsize) % 2 ^ 64 then
      let offs := sub_sz (sub_sz s.rec_offs sizeof_enq_hdr) h._xidsize
      let ifs := s.ifs.ignore (sub_sz h._dsize offs)
      let size_read := ifs.gcount
      let s1 : dec_st := { s with ifs := ifs, rec_offs := add_sz s.rec_offs size_read }
      if size_read < sub_sz h._dsize offs then decode_eof s1
      else enq_rec.decode_tail s1
    else enq_rec.decode_tail s
  else enq_rec.decode_tail s

/-- Lines 228-243 of `decode`: read the xid, or go on reading it. -/
def enq_rec.decode_xid (s : dec_st) : dec_result :=
  let h := s.r._enq_hdr
  if s.rec_offs < (sizeof_enq_hdr + h._xidsize) % 2 ^ 64 then
    let offs := sub_sz s.rec_offs sizeof_enq_hdr
    let rd := s.ifs.read (sub_sz h._xidsize offs)
    let buff := mem_write (s.r._buff.getD []) offs rd.1
    let size_read := rd.2.gcount
    let s1 : dec_st :=
      { s with
        r := { s.r with _buff := some buff }
        ifs := rd.2
        rec_offs := add_sz s.rec_offs size_read }
    if size_read < sub_sz h._xidsize offs then decode_eof s1
    else enq_rec.decode_data s1
  else enq_rec.decode_data s

/-- Lines 214-227 of `decode`: adopt the header read by the caller, read
`xidsize` and `dsize`, allocate the buffer (the allocation succeeds; its
bytes are taken to be 0). -/
def enq_rec.decode_hdr (h : rec_hdr_t) (s : dec_st) : dec_st :=
  let rd1 := s.ifs.read 8
  let xidsize := le_val ((mem_write (le_bytes 8 s.r._enq_hdr._xidsize) 0 rd1.1).take 8)
  let rd2 := rd1.2.read 8
  let dsize := le_val ((mem_write (le_bytes 8 s.r._enq_hdr._dsize) 0 rd2.1).take 8)
  let r1 : enq_rec :=
    { s.r with _enq_hdr := { _rhdr := rec_hdr_copy h, _xidsize := xidsize, _dsize := dsize } }
  let r2 : enq_rec :=
    if xidsize > 0 then { r1 with _buff := some (List.replicate xidsize 0) } else r1
  { s with r := r2, ifs := rd2.2, rec_offs := sizeof_enq_hdr }

/-- The method `enq_rec::decode(h, ifsp, rec_offs)`: how the call ends, and
the record, the stream and the watermark afterwards. -/
def enq_rec.decode (r : enq_rec) (h : rec_hdr_t) (ifsp : ifstream) (rec_offs : Nat) :
    dec_result :=
  let s0 : dec_st := { r := r, ifs := ifsp, rec_offs := rec_offs, asserts := true }
  let s1 : dec_st := if rec_offs = 0 then enq_rec.decode_hdr h s0 else s0
  enq_rec.decode_xid s1

/-- The method `enq_rec::get_xid`: the pointer written to `*xidpp` and the
value returned. -/
def enq_rec.get_xid (r : enq_rec) : Option (List Byte) × Nat :=
  if r._buff.isNone ∨ r._enq_hdr._xidsize = 0 then (none, 0)
  else (r._buff, r._enq_hdr._xidsize)

/-- An `std::ifstream` freshly positioned on the given bytes. -/
def ifstream.on (b : List Byte) : ifstream :=
  { buf := b, eofbit := false, failbit := false, badbit := false, gcount := 0 }

/-- The method `enq_rec::get_data`: the pointer written to `*datapp`, as the
region it points into and the offset in that region, and the value
returned. -/
def enq_rec.get_data (r : enq_rec) : Option (List Byte × Nat) × Nat :=
  if r._buff.isNone then (none, 0)
  else if is_enq_external r._enq_hdr then (none, r._enq_hdr._dsize)
  else (r._buff.map (fun b => (b, r._enq_hdr._xidsize)), r._enq_hdr._dsize)

/-- The method `enq_rec::str`: the string `str` after the call.  The stream
output of the `const void*` `_xidp` is the text of an address, which the
embedding takes as the parameter `xidp_text`. -/
def enq_rec.str (r : enq_rec) (xidp_text : String) (str : String) : String :=
  let oss0 := "enq_rec: m=" ++ toString r._enq_hdr._rhdr._magic
  let oss1 := oss0 ++ " v=" ++ toString r._enq_hdr._rhdr._version
  let oss2 := oss1 ++ " rid=" ++ toString r._enq_hdr._rhdr._rid
  let oss3 := if r._xidp.isSome then oss2 ++ " xid=\"" ++ xidp_text ++ "\"" else oss2
  let oss4 := oss3 ++ " len=" ++ toString r._enq_hdr._dsize
  str ++ oss4

/-! ## Views of the embedding used by the proofs -/

/-- The `xidsize` bytes found at the xid pointer. -/
def enq_rec.xid_bytes (r : enq_rec) : List Byte := mem_read r._xidp 0 r._enq_hdr._xidsize

/-- The `dsize` bytes found at the data pointer; none for an external record. -/
def enq_rec.data_bytes (r : enq_rec) : List Byte :=
  if is_enq_external r._enq_hdr then [] else mem_read r._data 0 r._enq_hdr._dsize

/-- The logical stream of a record: header, xid, data unless external, tail. -/
def enq_rec.image (r : enq_rec) : List Byte :=
  enq_hdr_bytes r._enq_hdr ++ r.xid_bytes ++ r.data_bytes ++ rec_tail_bytes r._enq_tail

/-- Sizes for which `rec_size()` does not wrap. -/
def enq_rec.fits (r : enq_rec) : Prop :=
  sizeof_enq_hdr + r._enq_hdr._xidsize +
    (if is_enq_external r._enq_hdr then 0 else r._enq_hdr._dsize) + sizeof_rec_tail < 2 ^ 64

/-- The fill bytes the clean mode writes after a record that `encode` completes
with `wr_cnt` bytes copied, `left` being the bytes of the record not written by
earlier invocations. -/
def clean_fill (clean : Bool) (left wr_cnt : Nat) : List Byte :=
  if clean then
    List.replicate (sub_sz (size_dblks left * QLS_DBLK_SIZE_BYTES % 2 ^ 64) wr_cnt) QLS_CLEAN_CHAR
  else []

/-- Lines 80-91: the header is skipped and the xid copied (further split). -/
def enq_rec.cs_xid (r : enq_rec) (s0 : enc_st) : enc_st :=
  let s1 : enc_st := { s0 with rec_offs := sub_sz s0.rec_offs sizeof_enq_hdr }
  let wsize := if r._enq_hdr._xidsize > s1.rec_offs
    then sub_sz r._enq_hdr._xidsize s1.rec_offs else 0
  let wsize2 := wsize
  let s2 : enc_st := if wsize ≠ 0 then
      let wsize := if wsize > s1.rem then s1.rem else wsize
      { s1 with wptr := mem_write s1.wptr 0 (mem_read r._xidp s1.rec_offs wsize)
                wr_cnt := wsize
                rem := sub_sz s1.rem wsize }
    else s1
  { s2 with rec_offs := sub_sz s2.rec_offs (sub_sz r._enq_hdr._xidsize wsize2) }

/-- Lines 92-105: the data copied (further split). -/
def enq_rec.cs_data (r : enq_rec) (s3 : enc_st) : enc_st :=
  if s3.rem ≠ 0 ∧ is_enq_external r._enq_hdr = false then
    let wsize := if r._enq_hdr._dsize > s3.rec_offs
      then sub_sz r._enq_hdr._dsize s3.rec_offs else 0
    let wsize2 := wsize
    let t : enc_st := if wsize ≠ 0 then
        let wsize := if wsize > s3.rem then s3.rem else wsize
        { s3 with wptr := mem_write s3.wptr s3.wr_cnt (mem_read r._data s3.rec_offs wsize)
                  wr_cnt := add_sz s3.wr_cnt wsize
                  rem := sub_sz s3.rem wsize }
      else s3
    { t with rec_offs := sub_sz t.rec_offs (sub_sz r._enq_hdr._dsize wsize2) }
  else s3

/-- Lines 106-121: the tail copied and the assertions (further split). -/
def enq_rec.cs_tail (r : enq_rec) (s4 : enc_st) : enc_st :=
  let s5 : enc_st := if s4.rem ≠ 0 then
      let wsize := if sizeof_rec_tail > s4.rec_offs
        then sub_sz sizeof_rec_tail s4.rec_offs else 0
      let wsize2 := wsize
      let t : enc_st := if wsize ≠ 0 then
          let wsize := if wsize > s4.rem then s4.rem else wsize
          { s4 with wptr := mem_write s4.wptr s4.wr_cnt
                      (mem_read (some (rec_tail_bytes r._enq_tail)) s4.rec_offs wsize)
                    wr_cnt := add_sz s4.wr_cnt wsize
                    rem := sub_sz s4.rem wsize }
        else s4
      { t with rec_offs := sub_sz t.rec_offs (sub_sz sizeof_rec_tail wsize2) }
    else s4
  { s5 with asserts := s5.asserts && decide (s5.rem = 0) && decide (s5.rec_offs = 0) }

/-- The statements of the further-split branch that copy one segment: the
region `src` of `len` bytes, from the offset `rec_offs` on, as far as `rem`
allows. -/
def seg_split (src : Option (List Byte)) (len : Nat) (s : enc_st) : enc_st :=
  let wsize := if len > s.rec_offs then sub_sz len s.rec_offs else 0
  let wsize2 := wsize
  let t : enc_st := if wsize ≠ 0 then
      let wsize := if wsize > s.rem then s.rem else wsize
      { s with wptr := mem_write s.wptr s.wr_cnt (mem_read src s.rec_offs wsize)
               wr_cnt := add_sz s.wr_cnt wsize
               rem := sub_sz s.rem wsize }
    else s
  { t with rec_offs := sub_sz t.rec_offs (sub_sz len wsize2) }

/-- The closing assertions of the further-split branch. -/
def cs_assert (s5 : enc_st) : enc_st :=
  { s5 with asserts := s5.asserts && decide (s5.rem = 0) && decide (s5.rec_offs = 0) }

/-- The size of the record in bytes when nothing wraps. -/
def enq_rec.size (r : enq_rec) : Nat :=
  39 + r._enq_hdr._xidsize +
    (if is_enq_external r._enq_hdr then 0 else r._enq_hdr._dsize) + 24

/-- The statements of the first-invocation split branch that copy one
segment: the region `src` of `len` bytes from its start, as far as `rem`
allows. -/
def seg_first (src : Option (List Byte)) (len : Nat) (s : enc_st) : enc_st :=
  let wsize := if s.rem ≥ len then len else s.rem
  { s with wptr := mem_write s.wptr s.wr_cnt (mem_read src 0 wsize)
           wr_cnt := add_sz s.wr_cnt wsize
           rem := sub_sz s.rem wsize }

/-- The closing assertion of the first-invocation split branch. -/
def fs_assert (s4 : enc_st) : enc_st :=
  { s4 with asserts := s4.asserts && decide (s4.rem = 0) }

/-- Lines 163-170: the room left after the header, and the xid copied. -/
def enq_rec.fs_xid (r : enq_rec) (s0 : enc_st) : enc_st :=
  let s1 : enc_st := { s0 with rem := sub_sz s0.rem sizeof_enq_hdr }
  if s1.rem ≠ 0 then seg_first r._xidp r._enq_hdr._xidsize s1 else s1

/-- Lines 171-177: the data copied. -/
def enq_rec.fs_data (r : enq_rec) (s2 : enc_st) : enc_st :=
  if s2.rem ≠ 0 ∧ is_enq_external r._enq_hdr = false
    then seg_first r._data r._enq_hdr._dsize s2 else s2

/-- Lines 178-185: the tail copied and the assertion. -/
def enq_rec.fs_tail (r : enq_rec) (s3 : enc_st) : enc_st :=
  fs_assert (if s3.rem ≠ 0
    then seg_first (some (rec_tail_bytes r._enq_tail)) sizeof_rec_tail s3 else s3)

/-- Lines 125-132: the header is skipped and the rest of the xid copied (no
further split). -/
def enq_rec.cf_xid (r : enq_rec) (s0 : enc_st) : enc_st :=
  let s1 : enc_st := { s0 with rec_offs := sub_sz s0.rec_offs sizeof_enq_hdr }
  let wsize := if r._enq_hdr._xidsize > s1.rec_offs
    then sub_sz r._enq_hdr._xidsize s1.rec_offs else 0
  let s2 : enc_st := if wsize ≠ 0 then
      { s1 with wptr := mem_write s1.wptr 0 (mem_read r._xidp s1.rec_offs wsize)
                wr_cnt := add_sz s1.wr_cnt wsize }
    else s1
  { s2 with rec_offs := sub_sz s2.rec_offs (sub_sz r._enq_hdr._xidsize wsize) }

/-- Lines 133-139: the rest of the data copied (no further split). -/
def enq_rec.cf_data (r : enq_rec) (s3 : enc_st) : enc_st :=
  let wsize := if r._enq_hdr._dsize > s3.rec_offs
    then sub_sz r._enq_hdr._dsize s3.rec_offs else 0
  let s4 : enc_st := if wsize ≠ 0 ∧ is_enq_external r._enq_hdr = false then
      { s3 with wptr := mem_write s3.wptr s3.wr_cnt (mem_read r._data s3.rec_offs wsize)
                wr_cnt := add_sz s3.wr_cnt wsize }
    else s3
  { s4 with rec_offs := sub_sz s4.rec_offs (sub_sz r._enq_hdr._dsize wsize) }

/-- Lines 140-152: the rest of the tail copied, the clean fill and the
assertion (no further split). -/
def enq_rec.cf_tail (clean : Bool) (r : enq_rec) (rec_offs_dblks : Nat) (s5 : enc_st) :
    enc_st :=
  let wsize := if sizeof_rec_tail > s5.rec_offs
    then sub_sz sizeof_rec_tail s5.rec_offs else 0
  let s6 : enc_st := if wsize ≠ 0 then
      let t : enc_st :=
        { s5 with
          wptr := mem_write s5.wptr s5.wr_cnt
            (mem_read (some (rec_tail_bytes r._enq_tail)) s5.rec_offs wsize)
          wr_cnt := add_sz s5.wr_cnt wsize }
      if clean then
        let rec_offs := rec_offs_dblks * QLS_DBLK_SIZE_BYTES
        let dblk_rec_size := size_dblks (sub_sz r.rec_size rec_offs) * QLS_DBLK_SIZE_BYTES % 2 ^ 64
        { t with wptr := mem_write t.wptr t.wr_cnt
                   (List.replicate (sub_sz dblk_rec_size t.wr_cnt) QLS_CLEAN_CHAR) }
      else t
    else s5
  let s7 : enc_st := { s6 with rec_offs := sub_sz s6.rec_offs (sub_sz sizeof_rec_tail wsize) }
  { s7 with asserts := s7.asserts && decide (s7.rec_offs = 0) }

/-- The locals of `encode` after lines 68-75. -/
def enq_rec.enc_init (r : enq_rec) (wptr : List Byte) (rec_offs_dblks max_size_dblks : Nat) :
    enc_st :=
  { wptr := wptr
    rec_offs := rec_offs_dblks * QLS_DBLK_SIZE_BYTES
    rem := max_size_dblks * QLS_DBLK_SIZE_BYTES
    wr_cnt := 0
    asserts := decide (max_size_dblks > 0) &&
      (r._xidp.isSome || decide (r._enq_hdr._xidsize = 0)) }

/-- The locals of `encode` after the header is copied (lines 158-159). -/
def enq_rec.enc_hdr (r : enq_rec) (wptr : List Byte) (rec_offs_dblks max_size_dblks : Nat) :
    enc_st :=
  { r.enc_init wptr rec_offs_dblks max_size_dblks with
    wptr := mem_write wptr 0 (enq_hdr_bytes r._enq_hdr)
    wr_cnt := sizeof_enq_hdr }

/-- The stream a complete `read` or `ignore` of `n` bytes leaves. -/
def ifstream.advance (s : ifstream) (n : Nat) : ifstream :=
  { s with buf := s.buf.drop n, gcount := n }

/-- Modelled from the spec: the caller of `encode` (the write manager, not among
the sources).  It invokes `encode` once per page with the budget of the page,
passes the blocks written so far as `rec_offs_dblks`, adds the returned count
to it, and stops when the count reaches `rec_size_dblks()`.  The result lists,
per invocation, the state `encode` left and the value it returned. -/
def enq_rec.encode_split (clean : Bool) (r : enq_rec) :
    Nat → List (List Byte × Nat) → List (enc_st × Nat)
  | _, [] => []
  | offs, (wptr, max_size_dblks) :: rest =>
    (r.encode_run clean wptr offs max_size_dblks, r.encode clean wptr offs max_size_dblks) ::
      (if offs + r.encode clean wptr offs max_size_dblks ≥ r.rec_size_dblks then []
       else enq_rec.encode_split clean r (offs + r.encode clean wptr offs max_size_dblks) rest)

/-- The bytes an invocation of `encode` copied into its buffer. -/
def enc_st.written (s : enc_st) : List Byte := s.wptr.take s.wr_cnt

/-- A record of ten disk blocks: no xid and 1200 bytes of data. -/
def ten_block_rec : enq_rec :=
  enq_rec.ctor.reset 7 100 (some (List.replicate 1200 0)) 1200 (some []) 0 false false

/-- An external record with an 80-byte xid and a declared payload of 5 bytes:
its bytes end 15 bytes into the second disk block, the tail starting 9 bytes
before the end of the first. -/
def slip_rec : enq_rec :=
  enq_rec.ctor.reset 1 42 none 5 (some (List.replicate 80 7)) 80 false true

/-- The arguments of one call of `reset`. -/
structure reset_args where
  serial : Nat
  rid : Nat
  dbuf : Option (List Byte)
  dlen : Nat
  xidp : Option (List Byte)
  xidlen : Nat
  transient : Bool
  external : Bool

/-- The record a sequence of `reset` calls leaves, starting from the record `r`. -/
def enq_rec.resets (r : enq_rec) (calls : List reset_args) : enq_rec :=
  calls.foldl (fun q a =>
    q.reset a.serial a.rid a.dbuf a.dlen a.xidp a.xidlen a.transient a.external) r

/-- The record of the minimal example: serial 1, rid 42, no xid, data "hi". -/
def minimal_rec : enq_rec :=
  enq_rec.ctor.reset 1 42 (some [104, 105]) 2 (some []) 0 false false

/-- What the constructor establishes and `reset` keeps: the tail is the mirror
of the header with checksum 0, magic and version are those of the journal. -/
def enq_rec.mirrored (r : enq_rec) : Prop :=
  r._enq_tail = rec_tail_copy r._enq_hdr._rhdr 0 ∧
  r._enq_hdr._rhdr._magic = QLS_ENQ_MAGIC ∧ r._enq_hdr._rhdr._version = QLS_JRNL_VERSION

/-- The padding `decode` skips after the tail. -/
def enq_rec.pad (r : enq_rec) : Nat :=
  sub_sz (r.rec_size_dblks * QLS_DBLK_SIZE_BYTES % 2 ^ 64) r.rec_size

/-- The offset into the tail at which `decode` goes on reading (lines 266-268). -/
def dec_st.tail_offs (s : dec_st) : Nat :=
  if is_enq_external s.r._enq_hdr = false then
    sub_sz (sub_sz (sub_sz s.rec_offs sizeof_enq_hdr) s.r._enq_hdr._xidsize) s.r._enq_hdr._dsize
  else sub_sz (sub_sz s.rec_offs sizeof_enq_hdr) s.r._enq_hdr._xidsize

/-- The read of the tail from the offset `offs` on, and what follows it
(lines 269-283). -/
def dec_st.tail_read (s : dec_st) (offs : Nat) : dec_result :=
  if (s.ifs.read (sub_sz sizeof_rec_tail offs)).2.gcount < sub_sz sizeof_rec_tail offs then
    decode_eof
      { s with
        r := { s.r with
          _enq_tail := rec_tail_of_bytes (mem_write (rec_tail_bytes s.r._enq_tail) offs
              (s.ifs.read (sub_sz sizeof_rec_tail offs)).1) }
        ifs := (s.ifs.read (sub_sz sizeof_rec_tail offs)).2
        rec_offs := add_sz s.rec_offs (s.ifs.read (sub_sz sizeof_rec_tail offs)).2.gcount }
  else
    enq_rec.decode_finish
      { s with
        r := { s.r with
          _enq_tail := rec_tail_of_bytes (mem_write (rec_tail_bytes s.r._enq_tail) offs
              (s.ifs.read (sub_sz sizeof_rec_tail offs)).1) }
        ifs := (s.ifs.read (sub_sz sizeof_rec_tail offs)).2
        rec_offs := add_sz s.rec_offs (s.ifs.read (sub_sz sizeof_rec_tail offs)).2.gcount }

/-- The skip of the data from the offset `offs` on, and what follows it
(lines 249-260). -/
def dec_st.data_skip (s : dec_st) (offs : Nat) : dec_result :=
  if (s.ifs.ignore (sub_sz s.r._enq_hdr._dsize offs)).gcount <
      sub_sz s.r._enq_hdr._dsize offs then
    decode_eof
      { s with
        ifs := s.ifs.ignore (sub_sz s.r._enq_hdr._dsize offs)
        rec_offs := add_sz s.rec_offs (s.ifs.ignore (sub_sz s.r._enq_hdr._dsize offs)).gcount }
  else
    enq_rec.decode_tail
      { s with
        ifs := s.ifs.ignore (sub_sz s.r._enq_hdr._dsize offs)
        rec_offs := add_sz s.rec_offs (s.ifs.ignore (sub_sz s.r._enq_hdr._dsize offs)).gcount }

/-- The read of the xid from the offset `offs` on, and what follows it
(lines 231-242). -/
def dec_st.xid_read (s : dec_st) (offs : Nat) : dec_result :=
  if (s.ifs.read (sub_sz s.r._enq_hdr._xidsize offs)).2.gcount <
      sub_sz s.r._enq_hdr._xidsize offs then
    decode_eof
      { s with
        r := { s.r with
          _buff := some (mem_write (s.r._buff.getD []) offs
              (s.ifs.read (sub_sz s.r._enq_hdr._xidsize offs)).1) }
        ifs := (s.ifs.read (sub_sz s.r._enq_hdr._xidsize offs)).2
        rec_offs := add_sz s.rec_offs (s.ifs.read (sub_sz s.r._enq_hdr._xidsize offs)).2.gcount }
  else
    enq_rec.decode_data
      { s with
        r := { s.r with
          _buff := some (mem_write (s.r._buff.getD []) offs
              (s.ifs.read (sub_sz s.r._enq_hdr._xidsize offs)).1) }
        ifs := (s.ifs.read (sub_sz s.r._enq_hdr._xidsize offs)).2
        rec_offs := add_sz s.rec_offs (s.ifs.read (sub_sz s.r._enq_hdr._xidsize offs)).2.gcount }

/-- The record `decode` leaves when it has read a whole record from watermark
0: the header of the caller with the two sizes of the stream, the tail of the
stream, and the xid in the buffer allocated for it. -/
def enq_rec.decoded (r0 : enq_rec) (h : rec_hdr_t) (X D : Nat) (xid tb : List Byte) : enq_rec :=
  { r0 with
    _enq_hdr := { _rhdr := h, _xidsize := X, _dsize := D }
    _enq_tail := rec_tail_of_bytes tb
    _buff := if X > 0 then some xid else r0._buff }

/-- Modelled from the spec: the caller of `decode` (the recovery manager, not
among the sources).  It has read the common header, the first
`sizeof(rec_hdr_t)` bytes of the record, passes it as `h`, and calls `decode`
on a fresh record with watermark 0 and the stream positioned right after it;
`bytes` are the bytes of the record and `rest` what follows them in the file. -/
def decode_bytes (bytes rest : List Byte) : dec_result :=
  enq_rec.ctor.decode (rec_hdr_of_bytes (bytes.take sizeof_rec_hdr))
    (ifstream.on (bytes.drop sizeof_rec_hdr ++ rest)) 0

/-- The fields of the header hold values of their C types. -/
def enq_hdr_t.typed (h : enq_hdr_t) : Prop :=
  h._rhdr._magic < 2 ^ 32 ∧ h._rhdr._version < 2 ^ 8 ∧ h._rhdr._uflag < 2 ^ 16 ∧
  h._rhdr._serial < 2 ^ 64 ∧ h._rhdr._rid < 2 ^ 64 ∧ h._xidsize < 2 ^ 64 ∧ h._dsize < 2 ^ 64

instance enq_hdr_t.typed_decidable (h : enq_hdr_t) : Decidable h.typed := by
  unfold enq_hdr_t.typed; exact inferInstance

/-- The bytes of a record in a file: header, xid, data unless external, and
the 24 bytes `tb` in the place of the tail. -/
def enq_rec.frame (r : enq_rec) (tb : List Byte) : List Byte :=
  enq_hdr_bytes r._enq_hdr ++ r.xid_bytes ++ r.data_bytes ++ tb

/-- A fresh record bound by `reset` to the xid `xid` and the data `data`. -/
def bound_rec (serial rid : Nat) (xid data : List Byte) (transient external : Bool) : enq_rec :=
  enq_rec.ctor.reset serial rid (some data) data.length (some xid) xid.length transient external

/-- The offset of the tail in the bytes of a record. -/
def enq_rec.tail_pos (r : enq_rec) : Nat :=
  sizeof_enq_hdr + r._enq_hdr._xidsize +
    (if is_enq_external r._enq_hdr then 0 else r._enq_hdr._dsize)

/-- The number of the check of `rec_tail_check` that reads the field holding
byte `i` of the tail: `xmagic` (1), `checksum` (4), `serial` (2), `rid` (3). -/
def tail_field_check (i : Nat) : Nat :=
  if i < 4 then 1 else if i < 8 then 4 else if i < 16 then 2 else 3

/-- The header of a record without xid, not external, whose `dsize` field holds
`2 ^ 63`: serial 1, rid 42. -/
def huge_hdr : enq_hdr_t :=
  { _rhdr := { _magic := QLS_ENQ_MAGIC, _version := QLS_JRNL_VERSION, _uflag := 0,
               _serial := 1, _rid := 42 }
    _xidsize := 0
    _dsize := 2 ^ 63 }

/-- A file of 65 bytes: the header `huge_hdr` and the first 26 bytes of the data
it announces. -/
def huge_file : List Byte := enq_hdr_bytes huge_hdr ++ List.replicate 26 120

/-- The same file with the `dsize` field holding `2 ^ 63 - 2`. -/
def large_file : List Byte :=
  enq_hdr_bytes { huge_hdr with _dsize := 2 ^ 63 - 2 } ++ List.replicate 26 120

/-- The bytes `encode` writes for the minimal record (no xid, data "hi"). -/
def minimal_bytes : List Byte := (minimal_rec.encode_run false [] 0 1).written

/-- The record of the example with an xid: serial 7, rid 100, xid "abc", data
"payload". -/
def fields_rec : enq_rec :=
  bound_rec 7 100 [97, 98, 99] [112, 97, 121, 108, 111, 97, 100] false false

/-- The bytes `encode` writes for `fields_rec`. -/
def fields_bytes : List Byte := (fields_rec.encode_run false [] 0 1).written

/-- The record of the external example: serial 1, rid 1, xid "tx1", data
"ignored", external. -/
def external_rec : enq_rec :=
  bound_rec 1 1 [116, 120, 49] [105, 103, 110, 111, 114, 101, 100] false true

/-- The bytes `encode` writes for `external_rec`. -/
def external_bytes : List Byte := (external_rec.encode_run false [] 0 1).written

/-- One segment copy in terms of offsets: of a segment of `len` bytes entered
at offset `ro` with `rem` bytes of room, `n` bytes are copied and the offset
into the next segment is `ro2`; with no room left nothing is copied. -/
def step_ok (len ro ro2 n rem : Nat) : Prop :=
  n ≤ rem ∧
  ((rem = 0 ∧ n = 0) ∨
   (len ≤ ro ∧ n = 0 ∧ ro2 + len = ro) ∨
   (ro < len ∧ ro2 = 0 ∧ n + ro ≤ len ∧ (n = rem ∨ n + ro = len)))

/-- The buffer holds the bytes `out` written so far, then what it held before
the call. -/
def enc_st.holds (s : enc_st) (out w0 : List Byte) : Prop :=
  s.wptr = out ++ w0.drop out.length ∧ s.wr_cnt = out.length

/-- One segment copy of the branch without further split in terms of
offsets: the whole rest of the segment is copied. -/
def step_fin (len ro ro2 n : Nat) : Prop :=
  (len ≤ ro ∧ n = 0 ∧ ro2 + len = ro) ∨ (ro < len ∧ ro2 = 0 ∧ n + ro = len)

/-- The fill of the clean mode in the branch without further split. -/
def cont_fill (clean : Bool) (r : enq_rec) (rec_offs_dblks wr_cnt : Nat) : List Byte :=
  if clean then
    List.replicate
      (sub_sz (size_dblks (sub_sz r.rec_size (rec_offs_dblks * QLS_DBLK_SIZE_BYTES)) *
        QLS_DBLK_SIZE_BYTES % 2 ^ 64) wr_cnt) QLS_CLEAN_CHAR
  else []

/-- Whether the subtraction `a - b` of two `std::size_t` values stays in range,
that is, does not wrap below zero. -/
def sub_ok (a b : Nat) : Bool := decide (b ≤ a)

/-- Whether the subtractions of one segment of the further-split branch stay in
range in the state `s`: `len - rec_offs` under its guard, `rem -= wsize`, and
`rec_offs -= len - wsize2` with its inner `len - wsize2`. -/
def seg_split_ok (len : Nat) (s : enc_st) : Bool :=
  let wsize := if len > s.rec_offs then sub_sz len s.rec_offs else 0
  let wsize2 := wsize
  (if len > s.rec_offs then sub_ok len s.rec_offs else true) &&
  (if wsize ≠ 0 then
      let wsize := if wsize > s.rem then s.rem else wsize
      sub_ok s.rem wsize
    else true) &&
  sub_ok len wsize2 &&
  sub_ok s.rec_offs (sub_sz len wsize2)

/-- Whether the subtractions of one segment of the branch without further split
stay in range in the state `s`: `len - rec_offs` under its guard and
`rec_offs -= len - wsize` with its inner `len - wsize`. -/
def seg_final_ok (len : Nat) (s : enc_st) : Bool :=
  let wsize := if len > s.rec_offs then sub_sz len s.rec_offs else 0
  (if len > s.rec_offs then sub_ok len s.rec_offs else true) &&
  sub_ok len wsize &&
  sub_ok s.rec_offs (sub_sz len wsize)

/-- Whether every subtraction that lines 80-121 of `encode` execute from the
state `s0` stays in range: `rec_offs -= sizeof(_enq_hdr)` and the subtractions
of the xid segment, of the data segment when it is entered, and of the tail
segment when it is entered. -/
def enq_rec.cs_ok (r : enq_rec) (s0 : enc_st) : Bool :=
  let s1 : enc_st := { s0 with rec_offs := sub_sz s0.rec_offs sizeof_enq_hdr }
  let s3 := r.cs_xid s0
  let s4 := r.cs_data s3
  sub_ok s0.rec_offs sizeof_enq_hdr &&
  seg_split_ok r._enq_hdr._xidsize s1 &&
  (if s3.rem ≠ 0 ∧ is_enq_external r._enq_hdr = false
    then seg_split_ok r._enq_hdr._dsize s3 else true) &&
  (if s4.rem ≠ 0 then seg_split_ok sizeof_rec_tail s4 else true)

/-- Whether every subtraction that lines 125-152 of `encode` execute from the
state `s0` stays in range: `rec_offs -= sizeof(_enq_hdr)`, the subtractions of
the three segments and, with `QLS_CLEAN`, `rec_size() - rec_offs` and
`dblk_rec_size - wr_cnt` of the fill. -/
def enq_rec.cf_ok (clean : Bool) (r : enq_rec) (rec_offs_dblks : Nat) (s0 : enc_st) : Bool :=
  let s1 : enc_st := { s0 with rec_offs := sub_sz s0.rec_offs sizeof_enq_hdr }
  let s3 := r.cf_xid s0
  let s5 := r.cf_data s3
  let s7 := r.cf_tail clean rec_offs_dblks s5
  sub_ok s0.rec_offs sizeof_enq_hdr &&
  seg_final_ok r._enq_hdr._xidsize s1 &&
  seg_final_ok r._enq_hdr._dsize s3 &&
  seg_final_ok sizeof_rec_tail s5 &&
  (if clean = true ∧ sizeof_rec_tail > s5.rec_offs then
      let rec_offs := rec_offs_dblks * QLS_DBLK_SIZE_BYTES
      let dblk_rec_size := size_dblks (sub_sz r.rec_size rec_offs) * QLS_DBLK_SIZE_BYTES % 2 ^ 64
      sub_ok r.rec_size rec_offs && sub_ok dblk_rec_size s7.wr_cnt
    else true)

/-- One call on a record between its construction and the next binding: a
`reset` or a `decode`. -/
inductive rec_call where
  | reset (a : reset_args)
  | decode (h : rec_hdr_t) (ifsp : ifstream) (rec_offs : Nat)

/-- The record after one call; for a `decode`, the record as the call leaves it,
whether it returns or raises. -/
def enq_rec.call (r : enq_rec) : rec_call → enq_rec
  | rec_call.reset a =>
    r.reset a.serial a.rid a.dbuf a.dlen a.xidp a.xidlen a.transient a.external
  | rec_call.decode h ifsp rec_offs => (r.decode h ifsp rec_offs).st.r

/-- The record after a sequence of calls, starting from the record `r`. -/
def enq_rec.calls (r : enq_rec) (cs : List rec_call) : enq_rec :=
  cs.foldl enq_rec.call r

/-- Whether the last `decode` among the calls `cs` on the record `r` returned
true; `b` when there is no `decode` among them. -/
def enq_rec.last_decode_true (r : enq_rec) : List rec_call → Bool → Bool
  | [], b => b
  | rec_call.reset a :: cs, b =>
    (r.call (rec_call.reset a)).last_decode_true cs b
  | rec_call.decode h ifsp rec_offs :: cs, _ =>
    (r.call (rec_call.decode h ifsp rec_offs)).last_decode_true cs
      (decide ((r.decode h ifsp rec_offs).outcome = dec_outcome.returned true))

/-- The bytes of the minimal record with the first byte of the tail, the low
byte of `xmagic`, set to 0. -/
def bad_tail_bytes : List Byte := minimal_bytes.set 41 0

/-- The arguments that bind a record to serial 7, rid 100, no xid and the data
"hi". -/
def rebind_args : reset_args :=
  { serial := 7, rid := 100, dbuf := some [104, 105], dlen := 2, xidp := some [], xidlen := 0,
    transient := false, external := false }

/-- The call of `decode` on a fresh record with the bytes `bad_tail_bytes`, as
the caller makes it: the common header read, the stream right after it. -/
def bad_call : rec_call :=
  rec_call.decode (rec_hdr_of_bytes (bad_tail_bytes.take sizeof_rec_hdr))
    (ifstream.on (bad_tail_bytes.drop sizeof_rec_hdr)) 0

/-- The same call on a stream that ends after the first 45 bytes of
`bad_tail_bytes`, four bytes into the tail. -/
def cut_call : rec_call :=
  rec_call.decode (rec_hdr_of_bytes (bad_tail_bytes.take sizeof_rec_hdr))
    (ifstream.on ((bad_tail_bytes.take 45).drop sizeof_rec_hdr)) 0

/-- The call of `decode` on a fresh record with the bytes of the minimal
record. -/
def good_call : rec_call :=
  rec_call.decode (rec_hdr_of_bytes (minimal_bytes.take sizeof_rec_hdr))
    (ifstream.on (minimal_bytes.drop sizeof_rec_hdr)) 0

/-- A call of `decode` that returned true leaves a tail that passes the check
against the header it leaves. -/
def dec_result.checked (res : dec_result) : Prop :=
  res.outcome = dec_outcome.returned true →
    rec_tail_check res.st.r._enq_tail res.st.r._enq_hdr._rhdr 0 = 0

end journal

/-!
# Wiring replicator of the HA module

A shallow embedding of `qpid/ha/WiringReplicator.cpp`: the dispatch of
`WiringReplicator::route` and the helper `getRefName`.

Conventions.
* A `Variant::Map` is an association list in key order of insertion; a lookup
  takes the first entry with the key.
* A handler that `route` runs is recorded in a trace with the map it is passed.
  The broker the handlers act on is not among the sources: `route` is taken
  over a broker of any state type and over every behaviour of the handlers,
  which may raise and may change the map they are passed and the broker.
* A C++ exception is a value of `Exception`; `route` catches every exception
  and logs it.
-/

namespace ha

set_option maxRecDepth 100000

/-- Modelled from the spec: `qpid::types::Variant` (`qpid/types/Variant.h`, not
among the sources), with the kinds of value the replicator looks at: no value,
a string, a map and a list. -/
inductive Variant where
  | VAR_VOID : Variant
  | VAR_STRING : String → Variant
  | VAR_MAP : List (String × Variant) → Variant
  | VAR_LIST : List Variant → Variant

/-- The type `Variant::Map`: entries in key order of insertion. -/
abbrev Variant.Map := List (String × Variant)

/-- The exceptions the replicator raises or lets through.  The text of a message
is its constructor; a value streamed into the message is its argument. -/
inductive Exception where
  | InvalidConversion : Exception
  | out_of_range : Exception
  | unexpected_message : Exception
  | unexpected_event : Variant.Map → Exception
  | unexpected_class : String → Exception
  | invalid_object_reference : Variant → Exception
  | unexpected_reference_name : String → Exception

/-- Modelled from the spec: `Variant::asMap` (not among the sources): the map of
a map value; every other kind raises `InvalidConversion`. -/
def Variant.asMap : Variant → Except Exception Variant.Map
  | Variant.VAR_MAP m => Except.ok m
  | _ => Except.error Exception.InvalidConversion

/-- Modelled from the spec: `Variant::asString` (not among the sources), also the
conversion `operator std::string`: the string of a string value, the empty
string for no value; a map or a list raises `InvalidConversion`. -/
def Variant.asString : Variant → Except Exception String
  | Variant.VAR_STRING s => Except.ok s
  | Variant.VAR_VOID => Except.ok ""
  | _ => Except.error Exception.InvalidConversion

/-- The lookup `std::map::find`: the value of the entry with the key, `none` for
`end()`. -/
def Variant.Map.find (m : Variant.Map) (key : String) : Option Variant :=
  m.lookup key

/-- The read `m[key]` of `std::map::operator[]`: the value of the entry, and a
value of no kind for a key the map does not hold.  (The entry that the operator
adds for such a key is never read again by `route`: the value either fails the
conversion that follows or matches no schema.) -/
def Variant.Map.index (m : Variant.Map) (key : String) : Variant :=
  (m.lookup key).getD Variant.VAR_VOID

/-- The call `std::string::substr(pos, len)` for `pos` inside the string. -/
def substr (s : String) (pos len : Nat) : String :=
  ⟨(s.data.drop pos).take len⟩

/-- The call `name.compare(pos, len, str)` of `std::string`: the order of the
characters `[pos, pos + len)` of `name`, cut at its end, against `str`; zero
exactly when the two are equal. -/
def string_compare (name : String) (pos len : Nat) (str : String) : Int :=
  if substr name pos len = str then 0
  else if substr name pos len < str then -1 else 1

/-- The call `name.substr(pos)` of `std::string`: the characters from `pos` on;
`out_of_range` for a position past the end. -/
def substr_from (name : String) (pos : Nat) : Except Exception String :=
  if pos > name.length then Except.error Exception.out_of_range
  else Except.ok ⟨name.data.drop pos⟩

def CLASS_NAME : String := "_class_name"

def OBJECT_NAME : String := "_object_name"

def PACKAGE_NAME : String := "_package_name"

def VALUES : String := "_values"

def EVENT : String := "_event"

def SCHEMA_ID : String := "_schema_id"

def QUERY_RESPONSE : String := "_query_response"

def ARGUMENTS : String := "arguments"

def QUEUE : String := "queue"

def EXCHANGE : String := "exchange"

def BINDING : String := "binding"

def QMF_OPCODE : String := "qmf.opcode"

def QMF_CONTENT : String := "qmf.content"

def QMF2 : String := "qmf2"

def QUEUE_REF_PREFIX : String := "org.apache.qpid.broker:queue:"

def EXCHANGE_REF_PREFIX : String := "org.apache.qpid.broker:exchange:"

/-- The function `getRefName(prefix, ref)`: the name that follows the prefix in
the `_object_name` entry of the reference map. -/
def getRefName (pfx : String) (ref : Variant) : Except Exception String :=
  match ref.asMap with
  | Except.error e => Except.error e
  | Except.ok map =>
    match map.find OBJECT_NAME with
    | none => Except.error (Exception.invalid_object_reference ref)
    | some second =>
      match second.asString with
      | Except.error e => Except.error e
      | Except.ok name =>
        if string_compare name 0 pfx.length pfx ≠ 0 then
          Except.error (Exception.unexpected_reference_name name)
        else substr_from name pfx.length

/-- Modelled from the spec: the part of a `broker::Message` that `route` reads
(`qpid/broker/Message.h`, not among the sources): the application id of its
message properties (`none` when it has no message properties) and the list
that `amqp_0_10::ListCodec::decode` makes of its content. -/
structure Message where
  appId : Option String
  content : List Variant

/-- Modelled from the spec: a `framing::FieldTable` of string values (not among
the sources). -/
abbrev FieldTable := List (String × String)

/-- Modelled from the spec: `FieldTable::getAsString` (not among the sources):
the value of the field, the empty string when it is not set. -/
def FieldTable.getAsString (f : FieldTable) (name : String) : String :=
  (f.lookup name).getD ""

/-- The function `isQMFv2`. -/
def isQMFv2 (message : Message) : Bool :=
  match message.appId with
  | none => false
  | some appId => decide (appId = QMF2)

/-- Modelled from the spec: the event classes generated from the QMF schema of
the broker (`qmf/org/apache/qpid/broker/Event*.h`, not among the sources), each
with its event name. -/
inductive EventClass where
  | EventQueueDeclare
  | EventQueueDelete
  | EventExchangeDeclare
  | EventExchangeDelete
  | EventBind
  | EventSubscribe
  deriving DecidableEq, Repr

/-- Modelled from the spec: `T::eventName` of a generated event class. -/
def EventClass.eventName : EventClass → String
  | EventClass.EventQueueDeclare => "queueDeclare"
  | EventClass.EventQueueDelete => "queueDelete"
  | EventClass.EventExchangeDeclare => "exchangeDeclare"
  | EventClass.EventExchangeDelete => "exchangeDelete"
  | EventClass.EventBind => "bind"
  | EventClass.EventSubscribe => "subscribe"

/-- Modelled from the spec: `T::packageName` of a generated event class. -/
def packageName : String := "org.apache.qpid.broker"

/-- Modelled from the spec: `T::match(evt, pkg)` of a generated event class:
both names are those of the class. -/
def EventClass.matches (T : EventClass) (evt pkg : String) : Bool :=
  decide (T.eventName = evt) && decide (packageName = pkg)

/-- The template `match<T>(schema)`: `T::match(schema[CLASS_NAME],
schema[PACKAGE_NAME])`, both values converted to strings. -/
def match_schema (T : EventClass) (schema : Variant.Map) : Except Exception Bool :=
  match (schema.index CLASS_NAME).asString with
  | Except.error e => Except.error e
  | Except.ok evt =>
    match (schema.index PACKAGE_NAME).asString with
    | Except.error e => Except.error e
    | Except.ok pkg => Except.ok (T.matches evt pkg)

/-- The member functions of `WiringReplicator` that `route` runs on the values
of an entry. -/
inductive Handler where
  | doEventQueueDeclare
  | doEventQueueDelete
  | doEventExchangeDeclare
  | doEventExchangeDelete
  | doEventBind
  | doResponseQueue
  | doResponseExchange
  | doResponseBind
  deriving DecidableEq, Repr

/-- One run of a handler: the handler and the map `values` it is passed. -/
structure Call where
  handler : Handler
  values : Variant.Map

/-- How a run of a handler ends: the exception it raised, if any, the map
`values`, which it holds by reference, as it leaves it, and the broker as it
leaves it. -/
structure HandlerEnd (σ : Type) where
  raised : Option Exception
  values : Variant.Map
  broker : σ

/-- The behaviour of the handlers, lines 163 to 293: the bodies read and convert
entries of `values` and act on the broker, which is not among the sources, so
`route` is taken over every behaviour: a run of a handler on a map and a
broker of any state type `σ` returns or raises, and may change both. -/
abbrev Handlers (σ : Type) := Handler → Variant.Map → σ → HandlerEnd σ

/-- The handler the event loop selects for a schema: the first event class, in
the order of the `if` chain, that matches; `none` for the event that is
ignored on purpose; an exception when no class matches. -/
def select_event (schema : Variant.Map) : Except Exception (Option Handler) :=
  match match_schema EventClass.EventQueueDeclare schema with
  | Except.error e => Except.error e
  | Except.ok true => Except.ok (some Handler.doEventQueueDeclare)
  | Except.ok false =>
  match match_schema EventClass.EventQueueDelete schema with
  | Except.error e => Except.error e
  | Except.ok true => Except.ok (some Handler.doEventQueueDelete)
  | Except.ok false =>
  match match_schema EventClass.EventExchangeDeclare schema with
  | Except.error e => Except.error e
  | Except.ok true => Except.ok (some Handler.doEventExchangeDeclare)
  | Except.ok false =>
  match match_schema EventClass.EventExchangeDelete schema with
  | Except.error e => Except.error e
  | Except.ok true => Except.ok (some Handler.doEventExchangeDelete)
  | Except.ok false =>
  match match_schema EventClass.EventBind schema with
  | Except.error e => Except.error e
  | Except.ok true => Except.ok (some Handler.doEventBind)
  | Except.ok false =>
  match match_schema EventClass.EventSubscribe schema with
  | Except.error e => Except.error e
  | Except.ok true => Except.ok none
  | Except.ok false => Except.error (Exception.unexpected_event schema)

/-- The work of the event loop on one element `entry` of the list: the handler
that is run, if any, with its values. -/
def dispatch_event (entry : Variant) : Except Exception (Option Call) :=
  match entry.asMap with
  | Except.error e => Except.error e
  | Except.ok map =>
    match (map.index SCHEMA_ID).asMap with
    | Except.error e => Except.error e
    | Except.ok schema =>
      match (map.index VALUES).asMap with
      | Except.error e => Except.error e
      | Except.ok values =>
        match select_event schema with
        | Except.error e => Except.error e
        | Except.ok none => Except.ok none
        | Except.ok (some handler) => Except.ok (some ⟨handler, values⟩)

/-- The work of the query-response loop on one element `entry` of the list. -/
def dispatch_response (entry : Variant) : Except Exception Call :=
  match entry.asMap with
  | Except.error e => Except.error e
  | Except.ok map =>
    match (map.index SCHEMA_ID).asMap with
    | Except.error e => Except.error e
    | Except.ok schema =>
      match (schema.index CLASS_NAME).asString with
      | Except.error e => Except.error e
      | Except.ok type =>
        match (map.index VALUES).asMap with
        | Except.error e => Except.error e
        | Except.ok values =>
          match (values.index ARGUMENTS).asMap with
          | Except.error e => Except.error e
          | Except.ok _ =>
            if type = QUEUE then Except.ok ⟨Handler.doResponseQueue, values⟩
            else if type = EXCHANGE then Except.ok ⟨Handler.doResponseExchange, values⟩
            else if type = BINDING then Except.ok ⟨Handler.doResponseBind, values⟩
            else Except.error (Exception.unexpected_class type)

/-- What a call of `route` has done: the handlers it ran, in order, each with
the map it was passed, the exception its `catch` clause logged, whether it
logged that it ignores the message, and the broker as the handlers leave it. -/
structure Routed (σ : Type) where
  calls : List Call
  caught : Option Exception
  ignored : Bool
  broker : σ

/-- The map `values` of an entry after a handler that held it by reference: the
value under `_values` of the map of the entry is the map as the handler leaves
it. -/
def Variant.set_values (entry : Variant) (values : Variant.Map) : Variant :=
  match entry with
  | Variant.VAR_MAP map =>
    Variant.VAR_MAP
      (map.map (fun kv => if kv.1 = VALUES then (kv.1, Variant.VAR_MAP values) else kv))
  | other => other

/-- The list after a handler that held the map `values` of `list.front()` by
reference. -/
def set_front_values (list : List Variant) (values : Variant.Map) : List Variant :=
  match list with
  | [] => []
  | front :: rest => front.set_values values :: rest

/-- The event loop of `route`, lines 130 to 142: `list` is the list as the
handlers run so far leave it, `i` runs over the positions that are still to
come, `calls` are the handlers run so far.  The body takes the map of
`list.front()` at every position and never reads `*i`; an exception of the
dispatch or of the handler ends the loop in the `catch` clause of `route`. -/
def event_loop {σ : Type} (run : Handlers σ) :
    List Variant → List Variant → List Call → σ → Routed σ
  | _, [], calls, broker => ⟨calls, none, false, broker⟩
  | list, _ :: i, calls, broker =>
    match dispatch_event (list.headD Variant.VAR_VOID) with
    | Except.error e => ⟨calls, some e, false, broker⟩
    | Except.ok none => event_loop run list i calls broker
    | Except.ok (some call) =>
      match (run call.handler call.values broker).raised with
      | some e => ⟨calls ++ [call], some e, false, (run call.handler call.values broker).broker⟩
      | none =>
        event_loop run
          (set_front_values list (run call.handler call.values broker).values) i
          (calls ++ [call]) (run call.handler call.values broker).broker

/-- The query-response loop of `route`, lines 144 to 153: the body takes the map
of the element `*i` at every position; an exception of the dispatch or of the
handler ends the loop in the `catch` clause of `route`. -/
def response_loop {σ : Type} (run : Handlers σ) : List Variant → List Call → σ → Routed σ
  | [], calls, broker => ⟨calls, none, false, broker⟩
  | entry :: i, calls, broker =>
    match dispatch_response entry with
    | Except.error e => ⟨calls, some e, false, broker⟩
    | Except.ok call =>
      match (run call.handler call.values broker).raised with
      | some e => ⟨calls ++ [call], some e, false, (run call.handler call.values broker).broker⟩
      | none =>
        response_loop run i (calls ++ [call]) (run call.handler call.values broker).broker

/-- The member function `WiringReplicator::route(msg, key, headers)` on a broker
in state `broker`; a null `headers` is `none`. -/
def route {σ : Type} (run : Handlers σ) (broker : σ) (msg : Message)
    (headers : Option FieldTable) : Routed σ :=
  match headers with
  | none => ⟨[], some Exception.unexpected_message, false, broker⟩
  | some headers =>
    if !isQMFv2 msg then ⟨[], some Exception.unexpected_message, false, broker⟩
    else
      let list := msg.content
      if headers.getAsString QMF_CONTENT = EVENT then event_loop run list list [] broker
      else if headers.getAsString QMF_OPCODE = QUERY_RESPONSE then
        response_loop run list [] broker
      else ⟨[], none, true, broker⟩

/-- The dispatch that takes every entry of the list in turn: the handler of the
schema of the entry is run with the values of the entry; an exception of the
dispatch or of a handler ends it. -/
def entry_by_entry {σ : Type} (run : Handlers σ) : List Variant → List Call → σ → Routed σ
  | [], calls, broker => ⟨calls, none, false, broker⟩
  | entry :: rest, calls, broker =>
    match dispatch_event entry with
    | Except.error e => ⟨calls, some e, false, broker⟩
    | Except.ok none => entry_by_entry run rest calls broker
    | Except.ok (some call) =>
      match (run call.handler call.values broker).raised with
      | some e => ⟨calls ++ [call], some e, false, (run call.handler call.values broker).broker⟩
      | none =>
        entry_by_entry run rest (calls ++ [call]) (run call.handler call.values broker).broker

/-- An event entry with the schema of the event class `T` and the given values. -/
def event_entry (T : EventClass) (values : Variant.Map) : Variant :=
  Variant.VAR_MAP
    [(SCHEMA_ID, Variant.VAR_MAP
        [(CLASS_NAME, Variant.VAR_STRING T.eventName),
         (PACKAGE_NAME, Variant.VAR_STRING packageName)]),
     (VALUES, Variant.VAR_MAP values)]

/-- The headers of a QMF2 event message. -/
def event_headers : FieldTable := [(QMF_CONTENT, EVENT)]

/-- The values of the event that reports the declaration of the replicated
queue `q1`. -/
def queue_values : Variant.Map :=
  [("qName", Variant.VAR_STRING "q1"),
   ("args", Variant.VAR_MAP [("qpid.replicate", Variant.VAR_STRING "all")]),
   ("disp", Variant.VAR_STRING "created"),
   ("altEx", Variant.VAR_STRING ""),
   ("user", Variant.VAR_STRING "guest"),
   ("rhost", Variant.VAR_STRING "127.0.0.1:5672")]

/-- A QMF2 event message of two entries: a subscription to queue `q0`, then the
declaration of the replicated queue `q1`. -/
def subscribe_then_declare : Message :=
  { appId := some QMF2
    content :=
      [event_entry EventClass.EventSubscribe [("qName", Variant.VAR_STRING "q0")],
       event_entry EventClass.EventQueueDeclare queue_values] }

end ha

/-! # Theorems -/

namespace journal

set_option maxRecDepth 100000

theorem le_bytes_length (w n : Nat) : (le_bytes w n).length = w := by
  induction w generalizing n with
  | zero => rfl
  | succ w ih => simp [le_bytes, ih]

theorem le_val_le_bytes (w n : Nat) : le_val (le_bytes w n) = n % 256 ^ w := by
  induction w generalizing n with
  | zero => simp [le_bytes, le_val, Nat.mod_one]
  | succ w ih =>
    simp only [le_bytes, le_val, ih, byte_of]
    rw [pow_succ, Nat.mul_comm (256 ^ w) 256, Nat.mod_mul]

theorem le_bytes_le_val (bs : List Byte) : le_bytes bs.length (le_val bs) = bs := by
  induction bs with
  | nil => rfl
  | cons b bs ih =>
    simp only [List.length_cons, le_bytes, le_val]
    have h1 : byte_of (b.val + 256 * le_val bs) = b := by
      apply Fin.ext
      simp only [byte_of]
      omega
    have h2 : (b.val + 256 * le_val bs) / 256 = le_val bs := by omega
    rw [h1, h2, ih]

theorem mem_read_full (l : List Byte) : mem_read (some l) 0 l.length = l := by
  simp [mem_read]

theorem mem_read_length (p : Option (List Byte)) (offs n : Nat) :
    (mem_read p offs n).length = n := by
  simp only [mem_read, List.length_append, List.length_replicate, List.length_take,
    List.length_drop]
  omega

theorem prefix_mem_write {out buf : List Byte} (src : List Byte) (h : out <+: buf) :
    (out ++ src) <+: mem_write buf out.length src := by
  obtain ⟨t, rfl⟩ := h
  refine ⟨List.drop src.length t, ?_⟩
  simp [mem_write, List.drop_append_eq_append_drop, List.take_append_eq_append_take]

theorem take_of_prefix {out buf : List Byte} (h : out <+: buf) :
    buf.take out.length = out := by
  obtain ⟨t, rfl⟩ := h
  simp

theorem rec_hdr_bytes_length (h : rec_hdr_t) : (rec_hdr_bytes h).length = 23 := by
  simp [rec_hdr_bytes, le_bytes_length]

theorem enq_hdr_bytes_length (h : enq_hdr_t) : (enq_hdr_bytes h).length = 39 := by
  simp [enq_hdr_bytes, rec_hdr_bytes_length, le_bytes_length]

theorem rec_tail_bytes_length (t : rec_tail_t) : (rec_tail_bytes t).length = 24 := by
  simp [rec_tail_bytes, le_bytes_length]

theorem rec_size_eq (r : enq_rec) (h : r.fits) :
    r.rec_size = 39 + r._enq_hdr._xidsize +
      (if is_enq_external r._enq_hdr then 0 else r._enq_hdr._dsize) + 24 := by
  unfold enq_rec.fits sizeof_enq_hdr sizeof_rec_tail at h
  unfold enq_rec.rec_size enq_rec.rec_size_of sizeof_enq_hdr sizeof_rec_tail
  cases hx : is_enq_external r._enq_hdr <;> simp [hx] at h ⊢ <;> omega

theorem image_length (r : enq_rec) (h : r.fits) : r.image.length = r.rec_size := by
  rw [rec_size_eq r h]
  simp only [enq_rec.image, enq_rec.xid_bytes, enq_rec.data_bytes, List.length_append,
    enq_hdr_bytes_length, rec_tail_bytes_length, mem_read_length]
  cases hx : is_enq_external r._enq_hdr <;> simp [mem_read_length]

theorem mem_write_append (w0 out src : List Byte) (n : Nat) (hn : n = out.length) :
    mem_write (out ++ w0.drop out.length) n src =
      (out ++ src) ++ w0.drop (out ++ src).length := by
  subst hn
  simp [mem_write, List.drop_append_eq_append_drop, List.take_append_eq_append_take,
    Nat.add_comm]

theorem mem_write_zero (w0 src : List Byte) :
    mem_write w0 0 src = src ++ w0.drop src.length := by
  simp [mem_write]

theorem add_sz_eq (a b : Nat) (h : a + b < 2 ^ 64) : add_sz a b = a + b := by
  unfold add_sz; exact Nat.mod_eq_of_lt h

theorem first_fit_spec (clean : Bool) (r : enq_rec) (s0 : enc_st) (w0 : List Byte) (h : r.fits)
    (hw : s0.wptr = enq_hdr_bytes r._enq_hdr ++ w0.drop 39) (hc : s0.wr_cnt = 39) :
    (r.encode_first_fit clean s0).wptr =
      (r.image ++ clean_fill clean r.rec_size r.rec_size) ++
        w0.drop (r.image ++ clean_fill clean r.rec_size r.rec_size).length ∧
    (r.encode_first_fit clean s0).wr_cnt = r.rec_size ∧
    (r.encode_first_fit clean s0).asserts = s0.asserts := by
  have hsz := rec_size_eq r h
  have hil := image_length r h
  unfold enq_rec.fits sizeof_enq_hdr sizeof_rec_tail at h
  -- the xid
  have h1 : ∃ s1 : enc_st, (if r._enq_hdr._xidsize ≠ 0 then
      ({ s0 with wptr := mem_write s0.wptr s0.wr_cnt (mem_read r._xidp 0 r._enq_hdr._xidsize)
                 wr_cnt := add_sz s0.wr_cnt r._enq_hdr._xidsize } : enc_st) else s0) = s1 ∧
      s1.wptr = (enq_hdr_bytes r._enq_hdr ++ r.xid_bytes) ++
        w0.drop (enq_hdr_bytes r._enq_hdr ++ r.xid_bytes).length ∧
      s1.wr_cnt = 39 + r._enq_hdr._xidsize ∧ s1.asserts = s0.asserts := by
    refine ⟨_, rfl, ?_⟩
    by_cases hz : r._enq_hdr._xidsize = 0
    · simp [hz, enq_rec.xid_bytes, mem_read, hw, hc, enq_hdr_bytes_length]
    · simp only [hz, ne_eq, not_false_eq_true, if_true, enq_rec.xid_bytes]
      refine ⟨?_, ?_, trivial⟩
      · have := mem_write_append w0 (enq_hdr_bytes r._enq_hdr)
          (mem_read r._xidp 0 r._enq_hdr._xidsize) s0.wr_cnt
          (by rw [hc, enq_hdr_bytes_length])
        rw [enq_hdr_bytes_length] at this
        rw [hw, this]
      · rw [hc, add_sz_eq]; split at h <;> omega
  obtain ⟨s1, e1, p1, c1, a1⟩ := h1
  -- the data
  have h2 : ∃ s2 : enc_st, (if is_enq_external r._enq_hdr = false then
      ({ s1 with wptr := mem_write s1.wptr s1.wr_cnt (mem_read r._data 0 r._enq_hdr._dsize)
                 wr_cnt := add_sz s1.wr_cnt r._enq_hdr._dsize } : enc_st) else s1) = s2 ∧
      s2.wptr = (enq_hdr_bytes r._enq_hdr ++ r.xid_bytes ++ r.data_bytes) ++
        w0.drop (enq_hdr_bytes r._enq_hdr ++ r.xid_bytes ++ r.data_bytes).length ∧
      s2.wr_cnt = 39 + r._enq_hdr._xidsize +
        (if is_enq_external r._enq_hdr then 0 else r._enq_hdr._dsize) ∧
      s2.asserts = s0.asserts := by
    refine ⟨_, rfl, ?_⟩
    cases hx : is_enq_external r._enq_hdr
    · simp only [if_true, enq_rec.data_bytes, hx, Bool.false_eq_true, if_false]
      refine ⟨?_, ?_, a1⟩
      · rw [p1]
        exact mem_write_append w0 _ _ _
          (by simp [c1, enq_hdr_bytes_length, enq_rec.xid_bytes, mem_read_length])
      · rw [c1, add_sz_eq]; simp [hx] at h; omega
    · simp [enq_rec.data_bytes, hx, p1, c1, a1]
  obtain ⟨s2, e2, p2, c2, a2⟩ := h2
  have ht : mem_read (some (rec_tail_bytes r._enq_tail)) 0 sizeof_rec_tail =
      rec_tail_bytes r._enq_tail := by
    have := mem_read_full (rec_tail_bytes r._enq_tail)
    rwa [rec_tail_bytes_length] at this
  have hl2 : s2.wr_cnt =
      (enq_hdr_bytes r._enq_hdr ++ r.xid_bytes ++ r.data_bytes).length := by
    have := hil
    simp only [enq_rec.image, List.length_append, rec_tail_bytes_length] at this ⊢
    omega
  have p3 : mem_write s2.wptr s2.wr_cnt
      (mem_read (some (rec_tail_bytes r._enq_tail)) 0 sizeof_rec_tail) =
      r.image ++ w0.drop r.image.length := by
    rw [ht, p2]
    exact mem_write_append w0 _ _ _ hl2
  have c3 : add_sz s2.wr_cnt sizeof_rec_tail = r.rec_size := by
    rw [c2, add_sz_eq, hsz] <;> simp only [sizeof_rec_tail] <;> omega
  unfold enq_rec.encode_first_fit
  simp only [e1, e2, p3, c3]
  cases clean
  · simp [clean_fill, a2]
  · simp only [if_true, clean_fill, a2, and_self, and_true]
    have := mem_write_append w0 r.image
      (List.replicate (sub_sz (size_dblks r.rec_size * QLS_DBLK_SIZE_BYTES % 2 ^ 64) r.rec_size)
        QLS_CLEAN_CHAR) r.rec_size hil.symm
    rw [this]

theorem encode_cont_split_eq (r : enq_rec) (s0 : enc_st) :
    r.encode_cont_split s0 = r.cs_tail (r.cs_data (r.cs_xid s0)) := rfl

theorem cs_data_eq (r : enq_rec) (s : enc_st) :
    r.cs_data s = if s.rem ≠ 0 ∧ is_enq_external r._enq_hdr = false
      then seg_split r._data r._enq_hdr._dsize s else s := rfl

theorem cs_tail_eq (r : enq_rec) (s : enc_st) :
    r.cs_tail s = cs_assert
      (if s.rem ≠ 0 then seg_split (some (rec_tail_bytes r._enq_tail)) sizeof_rec_tail s
        else s) := rfl

theorem sub_sz_eq (a b : Nat) (ha : a < 2 ^ 64) (hb : b ≤ a) : sub_sz a b = a - b := by
  unfold sub_sz; omega

theorem mem_read_zero (p : Option (List Byte)) (offs : Nat) : mem_read p offs 0 = [] := by
  simp [mem_read]

/-- What one segment copy of the further-split branch does: `n` bytes are
copied, taken from the offset `rec_offs` of the segment. -/
theorem seg_split_spec (src : Option (List Byte)) (len : Nat) (s : enc_st)
    (hro : s.rec_offs < 2 ^ 64) (hlen : len < 2 ^ 64) (hwr : s.wr_cnt + s.rem < 2 ^ 64) :
    ∃ n, (seg_split src len s).wr_cnt = s.wr_cnt + n ∧
    (seg_split src len s).rem + n = s.rem ∧
    (seg_split src len s).asserts = s.asserts ∧
    ((len ≤ s.rec_offs ∧ n = 0 ∧ (seg_split src len s).rec_offs + len = s.rec_offs) ∨
     (s.rec_offs < len ∧ (seg_split src len s).rec_offs = 0 ∧ n + s.rec_offs ≤ len ∧
       (n = s.rem ∨ n + s.rec_offs = len))) ∧
    ∀ out w0 : List Byte, s.wptr = out ++ w0.drop out.length → s.wr_cnt = out.length →
      (seg_split src len s).wptr =
        (out ++ mem_read src s.rec_offs n) ++
          w0.drop (out ++ mem_read src s.rec_offs n).length := by
  by_cases h1 : len > s.rec_offs
  · have e1 : sub_sz len s.rec_offs = len - s.rec_offs := sub_sz_eq _ _ hlen (by omega)
    have h2 : len - s.rec_offs ≠ 0 := by omega
    have e3 : sub_sz len (len - s.rec_offs) = s.rec_offs := by
      rw [sub_sz_eq _ _ hlen (by omega)]; omega
    have e4 : sub_sz s.rec_offs s.rec_offs = 0 := by
      rw [sub_sz_eq _ _ hro (le_refl _)]; omega
    by_cases h3 : len - s.rec_offs > s.rem
    · have E : seg_split src len s =
          { s with wptr := mem_write s.wptr s.wr_cnt (mem_read src s.rec_offs s.rem)
                   wr_cnt := s.wr_cnt + s.rem
                   rem := 0
                   rec_offs := 0 } := by
        unfold seg_split
        simp only [h1, if_true, e1, h2, ne_eq, not_false_eq_true, h3, e3, e4]
        rw [add_sz_eq _ _ hwr, sub_sz_eq _ _ (by omega) (le_refl _), Nat.sub_self]
      rw [E]
      refine ⟨s.rem, rfl, by simp only; omega, rfl, Or.inr ⟨h1, rfl, by omega, Or.inl rfl⟩, ?_⟩
      intro out w0 hw hc
      simp only
      rw [hw, mem_write_append w0 out _ _ hc]
    · have E : seg_split src len s =
          { s with wptr := mem_write s.wptr s.wr_cnt (mem_read src s.rec_offs (len - s.rec_offs))
                   wr_cnt := s.wr_cnt + (len - s.rec_offs)
                   rem := s.rem - (len - s.rec_offs)
                   rec_offs := 0 } := by
        unfold seg_split
        simp only [h1, if_true, e1, h2, ne_eq, not_false_eq_true, h3, if_false, e3, e4]
        rw [add_sz_eq _ _ (by omega), sub_sz_eq _ _ (by omega) (by omega)]
      rw [E]
      refine ⟨len - s.rec_offs, rfl, by simp only; omega, rfl,
        Or.inr ⟨h1, rfl, by omega, Or.inr (by omega)⟩, ?_⟩
      intro out w0 hw hc
      simp only
      rw [hw, mem_write_append w0 out _ _ hc]
  · have e1 : sub_sz len 0 = len := by rw [sub_sz_eq _ _ hlen (by omega)]; omega
    have E : seg_split src len s = { s with rec_offs := s.rec_offs - len } := by
      unfold seg_split
      simp only [h1, if_false, ne_eq, not_true_eq_false, e1]
      rw [sub_sz_eq _ _ hro (by omega)]
    rw [E]
    refine ⟨0, rfl, rfl, rfl, Or.inl ⟨by omega, rfl, by simp only; omega⟩, ?_⟩
    intro out w0 hw _
    simp only [mem_read_zero, List.append_nil]
    exact hw

theorem cs_xid_eq (r : enq_rec) (s0 : enc_st) (hw : s0.wr_cnt = 0) (hrem : s0.rem < 2 ^ 64) :
    r.cs_xid s0 = seg_split r._xidp r._enq_hdr._xidsize
      { s0 with rec_offs := sub_sz s0.rec_offs sizeof_enq_hdr } := by
  unfold enq_rec.cs_xid seg_split
  simp only [hw]
  by_cases h1 : r._enq_hdr._xidsize > sub_sz s0.rec_offs sizeof_enq_hdr
  · simp only [h1, if_true]
    by_cases h2 : sub_sz r._enq_hdr._xidsize (sub_sz s0.rec_offs sizeof_enq_hdr) ≠ 0
    · simp only [h2, if_true, ne_eq, not_false_eq_true]
      by_cases h3 : sub_sz r._enq_hdr._xidsize (sub_sz s0.rec_offs sizeof_enq_hdr) > s0.rem
      · simp only [h3, if_true, add_sz]
        rw [Nat.zero_add, Nat.mod_eq_of_lt hrem]
      · simp only [h3, if_false, add_sz]
        rw [Nat.zero_add, Nat.mod_eq_of_lt]
        unfold sub_sz; omega
    · simp only [h2, if_false]
  · simp only [h1, if_false, ne_eq, not_true_eq_false]

theorem cs_xid_arith (r : enq_rec) (s0 : enc_st) (hxs : r._enq_hdr._xidsize < 2 ^ 64)
    (ho : 39 ≤ s0.rec_offs) (hro : s0.rec_offs < 2 ^ 64) (hrem : s0.rem < 2 ^ 64)
    (hw : s0.wr_cnt = 0) :
    (r.cs_xid s0).wr_cnt + (r.cs_xid s0).rem = s0.rem ∧
    (r.cs_xid s0).asserts = s0.asserts ∧
    ((r._enq_hdr._xidsize + 39 ≤ s0.rec_offs ∧ (r.cs_xid s0).wr_cnt = 0 ∧
        (r.cs_xid s0).rec_offs + r._enq_hdr._xidsize + 39 = s0.rec_offs) ∨
     (s0.rec_offs < r._enq_hdr._xidsize + 39 ∧ (r.cs_xid s0).rec_offs = 0 ∧
        (r.cs_xid s0).wr_cnt + s0.rec_offs ≤ r._enq_hdr._xidsize + 39 ∧
        ((r.cs_xid s0).rem = 0 ∨
          (r.cs_xid s0).wr_cnt + s0.rec_offs = r._enq_hdr._xidsize + 39))) := by
  rw [cs_xid_eq r s0 hw hrem]
  have e0 : sub_sz s0.rec_offs sizeof_enq_hdr = s0.rec_offs - 39 := by
    unfold sizeof_enq_hdr; rw [sub_sz_eq] <;> omega
  rw [e0]
  obtain ⟨n, c, m, a, d, -⟩ := seg_split_spec r._xidp r._enq_hdr._xidsize
    { s0 with rec_offs := s0.rec_offs - 39 } (by simp only; omega) hxs (by simp only; omega)
  simp only at c m a d
  refine ⟨by omega, a, ?_⟩
  rcases d with ⟨d1, d2, d3⟩ | ⟨d1, d2, d3, d4⟩
  · exact Or.inl ⟨by omega, by omega, by omega⟩
  · exact Or.inr ⟨by omega, d2, by omega, by omega⟩

theorem cs_data_arith (r : enq_rec) (s : enc_st) (hds : r._enq_hdr._dsize < 2 ^ 64)
    (hro : s.rec_offs < 2 ^ 64) (hwr : s.wr_cnt + s.rem < 2 ^ 64) :
    (r.cs_data s).wr_cnt + (r.cs_data s).rem = s.wr_cnt + s.rem ∧
    s.wr_cnt ≤ (r.cs_data s).wr_cnt ∧
    (r.cs_data s).asserts = s.asserts ∧
    ((is_enq_external r._enq_hdr = true ∨ s.rem = 0) →
      (r.cs_data s).wr_cnt = s.wr_cnt ∧ (r.cs_data s).rec_offs = s.rec_offs) ∧
    ((is_enq_external r._enq_hdr = false ∧ 0 < s.rem) →
      ((r._enq_hdr._dsize ≤ s.rec_offs ∧ (r.cs_data s).wr_cnt = s.wr_cnt ∧
          (r.cs_data s).rec_offs + r._enq_hdr._dsize = s.rec_offs) ∨
       (s.rec_offs < r._enq_hdr._dsize ∧ (r.cs_data s).rec_offs = 0 ∧
          (r.cs_data s).wr_cnt + s.rec_offs ≤ s.wr_cnt + r._enq_hdr._dsize ∧
          ((r.cs_data s).rem = 0 ∨
            (r.cs_data s).wr_cnt + s.rec_offs = s.wr_cnt + r._enq_hdr._dsize)))) := by
  by_cases hc : s.rem ≠ 0 ∧ is_enq_external r._enq_hdr = false
  · rw [cs_data_eq, if_pos hc]
    obtain ⟨n, c, m, a, d, -⟩ := seg_split_spec r._data r._enq_hdr._dsize s hro hds hwr
    refine ⟨by omega, by omega, a, ?_, ?_⟩
    · rintro (h | h)
      · rw [hc.2] at h; exact Bool.noConfusion h
      · exact absurd h hc.1
    · intro _
      rcases d with ⟨d1, d2, d3⟩ | ⟨d1, d2, d3, d4⟩
      · exact Or.inl ⟨d1, by omega, d3⟩
      · exact Or.inr ⟨d1, d2, by omega, by omega⟩
  · rw [cs_data_eq, if_neg hc]
    refine ⟨rfl, le_refl _, rfl, fun _ => ⟨rfl, rfl⟩, ?_⟩
    rintro ⟨h1, h2⟩
    exact absurd ⟨by omega, h1⟩ hc

theorem cs_tail_arith (r : enq_rec) (s : enc_st)
    (hro : s.rec_offs < 2 ^ 64) (hwr : s.wr_cnt + s.rem < 2 ^ 64) :
    (r.cs_tail s).wr_cnt + (r.cs_tail s).rem = s.wr_cnt + s.rem ∧
    s.wr_cnt ≤ (r.cs_tail s).wr_cnt ∧
    (r.cs_tail s).asserts = (s.asserts && decide ((r.cs_tail s).rem = 0) &&
      decide ((r.cs_tail s).rec_offs = 0)) ∧
    (s.rem = 0 → (r.cs_tail s).wr_cnt = s.wr_cnt ∧ (r.cs_tail s).rec_offs = s.rec_offs) ∧
    (0 < s.rem →
      ((24 ≤ s.rec_offs ∧ (r.cs_tail s).wr_cnt = s.wr_cnt ∧
          (r.cs_tail s).rec_offs + 24 = s.rec_offs) ∨
       (s.rec_offs < 24 ∧ (r.cs_tail s).rec_offs = 0 ∧
          (r.cs_tail s).wr_cnt + s.rec_offs ≤ s.wr_cnt + 24 ∧
          ((r.cs_tail s).rem = 0 ∨ (r.cs_tail s).wr_cnt + s.rec_offs = s.wr_cnt + 24)))) := by
  by_cases hc : s.rem ≠ 0
  · rw [cs_tail_eq, if_pos hc]
    obtain ⟨n, c, m, a, d, -⟩ :=
      seg_split_spec (some (rec_tail_bytes r._enq_tail)) sizeof_rec_tail s hro
        (by unfold sizeof_rec_tail; omega) hwr
    unfold sizeof_rec_tail at d
    refine ⟨by simp only [cs_assert]; omega, by simp only [cs_assert]; omega,
      by simp only [cs_assert, a], fun h => absurd h hc, ?_⟩
    intro _
    simp only [cs_assert]
    rcases d with ⟨d1, d2, d3⟩ | ⟨d1, d2, d3, d4⟩
    · exact Or.inl ⟨d1, by omega, d3⟩
    · exact Or.inr ⟨d1, d2, by omega, by omega⟩
  · rw [cs_tail_eq, if_neg hc]
    refine ⟨rfl, le_refl _, rfl, fun _ => ⟨rfl, rfl⟩, fun h => absurd (by omega) hc⟩

theorem cont_split_arith (r : enq_rec) (s0 : enc_st)
    (hfit : r.size < 2 ^ 64) (hds : r._enq_hdr._dsize < 2 ^ 64)
    (ho : 39 ≤ s0.rec_offs) (hR : 0 < s0.rem)
    (hw : s0.wr_cnt = 0) (hS : s0.rec_offs + s0.rem < r.size) :
    (r.encode_cont_split s0).wr_cnt = s0.rem ∧
    (r.encode_cont_split s0).rem = 0 ∧
    (r.encode_cont_split s0).rec_offs = 0 ∧
    (r.encode_cont_split s0).asserts = s0.asserts := by
  unfold enq_rec.size at hfit hS
  rw [encode_cont_split_eq]
  obtain ⟨c1, a1, d1⟩ := cs_xid_arith r s0
    (by split at hfit <;> omega) ho (by omega) (by omega) hw
  obtain ⟨c2, l2, a2, x2, y2⟩ :=
    cs_data_arith r (r.cs_xid s0) hds (by omega) (by omega)
  have hro2 : (r.cs_data (r.cs_xid s0)).rec_offs < 2 ^ 64 := by
    cases hx : is_enq_external r._enq_hdr
    · by_cases hz : 0 < (r.cs_xid s0).rem
      · have := y2 ⟨hx, hz⟩; omega
      · have := x2 (Or.inr (by omega)); omega
    · have := x2 (Or.inl hx); omega
  obtain ⟨c3, l3, a3, x3, y3⟩ :=
    cs_tail_arith r (r.cs_data (r.cs_xid s0)) hro2 (by omega)
  have key : (r.cs_tail (r.cs_data (r.cs_xid s0))).rem = 0 ∧
      (r.cs_tail (r.cs_data (r.cs_xid s0))).rec_offs = 0 := by
    cases hx : is_enq_external r._enq_hdr
    · simp only [hx, Bool.false_eq_true, if_false] at hfit hS
      by_cases hz : 0 < (r.cs_xid s0).rem
      · have := y2 ⟨hx, hz⟩
        by_cases hz2 : 0 < (r.cs_data (r.cs_xid s0)).rem
        · have := y3 hz2; omega
        · have := x3 (by omega); omega
      · have := x2 (Or.inr (by omega))
        have := x3 (by omega); omega
    · simp only [hx, if_true] at hfit hS
      have := x2 (Or.inl hx)
      by_cases hz2 : 0 < (r.cs_data (r.cs_xid s0)).rem
      · have := y3 hz2; omega
      · have := x3 (by omega); omega
  refine ⟨by omega, key.1, key.2, ?_⟩
  rw [a3, key.1, key.2, a2, a1]; simp

theorem encode_first_split_eq (r : enq_rec) (s0 : enc_st) :
    r.encode_first_split s0 = r.fs_tail (r.fs_data (r.fs_xid s0)) := rfl

theorem fs_xid_eq (r : enq_rec) (s0 : enc_st) :
    r.fs_xid s0 = if sub_sz s0.rem sizeof_enq_hdr ≠ 0
      then seg_first r._xidp r._enq_hdr._xidsize { s0 with rem := sub_sz s0.rem sizeof_enq_hdr }
      else { s0 with rem := sub_sz s0.rem sizeof_enq_hdr } := rfl

theorem fs_data_eq (r : enq_rec) (s2 : enc_st) :
    r.fs_data s2 = if s2.rem ≠ 0 ∧ is_enq_external r._enq_hdr = false
      then seg_first r._data r._enq_hdr._dsize s2 else s2 := rfl

theorem fs_tail_eq (r : enq_rec) (s3 : enc_st) :
    r.fs_tail s3 = fs_assert (if s3.rem ≠ 0
      then seg_first (some (rec_tail_bytes r._enq_tail)) sizeof_rec_tail s3 else s3) := rfl

/-- What one segment copy of the first-invocation split branch does. -/
theorem seg_first_spec (src : Option (List Byte)) (len : Nat) (s : enc_st)
    (hwr : s.wr_cnt + s.rem < 2 ^ 64) :
    ∃ n, (seg_first src len s).wr_cnt = s.wr_cnt + n ∧
    (seg_first src len s).rem + n = s.rem ∧
    (seg_first src len s).rec_offs = s.rec_offs ∧
    (seg_first src len s).asserts = s.asserts ∧
    n ≤ len ∧ ((seg_first src len s).rem = 0 ∨ n = len) ∧
    ∀ out w0 : List Byte, s.wptr = out ++ w0.drop out.length → s.wr_cnt = out.length →
      (seg_first src len s).wptr =
        (out ++ mem_read src 0 n) ++ w0.drop (out ++ mem_read src 0 n).length := by
  by_cases h : s.rem ≥ len
  · have E : seg_first src len s =
        { s with wptr := mem_write s.wptr s.wr_cnt (mem_read src 0 len)
                 wr_cnt := s.wr_cnt + len
                 rem := s.rem - len } := by
      unfold seg_first
      simp only [h, if_true]
      rw [add_sz_eq _ _ (by omega), sub_sz_eq _ _ (by omega) h]
    rw [E]
    refine ⟨len, rfl, by simp only; omega, rfl, rfl, le_refl _, Or.inr rfl, ?_⟩
    intro out w0 hw hc
    simp only
    rw [hw, mem_write_append w0 out _ _ hc]
  · have E : seg_first src len s =
        { s with wptr := mem_write s.wptr s.wr_cnt (mem_read src 0 s.rem)
                 wr_cnt := s.wr_cnt + s.rem
                 rem := 0 } := by
      unfold seg_first
      simp only [h, if_false]
      rw [add_sz_eq _ _ hwr, sub_sz_eq _ _ (by omega) (le_refl _), Nat.sub_self]
    rw [E]
    refine ⟨s.rem, rfl, by simp only; omega, rfl, rfl, by omega, Or.inl rfl, ?_⟩
    intro out w0 hw hc
    simp only
    rw [hw, mem_write_append w0 out _ _ hc]

theorem fs_xid_arith (r : enq_rec) (s0 : enc_st) (hR : 39 ≤ s0.rem) (hR2 : s0.rem < 2 ^ 64)
    (hw : s0.wr_cnt = 39) :
    (r.fs_xid s0).wr_cnt + (r.fs_xid s0).rem = s0.rem ∧
    (r.fs_xid s0).rec_offs = s0.rec_offs ∧ (r.fs_xid s0).asserts = s0.asserts ∧
    (r.fs_xid s0).wr_cnt ≤ 39 + r._enq_hdr._xidsize ∧
    ((r.fs_xid s0).rem = 0 ∨ (r.fs_xid s0).wr_cnt = 39 + r._enq_hdr._xidsize) := by
  have e0 : sub_sz s0.rem sizeof_enq_hdr = s0.rem - 39 := by
    unfold sizeof_enq_hdr; rw [sub_sz_eq] <;> omega
  rw [fs_xid_eq, e0]
  by_cases hr : s0.rem - 39 ≠ 0
  · rw [if_pos hr]
    obtain ⟨n, c, m, o, a, l, d, -⟩ := seg_first_spec r._xidp r._enq_hdr._xidsize
      { s0 with rem := s0.rem - 39 } (by simp only; omega)
    simp only at c m o a l d
    exact ⟨by omega, o, a, by omega, by omega⟩
  · rw [if_neg hr]
    simp only
    exact ⟨by omega, trivial, trivial, by omega, by omega⟩

theorem fs_data_arith (r : enq_rec) (s : enc_st) (hwr : s.wr_cnt + s.rem < 2 ^ 64) :
    (r.fs_data s).wr_cnt + (r.fs_data s).rem = s.wr_cnt + s.rem ∧
    (r.fs_data s).rec_offs = s.rec_offs ∧ (r.fs_data s).asserts = s.asserts ∧
    s.wr_cnt ≤ (r.fs_data s).wr_cnt ∧
    ((is_enq_external r._enq_hdr = true ∨ s.rem = 0) → (r.fs_data s).wr_cnt = s.wr_cnt) ∧
    ((is_enq_external r._enq_hdr = false ∧ 0 < s.rem) →
      (r.fs_data s).wr_cnt ≤ s.wr_cnt + r._enq_hdr._dsize ∧
      ((r.fs_data s).rem = 0 ∨ (r.fs_data s).wr_cnt = s.wr_cnt + r._enq_hdr._dsize)) := by
  by_cases hc : s.rem ≠ 0 ∧ is_enq_external r._enq_hdr = false
  · rw [fs_data_eq, if_pos hc]
    obtain ⟨n, c, m, o, a, l, d, -⟩ := seg_first_spec r._data r._enq_hdr._dsize s hwr
    refine ⟨by omega, o, a, by omega, ?_, fun _ => ⟨by omega, by omega⟩⟩
    rintro (h | h)
    · rw [hc.2] at h; exact Bool.noConfusion h
    · exact absurd h hc.1
  · rw [fs_data_eq, if_neg hc]
    refine ⟨rfl, rfl, rfl, le_refl _, fun _ => rfl, ?_⟩
    rintro ⟨h1, h2⟩
    exact absurd ⟨by omega, h1⟩ hc

theorem fs_tail_arith (r : enq_rec) (s : enc_st) (hwr : s.wr_cnt + s.rem < 2 ^ 64) :
    (r.fs_tail s).wr_cnt + (r.fs_tail s).rem = s.wr_cnt + s.rem ∧
    (r.fs_tail s).rec_offs = s.rec_offs ∧
    (r.fs_tail s).asserts = (s.asserts && decide ((r.fs_tail s).rem = 0)) ∧
    s.wr_cnt ≤ (r.fs_tail s).wr_cnt ∧
    (r.fs_tail s).wr_cnt ≤ s.wr_cnt + 24 ∧
    ((r.fs_tail s).rem = 0 ∨ (r.fs_tail s).wr_cnt = s.wr_cnt + 24) := by
  by_cases hc : s.rem ≠ 0
  · rw [fs_tail_eq, if_pos hc, show sizeof_rec_tail = 24 from rfl]
    obtain ⟨n, c, m, o, a, l, d, -⟩ :=
      seg_first_spec (some (rec_tail_bytes r._enq_tail)) 24 s hwr
    simp only [fs_assert]
    exact ⟨by omega, o, by rw [a], by omega, by omega, by omega⟩
  · rw [fs_tail_eq, if_neg hc]
    refine ⟨rfl, rfl, rfl, le_refl _, by simp only [fs_assert]; omega,
      by simp only [fs_assert]; omega⟩

theorem first_split_arith (r : enq_rec) (s0 : enc_st)
    (hR : 39 ≤ s0.rem) (hR2 : s0.rem < 2 ^ 64)
    (hw : s0.wr_cnt = 39) (hS : s0.rem < r.size) :
    (r.encode_first_split s0).wr_cnt = s0.rem ∧
    (r.encode_first_split s0).rem = 0 ∧
    (r.encode_first_split s0).rec_offs = s0.rec_offs ∧
    (r.encode_first_split s0).asserts = s0.asserts := by
  unfold enq_rec.size at hS
  rw [encode_first_split_eq]
  obtain ⟨c1, o1, a1, l1, d1⟩ := fs_xid_arith r s0 hR hR2 hw
  obtain ⟨c2, o2, a2, l2, x2, y2⟩ := fs_data_arith r (r.fs_xid s0) (by omega)
  obtain ⟨c3, o3, a3, l3, u3, d3⟩ := fs_tail_arith r (r.fs_data (r.fs_xid s0)) (by omega)
  have key : (r.fs_tail (r.fs_data (r.fs_xid s0))).rem = 0 := by
    cases hx : is_enq_external r._enq_hdr
    · simp only [hx, Bool.false_eq_true, if_false] at hS
      by_cases hz : 0 < (r.fs_xid s0).rem
      · have := y2 ⟨hx, hz⟩; omega
      · have := x2 (Or.inr (by omega)); omega
    · simp only [hx, if_true] at hS
      have := x2 (Or.inl hx); omega
  refine ⟨by omega, key, by rw [o3, o2, o1], ?_⟩
  rw [a3, key, a2, a1]; simp

theorem encode_cont_final_eq (clean : Bool) (r : enq_rec) (rec_offs_dblks : Nat) (s0 : enc_st) :
    r.encode_cont_final clean rec_offs_dblks s0 =
      r.cf_tail clean rec_offs_dblks (r.cf_data (r.cf_xid s0)) := rfl

theorem cf_xid_arith (r : enq_rec) (s0 : enc_st) (hxs : r._enq_hdr._xidsize < 2 ^ 64)
    (ho : 39 ≤ s0.rec_offs) (hro : s0.rec_offs < 2 ^ 64) (hw : s0.wr_cnt = 0) :
    (r.cf_xid s0).asserts = s0.asserts ∧ (r.cf_xid s0).rem = s0.rem ∧
    ((r._enq_hdr._xidsize + 39 ≤ s0.rec_offs ∧ (r.cf_xid s0).wr_cnt = 0 ∧
        (r.cf_xid s0).rec_offs + r._enq_hdr._xidsize + 39 = s0.rec_offs) ∨
     (s0.rec_offs < r._enq_hdr._xidsize + 39 ∧ (r.cf_xid s0).rec_offs = 0 ∧
        (r.cf_xid s0).wr_cnt + s0.rec_offs = r._enq_hdr._xidsize + 39)) := by
  have e0 : sub_sz s0.rec_offs sizeof_enq_hdr = s0.rec_offs - 39 := by
    unfold sizeof_enq_hdr; rw [sub_sz_eq] <;> omega
  by_cases h1 : r._enq_hdr._xidsize > s0.rec_offs - 39
  · have e1 : sub_sz r._enq_hdr._xidsize (s0.rec_offs - 39) =
        r._enq_hdr._xidsize - (s0.rec_offs - 39) := sub_sz_eq _ _ hxs (by omega)
    have h2 : r._enq_hdr._xidsize - (s0.rec_offs - 39) ≠ 0 := by omega
    have e3 : sub_sz r._enq_hdr._xidsize (r._enq_hdr._xidsize - (s0.rec_offs - 39)) =
        s0.rec_offs - 39 := by rw [sub_sz_eq _ _ hxs (by omega)]; omega
    have e4 : sub_sz (s0.rec_offs - 39) (s0.rec_offs - 39) = 0 := by
      rw [sub_sz_eq _ _ (by omega) (le_refl _)]; omega
    have E : r.cf_xid s0 =
        { s0 with wptr := mem_write s0.wptr 0
                    (mem_read r._xidp (s0.rec_offs - 39) (r._enq_hdr._xidsize - (s0.rec_offs - 39)))
                  wr_cnt := r._enq_hdr._xidsize - (s0.rec_offs - 39)
                  rec_offs := 0 } := by
      unfold enq_rec.cf_xid
      simp only [e0, h1, if_true, e1, h2, ne_eq, not_false_eq_true, e3, e4, hw]
      rw [add_sz_eq _ _ (by omega), Nat.zero_add]
    rw [E]
    exact ⟨rfl, rfl, Or.inr ⟨by omega, rfl, by simp only; omega⟩⟩
  · have e1 : sub_sz r._enq_hdr._xidsize 0 = r._enq_hdr._xidsize := by
      rw [sub_sz_eq _ _ hxs (by omega)]; omega
    have E : r.cf_xid s0 = { s0 with rec_offs := s0.rec_offs - 39 - r._enq_hdr._xidsize } := by
      unfold enq_rec.cf_xid
      simp only [e0, h1, if_false, ne_eq, not_true_eq_false, e1]
      rw [sub_sz_eq _ _ (by omega) (by omega)]
    rw [E]
    exact ⟨rfl, rfl, Or.inl ⟨by omega, hw, by simp only; omega⟩⟩

theorem cf_data_arith (r : enq_rec) (s : enc_st) (hds : r._enq_hdr._dsize < 2 ^ 64)
    (hro : s.rec_offs < 2 ^ 64)
    (hwr : is_enq_external r._enq_hdr = false → s.wr_cnt + r._enq_hdr._dsize < 2 ^ 64) :
    (r.cf_data s).asserts = s.asserts ∧ (r.cf_data s).rem = s.rem ∧
    ((r._enq_hdr._dsize ≤ s.rec_offs ∧ (r.cf_data s).wr_cnt = s.wr_cnt ∧
        (r.cf_data s).rec_offs + r._enq_hdr._dsize = s.rec_offs) ∨
     (s.rec_offs < r._enq_hdr._dsize ∧ (r.cf_data s).rec_offs = 0 ∧
        ((is_enq_external r._enq_hdr = false ∧
            (r.cf_data s).wr_cnt + s.rec_offs = s.wr_cnt + r._enq_hdr._dsize) ∨
         (is_enq_external r._enq_hdr = true ∧ (r.cf_data s).wr_cnt = s.wr_cnt)))) := by
  by_cases h1 : r._enq_hdr._dsize > s.rec_offs
  · have e1 : sub_sz r._enq_hdr._dsize s.rec_offs = r._enq_hdr._dsize - s.rec_offs :=
      sub_sz_eq _ _ hds (by omega)
    have h2 : r._enq_hdr._dsize - s.rec_offs ≠ 0 := by omega
    have e3 : sub_sz r._enq_hdr._dsize (r._enq_hdr._dsize - s.rec_offs) = s.rec_offs := by
      rw [sub_sz_eq _ _ hds (by omega)]; omega
    have e4 : sub_sz s.rec_offs s.rec_offs = 0 := by
      rw [sub_sz_eq _ _ hro (le_refl _)]; omega
    cases hx : is_enq_external r._enq_hdr
    · have E : r.cf_data s =
          { s with wptr := mem_write s.wptr s.wr_cnt
                     (mem_read r._data s.rec_offs (r._enq_hdr._dsize - s.rec_offs))
                   wr_cnt := s.wr_cnt + (r._enq_hdr._dsize - s.rec_offs)
                   rec_offs := 0 } := by
        unfold enq_rec.cf_data
        simp only [h1, if_true, e1, h2, ne_eq, not_false_eq_true, hx, and_self, e3, e4]
        rw [add_sz_eq _ _ (by have := hwr hx; omega)]
      rw [E]
      exact ⟨rfl, rfl, Or.inr ⟨h1, rfl, Or.inl ⟨rfl, by simp only; omega⟩⟩⟩
    · have E : r.cf_data s = { s with rec_offs := 0 } := by
        unfold enq_rec.cf_data
        simp only [h1, if_true, e1, h2, ne_eq, not_false_eq_true, hx, Bool.true_eq_false,
          and_false, if_false, e3, e4]
      rw [E]
      exact ⟨rfl, rfl, Or.inr ⟨h1, rfl, Or.inr ⟨rfl, rfl⟩⟩⟩
  · have e1 : sub_sz r._enq_hdr._dsize 0 = r._enq_hdr._dsize := by
      rw [sub_sz_eq _ _ hds (by omega)]; omega
    have E : r.cf_data s = { s with rec_offs := s.rec_offs - r._enq_hdr._dsize } := by
      unfold enq_rec.cf_data
      simp only [h1, if_false, ne_eq, not_true_eq_false, false_and, e1]
      rw [sub_sz_eq _ _ hro (by omega)]
    rw [E]
    exact ⟨rfl, rfl, Or.inl ⟨by omega, rfl, by simp only; omega⟩⟩

theorem cf_tail_arith (clean : Bool) (r : enq_rec) (rec_offs_dblks : Nat) (s : enc_st)
    (hro : s.rec_offs < 2 ^ 64) (hwr : s.wr_cnt + 24 < 2 ^ 64) :
    (r.cf_tail clean rec_offs_dblks s).rem = s.rem ∧
    (r.cf_tail clean rec_offs_dblks s).asserts =
      (s.asserts && decide ((r.cf_tail clean rec_offs_dblks s).rec_offs = 0)) ∧
    ((24 ≤ s.rec_offs ∧ (r.cf_tail clean rec_offs_dblks s).wr_cnt = s.wr_cnt ∧
        (r.cf_tail clean rec_offs_dblks s).rec_offs + 24 = s.rec_offs) ∨
     (s.rec_offs < 24 ∧ (r.cf_tail clean rec_offs_dblks s).rec_offs = 0 ∧
        (r.cf_tail clean rec_offs_dblks s).wr_cnt + s.rec_offs = s.wr_cnt + 24)) := by
  by_cases h1 : 24 > s.rec_offs
  · have e1 : sub_sz 24 s.rec_offs = 24 - s.rec_offs := sub_sz_eq _ _ (by omega) (by omega)
    have h2 : 24 - s.rec_offs ≠ 0 := by omega
    have e3 : sub_sz 24 (24 - s.rec_offs) = s.rec_offs := by
      rw [sub_sz_eq _ _ (by omega) (by omega)]; omega
    have e4 : sub_sz s.rec_offs s.rec_offs = 0 := by
      rw [sub_sz_eq _ _ hro (le_refl _)]; omega
    have e5 : add_sz s.wr_cnt (24 - s.rec_offs) = s.wr_cnt + (24 - s.rec_offs) :=
      add_sz_eq _ _ (by omega)
    cases clean
    · have E : r.cf_tail false rec_offs_dblks s =
          { s with wptr := mem_write s.wptr s.wr_cnt
                     (mem_read (some (rec_tail_bytes r._enq_tail)) s.rec_offs (24 - s.rec_offs))
                   wr_cnt := s.wr_cnt + (24 - s.rec_offs)
                   rec_offs := 0
                   asserts := s.asserts && decide ((0 : Nat) = 0) } := by
        unfold enq_rec.cf_tail
        simp only [sizeof_rec_tail, h1, if_true, e1, h2, ne_eq, not_false_eq_true,
          Bool.false_eq_true, if_false, e3, e4, e5]
      rw [E]
      exact ⟨rfl, rfl, Or.inr ⟨h1, rfl, by simp only; omega⟩⟩
    · have E : r.cf_tail true rec_offs_dblks s =
          { s with wptr := mem_write
                     (mem_write s.wptr s.wr_cnt
                       (mem_read (some (rec_tail_bytes r._enq_tail)) s.rec_offs
                         (24 - s.rec_offs)))
                     (s.wr_cnt + (24 - s.rec_offs))
                     (List.replicate
                       (sub_sz (size_dblks (sub_sz r.rec_size
                          (rec_offs_dblks * QLS_DBLK_SIZE_BYTES)) *
                            QLS_DBLK_SIZE_BYTES % 2 ^ 64) (s.wr_cnt + (24 - s.rec_offs)))
                       QLS_CLEAN_CHAR)
                   wr_cnt := s.wr_cnt + (24 - s.rec_offs)
                   rec_offs := 0
                   asserts := s.asserts && decide ((0 : Nat) = 0) } := by
        unfold enq_rec.cf_tail
        simp only [sizeof_rec_tail, h1, if_true, e1, h2, ne_eq, not_false_eq_true,
          e3, e4, e5]
      rw [E]
      exact ⟨rfl, rfl, Or.inr ⟨h1, rfl, by simp only; omega⟩⟩
  · have e1 : sub_sz 24 0 = 24 := by rw [sub_sz_eq _ _ (by omega) (by omega)]
    have E : r.cf_tail clean rec_offs_dblks s =
        { s with rec_offs := s.rec_offs - 24
                 asserts := s.asserts && decide (s.rec_offs - 24 = 0) } := by
      unfold enq_rec.cf_tail
      simp only [sizeof_rec_tail, h1, if_false, ne_eq, not_true_eq_false, e1]
      rw [sub_sz_eq _ _ hro (by omega)]
    rw [E]
    exact ⟨rfl, rfl, Or.inl ⟨by omega, rfl, by simp only; omega⟩⟩

theorem cont_final_arith (clean : Bool) (r : enq_rec) (rec_offs_dblks : Nat) (s0 : enc_st)
    (hfit : r.size < 2 ^ 64) (hds : r._enq_hdr._dsize < 2 ^ 64)
    (ho : 39 ≤ s0.rec_offs) (hS : s0.rec_offs < r.size) (hw : s0.wr_cnt = 0) :
    (r.encode_cont_final clean rec_offs_dblks s0).rec_offs = 0 ∧
    (r.encode_cont_final clean rec_offs_dblks s0).asserts = s0.asserts ∧
    (r.encode_cont_final clean rec_offs_dblks s0).rem = s0.rem ∧
    1 ≤ (r.encode_cont_final clean rec_offs_dblks s0).wr_cnt ∧
    ((is_enq_external r._enq_hdr = false ∨ r._enq_hdr._dsize = 0 ∨
        s0.rec_offs ≤ 39 + r._enq_hdr._xidsize) →
      (r.encode_cont_final clean rec_offs_dblks s0).wr_cnt + s0.rec_offs = r.size) ∧
    ((is_enq_external r._enq_hdr = true ∧ 39 + r._enq_hdr._xidsize < s0.rec_offs) →
      (r.encode_cont_final clean rec_offs_dblks s0).wr_cnt ≤ 24 ∧
      r.size ≤ (r.encode_cont_final clean rec_offs_dblks s0).wr_cnt + s0.rec_offs) := by
  unfold enq_rec.size at hfit hS ⊢
  rw [encode_cont_final_eq]
  obtain ⟨a1, m1, d1⟩ := cf_xid_arith r s0 (by split at hfit <;> omega) ho (by omega) hw
  obtain ⟨a2, m2, d2⟩ := cf_data_arith r (r.cf_xid s0) hds (by omega)
    (fun hx => by simp only [hx, Bool.false_eq_true, if_false] at hfit hS; omega)
  obtain ⟨m3, a3, d3⟩ := cf_tail_arith clean r rec_offs_dblks (r.cf_data (r.cf_xid s0))
    (by omega) (by
      cases hx : is_enq_external r._enq_hdr
      · simp only [hx, Bool.false_eq_true, if_false] at hfit hS
        rcases d2 with d2 | ⟨_, _, ⟨_, d2⟩ | ⟨h, _⟩⟩
        · omega
        · omega
        · rw [hx] at h; exact Bool.noConfusion h
      · simp only [hx, if_true] at hfit hS
        rcases d2 with d2 | ⟨_, _, ⟨h, _⟩ | ⟨_, d2⟩⟩
        · omega
        · rw [hx] at h; exact Bool.noConfusion h
        · omega)
  cases hx : is_enq_external r._enq_hdr
  · simp only [hx, Bool.false_eq_true, if_false] at hfit hS ⊢
    have hd2 : (r._enq_hdr._dsize ≤ (r.cf_xid s0).rec_offs ∧
        (r.cf_data (r.cf_xid s0)).wr_cnt = (r.cf_xid s0).wr_cnt ∧
        (r.cf_data (r.cf_xid s0)).rec_offs + r._enq_hdr._dsize = (r.cf_xid s0).rec_offs) ∨
       ((r.cf_xid s0).rec_offs < r._enq_hdr._dsize ∧ (r.cf_data (r.cf_xid s0)).rec_offs = 0 ∧
        (r.cf_data (r.cf_xid s0)).wr_cnt + (r.cf_xid s0).rec_offs =
          (r.cf_xid s0).wr_cnt + r._enq_hdr._dsize) := by
      rcases d2 with d2 | ⟨h1, h2, ⟨_, d2⟩ | ⟨h, _⟩⟩
      · exact Or.inl d2
      · exact Or.inr ⟨h1, h2, d2⟩
      · rw [hx] at h; exact Bool.noConfusion h
    have hq : (r.cf_tail clean rec_offs_dblks (r.cf_data (r.cf_xid s0))).rec_offs = 0 := by
      omega
    refine ⟨hq, by rw [a3, hq, a2, a1]; simp, by rw [m3, m2, m1], by omega,
      fun _ => by omega, fun h => h.1.elim⟩
  · simp only [hx, if_true] at hfit hS ⊢
    have hd2 : (r._enq_hdr._dsize ≤ (r.cf_xid s0).rec_offs ∧
        (r.cf_data (r.cf_xid s0)).wr_cnt = (r.cf_xid s0).wr_cnt ∧
        (r.cf_data (r.cf_xid s0)).rec_offs + r._enq_hdr._dsize = (r.cf_xid s0).rec_offs) ∨
       ((r.cf_xid s0).rec_offs < r._enq_hdr._dsize ∧ (r.cf_data (r.cf_xid s0)).rec_offs = 0 ∧
        (r.cf_data (r.cf_xid s0)).wr_cnt = (r.cf_xid s0).wr_cnt) := by
      rcases d2 with d2 | ⟨h1, h2, ⟨h, _⟩ | ⟨_, d2⟩⟩
      · exact Or.inl d2
      · rw [hx] at h; exact Bool.noConfusion h
      · exact Or.inr ⟨h1, h2, d2⟩
    have hq : (r.cf_tail clean rec_offs_dblks (r.cf_data (r.cf_xid s0))).rec_offs = 0 := by
      omega
    refine ⟨hq, by rw [a3, hq, a2, a1]; simp, by rw [m3, m2, m1], by omega,
      fun h => ?_, fun h => by omega⟩
    rcases h with h | h | h
    · exact Bool.noConfusion h
    · omega
    · omega

theorem encode_run_eq (clean : Bool) (r : enq_rec) (wptr : List Byte)
    (rec_offs_dblks max_size_dblks : Nat) :
    r.encode_run clean wptr rec_offs_dblks max_size_dblks =
      if rec_offs_dblks ≠ 0 then
        if sub_sz (size_dblks r.rec_size) rec_offs_dblks > max_size_dblks then
          r.encode_cont_split (r.enc_init wptr rec_offs_dblks max_size_dblks)
        else
          r.encode_cont_final clean rec_offs_dblks
            (r.enc_init wptr rec_offs_dblks max_size_dblks)
      else
        if size_dblks r.rec_size > max_size_dblks then
          r.encode_first_split (r.enc_hdr wptr rec_offs_dblks max_size_dblks)
        else
          r.encode_first_fit clean (r.enc_hdr wptr rec_offs_dblks max_size_dblks) := rfl

theorem rec_size_eq_size (r : enq_rec) (h : r.size < 2 ^ 64) : r.rec_size = r.size := by
  unfold enq_rec.size at h ⊢
  unfold enq_rec.rec_size enq_rec.rec_size_of sizeof_enq_hdr sizeof_rec_tail
  cases hx : is_enq_external r._enq_hdr <;> simp [hx] at h ⊢ <;> omega

theorem fits_of_size (r : enq_rec) (h : r.size < 2 ^ 64) : r.fits := by
  unfold enq_rec.size at h
  unfold enq_rec.fits sizeof_enq_hdr sizeof_rec_tail
  exact h

/-- The arithmetic of one invocation of `encode` that meets the
preconditions: how many bytes are copied, and the assertions. -/
theorem encode_arith (clean : Bool) (r : enq_rec) (wptr : List Byte)
    (rec_offs_dblks max_size_dblks : Nat)
    (hfit : r.size < 2 ^ 64) (hds : r._enq_hdr._dsize < 2 ^ 64)
    (hmax : 0 < max_size_dblks) (hoffs : rec_offs_dblks < size_dblks r.size) :
    (r.encode_run clean wptr rec_offs_dblks max_size_dblks).asserts =
      (r._xidp.isSome || decide (r._enq_hdr._xidsize = 0)) ∧
    1 ≤ (r.encode_run clean wptr rec_offs_dblks max_size_dblks).wr_cnt ∧
    (rec_offs_dblks + max_size_dblks < size_dblks r.size →
      (r.encode_run clean wptr rec_offs_dblks max_size_dblks).wr_cnt = max_size_dblks * 128) ∧
    (size_dblks r.size ≤ rec_offs_dblks + max_size_dblks →
      (r.encode_run clean wptr rec_offs_dblks max_size_dblks).wr_cnt ≤ max_size_dblks * 128 ∧
      size_dblks (r.encode_run clean wptr rec_offs_dblks max_size_dblks).wr_cnt +
        rec_offs_dblks = size_dblks r.size ∧
      ((is_enq_external r._enq_hdr = false ∨ r._enq_hdr._dsize = 0 ∨
          rec_offs_dblks * 128 ≤ 39 + r._enq_hdr._xidsize) →
        (r.encode_run clean wptr rec_offs_dblks max_size_dblks).wr_cnt +
          rec_offs_dblks * 128 = r.size)) := by
  have hrs := rec_size_eq_size r hfit
  have hsd : ∀ n, size_dblks n = (n + 127) / 128 := fun n => rfl
  rw [hsd] at hoffs
  have hinit : (r.enc_init wptr rec_offs_dblks max_size_dblks).asserts =
      (r._xidp.isSome || decide (r._enq_hdr._xidsize = 0)) := by
    simp [enq_rec.enc_init, hmax]
  rw [encode_run_eq, hrs]
  by_cases h0 : rec_offs_dblks ≠ 0
  · rw [if_pos h0]
    have e1 : sub_sz (size_dblks r.size) rec_offs_dblks = size_dblks r.size - rec_offs_dblks := by
      rw [sub_sz_eq]
      · rw [hsd]; omega
      · rw [hsd]; omega
    have hro : (r.enc_init wptr rec_offs_dblks max_size_dblks).rec_offs = rec_offs_dblks * 128 :=
      rfl
    rw [e1]
    by_cases h1 : size_dblks r.size - rec_offs_dblks > max_size_dblks
    · rw [if_pos h1]
      rw [hsd] at h1
      have hrem : (r.enc_init wptr rec_offs_dblks max_size_dblks).rem = max_size_dblks * 128 :=
        rfl
      obtain ⟨c, m, o, a⟩ := cont_split_arith r (r.enc_init wptr rec_offs_dblks max_size_dblks)
        hfit hds (by rw [hro]; omega) (by rw [hrem]; omega) rfl (by rw [hro, hrem]; omega)
      rw [hsd]
      refine ⟨by rw [a, hinit], by rw [c, hrem]; omega, fun _ => by rw [c, hrem],
        fun h => by omega⟩
    · rw [if_neg h1]
      rw [hsd] at h1
      obtain ⟨o, a, m, l, x, y⟩ := cont_final_arith clean r rec_offs_dblks
        (r.enc_init wptr rec_offs_dblks max_size_dblks) hfit hds (by rw [hro]; omega)
        (by rw [hro]; omega) rfl
      rw [hro] at x y
      rw [hsd]
      refine ⟨by rw [a, hinit], l, fun h => by omega, fun _ => ?_⟩
      rw [hsd]
      by_cases hslip : is_enq_external r._enq_hdr = false ∨ r._enq_hdr._dsize = 0 ∨
          rec_offs_dblks * 128 ≤ 39 + r._enq_hdr._xidsize
      · have := x hslip
        exact ⟨by omega, by omega, fun _ => this⟩
      · have hs : is_enq_external r._enq_hdr = true ∧
            39 + r._enq_hdr._xidsize < rec_offs_dblks * 128 := by
          refine ⟨?_, by omega⟩
          cases hx : is_enq_external r._enq_hdr
          · exact absurd (Or.inl hx) hslip
          · rfl
        have := y hs
        have hsz : r.size = 39 + r._enq_hdr._xidsize + 24 := by
          unfold enq_rec.size; simp [hs.1]
        exact ⟨by omega, by omega, fun h => absurd h hslip⟩
  · rw [if_neg h0]
    have h00 : rec_offs_dblks = 0 := by omega
    subst h00
    have hhdr : (r.enc_hdr wptr 0 max_size_dblks).asserts =
        (r._xidp.isSome || decide (r._enq_hdr._xidsize = 0)) := hinit
    by_cases h1 : size_dblks r.size > max_size_dblks
    · rw [if_pos h1]
      rw [hsd] at h1
      have hrem : (r.enc_hdr wptr 0 max_size_dblks).rem = max_size_dblks * 128 :=
        rfl
      obtain ⟨c, m, o, a⟩ := first_split_arith r (r.enc_hdr wptr 0 max_size_dblks)
        (by rw [hrem]; omega) (by rw [hrem]; omega) rfl (by rw [hrem]; omega)
      rw [hsd]
      refine ⟨by rw [a, hhdr], by rw [c, hrem]; omega, fun _ => by rw [c, hrem],
        fun h => by omega⟩
    · rw [if_neg h1]
      rw [hsd] at h1
      obtain ⟨-, c, a⟩ := first_fit_spec clean r (r.enc_hdr wptr 0 max_size_dblks) wptr
        (fits_of_size r hfit)
        (by
          show mem_write wptr 0 (enq_hdr_bytes r._enq_hdr) = _
          rw [mem_write_zero, enq_hdr_bytes_length])
        rfl
      rw [hrs] at c
      rw [hsd]
      refine ⟨by rw [a, hhdr], by rw [c]; unfold enq_rec.size; omega, fun h => by omega,
        fun _ => ?_⟩
      rw [c, hsd]
      exact ⟨by omega, by omega, fun _ => by omega⟩

theorem read_ge (s : ifstream) (n : Nat) (hg : s.good = true) (hn : n ≤ s.buf.length) :
    s.read n = (s.buf.take n, { s with buf := s.buf.drop n, gcount := n }) := by
  unfold ifstream.read
  rw [if_pos hg, if_pos hn]

theorem read_lt (s : ifstream) (n : Nat) (hg : s.good = true) (hn : s.buf.length < n) :
    s.read n = (s.buf, { s with buf := [], eofbit := true, failbit := true,
                                gcount := s.buf.length }) := by
  unfold ifstream.read
  rw [if_pos hg, if_neg (by omega)]

theorem ignore_ge (s : ifstream) (n : Nat) (hg : s.good = true) (hn : n ≤ s.buf.length)
    (hs : n < 2 ^ 63 - 1) :
    s.ignore n = { s with buf := s.buf.drop n, gcount := n } := by
  unfold ifstream.ignore
  rw [if_pos hg, if_neg (by omega), if_neg (by omega), if_pos hn]

theorem ignore_lt (s : ifstream) (n : Nat) (hg : s.good = true) (hn : s.buf.length < n)
    (hs : n < 2 ^ 63) :
    s.ignore n = { s with buf := [], eofbit := true, gcount := s.buf.length } := by
  unfold ifstream.ignore
  rw [if_pos hg, if_neg (by omega)]
  by_cases hm : n = 2 ^ 63 - 1
  · rw [if_pos hm, Nat.min_eq_left (by omega)]
  · rw [if_neg hm, if_neg (by omega)]

theorem ignore_neg (s : ifstream) (n : Nat) (hg : s.good = true) (hs : 2 ^ 63 ≤ n) :
    s.ignore n = { s with gcount := 0 } := by
  unfold ifstream.ignore
  rw [if_pos hg, if_pos (by omega)]

theorem good_bits (s : ifstream) (hg : s.good = true) :
    s.eofbit = false ∧ s.failbit = false ∧ s.badbit = false := by
  unfold ifstream.good at hg
  cases h1 : s.eofbit <;> cases h2 : s.failbit <;> cases h3 : s.badbit <;> simp_all

theorem good_of_bits (s : ifstream) (h1 : s.eofbit = false) (h2 : s.failbit = false)
    (h3 : s.badbit = false) : s.good = true := by
  unfold ifstream.good; simp [h1, h2, h3]

theorem good_on (b : List Byte) : (ifstream.on b).good = true := rfl

theorem good_advance (s : ifstream) (n : Nat) (hg : s.good = true) :
    (s.advance n).good = true := hg

/-- The outcome of the block that follows a short read, when the stream has
met the end of the file and is not bad. -/
theorem decode_eof_spec (s : dec_st) (he : s.ifs.eofbit = true) (hb : s.ifs.badbit = false) :
    (decode_eof s).outcome = dec_outcome.returned false ∧
    (decode_eof s).st.asserts = s.asserts ∧
    (decode_eof s).st.rec_offs = s.rec_offs ∧
    (decode_eof s).st.r = s.r ∧
    (decode_eof s).st.ifs = { s.ifs with failbit := false } := by
  simp [decode_eof, ifstream.eof, ifstream.clear_failbit, ifstream.fail, ifstream.bad, he, hb]

theorem size_dblks_eq (n : Nat) : size_dblks n = (n + 127) / 128 := rfl

/-- The value one invocation of `encode` returns when the preconditions
hold: the budget, or what is left of the record when that is less. -/
theorem encode_ret (clean : Bool) (r : enq_rec) (wptr : List Byte)
    (rec_offs_dblks max_size_dblks : Nat)
    (hfit : r.size < 2 ^ 64) (hds : r._enq_hdr._dsize < 2 ^ 64)
    (hmax : 0 < max_size_dblks) (hoffs : rec_offs_dblks < size_dblks r.size)
    (hm32 : max_size_dblks < 2 ^ 32) :
    (rec_offs_dblks + max_size_dblks < size_dblks r.size →
      r.encode clean wptr rec_offs_dblks max_size_dblks = max_size_dblks) ∧
    (size_dblks r.size ≤ rec_offs_dblks + max_size_dblks →
      r.encode clean wptr rec_offs_dblks max_size_dblks + rec_offs_dblks = size_dblks r.size) := by
  obtain ⟨-, h1, h2, h3⟩ := encode_arith clean r wptr rec_offs_dblks max_size_dblks hfit hds
    hmax hoffs
  unfold enq_rec.encode
  simp only [size_dblks_eq] at *
  constructor
  · intro h
    rw [h2 h]
    omega
  · intro h
    obtain ⟨h4, h5, -⟩ := h3 h
    omega

theorem encode_split_core (clean : Bool) (r : enq_rec)
    (hfit : r.size < 2 ^ 64) (hds : r._enq_hdr._dsize < 2 ^ 64)
    (bs : List (List Byte × Nat)) :
    ∀ offs, offs < size_dblks r.size → (∀ b ∈ bs, 0 < b.2 ∧ b.2 < 2 ^ 32) →
      ((r.encode_split clean offs bs).map (fun p => p.2)).sum + offs =
        min ((bs.map (fun b => b.2)).sum + offs) (size_dblks r.size) ∧
      (r.encode_split clean offs bs).length ≤ bs.length ∧
      ∀ i, i + 1 < (r.encode_split clean offs bs).length →
        ((r.encode_split clean offs bs).get? i).map (fun p => p.2) =
          (bs.get? i).map (fun b => b.2) := by
  induction bs with
  | nil =>
    intro offs ho _
    simp [enq_rec.encode_split]
    omega
  | cons b rest ih =>
    intro offs ho hb
    obtain ⟨wptr, m⟩ := b
    have hm := hb (wptr, m) (List.mem_cons_self _ _)
    simp only at hm
    obtain ⟨r1, r2⟩ := encode_ret clean r wptr offs m hfit hds hm.1 ho hm.2
    have hrs : r.rec_size_dblks = size_dblks r.size := by
      unfold enq_rec.rec_size_dblks; rw [rec_size_eq_size r hfit]
    by_cases hc : offs + m < size_dblks r.size
    · have hret := r1 hc
      have E : r.encode_split clean offs ((wptr, m) :: rest) =
          (r.encode_run clean wptr offs m, m) :: r.encode_split clean (offs + m) rest := by
        rw [enq_rec.encode_split, hret, hrs, if_neg (by omega)]
      obtain ⟨i1, i2, i3⟩ := ih (offs + m) hc (fun b hb2 => hb b (List.mem_cons_of_mem _ hb2))
      rw [E]
      refine ⟨?_, by simp only [List.length_cons]; omega, ?_⟩
      · simp only [List.map_cons, List.sum_cons]
        omega
      · intro i hi
        cases i with
        | zero => simp
        | succ j =>
          simp only [List.length_cons] at hi
          simp only [List.get?_cons_succ]
          exact i3 j (by omega)
    · have hret := r2 (by omega)
      have E : r.encode_split clean offs ((wptr, m) :: rest) =
          [(r.encode_run clean wptr offs m, r.encode clean wptr offs m)] := by
        rw [enq_rec.encode_split, hrs, if_pos (by omega)]
      rw [E]
      refine ⟨?_, by simp, ?_⟩
      · simp only [List.map_cons, List.map_nil, List.sum_cons, List.sum_nil]
        omega
      · intro i hi
        simp at hi

/-- C3 -- Block rounding.  For every record (sizes that fit `std::size_t`) and
every sequence of budgets, each at least one block, given to `encode` with
`rec_offs_dblks` advanced by the returned count: the values returned add up to
`size_dblks(rec_size())` as soon as the budgets reach it (and to the budgets
spent before that), no more invocations are made than budgets given, and every
invocation but the last returns exactly its budget; a 10-block record with the
budgets 4 and 6 returns 4 and then 6. -/
theorem encode_split_block_rounding (clean : Bool) (r : enq_rec)
    (bs : List (List Byte × Nat))
    (hfit : r.size < 2 ^ 64) (hds : r._enq_hdr._dsize < 2 ^ 64)
    (hb : ∀ b ∈ bs, 0 < b.2 ∧ b.2 < 2 ^ 32) :
    ((r.encode_split clean 0 bs).map (fun p => p.2)).sum =
      min ((bs.map (fun b => b.2)).sum) (size_dblks r.rec_size) ∧
    (r.encode_split clean 0 bs).length ≤ bs.length ∧
    (∀ i, i + 1 < (r.encode_split clean 0 bs).length →
      ((r.encode_split clean 0 bs).get? i).map (fun p => p.2) =
        (bs.get? i).map (fun b => b.2)) ∧
    size_dblks ten_block_rec.rec_size = 10 ∧
    (ten_block_rec.encode_split clean 0 [([], 4), ([], 6)]).map (fun p => p.2) = [4, 6] := by
  have h0 : 0 < size_dblks r.size := by
    rw [size_dblks_eq]; unfold enq_rec.size; omega
  obtain ⟨h1, h2, h3⟩ := encode_split_core clean r hfit hds bs 0 h0 hb
  rw [rec_size_eq_size r hfit]
  refine ⟨by omega, h2, h3, by decide, ?_⟩
  cases clean <;> decide

theorem encode_split_block_rounding_witness :
    ((ten_block_rec.encode_split false 0 [([], 4), ([], 3), ([], 5)]).map (fun p => p.2)).sum =
      min (([([], 4), ([], 3), ([], 5)] : List (List Byte × Nat)).map (fun b => b.2)).sum
        (size_dblks ten_block_rec.rec_size) :=
  (encode_split_block_rounding false ten_block_rec [([], 4), ([], 3), ([], 5)]
    (by decide) (by decide) (by decide)).1

/-- C2 -- Split invariance fails for an external record with `dsize > 0` whose
tail straddles a block boundary: encoded with the budgets 1 and 1 the
invocations write 128 and 20 bytes, and their concatenation differs from the
143 bytes a single invocation with the budget `size_dblks(rec_size())`
writes. -/
theorem split_invariance_fails_external :
    size_dblks slip_rec.rec_size = 2 ∧
    ((slip_rec.encode_split false 0 [([], 1), ([], 1)]).map (fun p => p.2)) = [1, 1] ∧
    ((slip_rec.encode_split false 0 [([], 1), ([], 1)]).map
        (fun p => p.1.written.length)) = [128, 20] ∧
    (slip_rec.encode_run false [] 0 2).written.length = 143 ∧
    ((slip_rec.encode_split false 0 [([], 1), ([], 1)]).map (fun p => p.1.written)).flatten ≠
      (slip_rec.encode_run false [] 0 2).written := by
  decide

/-- C4 -- The total of bytes written fails for an external record with
`dsize > 0` whose tail straddles a block boundary: encoded with the budgets 1
and 1 the sum of `wr_cnt` is 148, while `rec_size()` is
`sizeof(hdr) + xidsize + sizeof(tail) = 143`. -/
theorem total_bytes_fails_external :
    slip_rec.rec_size = sizeof_enq_hdr + 80 + sizeof_rec_tail ∧
    slip_rec.rec_size = 143 ∧
    ((slip_rec.encode_split false 0 [([], 1), ([], 1)]).map (fun p => p.1.wr_cnt)).sum = 148 := by
  decide

/-- One invocation from offset 0 with a budget that holds the whole record
leaves the image of the record at the start of the buffer, then the fill of the
clean mode, then the buffer as it was. -/
theorem encode_fit_run (clean : Bool) (r : enq_rec) (wptr : List Byte) (max_size_dblks : Nat)
    (hfit : r.size < 2 ^ 64) (hmax : size_dblks r.rec_size ≤ max_size_dblks) :
    (r.encode_run clean wptr 0 max_size_dblks).wptr =
      (r.image ++ clean_fill clean r.rec_size r.rec_size) ++
        wptr.drop (r.image ++ clean_fill clean r.rec_size r.rec_size).length ∧
    (r.encode_run clean wptr 0 max_size_dblks).wr_cnt = r.rec_size := by
  rw [encode_run_eq]
  rw [if_neg (by simp), if_neg (by omega)]
  have hw : (r.enc_hdr wptr 0 max_size_dblks).wptr =
      enq_hdr_bytes r._enq_hdr ++ wptr.drop 39 := by
    simp [enq_rec.enc_hdr, mem_write, enq_hdr_bytes_length]
  obtain ⟨h1, h2, -⟩ := first_fit_spec clean r (r.enc_hdr wptr 0 max_size_dblks) wptr
    (fits_of_size r hfit) hw rfl
  exact ⟨h1, h2⟩

theorem encode_fit_written (clean : Bool) (r : enq_rec) (wptr : List Byte)
    (max_size_dblks : Nat)
    (hfit : r.size < 2 ^ 64) (hmax : size_dblks r.rec_size ≤ max_size_dblks) :
    (r.encode_run clean wptr 0 max_size_dblks).written = r.image := by
  obtain ⟨h1, h2⟩ := encode_fit_run clean r wptr max_size_dblks hfit hmax
  unfold enc_st.written
  rw [h1, h2, ← image_length r (fits_of_size r hfit), List.append_assoc,
    List.take_left]

theorem encode_fit_ret (clean : Bool) (r : enq_rec) (wptr : List Byte)
    (max_size_dblks : Nat)
    (hfit : r.size < 2 ^ 64) (hmax : size_dblks r.rec_size ≤ max_size_dblks)
    (h32 : max_size_dblks < 2 ^ 32) :
    r.encode clean wptr 0 max_size_dblks = size_dblks r.rec_size := by
  obtain ⟨-, h2⟩ := encode_fit_run clean r wptr max_size_dblks hfit hmax
  unfold enq_rec.encode
  rw [h2]
  exact Nat.mod_eq_of_lt (by omega)

theorem reset_dsize (r0 : enq_rec) (serial rid : Nat) (dbuf : Option (List Byte)) (dlen : Nat)
    (xidp : Option (List Byte)) (xidlen : Nat) (transient external : Bool) :
    (r0.reset serial rid dbuf dlen xidp xidlen transient external)._enq_hdr._dsize = dlen := rfl

/-- C5 -- Single-invocation layout.  For every record (of a size that fits
`std::size_t`) with `size_dblks(rec_size()) <= max_size_dblks`, `encode` with
`rec_offs_dblks = 0` writes at offset 0 of the buffer exactly header bytes ++ xid
bytes ++ (data bytes unless external) ++ tail bytes, `rec_size()` bytes in
total, and returns `size_dblks(rec_size())`; the last 8 header bytes hold the
`dsize` that `reset` stored, which is `dlen` also when external; the minimal
record with a 4-block budget returns `size_dblks(sizeof(hdr) + 2 + sizeof(tail))`. -/
theorem encode_single_layout (clean : Bool) (r : enq_rec) (wptr : List Byte)
    (max_size_dblks : Nat)
    (hfit : r.size < 2 ^ 64) (hmax : size_dblks r.rec_size ≤ max_size_dblks)
    (h32 : max_size_dblks < 2 ^ 32) :
    (r.encode_run clean wptr 0 max_size_dblks).wptr.take r.rec_size =
      enq_hdr_bytes r._enq_hdr ++ mem_read r._xidp 0 r._enq_hdr._xidsize ++
        (if is_enq_external r._enq_hdr then [] else mem_read r._data 0 r._enq_hdr._dsize) ++
        rec_tail_bytes r._enq_tail ∧
    (r.encode_run clean wptr 0 max_size_dblks).wr_cnt = r.rec_size ∧
    ((r.encode_run clean wptr 0 max_size_dblks).wptr.take r.rec_size).length = r.rec_size ∧
    r.encode clean wptr 0 max_size_dblks = size_dblks r.rec_size ∧
    (enq_hdr_bytes r._enq_hdr).drop 31 = le_bytes 8 r._enq_hdr._dsize ∧
    (∀ (r0 : enq_rec) (serial rid : Nat) (dbuf : Option (List Byte)) (dlen : Nat)
      (xidp : Option (List Byte)) (xidlen : Nat) (transient : Bool),
      (r0.reset serial rid dbuf dlen xidp xidlen transient true)._enq_hdr._dsize = dlen) ∧
    minimal_rec.encode clean wptr 0 4 = size_dblks (sizeof_enq_hdr + 2 + sizeof_rec_tail) := by
  have hw := encode_fit_written clean r wptr max_size_dblks hfit hmax
  have hr := encode_fit_run clean r wptr max_size_dblks hfit hmax
  unfold enc_st.written at hw
  rw [hr.2] at hw
  refine ⟨?_, hr.2, ?_, encode_fit_ret clean r wptr max_size_dblks hfit hmax h32, ?_, ?_, ?_⟩
  · rw [hw]; rfl
  · rw [hw, image_length r (fits_of_size r hfit)]
  · have h31 : (rec_hdr_bytes r._enq_hdr._rhdr ++ le_bytes 8 r._enq_hdr._xidsize).length = 31 := by
      simp [rec_hdr_bytes_length, le_bytes_length]
    unfold enq_hdr_bytes
    rw [← h31, List.drop_left]
  · intros; rfl
  · rw [encode_fit_ret clean minimal_rec wptr 4 (by decide) (by decide) (by decide)]
    decide

theorem encode_single_layout_witness :
    (minimal_rec.encode_run false [] 0 4).wptr.take minimal_rec.rec_size =
      enq_hdr_bytes minimal_rec._enq_hdr ++
        mem_read minimal_rec._xidp 0 minimal_rec._enq_hdr._xidsize ++
        (if is_enq_external minimal_rec._enq_hdr then []
          else mem_read minimal_rec._data 0 minimal_rec._enq_hdr._dsize) ++
        rec_tail_bytes minimal_rec._enq_tail ∧
    minimal_rec.encode false [] 0 4 = 1 :=
  ⟨(encode_single_layout false minimal_rec [] 4 (by decide) (by decide) (by decide)).1,
   by decide⟩

/-- C15 -- Record size.  `rec_size(xidsize, dsize, external)` is
`sizeof(header) + xidsize + (external ? 0 : dsize) + sizeof(tail)` in
`std::size_t` arithmetic, and that sum itself when it fits the type;
`rec_size()` is this function at the header's own `xidsize`, `dsize` and
external bit; `rec_size_dblks() = size_dblks(rec_size())`, the least number of
blocks of `DBLK_BYTES` bytes that hold `rec_size()` bytes. -/
theorem rec_size_formula (xidsize dsize : Nat) (external : Bool) (r : enq_rec) :
    enq_rec.rec_size_of xidsize dsize external =
      (sizeof_enq_hdr + xidsize + (if external then 0 else dsize) + sizeof_rec_tail) % 2 ^ 64 ∧
    (sizeof_enq_hdr + xidsize + (if external then 0 else dsize) + sizeof_rec_tail < 2 ^ 64 →
      enq_rec.rec_size_of xidsize dsize external =
        sizeof_enq_hdr + xidsize + (if external then 0 else dsize) + sizeof_rec_tail) ∧
    r.rec_size =
      enq_rec.rec_size_of r._enq_hdr._xidsize r._enq_hdr._dsize (is_enq_external r._enq_hdr) ∧
    r.rec_size_dblks = size_dblks r.rec_size ∧
    (∀ k : Nat, size_dblks r.rec_size ≤ k ↔ r.rec_size ≤ k * QLS_DBLK_SIZE_BYTES) ∧
    size_dblks r.rec_size = Nat.ceil ((r.rec_size : ℚ) / (QLS_DBLK_SIZE_BYTES : ℚ)) := by
  have h1 : enq_rec.rec_size_of xidsize dsize external =
      (sizeof_enq_hdr + xidsize + (if external then 0 else dsize) + sizeof_rec_tail) % 2 ^ 64 := by
    unfold enq_rec.rec_size_of
    cases external <;> simp
  have hk : ∀ k : Nat, size_dblks r.rec_size ≤ k ↔ r.rec_size ≤ k * QLS_DBLK_SIZE_BYTES := by
    intro k
    rw [size_dblks_eq, show QLS_DBLK_SIZE_BYTES = 128 from rfl]
    omega
  refine ⟨h1, ?_, rfl, rfl, hk, ?_⟩
  · intro h
    rw [h1, Nat.mod_eq_of_lt h]
  · symm
    apply le_antisymm
    · rw [Nat.ceil_le, div_le_iff₀ (by norm_num [QLS_DBLK_SIZE_BYTES])]
      have := (hk (size_dblks r.rec_size)).1 le_rfl
      exact_mod_cast this
    · rw [hk]
      have h2 := Nat.le_ceil ((r.rec_size : ℚ) / (QLS_DBLK_SIZE_BYTES : ℚ))
      rw [div_le_iff₀ (by norm_num [QLS_DBLK_SIZE_BYTES])] at h2
      exact_mod_cast h2

theorem rec_size_formula_witness :
    enq_rec.rec_size_of 3 7 false = sizeof_enq_hdr + 3 + 7 + sizeof_rec_tail ∧
    enq_rec.rec_size_of 3 7 true = sizeof_enq_hdr + 3 + sizeof_rec_tail :=
  ⟨(rec_size_formula 3 7 false enq_rec.ctor).2.1 (by decide),
   (rec_size_formula 3 7 true enq_rec.ctor).2.1 (by decide)⟩

theorem mirrored_ctor : enq_rec.ctor.mirrored := by
  refine ⟨rfl, rfl, rfl⟩

theorem mirrored_reset (r : enq_rec) (a : reset_args) (h : r.mirrored) :
    (r.reset a.serial a.rid a.dbuf a.dlen a.xidp a.xidlen a.transient a.external).mirrored := by
  obtain ⟨h1, h2, h3⟩ := h
  refine ⟨?_, h2, h3⟩
  simp only [enq_rec.reset, set_enq_external, set_enq_transient, rec_tail_copy, h1]

theorem mirrored_resets (calls : List reset_args) (r : enq_rec) (h : r.mirrored) :
    (r.resets calls).mirrored := by
  induction calls generalizing r with
  | nil => exact h
  | cons a l ih => exact ih _ (mirrored_reset r a h)

theorem image_drop_tail (r : enq_rec) :
    r.image.drop (sizeof_enq_hdr + r._enq_hdr._xidsize +
      (if is_enq_external r._enq_hdr then 0 else r._enq_hdr._dsize)) =
      rec_tail_bytes r._enq_tail := by
  have hl : (enq_hdr_bytes r._enq_hdr ++ r.xid_bytes ++ r.data_bytes).length =
      sizeof_enq_hdr + r._enq_hdr._xidsize +
        (if is_enq_external r._enq_hdr then 0 else r._enq_hdr._dsize) := by
    simp only [List.length_append, enq_hdr_bytes_length, enq_rec.xid_bytes, mem_read_length,
      enq_rec.data_bytes, sizeof_enq_hdr]
    cases is_enq_external r._enq_hdr <;> simp [mem_read_length]
  unfold enq_rec.image
  rw [← hl, List.drop_left]

/-- C16 -- Tail mirror.  Every record obtained from the default constructor by
a sequence of `reset` calls has `tail.serial == header.serial`,
`tail.rid == header.rid` and `tail.xmagic == ~header.magic`, with magic and
version still the enqueue magic and the journal version; and the bytes a
single-invocation `encode` emits after the header, the xid and the data are the
bytes of exactly these tail values. -/
theorem tail_mirror (calls : List reset_args) :
    (enq_rec.ctor.resets calls)._enq_tail._serial =
      (enq_rec.ctor.resets calls)._enq_hdr._rhdr._serial ∧
    (enq_rec.ctor.resets calls)._enq_tail._rid =
      (enq_rec.ctor.resets calls)._enq_hdr._rhdr._rid ∧
    (enq_rec.ctor.resets calls)._enq_tail._xmagic =
      not32 (enq_rec.ctor.resets calls)._enq_hdr._rhdr._magic ∧
    (enq_rec.ctor.resets calls)._enq_hdr._rhdr._magic = QLS_ENQ_MAGIC ∧
    (enq_rec.ctor.resets calls)._enq_hdr._rhdr._version = QLS_JRNL_VERSION ∧
    (∀ (clean : Bool) (wptr : List Byte) (max_size_dblks : Nat),
      (enq_rec.ctor.resets calls).size < 2 ^ 64 →
      size_dblks (enq_rec.ctor.resets calls).rec_size ≤ max_size_dblks →
      ((enq_rec.ctor.resets calls).encode_run clean wptr 0 max_size_dblks).written.drop
          (sizeof_enq_hdr + (enq_rec.ctor.resets calls)._enq_hdr._xidsize +
            (if is_enq_external (enq_rec.ctor.resets calls)._enq_hdr then 0
              else (enq_rec.ctor.resets calls)._enq_hdr._dsize)) =
        rec_tail_bytes
          { _xmagic := not32 (enq_rec.ctor.resets calls)._enq_hdr._rhdr._magic
            _checksum := 0
            _serial := (enq_rec.ctor.resets calls)._enq_hdr._rhdr._serial
            _rid := (enq_rec.ctor.resets calls)._enq_hdr._rhdr._rid }) := by
  obtain ⟨h1, h2, h3⟩ := mirrored_resets calls enq_rec.ctor mirrored_ctor
  refine ⟨by rw [h1]; rfl, by rw [h1]; rfl, by rw [h1]; rfl, h2, h3, ?_⟩
  intro clean wptr max_size_dblks hfit hmax
  rw [encode_fit_written clean _ wptr max_size_dblks hfit hmax, image_drop_tail, h1]
  rfl

theorem tail_mirror_witness :
    ((enq_rec.ctor.resets [⟨7, 100, some [1, 2], 2, some [3], 1, false, false⟩,
        ⟨8, 101, some [1, 2, 3], 3, some [3, 4], 2, true, false⟩]).encode_run
          false [] 0 1).written.drop (sizeof_enq_hdr + 2 + 3) =
      rec_tail_bytes { _xmagic := not32 QLS_ENQ_MAGIC, _checksum := 0, _serial := 8, _rid := 101 } :=
  (tail_mirror [⟨7, 100, some [1, 2], 2, some [3], 1, false, false⟩,
        ⟨8, 101, some [1, 2, 3], 3, some [3, 4], 2, true, false⟩]).2.2.2.2.2
    false [] 1 (by decide) (by decide)

theorem decode_finish_eq (s : dec_st) :
    enq_rec.decode_finish s =
      if rec_tail_check s.r._enq_tail s.r._enq_hdr._rhdr 0 ≠ 0 then
        { outcome := dec_outcome.thrown
            { err_code := jerrno.JERR_JREC_BADRECTAIL
              additional_info :=
                s.r.tail_msg 0 (rec_tail_check s.r._enq_tail s.r._enq_hdr._rhdr 0)
              throwing_class := "enq_rec"
              throwing_fn := "decode" }
          st := { s with
            ifs := s.ifs.ignore
              (sub_sz (s.r.rec_size_dblks * QLS_DBLK_SIZE_BYTES % 2 ^ 64) s.r.rec_size)
            asserts := s.asserts &&
              (!(s.ifs.ignore
                  (sub_sz (s.r.rec_size_dblks * QLS_DBLK_SIZE_BYTES % 2 ^ 64) s.r.rec_size)).fail &&
               !(s.ifs.ignore
                  (sub_sz (s.r.rec_size_dblks * QLS_DBLK_SIZE_BYTES % 2 ^ 64) s.r.rec_size)).bad) } }
      else
        { outcome := dec_outcome.returned true
          st := { s with
            ifs := s.ifs.ignore
              (sub_sz (s.r.rec_size_dblks * QLS_DBLK_SIZE_BYTES % 2 ^ 64) s.r.rec_size)
            asserts := s.asserts &&
              (!(s.ifs.ignore
                  (sub_sz (s.r.rec_size_dblks * QLS_DBLK_SIZE_BYTES % 2 ^ 64) s.r.rec_size)).fail &&
               !(s.ifs.ignore
                  (sub_sz (s.r.rec_size_dblks * QLS_DBLK_SIZE_BYTES % 2 ^ 64) s.r.rec_size)).bad) } } :=
  rfl

theorem ignore_good_bits (s : ifstream) (n : Nat) (hg : s.good = true) :
    (s.ignore n).fail = false ∧ (s.ignore n).bad = false := by
  obtain ⟨h1, h2, h3⟩ := good_bits s hg
  unfold ifstream.ignore
  rw [if_pos hg]
  split
  · simp [ifstream.fail, ifstream.bad, h2, h3]
  · split
    · simp [ifstream.fail, ifstream.bad, h2, h3]
    · split <;> simp [ifstream.fail, ifstream.bad, h2, h3]

/-- The end of `decode` on a stream in good state: the padding is skipped, then
the tail check decides between `true` and the exception. -/
theorem decode_finish_spec (s : dec_st) (hg : s.ifs.good = true) :
    enq_rec.decode_finish s =
      { outcome :=
          if rec_tail_check s.r._enq_tail s.r._enq_hdr._rhdr 0 = 0 then dec_outcome.returned true
          else dec_outcome.thrown
            { err_code := jerrno.JERR_JREC_BADRECTAIL
              additional_info :=
                s.r.tail_msg 0 (rec_tail_check s.r._enq_tail s.r._enq_hdr._rhdr 0)
              throwing_class := "enq_rec"
              throwing_fn := "decode" }
        st := { s with ifs := s.ifs.ignore s.r.pad } } := by
  obtain ⟨h1, h2⟩ := ignore_good_bits s.ifs s.r.pad hg
  unfold enq_rec.pad at h1 h2
  rw [decode_finish_eq]
  by_cases hc : rec_tail_check s.r._enq_tail s.r._enq_hdr._rhdr 0 = 0
  · rw [if_neg (by simpa using hc), if_pos hc, h1, h2]
    simp [enq_rec.pad]
  · rw [if_pos hc, if_neg hc, h1, h2]
    simp [enq_rec.pad]

theorem decode_tail_eq (s : dec_st) :
    enq_rec.decode_tail s =
      if s.rec_offs < (sizeof_enq_hdr + s.r._enq_hdr._xidsize +
          (if is_enq_external s.r._enq_hdr then 0 else s.r._enq_hdr._dsize) +
          sizeof_rec_tail) % 2 ^ 64 then
        s.tail_read s.tail_offs
      else enq_rec.decode_finish s := rfl

theorem decode_data_eq (s : dec_st) :
    enq_rec.decode_data s =
      if is_enq_external s.r._enq_hdr = false then
        if s.rec_offs <
            (sizeof_enq_hdr + s.r._enq_hdr._xidsize + s.r._enq_hdr._dsize) % 2 ^ 64 then
          s.data_skip (sub_sz (sub_sz s.rec_offs sizeof_enq_hdr) s.r._enq_hdr._xidsize)
        else enq_rec.decode_tail s
      else enq_rec.decode_tail s := rfl

theorem decode_xid_eq (s : dec_st) :
    enq_rec.decode_xid s =
      if s.rec_offs < (sizeof_enq_hdr + s.r._enq_hdr._xidsize) % 2 ^ 64 then
        s.xid_read (sub_sz s.rec_offs sizeof_enq_hdr)
      else enq_rec.decode_data s := rfl

theorem decode_eq (r : enq_rec) (h : rec_hdr_t) (ifsp : ifstream) (rec_offs : Nat) :
    r.decode h ifsp rec_offs =
      enq_rec.decode_xid
        (if rec_offs = 0 then
          enq_rec.decode_hdr h { r := r, ifs := ifsp, rec_offs := rec_offs, asserts := true }
         else { r := r, ifs := ifsp, rec_offs := rec_offs, asserts := true }) := rfl

theorem tail_read_full (s : dec_st) (o : Nat) (tb rest : List Byte) (hg : s.ifs.good = true)
    (hb : s.ifs.buf = tb ++ rest) (hl : tb.length + o = 24)
    (hro : s.rec_offs + tb.length < 2 ^ 64) :
    s.tail_read o = enq_rec.decode_finish
      { s with
        r := { s.r with
          _enq_tail := rec_tail_of_bytes (mem_write (rec_tail_bytes s.r._enq_tail) o tb) }
        ifs := { s.ifs with buf := rest, gcount := tb.length }
        rec_offs := s.rec_offs + tb.length } := by
  have hs : sub_sz sizeof_rec_tail o = tb.length := by
    rw [show sizeof_rec_tail = 24 from rfl, sub_sz_eq 24 o (by norm_num) (by omega)]; omega
  have hr : s.ifs.read tb.length = (tb, { s.ifs with buf := rest, gcount := tb.length }) := by
    rw [read_ge s.ifs _ hg (by rw [hb]; simp), hb]; simp
  unfold dec_st.tail_read
  rw [hs, hr]
  simp only []
  rw [if_neg (lt_irrefl _), add_sz_eq _ _ hro]

theorem tail_read_short (s : dec_st) (o : Nat) (hg : s.ifs.good = true)
    (hl : s.ifs.buf.length + o < 24) (hro : s.rec_offs + s.ifs.buf.length < 2 ^ 64) :
    (s.tail_read o).outcome = dec_outcome.returned false ∧
    (s.tail_read o).st.asserts = s.asserts ∧
    (s.tail_read o).st.rec_offs = s.rec_offs + s.ifs.buf.length ∧
    (s.tail_read o).st.r = { s.r with
      _enq_tail := rec_tail_of_bytes (mem_write (rec_tail_bytes s.r._enq_tail) o s.ifs.buf) } ∧
    (s.tail_read o).st.ifs = { s.ifs with buf := [], eofbit := true,
                                          gcount := s.ifs.buf.length } := by
  obtain ⟨h1, h2, h3⟩ := good_bits s.ifs hg
  have hs : sub_sz sizeof_rec_tail o = 24 - o := by
    rw [show sizeof_rec_tail = 24 from rfl, sub_sz_eq 24 o (by norm_num) (by omega)]
  have hr := read_lt s.ifs (24 - o) hg (by omega)
  unfold dec_st.tail_read
  rw [hs, hr]
  simp only []
  rw [if_pos (by omega), add_sz_eq _ _ hro]
  obtain ⟨e1, e2, e3, e4, e5⟩ := decode_eof_spec
    { s with
      r := { s.r with
        _enq_tail := rec_tail_of_bytes (mem_write (rec_tail_bytes s.r._enq_tail) o s.ifs.buf) }
      ifs := { s.ifs with buf := [], eofbit := true, failbit := true,
                          gcount := s.ifs.buf.length }
      rec_offs := s.rec_offs + s.ifs.buf.length } rfl h3
  refine ⟨e1, e2, e3, e4, ?_⟩
  rw [e5]
  simp [h2]

theorem data_skip_full (s : dec_st) (o n : Nat) (hg : s.ifs.good = true)
    (hd : s.r._enq_hdr._dsize < 2 ^ 64) (hn : n + o = s.r._enq_hdr._dsize)
    (hb : n ≤ s.ifs.buf.length) (hro : s.rec_offs + n < 2 ^ 64) (hs63 : n < 2 ^ 63 - 1) :
    s.data_skip o = enq_rec.decode_tail
      { s with
        ifs := { s.ifs with buf := s.ifs.buf.drop n, gcount := n }
        rec_offs := s.rec_offs + n } := by
  have hs : sub_sz s.r._enq_hdr._dsize o = n := by
    rw [sub_sz_eq _ o hd (by omega)]; omega
  unfold dec_st.data_skip
  rw [hs, ignore_ge s.ifs n hg hb hs63]
  simp only []
  rw [if_neg (lt_irrefl _), add_sz_eq _ _ hro]

theorem data_skip_short (s : dec_st) (o : Nat) (hg : s.ifs.good = true)
    (hd : s.r._enq_hdr._dsize < 2 ^ 64)
    (hl : s.ifs.buf.length + o < s.r._enq_hdr._dsize)
    (hro : s.rec_offs + s.ifs.buf.length < 2 ^ 64) (hs63 : s.r._enq_hdr._dsize < 2 ^ 63) :
    (s.data_skip o).outcome = dec_outcome.returned false ∧
    (s.data_skip o).st.asserts = s.asserts ∧
    (s.data_skip o).st.rec_offs = s.rec_offs + s.ifs.buf.length ∧
    (s.data_skip o).st.r = s.r ∧
    (s.data_skip o).st.ifs = { s.ifs with buf := [], eofbit := true,
                                          gcount := s.ifs.buf.length } := by
  obtain ⟨h1, h2, h3⟩ := good_bits s.ifs hg
  have hs : sub_sz s.r._enq_hdr._dsize o = s.r._enq_hdr._dsize - o := by
    rw [sub_sz_eq _ o hd (by omega)]
  unfold dec_st.data_skip
  rw [hs, ignore_lt s.ifs _ hg (by omega) (by omega)]
  simp only []
  rw [if_pos (by omega), add_sz_eq _ _ hro]
  obtain ⟨e1, e2, e3, e4, e5⟩ := decode_eof_spec
    { s with
      ifs := { s.ifs with buf := [], eofbit := true, gcount := s.ifs.buf.length }
      rec_offs := s.rec_offs + s.ifs.buf.length } rfl h3
  refine ⟨e1, e2, e3, e4, ?_⟩
  rw [e5]
  simp [h2]

theorem xid_read_full (s : dec_st) (o : Nat) (xb rest : List Byte) (hg : s.ifs.good = true)
    (hx : s.r._enq_hdr._xidsize < 2 ^ 64)
    (hb : s.ifs.buf = xb ++ rest) (hl : xb.length + o = s.r._enq_hdr._xidsize)
    (hro : s.rec_offs + xb.length < 2 ^ 64) :
    s.xid_read o = enq_rec.decode_data
      { s with
        r := { s.r with _buff := some (mem_write (s.r._buff.getD []) o xb) }
        ifs := { s.ifs with buf := rest, gcount := xb.length }
        rec_offs := s.rec_offs + xb.length } := by
  have hs : sub_sz s.r._enq_hdr._xidsize o = xb.length := by
    rw [sub_sz_eq _ o hx (by omega)]; omega
  have hr : s.ifs.read xb.length = (xb, { s.ifs with buf := rest, gcount := xb.length }) := by
    rw [read_ge s.ifs _ hg (by rw [hb]; simp), hb]; simp
  unfold dec_st.xid_read
  rw [hs, hr]
  simp only []
  rw [if_neg (lt_irrefl _), add_sz_eq _ _ hro]

theorem xid_read_short (s : dec_st) (o : Nat) (hg : s.ifs.good = true)
    (hx : s.r._enq_hdr._xidsize < 2 ^ 64)
    (hl : s.ifs.buf.length + o < s.r._enq_hdr._xidsize)
    (hro : s.rec_offs + s.ifs.buf.length < 2 ^ 64) :
    (s.xid_read o).outcome = dec_outcome.returned false ∧
    (s.xid_read o).st.asserts = s.asserts ∧
    (s.xid_read o).st.rec_offs = s.rec_offs + s.ifs.buf.length ∧
    (s.xid_read o).st.r =
      { s.r with _buff := some (mem_write (s.r._buff.getD []) o s.ifs.buf) } ∧
    (s.xid_read o).st.ifs = { s.ifs with buf := [], eofbit := true,
                                         gcount := s.ifs.buf.length } := by
  obtain ⟨h1, h2, h3⟩ := good_bits s.ifs hg
  have hs : sub_sz s.r._enq_hdr._xidsize o = s.r._enq_hdr._xidsize - o := by
    rw [sub_sz_eq _ o hx (by omega)]
  unfold dec_st.xid_read
  rw [hs, read_lt s.ifs _ hg (by omega)]
  simp only []
  rw [if_pos (by omega), add_sz_eq _ _ hro]
  obtain ⟨e1, e2, e3, e4, e5⟩ := decode_eof_spec
    { s with
      r := { s.r with _buff := some (mem_write (s.r._buff.getD []) o s.ifs.buf) }
      ifs := { s.ifs with buf := [], eofbit := true, failbit := true,
                          gcount := s.ifs.buf.length }
      rec_offs := s.rec_offs + s.ifs.buf.length } rfl h3
  refine ⟨e1, e2, e3, e4, ?_⟩
  rw [e5]
  simp [h2]

theorem take_append_len (a b : List Byte) (n : Nat) (h : a.length = n) :
    (a ++ b).take n = a := by
  subst h; exact List.take_left _ _

theorem drop_append_len (a b : List Byte) (n : Nat) (h : a.length = n) :
    (a ++ b).drop n = b := by
  subst h; exact List.drop_left _ _

theorem read_append (f : ifstream) (a b : List Byte) (n : Nat) (hg : f.good = true)
    (hb : f.buf = a ++ b) (hn : a.length = n) :
    f.read n = (a, { f with buf := b, gcount := n }) := by
  rw [read_ge f n hg (by rw [hb]; simp; omega), hb, take_append_len a b n hn,
    drop_append_len a b n hn]

theorem field_load (old new : Nat) (hn : new < 2 ^ 64) :
    le_val ((mem_write (le_bytes 8 old) 0 (le_bytes 8 new)).take 8) = new := by
  rw [mem_write_zero, take_append_len _ _ 8 (le_bytes_length 8 new), le_val_le_bytes]
  exact Nat.mod_eq_of_lt (by norm_num at hn ⊢; exact hn)

theorem decode_hdr_spec (h : rec_hdr_t) (s : dec_st) (X D : Nat) (rest : List Byte)
    (hg : s.ifs.good = true) (hb : s.ifs.buf = le_bytes 8 X ++ le_bytes 8 D ++ rest)
    (hX : X < 2 ^ 64) (hD : D < 2 ^ 64) :
    enq_rec.decode_hdr h s =
      { s with
        r := if X > 0 then
            { s.r with
              _enq_hdr := { _rhdr := h, _xidsize := X, _dsize := D }
              _buff := some (List.replicate X 0) }
          else { s.r with _enq_hdr := { _rhdr := h, _xidsize := X, _dsize := D } }
        ifs := { s.ifs with buf := rest, gcount := 8 }
        rec_offs := sizeof_enq_hdr } := by
  have r1 : s.ifs.read 8 =
      (le_bytes 8 X, { s.ifs with buf := le_bytes 8 D ++ rest, gcount := 8 }) :=
    read_append s.ifs _ _ 8 hg (by rw [hb, List.append_assoc]) (le_bytes_length 8 X)
  have r2 : ({ s.ifs with buf := le_bytes 8 D ++ rest, gcount := 8 } : ifstream).read 8 =
      (le_bytes 8 D, { s.ifs with buf := rest, gcount := 8 }) :=
    read_append _ _ _ 8 hg rfl (le_bytes_length 8 D)
  unfold enq_rec.decode_hdr
  simp only [r1, r2, field_load _ X hX, field_load _ D hD, rec_hdr_copy]

theorem xid_stage (s : dec_st) (xid rest : List Byte) (ho : s.rec_offs = 39)
    (hg : s.ifs.good = true) (hb : s.ifs.buf = xid ++ rest)
    (hl : xid.length = s.r._enq_hdr._xidsize) (hfit : 39 + s.r._enq_hdr._xidsize < 2 ^ 64) :
    ∃ s1 : dec_st, enq_rec.decode_xid s = enq_rec.decode_data s1 ∧ s1.ifs.good = true ∧
      s1.ifs.buf = rest ∧ s1.rec_offs = 39 + s.r._enq_hdr._xidsize ∧ s1.asserts = s.asserts ∧
      s1.r = (if s.r._enq_hdr._xidsize > 0 then
        { s.r with _buff := some (mem_write (s.r._buff.getD []) 0 xid) } else s.r) := by
  rw [decode_xid_eq, show sizeof_enq_hdr = 39 from rfl, Nat.mod_eq_of_lt hfit]
  by_cases hx : s.r._enq_hdr._xidsize = 0
  · rw [if_neg (by omega)]
    have hnil : xid = [] := List.length_eq_zero.1 (by omega)
    refine ⟨s, rfl, hg, by rw [hb, hnil]; rfl, by omega, rfl, ?_⟩
    rw [if_neg (by omega)]
  · rw [if_pos (by omega), ho, sub_sz_eq 39 39 (by norm_num) le_rfl, Nat.sub_self,
      xid_read_full s 0 xid rest hg (by omega) hb (by omega) (by omega)]
    refine ⟨_, rfl, hg, rfl, by simp only []; omega, rfl, ?_⟩
    rw [if_pos (by omega)]

theorem data_stage (s : dec_st) (n : Nat)
    (ho : s.rec_offs = 39 + s.r._enq_hdr._xidsize) (hg : s.ifs.good = true)
    (hn : n = if is_enq_external s.r._enq_hdr then 0 else s.r._enq_hdr._dsize)
    (hb : n ≤ s.ifs.buf.length) (hfit : 39 + s.r._enq_hdr._xidsize + n < 2 ^ 64)
    (hd : s.r._enq_hdr._dsize < 2 ^ 64) (hs : n < 2 ^ 63 - 1) :
    ∃ s1 : dec_st, enq_rec.decode_data s = enq_rec.decode_tail s1 ∧ s1.ifs.good = true ∧
      s1.ifs.buf = s.ifs.buf.drop n ∧ s1.rec_offs = 39 + s.r._enq_hdr._xidsize + n ∧
      s1.asserts = s.asserts ∧ s1.r = s.r := by
  rw [decode_data_eq, show sizeof_enq_hdr = 39 from rfl]
  cases he : is_enq_external s.r._enq_hdr
  · rw [he] at hn
    simp only [Bool.false_eq_true, if_false] at hn
    subst hn
    rw [if_pos rfl, Nat.mod_eq_of_lt hfit]
    by_cases hz : s.r._enq_hdr._dsize = 0
    · rw [if_neg (by omega)]
      exact ⟨s, rfl, hg, by rw [hz]; rfl, by omega, rfl, rfl⟩
    · rw [if_pos (by omega), ho, sub_sz_eq _ 39 (by omega) (by omega), Nat.add_sub_cancel_left,
        sub_sz_eq _ _ (by omega) le_rfl, Nat.sub_self,
        data_skip_full s 0 s.r._enq_hdr._dsize hg hd rfl hb (by omega) hs]
      exact ⟨_, rfl, hg, rfl, by simp only []; omega, rfl, rfl⟩
  · rw [he] at hn
    simp only [if_true] at hn
    subst hn
    rw [if_neg (by simp)]
    exact ⟨s, rfl, hg, rfl, by omega, rfl, rfl⟩

theorem tail_offs_zero (s : dec_st) (n : Nat)
    (ho : s.rec_offs = 39 + s.r._enq_hdr._xidsize + n)
    (hn : n = if is_enq_external s.r._enq_hdr then 0 else s.r._enq_hdr._dsize)
    (hfit : 39 + s.r._enq_hdr._xidsize + n < 2 ^ 64) : s.tail_offs = 0 := by
  unfold dec_st.tail_offs
  rw [show sizeof_enq_hdr = 39 from rfl, ho]
  cases he : is_enq_external s.r._enq_hdr
  · rw [he] at hn
    simp only [Bool.false_eq_true, if_false] at hn
    subst hn
    rw [if_pos rfl, sub_sz_eq _ 39 (by omega) (by omega),
      sub_sz_eq _ s.r._enq_hdr._xidsize (by omega) (by omega),
      sub_sz_eq _ s.r._enq_hdr._dsize (by omega) (by omega)]
    omega
  · rw [he] at hn
    simp only [if_true] at hn
    subst hn
    rw [if_neg (by simp), sub_sz_eq _ 39 (by omega) (by omega),
      sub_sz_eq _ s.r._enq_hdr._xidsize (by omega) (by omega)]
    omega

theorem tail_stage (s : dec_st) (n : Nat) (tb rest : List Byte)
    (ho : s.rec_offs = 39 + s.r._enq_hdr._xidsize + n)
    (hn : n = if is_enq_external s.r._enq_hdr then 0 else s.r._enq_hdr._dsize)
    (hg : s.ifs.good = true) (hb : s.ifs.buf = tb ++ rest) (hl : tb.length = 24)
    (hfit : 39 + s.r._enq_hdr._xidsize + n + 24 < 2 ^ 64) :
    enq_rec.decode_tail s = enq_rec.decode_finish
      { s with
        r := { s.r with _enq_tail := rec_tail_of_bytes tb }
        ifs := { s.ifs with buf := rest, gcount := 24 }
        rec_offs := 39 + s.r._enq_hdr._xidsize + n + 24 } := by
  have hw : mem_write (rec_tail_bytes s.r._enq_tail) 0 tb = tb := by
    rw [mem_write_zero, hl, List.drop_of_length_le (by rw [rec_tail_bytes_length]),
      List.append_nil]
  rw [decode_tail_eq, show sizeof_enq_hdr = 39 from rfl, show sizeof_rec_tail = 24 from rfl,
    ← hn, Nat.mod_eq_of_lt hfit, if_pos (by omega), tail_offs_zero s n ho hn (by omega),
    tail_read_full s 0 tb rest hg hb (by omega) (by omega), hw, hl, ho]

theorem mem_write_fresh (xid : List Byte) :
    mem_write (List.replicate xid.length 0) 0 xid = xid := by
  rw [mem_write_zero, List.drop_of_length_le (by simp), List.append_nil]

theorem ifstream_eq_of_good (f : ifstream) (hg : f.good = true) :
    f = { buf := f.buf, eofbit := false, failbit := false, badbit := false,
          gcount := f.gcount } := by
  obtain ⟨h1, h2, h3⟩ := good_bits f hg
  cases f
  simp only at h1 h2 h3
  subst h1 h2 h3
  rfl

/-- A call of `decode` from watermark 0 on a stream that holds the two size
fields, the xid, the data unless external and 24 more bytes comes to the final
check with the record read, the stream right after those bytes and the
watermark on the size of the record. -/
theorem decode_complete (r0 : enq_rec) (h : rec_hdr_t) (ifs : ifstream) (X D : Nat)
    (xid data tb rest : List Byte) (hg : ifs.good = true)
    (hb : ifs.buf = le_bytes 8 X ++ le_bytes 8 D ++ xid ++ data ++ tb ++ rest)
    (hX : xid.length = X)
    (hdl : data.length =
      if is_enq_external { _rhdr := h, _xidsize := X, _dsize := D } then 0 else D)
    (ht : tb.length = 24) (hfit : 39 + X + data.length + 24 < 2 ^ 64) (hD : D < 2 ^ 64)
    (hS : data.length < 2 ^ 63 - 1) :
    r0.decode h ifs 0 = enq_rec.decode_finish
      { r := r0.decoded h X D xid tb
        ifs := { buf := rest, eofbit := false, failbit := false, badbit := false, gcount := 24 }
        rec_offs := 39 + X + data.length + 24
        asserts := true } := by
  have e1 : r0.decode h ifs 0 = enq_rec.decode_xid
      { r := { r0 with
          _enq_hdr := { _rhdr := h, _xidsize := X, _dsize := D }
          _buff := if X > 0 then some (List.replicate X 0) else r0._buff }
        ifs := { ifs with buf := xid ++ (data ++ (tb ++ rest)), gcount := 8 }
        rec_offs := 39
        asserts := true } := by
    rw [decode_eq, if_pos rfl, decode_hdr_spec h _ X D (xid ++ (data ++ (tb ++ rest))) hg
      (by rw [hb]; simp only [List.append_assoc]) (by omega) hD]
    by_cases hx : X > 0
    · simp only [if_pos hx]; rfl
    · simp only [if_neg hx]; rfl
  obtain ⟨s2, e2, hg2, b2, o2, a2, r2⟩ := xid_stage
    { r := { r0 with
        _enq_hdr := { _rhdr := h, _xidsize := X, _dsize := D }
        _buff := if X > 0 then some (List.replicate X 0) else r0._buff }
      ifs := { ifs with buf := xid ++ (data ++ (tb ++ rest)), gcount := 8 }
      rec_offs := 39
      asserts := true }
    xid (data ++ (tb ++ rest)) rfl hg rfl hX (by show 39 + X < 2 ^ 64; omega)
  have hr2 : s2.r = { r0 with
      _enq_hdr := { _rhdr := h, _xidsize := X, _dsize := D }
      _buff := if X > 0 then some xid else r0._buff } := by
    rw [r2]
    show (if X > 0 then _ else _) = _
    by_cases hx : X > 0
    · simp only [if_pos hx, Option.getD_some]
      rw [← hX, mem_write_fresh]
    · simp only [if_neg hx]
  have hh2 : s2.r._enq_hdr = { _rhdr := h, _xidsize := X, _dsize := D } := by rw [hr2]
  have o2 : s2.rec_offs = 39 + s2.r._enq_hdr._xidsize := by rw [hh2]; exact o2
  obtain ⟨s3, e3, hg3, b3, o3, a3, r3⟩ := data_stage s2 data.length o2 hg2
    (by rw [hh2]; exact hdl) (by rw [b2]; simp) (by rw [hh2]; show 39 + X + _ < _; omega)
    (by rw [hh2]; exact hD) hS
  rw [b2, List.drop_left] at b3
  have hh3 : s3.r._enq_hdr = { _rhdr := h, _xidsize := X, _dsize := D } := by rw [r3, hh2]
  have e4 := tail_stage s3 data.length tb rest (by rw [o3, r3]) (by rw [hh3]; exact hdl) hg3 b3 ht
    (by rw [hh3]; show 39 + X + _ + 24 < _; omega)
  rw [e1, e2, e3, e4]
  obtain ⟨g1, g2, g3⟩ := good_bits s3.ifs hg3
  apply congrArg enq_rec.decode_finish
  rw [dec_st.mk.injEq]
  refine ⟨?_, ?_, ?_, ?_⟩
  · rw [r3, hr2]; rfl
  · rw [ifstream.mk.injEq]; exact ⟨rfl, g1, g2, g3, rfl⟩
  · rw [hh3]
  · rw [a3, a2]

theorem le_val_le_bytes_lt (w n : Nat) (h : n < 256 ^ w) : le_val (le_bytes w n) = n := by
  rw [le_val_le_bytes, Nat.mod_eq_of_lt h]

theorem rec_hdr_of_bytes_bytes (h : rec_hdr_t) (h1 : h._magic < 2 ^ 32) (h2 : h._version < 2 ^ 8)
    (h3 : h._uflag < 2 ^ 16) (h4 : h._serial < 2 ^ 64) (h5 : h._rid < 2 ^ 64) :
    rec_hdr_of_bytes (rec_hdr_bytes h) = h := by
  have e1 : (rec_hdr_bytes h).take 4 = le_bytes 4 h._magic := by
    unfold rec_hdr_bytes
    simp only [List.append_assoc]
    exact take_append_len _ _ 4 (le_bytes_length _ _)
  have d1 : (rec_hdr_bytes h).drop 4 =
      le_bytes 1 h._version ++ (le_bytes 2 h._uflag ++ (le_bytes 8 h._serial ++
        le_bytes 8 h._rid)) := by
    unfold rec_hdr_bytes
    simp only [List.append_assoc]
    exact drop_append_len _ _ 4 (le_bytes_length _ _)
  have d2 : (rec_hdr_bytes h).drop 5 =
      le_bytes 2 h._uflag ++ (le_bytes 8 h._serial ++ le_bytes 8 h._rid) := by
    rw [show 5 = 4 + 1 from rfl, ← List.drop_drop, d1]
    exact drop_append_len _ _ 1 (le_bytes_length _ _)
  have d3 : (rec_hdr_bytes h).drop 7 = le_bytes 8 h._serial ++ le_bytes 8 h._rid := by
    rw [show 7 = 5 + 2 from rfl, ← List.drop_drop, d2]
    exact drop_append_len _ _ 2 (le_bytes_length _ _)
  have d4 : (rec_hdr_bytes h).drop 15 = le_bytes 8 h._rid := by
    rw [show 15 = 7 + 8 from rfl, ← List.drop_drop, d3]
    exact drop_append_len _ _ 8 (le_bytes_length _ _)
  unfold rec_hdr_of_bytes
  rw [e1, d1, d2, d3, d4, take_append_len _ _ 1 (le_bytes_length _ _),
    take_append_len _ _ 2 (le_bytes_length _ _), take_append_len _ _ 8 (le_bytes_length _ _),
    List.take_of_length_le (by rw [le_bytes_length]),
    le_val_le_bytes_lt 4 _ (by norm_num at h1 ⊢; exact h1),
    le_val_le_bytes_lt 1 _ (by norm_num at h2 ⊢; exact h2),
    le_val_le_bytes_lt 2 _ (by norm_num at h3 ⊢; exact h3),
    le_val_le_bytes_lt 8 _ (by norm_num at h4 ⊢; exact h4),
    le_val_le_bytes_lt 8 _ (by norm_num at h5 ⊢; exact h5)]

/-- The four fields of a tail held by the concatenation of their bytes. -/
theorem rec_tail_of_segments (a c s r : List Byte) (ha : a.length = 4) (hc : c.length = 4)
    (hs : s.length = 8) :
    rec_tail_of_bytes (a ++ c ++ s ++ r) =
      { _xmagic := le_val a, _checksum := le_val c, _serial := le_val s,
        _rid := le_val (r.take 8) } := by
  have d1 : (a ++ c ++ s ++ r).drop 4 = c ++ (s ++ r) := by
    simp only [List.append_assoc]
    exact drop_append_len _ _ 4 ha
  have d2 : (a ++ c ++ s ++ r).drop 8 = s ++ r := by
    rw [show 8 = 4 + 4 from rfl, ← List.drop_drop, d1]
    exact drop_append_len _ _ 4 hc
  have d3 : (a ++ c ++ s ++ r).drop 16 = r := by
    rw [show 16 = 8 + 8 from rfl, ← List.drop_drop, d2]
    exact drop_append_len _ _ 8 hs
  have e1 : (a ++ c ++ s ++ r).take 4 = a := by
    simp only [List.append_assoc]
    exact take_append_len _ _ 4 ha
  unfold rec_tail_of_bytes
  rw [e1, d1, d2, d3, take_append_len _ _ 4 hc, take_append_len _ _ 8 hs]

theorem rec_tail_of_bytes_bytes (t : rec_tail_t) (h1 : t._xmagic < 2 ^ 32)
    (h2 : t._checksum < 2 ^ 32) (h3 : t._serial < 2 ^ 64) (h4 : t._rid < 2 ^ 64) :
    rec_tail_of_bytes (rec_tail_bytes t) = t := by
  unfold rec_tail_bytes
  rw [rec_tail_of_segments _ _ _ _ (le_bytes_length _ _) (le_bytes_length _ _)
    (le_bytes_length _ _), List.take_of_length_le (by rw [le_bytes_length]),
    le_val_le_bytes_lt 4 _ (by norm_num at h1 ⊢; exact h1),
    le_val_le_bytes_lt 4 _ (by norm_num at h2 ⊢; exact h2),
    le_val_le_bytes_lt 8 _ (by norm_num at h3 ⊢; exact h3),
    le_val_le_bytes_lt 8 _ (by norm_num at h4 ⊢; exact h4)]

theorem image_take_hdr (r : enq_rec) : r.image.take sizeof_rec_hdr = rec_hdr_bytes r._enq_hdr._rhdr := by
  unfold enq_rec.image enq_hdr_bytes
  simp only [List.append_assoc]
  exact take_append_len _ _ 23 (rec_hdr_bytes_length _)

theorem image_drop_hdr (r : enq_rec) :
    r.image.drop sizeof_rec_hdr =
      le_bytes 8 r._enq_hdr._xidsize ++ le_bytes 8 r._enq_hdr._dsize ++ r.xid_bytes ++
        r.data_bytes ++ rec_tail_bytes r._enq_tail := by
  unfold enq_rec.image enq_hdr_bytes
  simp only [List.append_assoc]
  exact drop_append_len _ _ 23 (rec_hdr_bytes_length _)

theorem not32_lt (m : Nat) : not32 m < 2 ^ 32 := by
  unfold not32; omega

theorem image_eq_frame (r : enq_rec) : r.image = r.frame (rec_tail_bytes r._enq_tail) := rfl

theorem xid_bytes_length (r : enq_rec) : r.xid_bytes.length = r._enq_hdr._xidsize := by
  unfold enq_rec.xid_bytes; rw [mem_read_length]

theorem data_bytes_length (r : enq_rec) :
    r.data_bytes.length = if is_enq_external r._enq_hdr then 0 else r._enq_hdr._dsize := by
  unfold enq_rec.data_bytes
  cases is_enq_external r._enq_hdr
  · simp only [Bool.false_eq_true, if_false]; rw [mem_read_length]
  · simp only [if_true]; rfl

/-- The decoder on the bytes of a record with any 24 bytes for a tail: it
comes to the final check with the header and the xid of the record. -/
theorem decode_frame (r : enq_rec) (tb rest : List Byte) (ht : r._enq_hdr.typed)
    (hfit : r.size < 2 ^ 64) (hl : tb.length = 24) (hskip : r.data_bytes.length < 2 ^ 63 - 1) :
    decode_bytes (r.frame tb) rest = enq_rec.decode_finish
      { r := enq_rec.ctor.decoded r._enq_hdr._rhdr r._enq_hdr._xidsize r._enq_hdr._dsize
          r.xid_bytes tb
        ifs := { buf := rest, eofbit := false, failbit := false, badbit := false, gcount := 24 }
        rec_offs := r.size
        asserts := true } := by
  obtain ⟨t1, t2, t3, t4, t5, t6, t7⟩ := ht
  have hT : (r.frame tb).take sizeof_rec_hdr = rec_hdr_bytes r._enq_hdr._rhdr := by
    unfold enq_rec.frame enq_hdr_bytes
    simp only [List.append_assoc]
    exact take_append_len _ _ 23 (rec_hdr_bytes_length _)
  have hD : (r.frame tb).drop sizeof_rec_hdr =
      le_bytes 8 r._enq_hdr._xidsize ++ le_bytes 8 r._enq_hdr._dsize ++ r.xid_bytes ++
        r.data_bytes ++ tb := by
    unfold enq_rec.frame enq_hdr_bytes
    simp only [List.append_assoc]
    exact drop_append_len _ _ 23 (rec_hdr_bytes_length _)
  have hsz : 39 + r._enq_hdr._xidsize + r.data_bytes.length + 24 = r.size := by
    rw [data_bytes_length]; rfl
  unfold decode_bytes
  rw [hT, hD, rec_hdr_of_bytes_bytes _ t1 t2 t3 t4 t5,
    decode_complete enq_rec.ctor r._enq_hdr._rhdr _ r._enq_hdr._xidsize r._enq_hdr._dsize
      r.xid_bytes r.data_bytes tb rest (good_on _) rfl (xid_bytes_length r)
      (data_bytes_length r) hl (by rw [hsz]; exact hfit) t7 hskip, hsz]

/-- The result of `decode` on the bytes of a record with any 24 bytes for a
tail. -/
theorem decode_frame_result (r : enq_rec) (tb rest : List Byte) (ht : r._enq_hdr.typed)
    (hfit : r.size < 2 ^ 64) (hl : tb.length = 24) (hskip : r.data_bytes.length < 2 ^ 63 - 1) :
    decode_bytes (r.frame tb) rest =
      { outcome :=
          if rec_tail_check (rec_tail_of_bytes tb) r._enq_hdr._rhdr 0 = 0 then
            dec_outcome.returned true
          else dec_outcome.thrown
            { err_code := jerrno.JERR_JREC_BADRECTAIL
              additional_info :=
                (enq_rec.ctor.decoded r._enq_hdr._rhdr r._enq_hdr._xidsize r._enq_hdr._dsize
                  r.xid_bytes tb).tail_msg 0
                  (rec_tail_check (rec_tail_of_bytes tb) r._enq_hdr._rhdr 0)
              throwing_class := "enq_rec"
              throwing_fn := "decode" }
        st :=
          { r := enq_rec.ctor.decoded r._enq_hdr._rhdr r._enq_hdr._xidsize r._enq_hdr._dsize
              r.xid_bytes tb
            ifs := ({ buf := rest, eofbit := false, failbit := false, badbit := false,
                      gcount := 24 } : ifstream).ignore
                (enq_rec.ctor.decoded r._enq_hdr._rhdr r._enq_hdr._xidsize r._enq_hdr._dsize
                  r.xid_bytes tb).pad
            rec_offs := r.size
            asserts := true } } := by
  rw [decode_frame r tb rest ht hfit hl hskip]
  refine (decode_finish_spec _ ?_).trans ?_
  · rfl
  · rfl

theorem bound_rec_uflag (serial rid : Nat) (xid data : List Byte)
    (transient external : Bool) :
    (bound_rec serial rid xid data transient external)._enq_hdr._rhdr._uflag =
      set_flag (set_flag (set_flag 0 ENQ_HDR_TRANSIENT_MASK false) ENQ_HDR_TRANSIENT_MASK
        transient) ENQ_HDR_EXTERNAL_MASK external := rfl

theorem bound_rec_external (serial rid : Nat) (xid data : List Byte)
    (transient external : Bool) :
    is_enq_external (bound_rec serial rid xid data transient external)._enq_hdr = external := by
  unfold is_enq_external
  rw [bound_rec_uflag]
  cases transient <;> cases external <;> decide

theorem bound_rec_transient (serial rid : Nat) (xid data : List Byte)
    (transient external : Bool) :
    is_enq_transient (bound_rec serial rid xid data transient external)._enq_hdr = transient := by
  unfold is_enq_transient
  rw [bound_rec_uflag]
  cases transient <;> cases external <;> decide

theorem bound_rec_typed (serial rid : Nat) (xid data : List Byte) (transient external : Bool)
    (hs : serial < 2 ^ 64) (hr : rid < 2 ^ 64) (hx : xid.length < 2 ^ 64)
    (hd : data.length < 2 ^ 64) :
    (bound_rec serial rid xid data transient external)._enq_hdr.typed := by
  refine ⟨(by decide : QLS_ENQ_MAGIC < 2 ^ 32), (by decide : QLS_JRNL_VERSION < 2 ^ 8), ?_,
    hs, hr, hx, hd⟩
  rw [bound_rec_uflag]
  cases transient <;> cases external <;> decide

theorem bound_rec_size (serial rid : Nat) (xid data : List Byte) (transient external : Bool) :
    (bound_rec serial rid xid data transient external).size =
      39 + xid.length + (if external then 0 else data.length) + 24 := by
  unfold enq_rec.size
  rw [bound_rec_external]
  rfl

theorem bound_rec_xid_bytes (serial rid : Nat) (xid data : List Byte)
    (transient external : Bool) :
    (bound_rec serial rid xid data transient external).xid_bytes = xid :=
  mem_read_full xid

theorem bound_rec_tail (serial rid : Nat) (xid data : List Byte) (transient external : Bool) :
    (bound_rec serial rid xid data transient external)._enq_tail =
      { _xmagic := not32 QLS_ENQ_MAGIC, _checksum := 0, _serial := serial, _rid := rid } := rfl

theorem bound_rec_tail_bytes (serial rid : Nat) (xid data : List Byte)
    (transient external : Bool) (hs : serial < 2 ^ 64) (hr : rid < 2 ^ 64) :
    rec_tail_of_bytes
        (rec_tail_bytes (bound_rec serial rid xid data transient external)._enq_tail) =
      { _xmagic := not32 QLS_ENQ_MAGIC, _checksum := 0, _serial := serial, _rid := rid } := by
  rw [bound_rec_tail]
  exact rec_tail_of_bytes_bytes _ (not32_lt _) (by decide : (0 : Nat) < 2 ^ 32) hs hr

/-- C1 -- Round trip.  For every serial, rid (64-bit), xid, data (of sizes that
fit `std::size_t`, and data that is held in the record of fewer bytes than the
largest `std::streamsize`), transient flag and external flag: after `reset` with these
values, one `encode` call with `rec_offs_dblks = 0` and a budget of at least
`size_dblks(rec_size())` blocks, then `decode` (watermark 0, the header bytes
passed as the partial header) of the bytes written into a fresh record returns
true, raises nothing and keeps every assertion; the decoded header has the
magic, version, serial, rid, xidsize and both flag bits of the original,
`get_xid` yields the xid bytes, and `dsize` is the length of the data. -/
theorem encode_decode_round_trip (serial rid : Nat) (xid data : List Byte)
    (transient external clean : Bool) (wptr rest : List Byte) (max_size_dblks : Nat)
    (hs : serial < 2 ^ 64) (hr : rid < 2 ^ 64)
    (hsz : sizeof_enq_hdr + xid.length + data.length + sizeof_rec_tail < 2 ^ 64)
    (hmax : size_dblks (bound_rec serial rid xid data transient external).rec_size ≤
      max_size_dblks)
    (hskip : external = false → data.length < 2 ^ 63 - 1) :
    (decode_bytes ((bound_rec serial rid xid data transient external).encode_run clean wptr 0
        max_size_dblks).written rest).outcome = dec_outcome.returned true ∧
    (decode_bytes ((bound_rec serial rid xid data transient external).encode_run clean wptr 0
        max_size_dblks).written rest).st.asserts = true ∧
    (decode_bytes ((bound_rec serial rid xid data transient external).encode_run clean wptr 0
        max_size_dblks).written rest).st.r._enq_hdr =
      (bound_rec serial rid xid data transient external)._enq_hdr ∧
    (bound_rec serial rid xid data transient external)._enq_hdr._rhdr =
      { _magic := QLS_ENQ_MAGIC, _version := QLS_JRNL_VERSION,
        _uflag := (bound_rec serial rid xid data transient external)._enq_hdr._rhdr._uflag,
        _serial := serial, _rid := rid } ∧
    (bound_rec serial rid xid data transient external)._enq_hdr._xidsize = xid.length ∧
    is_enq_transient (decode_bytes ((bound_rec serial rid xid data transient
      external).encode_run clean wptr 0 max_size_dblks).written rest).st.r._enq_hdr =
        transient ∧
    is_enq_external (decode_bytes ((bound_rec serial rid xid data transient
      external).encode_run clean wptr 0 max_size_dblks).written rest).st.r._enq_hdr =
        external ∧
    (decode_bytes ((bound_rec serial rid xid data transient external).encode_run clean wptr 0
        max_size_dblks).written rest).st.r.get_xid.2 = xid.length ∧
    mem_read (decode_bytes ((bound_rec serial rid xid data transient external).encode_run clean
        wptr 0 max_size_dblks).written rest).st.r.get_xid.1 0 xid.length = xid ∧
    (decode_bytes ((bound_rec serial rid xid data transient external).encode_run clean wptr 0
        max_size_dblks).written rest).st.r._enq_hdr._dsize = data.length := by
  have hsz2 : 39 + xid.length + data.length + 24 < 2 ^ 64 := hsz
  have hfit : (bound_rec serial rid xid data transient external).size < 2 ^ 64 := by
    rw [bound_rec_size]; split <;> omega
  have hty := bound_rec_typed serial rid xid data transient external hs hr (by omega) (by omega)
  have hsk : (bound_rec serial rid xid data transient external).data_bytes.length
      < 2 ^ 63 - 1 := by
    rw [data_bytes_length, bound_rec_external]
    cases external
    · exact hskip rfl
    · simp
  rw [encode_fit_written clean _ wptr max_size_dblks hfit hmax, image_eq_frame,
    decode_frame_result _ _ rest hty hfit (rec_tail_bytes_length _) hsk,
    bound_rec_tail_bytes serial rid xid data transient external hs hr, bound_rec_xid_bytes]
  have hchk : rec_tail_check
      { _xmagic := not32 QLS_ENQ_MAGIC, _checksum := 0, _serial := serial, _rid := rid }
      (bound_rec serial rid xid data transient external)._enq_hdr._rhdr 0 = 0 := by
    simp [rec_tail_check, bound_rec, enq_rec.reset, set_enq_external, set_enq_transient,
      enq_rec.ctor, enq_hdr_init]
  refine ⟨by simp only [hchk, if_true], rfl, rfl, rfl, rfl,
    bound_rec_transient serial rid xid data transient external,
    bound_rec_external serial rid xid data transient external, ?_, ?_, rfl⟩
  · show (enq_rec.get_xid (enq_rec.ctor.decoded _ xid.length _ xid _)).2 = xid.length
    unfold enq_rec.get_xid enq_rec.decoded
    by_cases hx : xid.length = 0
    · simp [hx]
    · simp [hx, Nat.pos_of_ne_zero hx]
  · show mem_read (enq_rec.get_xid (enq_rec.ctor.decoded _ xid.length _ xid _)).1 0 xid.length
      = xid
    unfold enq_rec.get_xid enq_rec.decoded
    by_cases hx : xid.length = 0
    · have : xid = [] := List.length_eq_zero.1 hx
      subst this
      simp [mem_read]
    · simp only [hx, Nat.pos_of_ne_zero hx, if_true, Option.isNone_some, Bool.false_eq_true,
        or_self, if_false]
      exact mem_read_full xid

theorem encode_decode_round_trip_witness :
    (decode_bytes ((bound_rec 7 100 [97, 98, 99] [112, 97, 121, 108, 111, 97, 100] false
        false).encode_run false [] 0 1).written []).outcome = dec_outcome.returned true :=
  (encode_decode_round_trip 7 100 [97, 98, 99] [112, 97, 121, 108, 111, 97, 100] false false
    false [] [] 1 (by decide) (by decide) (by decide) (by decide) (by decide)).1

/-- C9 -- Tail validation.  When `decode` has read a complete record (header
`h` of the record, xid, data unless external, of fewer bytes than the largest
`std::streamsize`, and the 24 bytes `tb` of the tail), it returns true exactly when the tail check passes, and otherwise raises
`JERR_JREC_BADRECTAIL` from class `enq_rec`, function `decode`; the message
names the first failing check in the order `xmagic != ~magic` ("Magic"), serial
("Serial"), rid ("Record Id"), checksum ("Checksum") and has the form
"Name: expected 0x(hex of the header-derived value); found 0x(hex of the tail
value)". -/
theorem tail_validation (r : enq_rec) (tb rest : List Byte) (ht : r._enq_hdr.typed)
    (hfit : r.size < 2 ^ 64) (hl : tb.length = 24)
    (hskip : r.data_bytes.length < 2 ^ 63 - 1) :
    ((decode_bytes (r.frame tb) rest).outcome = dec_outcome.returned true ↔
      rec_tail_check (rec_tail_of_bytes tb) r._enq_hdr._rhdr 0 = 0) ∧
    (rec_tail_check (rec_tail_of_bytes tb) r._enq_hdr._rhdr 0 ≠ 0 ↔
      ∃ info : String, (decode_bytes (r.frame tb) rest).outcome = dec_outcome.thrown
        { err_code := jerrno.JERR_JREC_BADRECTAIL, additional_info := info,
          throwing_class := "enq_rec", throwing_fn := "decode" }) ∧
    ((rec_tail_of_bytes tb)._xmagic ≠ not32 r._enq_hdr._rhdr._magic →
      (decode_bytes (r.frame tb) rest).outcome = dec_outcome.thrown
        { err_code := jerrno.JERR_JREC_BADRECTAIL
          additional_info := "Magic: expected 0x" ++ hex (not32 r._enq_hdr._rhdr._magic) ++
            "; found 0x" ++ hex (rec_tail_of_bytes tb)._xmagic
          throwing_class := "enq_rec", throwing_fn := "decode" }) ∧
    ((rec_tail_of_bytes tb)._xmagic = not32 r._enq_hdr._rhdr._magic →
      (rec_tail_of_bytes tb)._serial ≠ r._enq_hdr._rhdr._serial →
      (decode_bytes (r.frame tb) rest).outcome = dec_outcome.thrown
        { err_code := jerrno.JERR_JREC_BADRECTAIL
          additional_info := "Serial: expected 0x" ++ hex r._enq_hdr._rhdr._serial ++
            "; found 0x" ++ hex (rec_tail_of_bytes tb)._serial
          throwing_class := "enq_rec", throwing_fn := "decode" }) ∧
    ((rec_tail_of_bytes tb)._xmagic = not32 r._enq_hdr._rhdr._magic →
      (rec_tail_of_bytes tb)._serial = r._enq_hdr._rhdr._serial →
      (rec_tail_of_bytes tb)._rid ≠ r._enq_hdr._rhdr._rid →
      (decode_bytes (r.frame tb) rest).outcome = dec_outcome.thrown
        { err_code := jerrno.JERR_JREC_BADRECTAIL
          additional_info := "Record Id: expected 0x" ++ hex r._enq_hdr._rhdr._rid ++
            "; found 0x" ++ hex (rec_tail_of_bytes tb)._rid
          throwing_class := "enq_rec", throwing_fn := "decode" }) ∧
    ((rec_tail_of_bytes tb)._xmagic = not32 r._enq_hdr._rhdr._magic →
      (rec_tail_of_bytes tb)._serial = r._enq_hdr._rhdr._serial →
      (rec_tail_of_bytes tb)._rid = r._enq_hdr._rhdr._rid →
      (rec_tail_of_bytes tb)._checksum ≠ 0 →
      (decode_bytes (r.frame tb) rest).outcome = dec_outcome.thrown
        { err_code := jerrno.JERR_JREC_BADRECTAIL
          additional_info := "Checksum: expected 0x" ++ hex 0 ++
            "; found 0x" ++ hex (rec_tail_of_bytes tb)._checksum
          throwing_class := "enq_rec", throwing_fn := "decode" }) := by
  rw [decode_frame_result r tb rest ht hfit hl hskip]
  simp only []
  refine ⟨?_, ?_, ?_, ?_, ?_, ?_⟩
  · constructor
    · intro h
      by_contra hc
      rw [if_neg hc] at h
      exact dec_outcome.noConfusion h
    · intro h
      rw [if_pos h]
  · constructor
    · intro h
      rw [if_neg h]
      exact ⟨_, rfl⟩
    · rintro ⟨info, h⟩ hc
      rw [if_pos hc] at h
      exact dec_outcome.noConfusion h
  · intro h1
    have hc : rec_tail_check (rec_tail_of_bytes tb) r._enq_hdr._rhdr 0 = 1 := by
      unfold rec_tail_check; rw [if_pos h1]
    rw [hc, if_neg (by decide)]
    rfl
  · intro h1 h2
    have hc : rec_tail_check (rec_tail_of_bytes tb) r._enq_hdr._rhdr 0 = 2 := by
      unfold rec_tail_check; rw [if_neg (not_not.2 h1), if_pos h2]
    rw [hc, if_neg (by decide)]
    rfl
  · intro h1 h2 h3
    have hc : rec_tail_check (rec_tail_of_bytes tb) r._enq_hdr._rhdr 0 = 3 := by
      unfold rec_tail_check; rw [if_neg (not_not.2 h1), if_neg (not_not.2 h2), if_pos h3]
    rw [hc, if_neg (by decide)]
    rfl
  · intro h1 h2 h3 h4
    have hc : rec_tail_check (rec_tail_of_bytes tb) r._enq_hdr._rhdr 0 = 4 := by
      unfold rec_tail_check
      rw [if_neg (not_not.2 h1), if_neg (not_not.2 h2), if_neg (not_not.2 h3), if_pos h4]
    rw [hc, if_neg (by decide)]
    rfl

theorem tail_validation_witness :
    (decode_bytes ((bound_rec 7 100 [97] [1, 2] false false).frame
        (rec_tail_bytes { _xmagic := not32 QLS_ENQ_MAGIC, _checksum := 0, _serial := 7,
                          _rid := 101 })) []).outcome =
      dec_outcome.thrown
        { err_code := jerrno.JERR_JREC_BADRECTAIL
          additional_info := "Record Id: expected 0x64; found 0x65"
          throwing_class := "enq_rec", throwing_fn := "decode" } :=
  (tail_validation (bound_rec 7 100 [97] [1, 2] false false)
    (rec_tail_bytes { _xmagic := not32 QLS_ENQ_MAGIC, _checksum := 0, _serial := 7,
                      _rid := 101 }) []
    (by decide) (by decide) (by decide) (by decide)).2.2.2.2.1 (by decide) (by decide)
    (by decide)

theorem le_val_set_ne (l : List Byte) (j : Nat) (b : Byte) (hj : j < l.length)
    (hb : l[j]? ≠ some b) : le_val (l.set j b) ≠ le_val l := by
  intro h
  have h1 := le_bytes_le_val (l.set j b)
  rw [h, List.length_set, le_bytes_le_val l] at h1
  apply hb
  rw [h1]
  exact List.getElem?_set_self hj

theorem set_mid (pre seg post : List Byte) (j : Nat) (b : Byte) (hj : j < seg.length) :
    (pre ++ seg ++ post).set (pre.length + j) b = pre ++ seg.set j b ++ post ∧
    (pre ++ seg ++ post)[pre.length + j]? = seg[j]? := by
  constructor
  · rw [List.set_append_left _ _ (by rw [List.length_append]; omega),
      List.set_append_right _ _ (by omega), Nat.add_sub_cancel_left]
  · rw [List.getElem?_append_left (by rw [List.length_append]; omega),
      List.getElem?_append_right (by omega), Nat.add_sub_cancel_left]

/-- A changed byte in the first field of a tail changes `xmagic` only. -/
theorem tail_set_xmagic (a c s r : List Byte) (ha : a.length = 4) (hc : c.length = 4)
    (hs : s.length = 8) (i : Nat) (b : Byte) (hi : i < 4)
    (hb : (a ++ c ++ s ++ r)[i]? ≠ some b) :
    rec_tail_of_bytes ((a ++ c ++ s ++ r).set i b) =
      { _xmagic := le_val (a.set i b), _checksum := le_val c, _serial := le_val s,
        _rid := le_val (r.take 8) } ∧
    le_val (a.set i b) ≠ le_val a := by
  have h := set_mid [] a (c ++ (s ++ r)) i b (by omega)
  simp only [List.nil_append, List.length_nil, Nat.zero_add] at h
  have e : a ++ c ++ s ++ r = a ++ (c ++ (s ++ r)) := by simp only [List.append_assoc]
  rw [e, h.2] at hb
  rw [e, h.1]
  refine ⟨?_, le_val_set_ne a i b (by omega) hb⟩
  have e2 : a.set i b ++ (c ++ (s ++ r)) = a.set i b ++ c ++ s ++ r := by
    simp only [List.append_assoc]
  rw [e2, rec_tail_of_segments _ _ _ _ (by rw [List.length_set]; exact ha) hc hs]

/-- A changed byte in the second field of a tail changes `checksum` only. -/
theorem tail_set_checksum (a c s r : List Byte) (ha : a.length = 4) (hc : c.length = 4)
    (hs : s.length = 8) (i : Nat) (b : Byte) (hi : 4 ≤ i) (hi2 : i < 8)
    (hb : (a ++ c ++ s ++ r)[i]? ≠ some b) :
    rec_tail_of_bytes ((a ++ c ++ s ++ r).set i b) =
      { _xmagic := le_val a, _checksum := le_val (c.set (i - 4) b), _serial := le_val s,
        _rid := le_val (r.take 8) } ∧
    le_val (c.set (i - 4) b) ≠ le_val c := by
  have h := set_mid a c (s ++ r) (i - 4) b (by omega)
  rw [ha, show 4 + (i - 4) = i by omega] at h
  have e : a ++ c ++ s ++ r = a ++ c ++ (s ++ r) := by simp only [List.append_assoc]
  rw [e, h.2] at hb
  rw [e, h.1]
  refine ⟨?_, le_val_set_ne c (i - 4) b (by omega) hb⟩
  have e2 : a ++ c.set (i - 4) b ++ (s ++ r) = a ++ c.set (i - 4) b ++ s ++ r := by
    simp only [List.append_assoc]
  rw [e2, rec_tail_of_segments _ _ _ _ ha (by rw [List.length_set]; exact hc) hs]

/-- A changed byte in the third field of a tail changes `serial` only. -/
theorem tail_set_serial (a c s r : List Byte) (ha : a.length = 4) (hc : c.length = 4)
    (hs : s.length = 8) (i : Nat) (b : Byte) (hi : 8 ≤ i) (hi2 : i < 16)
    (hb : (a ++ c ++ s ++ r)[i]? ≠ some b) :
    rec_tail_of_bytes ((a ++ c ++ s ++ r).set i b) =
      { _xmagic := le_val a, _checksum := le_val c, _serial := le_val (s.set (i - 8) b),
        _rid := le_val (r.take 8) } ∧
    le_val (s.set (i - 8) b) ≠ le_val s := by
  have h := set_mid (a ++ c) s r (i - 8) b (by omega)
  rw [List.length_append, ha, hc, show 4 + 4 + (i - 8) = i by omega] at h
  rw [h.1]
  rw [h.2] at hb
  refine ⟨?_, le_val_set_ne s (i - 8) b (by omega) hb⟩
  rw [rec_tail_of_segments _ _ _ _ ha hc (by rw [List.length_set]; exact hs)]

/-- A changed byte in the last field of a tail changes `rid` only. -/
theorem tail_set_rid (a c s r : List Byte) (ha : a.length = 4) (hc : c.length = 4)
    (hs : s.length = 8) (hr : r.length = 8) (i : Nat) (b : Byte) (hi : 16 ≤ i) (hi2 : i < 24)
    (hb : (a ++ c ++ s ++ r)[i]? ≠ some b) :
    rec_tail_of_bytes ((a ++ c ++ s ++ r).set i b) =
      { _xmagic := le_val a, _checksum := le_val c, _serial := le_val s,
        _rid := le_val (r.set (i - 16) b) } ∧
    le_val (r.set (i - 16) b) ≠ le_val r := by
  have h := set_mid (a ++ c ++ s) r [] (i - 16) b (by omega)
  simp only [List.append_nil, List.length_append] at h
  rw [ha, hc, hs, show 4 + 4 + 8 + (i - 16) = i by omega] at h
  rw [h.1]
  rw [h.2] at hb
  refine ⟨?_, le_val_set_ne r (i - 16) b (by omega) hb⟩
  rw [rec_tail_of_segments _ _ _ _ ha hc hs,
    List.take_of_length_le (by rw [List.length_set, hr])]

theorem frame_set (r : enq_rec) (tb : List Byte) (i : Nat) (b : Byte) :
    (r.frame tb).set (r.tail_pos + i) b = r.frame (tb.set i b) ∧
    (r.frame tb)[r.tail_pos + i]? = tb[i]? := by
  have hl : (enq_hdr_bytes r._enq_hdr ++ r.xid_bytes ++ r.data_bytes).length = r.tail_pos := by
    rw [List.length_append, List.length_append, enq_hdr_bytes_length, xid_bytes_length,
      data_bytes_length]
    rfl
  unfold enq_rec.frame
  constructor
  · rw [List.set_append_right _ _ (by omega), hl, Nat.add_sub_cancel_left]
  · rw [List.getElem?_append_right (by omega), hl, Nat.add_sub_cancel_left]

theorem corrupt_check (h : rec_hdr_t) (hs : h._serial < 2 ^ 64) (hr : h._rid < 2 ^ 64)
    (i : Nat) (b : Byte) (hi : i < 24)
    (hb : (rec_tail_bytes (rec_tail_copy h 0))[i]? ≠ some b) :
    rec_tail_check (rec_tail_of_bytes ((rec_tail_bytes (rec_tail_copy h 0)).set i b)) h 0 =
      tail_field_check i := by
  have v1 : le_val (le_bytes 4 (not32 h._magic)) = not32 h._magic :=
    le_val_le_bytes_lt 4 _ (by have := not32_lt h._magic; norm_num at this ⊢; exact this)
  have v2 : le_val (le_bytes 4 0) = 0 := by decide
  have v3 : le_val (le_bytes 8 h._serial) = h._serial :=
    le_val_le_bytes_lt 8 _ (by norm_num at hs ⊢; exact hs)
  have v4 : le_val (le_bytes 8 h._rid) = h._rid :=
    le_val_le_bytes_lt 8 _ (by norm_num at hr ⊢; exact hr)
  have e : rec_tail_bytes (rec_tail_copy h 0) =
      le_bytes 4 (not32 h._magic) ++ le_bytes 4 0 ++ le_bytes 8 h._serial ++
        le_bytes 8 h._rid := rfl
  rw [e] at hb ⊢
  unfold tail_field_check rec_tail_check
  by_cases h1 : i < 4
  · obtain ⟨e1, n1⟩ := tail_set_xmagic _ _ _ _ (le_bytes_length 4 _) (le_bytes_length 4 _)
      (le_bytes_length 8 _) i b h1 hb
    rw [e1, v1] at *
    simp only [if_pos h1, if_pos n1]
  · by_cases h2 : i < 8
    · obtain ⟨e1, n1⟩ := tail_set_checksum _ _ _ _ (le_bytes_length 4 _) (le_bytes_length 4 _)
        (le_bytes_length 8 _) i b (by omega) h2 hb
      rw [e1, v1, v2, v3, List.take_of_length_le (by rw [le_bytes_length]), v4] at *
      simp only [if_neg h1, if_pos h2, ne_eq, not_true_eq_false, if_false, if_pos n1]
    · by_cases h3 : i < 16
      · obtain ⟨e1, n1⟩ := tail_set_serial _ _ _ _ (le_bytes_length 4 _) (le_bytes_length 4 _)
          (le_bytes_length 8 _) i b (by omega) h3 hb
        rw [e1, v1, v2, v3, List.take_of_length_le (by rw [le_bytes_length]), v4] at *
        simp only [if_neg h1, if_neg h2, if_pos h3, ne_eq, not_true_eq_false, if_false,
          if_pos n1]
      · obtain ⟨e1, n1⟩ := tail_set_rid _ _ _ _ (le_bytes_length 4 _) (le_bytes_length 4 _)
          (le_bytes_length 8 _) (le_bytes_length 8 _) i b (by omega) hi hb
        rw [e1, v1, v2, v3, v4] at *
        simp only [if_neg h1, if_neg h2, if_neg h3, ne_eq, not_true_eq_false, if_false,
          if_pos n1]

/-- C10 -- Corruption detection.  For every record whose tail mirrors its
header (as the constructor and `reset` leave it), with data in the stream of
fewer bytes than the largest `std::streamsize`, encoded in a single
invocation, and every position `i` of a byte of the encoded tail: when that one
byte is changed to a different value `b`, `decode` of the stream raises
`JERR_JREC_BADRECTAIL` from class `enq_rec`, function `decode`, and the message
names the field that holds the byte: "Magic" for `xmagic` (bytes 0-3),
"Checksum" for `checksum` (4-7), "Serial" for `serial` (8-15), "Record Id" for
`rid` (16-23), with the value expected and the value found in hex. -/
theorem corruption_detected (clean : Bool) (r : enq_rec) (wptr rest : List Byte)
    (max_size_dblks i : Nat) (b : Byte)
    (hm : r._enq_tail = rec_tail_copy r._enq_hdr._rhdr 0) (ht : r._enq_hdr.typed)
    (hfit : r.size < 2 ^ 64) (hmax : size_dblks r.rec_size ≤ max_size_dblks)
    (hskip : r.data_bytes.length < 2 ^ 63 - 1)
    (hi : i < sizeof_rec_tail)
    (hb : (r.encode_run clean wptr 0 max_size_dblks).written[r.tail_pos + i]? ≠ some b) :
    (decode_bytes ((r.encode_run clean wptr 0 max_size_dblks).written.set (r.tail_pos + i) b)
        rest).outcome =
      dec_outcome.thrown
        { err_code := jerrno.JERR_JREC_BADRECTAIL
          additional_info :=
            if i < 4 then
              "Magic: expected 0x" ++ hex (not32 r._enq_hdr._rhdr._magic) ++ "; found 0x" ++
                hex (rec_tail_of_bytes ((rec_tail_bytes r._enq_tail).set i b))._xmagic
            else if i < 8 then
              "Checksum: expected 0x" ++ hex 0 ++ "; found 0x" ++
                hex (rec_tail_of_bytes ((rec_tail_bytes r._enq_tail).set i b))._checksum
            else if i < 16 then
              "Serial: expected 0x" ++ hex r._enq_hdr._rhdr._serial ++ "; found 0x" ++
                hex (rec_tail_of_bytes ((rec_tail_bytes r._enq_tail).set i b))._serial
            else
              "Record Id: expected 0x" ++ hex r._enq_hdr._rhdr._rid ++ "; found 0x" ++
                hex (rec_tail_of_bytes ((rec_tail_bytes r._enq_tail).set i b))._rid
          throwing_class := "enq_rec"
          throwing_fn := "decode" } := by
  obtain ⟨t1, t2, t3, t4, t5, t6, t7⟩ := ht
  rw [encode_fit_written clean r wptr max_size_dblks hfit hmax, image_eq_frame] at hb ⊢
  rw [(frame_set r _ i b).2] at hb
  rw [(frame_set r _ i b).1,
    decode_frame_result r _ rest ⟨t1, t2, t3, t4, t5, t6, t7⟩ hfit
      (by rw [List.length_set, rec_tail_bytes_length]) hskip]
  rw [hm] at hb ⊢
  have hc := corrupt_check r._enq_hdr._rhdr t4 t5 i b hi hb
  simp only []
  rw [hc]
  unfold tail_field_check
  by_cases h1 : i < 4
  · simp only [if_pos h1]
    rw [if_neg (by decide)]
    rfl
  · by_cases h2 : i < 8
    · simp only [if_neg h1, if_pos h2]
      rw [if_neg (by decide)]
      rfl
    · by_cases h3 : i < 16
      · simp only [if_neg h1, if_neg h2, if_pos h3]
        rw [if_neg (by decide)]
        rfl
      · simp only [if_neg h1, if_neg h2, if_neg h3]
        rw [if_neg (by decide)]
        rfl

theorem corruption_detected_witness :
    (decode_bytes (((bound_rec 7 100 [97] [1, 2] false false).encode_run false [] 0
        1).written.set ((bound_rec 7 100 [97] [1, 2] false false).tail_pos + 16) 101)
        []).outcome =
      dec_outcome.thrown
        { err_code := jerrno.JERR_JREC_BADRECTAIL
          additional_info := "Record Id: expected 0x64; found 0x65"
          throwing_class := "enq_rec"
          throwing_fn := "decode" } :=
  corruption_detected false (bound_rec 7 100 [97] [1, 2] false false) [] [] 1 16 101
    (by decide) (by decide) (by decide) (by decide) (by decide) (by decide) (by decide)

theorem decoded_pad (r : enq_rec) (xid tb : List Byte) :
    (enq_rec.ctor.decoded r._enq_hdr._rhdr r._enq_hdr._xidsize r._enq_hdr._dsize xid tb).pad =
      r.pad := rfl

theorem pad_eq (r : enq_rec) (n : Nat) (hfit : r.size + 127 < 2 ^ 64)
    (hp : n + r.rec_size = r.rec_size_dblks * QLS_DBLK_SIZE_BYTES) : r.pad = n := by
  have hs := rec_size_eq_size r (by omega)
  unfold enq_rec.pad
  unfold enq_rec.rec_size_dblks at hp ⊢
  rw [hs] at hp ⊢
  rw [size_dblks_eq, show QLS_DBLK_SIZE_BYTES = 128 from rfl] at hp ⊢
  rw [Nat.mod_eq_of_lt (by omega), sub_sz_eq _ _ (by omega) (by omega)]
  omega

/-- C11 -- Bytes consumed on completion.  For every well-formed record in the
stream (header values of their types, a size whose block count fits, data in
the stream of fewer bytes than the largest `std::streamsize`), followed
by the padding up to the block boundary and then by the bytes `nxt`, `decode`
from watermark 0 leaves the watermark on `rec_size()`, returns true when the
tail passes the check, and leaves the stream in good state right after the
padding: with the 23 header bytes the caller has read, the bytes consumed are
`rec_size_dblks() * DBLK_BYTES`.  When external, `rec_size()` is
`sizeof(hdr) + xidsize + sizeof(tail)`, the stream holds no payload, and the tail
decoded is the 24 bytes that follow the xid. -/
theorem decode_consumes_blocks (r : enq_rec) (tb padding nxt : List Byte)
    (ht : r._enq_hdr.typed) (hfit : r.size + 127 < 2 ^ 64) (hl : tb.length = 24)
    (hp : padding.length + r.rec_size = r.rec_size_dblks * QLS_DBLK_SIZE_BYTES)
    (hskip : r.data_bytes.length < 2 ^ 63 - 1) :
    (decode_bytes (r.frame tb) (padding ++ nxt)).st.rec_offs = r.rec_size ∧
    ((decode_bytes (r.frame tb) (padding ++ nxt)).outcome = dec_outcome.returned true ↔
      rec_tail_check (rec_tail_of_bytes tb) r._enq_hdr._rhdr 0 = 0) ∧
    (decode_bytes (r.frame tb) (padding ++ nxt)).st.ifs.buf = nxt ∧
    (decode_bytes (r.frame tb) (padding ++ nxt)).st.ifs.good = true ∧
    (decode_bytes (r.frame tb) (padding ++ nxt)).st.asserts = true ∧
    sizeof_rec_hdr + ((r.frame tb).drop sizeof_rec_hdr ++ (padding ++ nxt)).length =
      r.rec_size_dblks * QLS_DBLK_SIZE_BYTES +
        (decode_bytes (r.frame tb) (padding ++ nxt)).st.ifs.buf.length ∧
    (is_enq_external r._enq_hdr = true →
      r.rec_size = sizeof_enq_hdr + r._enq_hdr._xidsize + sizeof_rec_tail ∧
      r.frame tb = enq_hdr_bytes r._enq_hdr ++ r.xid_bytes ++ tb ∧
      (decode_bytes (r.frame tb) (padding ++ nxt)).st.r._enq_tail = rec_tail_of_bytes tb) := by
  have hs := rec_size_eq_size r (by omega)
  have hpad := pad_eq r padding.length hfit hp
  have hfl : (r.frame tb).length = r.size := by
    unfold enq_rec.frame enq_rec.size
    rw [List.length_append, List.length_append, List.length_append, enq_hdr_bytes_length,
      xid_bytes_length, data_bytes_length, hl]
  have hig : (ifstream.mk (padding ++ nxt) false false false 24).ignore padding.length =
      ifstream.mk nxt false false false padding.length := by
    have hpl : padding.length < 128 := by
      have hp2 := hp
      unfold enq_rec.rec_size_dblks at hp2
      rw [hs, size_dblks_eq, show QLS_DBLK_SIZE_BYTES = 128 from rfl] at hp2
      omega
    rw [ignore_ge (ifstream.mk (padding ++ nxt) false false false 24) padding.length rfl
      (by simp) (by omega)]
    simp
  rw [decode_frame_result r tb (padding ++ nxt) ht (by omega) hl hskip, decoded_pad, hpad, hig]
  simp only []
  refine ⟨hs.symm, ?_, trivial, rfl, trivial, ?_, ?_⟩
  · constructor
    · intro h
      by_contra hc
      rw [if_neg hc] at h
      exact dec_outcome.noConfusion h
    · intro h
      rw [if_pos h]
  · rw [List.length_append, List.length_append, List.length_drop, hfl, ← hp, hs]
    have : 23 ≤ r.size := by unfold enq_rec.size; omega
    rw [show sizeof_rec_hdr = 23 from rfl]
    omega
  · intro he
    refine ⟨?_, ?_, rfl⟩
    · rw [hs]; unfold enq_rec.size; rw [he]; rfl
    · unfold enq_rec.frame enq_rec.data_bytes
      rw [he]
      simp

theorem decode_consumes_blocks_witness :
    (decode_bytes ((bound_rec 1 1 [116, 120, 49] [1, 2, 3, 4, 5, 6, 7] false true).frame
        (rec_tail_bytes (bound_rec 1 1 [116, 120, 49] [1, 2, 3, 4, 5, 6, 7] false
          true)._enq_tail))
        (List.replicate 62 0 ++ [9, 9])).st.ifs.buf = [9, 9] :=
  (decode_consumes_blocks (bound_rec 1 1 [116, 120, 49] [1, 2, 3, 4, 5, 6, 7] false true)
    (rec_tail_bytes (bound_rec 1 1 [116, 120, 49] [1, 2, 3, 4, 5, 6, 7] false true)._enq_tail)
    (List.replicate 62 0) [9, 9] (by decide) (by decide) (by decide) (by decide)
    (by decide)).2.2.1

/-- The first block of `decode` on a stream in good state that holds the two
size fields. -/
theorem decode_start (r0 : enq_rec) (h : rec_hdr_t) (ifs : ifstream) (X D : Nat)
    (rest : List Byte) (hg : ifs.good = true)
    (hb : ifs.buf = le_bytes 8 X ++ le_bytes 8 D ++ rest) (hX : X < 2 ^ 64) (hD : D < 2 ^ 64) :
    r0.decode h ifs 0 = enq_rec.decode_xid
      { r := { r0 with
          _enq_hdr := { _rhdr := h, _xidsize := X, _dsize := D }
          _buff := if X > 0 then some (List.replicate X 0) else r0._buff }
        ifs := { ifs with buf := rest, gcount := 8 }
        rec_offs := 39
        asserts := true } := by
  rw [decode_eq, if_pos rfl, decode_hdr_spec h _ X D rest hg hb hX hD]
  by_cases hx : X > 0
  · simp only [if_pos hx]; rfl
  · simp only [if_neg hx]; rfl

/-- A call of `decode` from watermark 0 on a stream that ends inside the
record, after the two size fields: it returns false and the watermark counts
the bytes of the record the stream supplied. -/
theorem decode_short (r0 : enq_rec) (h : rec_hdr_t) (ifs : ifstream) (X D : Nat)
    (part : List Byte) (hg : ifs.good = true)
    (hb : ifs.buf = le_bytes 8 X ++ le_bytes 8 D ++ part) (hD : D < 2 ^ 64)
    (hfit : 39 + X +
      (if is_enq_external { _rhdr := h, _xidsize := X, _dsize := D } then 0 else D) + 24 <
        2 ^ 64)
    (hk : 39 + part.length < 39 + X +
      (if is_enq_external { _rhdr := h, _xidsize := X, _dsize := D } then 0 else D) + 24)
    (hS : (if is_enq_external { _rhdr := h, _xidsize := X, _dsize := D } then 0 else D) <
      2 ^ 63 - 1) :
    (r0.decode h ifs 0).outcome = dec_outcome.returned false ∧
    (r0.decode h ifs 0).st.rec_offs = 39 + part.length ∧
    (r0.decode h ifs 0).st.asserts = true ∧
    (r0.decode h ifs 0).st.r._enq_hdr = { _rhdr := h, _xidsize := X, _dsize := D } := by
  rw [decode_start r0 h ifs X D part hg hb (by omega) hD]
  by_cases c1 : part.length < X
  · -- the stream ends inside the xid
    rw [decode_xid_eq, show sizeof_enq_hdr = 39 from rfl]
    simp only []
    rw [Nat.mod_eq_of_lt (by omega), if_pos (by omega), sub_sz_eq 39 39 (by norm_num) le_rfl,
      Nat.sub_self]
    obtain ⟨e1, e2, e3, e4, -⟩ := xid_read_short
      { r := { r0 with
          _enq_hdr := { _rhdr := h, _xidsize := X, _dsize := D }
          _buff := if X > 0 then some (List.replicate X 0) else r0._buff }
        ifs := { ifs with buf := part, gcount := 8 }
        rec_offs := 39
        asserts := true } 0 hg (by show X < 2 ^ 64; omega)
        (by show part.length + 0 < X; omega) (by show 39 + part.length < 2 ^ 64; omega)
    exact ⟨e1, e3, e2, by rw [e4]⟩
  · -- the whole xid is there
    obtain ⟨s2, e2, hg2, b2, o2, a2, r2⟩ := xid_stage
      { r := { r0 with
          _enq_hdr := { _rhdr := h, _xidsize := X, _dsize := D }
          _buff := if X > 0 then some (List.replicate X 0) else r0._buff }
        ifs := { ifs with buf := part, gcount := 8 }
        rec_offs := 39
        asserts := true }
      (part.take X) (part.drop X) rfl hg (List.take_append_drop X part).symm
      (by show (part.take X).length = X; rw [List.length_take]; omega)
      (by show 39 + X < 2 ^ 64; omega)
    have hh2 : s2.r._enq_hdr = { _rhdr := h, _xidsize := X, _dsize := D } := by
      rw [r2]
      show (if X > 0 then _ else _ : enq_rec)._enq_hdr = _
      split <;> rfl
    have o2 : s2.rec_offs = 39 + s2.r._enq_hdr._xidsize := by rw [hh2]; exact o2
    have a2 : s2.asserts = true := a2
    have hl2 : s2.ifs.buf.length + X = part.length := by
      rw [b2, List.length_drop]; omega
    rw [e2]
    by_cases c2 : is_enq_external { _rhdr := h, _xidsize := X, _dsize := D } = false ∧
        s2.ifs.buf.length < D
    · -- the stream ends inside the data
      obtain ⟨c2a, c2b⟩ := c2
      rw [decode_data_eq, hh2, if_pos c2a, show sizeof_enq_hdr = 39 from rfl]
      simp only []
      rw [o2, hh2]
      simp only []
      rw [Nat.mod_eq_of_lt (by rw [c2a] at hfit; simp at hfit; omega), if_pos (by omega),
        sub_sz_eq _ 39 (by omega) (by omega), Nat.add_sub_cancel_left,
        sub_sz_eq _ _ (by omega) le_rfl, Nat.sub_self]
      obtain ⟨f1, f2, f3, f4, -⟩ := data_skip_short s2 0 hg2 (by rw [hh2]; exact hD)
        (by rw [hh2]; show s2.ifs.buf.length + 0 < D; omega)
        (by rw [o2, hh2]; show 39 + X + _ < _; omega)
        (by rw [hh2]; show D < 2 ^ 63; rw [c2a] at hS; simp at hS; omega)
      refine ⟨f1, ?_, by rw [f2, a2], by rw [f4, hh2]⟩
      rw [f3, o2, hh2]
      show 39 + X + _ = _
      omega
    · -- the stream ends inside the tail
      have hn : (if is_enq_external { _rhdr := h, _xidsize := X, _dsize := D } then 0 else D) ≤
          s2.ifs.buf.length := by
        cases he : is_enq_external { _rhdr := h, _xidsize := X, _dsize := D }
        · simp only [Bool.false_eq_true, if_false]
          rw [he] at c2
          simp only [true_and, not_lt] at c2
          exact c2
        · simp
      obtain ⟨s3, e3, hg3, b3, o3, a3, r3⟩ := data_stage s2
        (if is_enq_external { _rhdr := h, _xidsize := X, _dsize := D } then 0 else D) o2 hg2
        (by rw [hh2]) hn (by rw [hh2]; show 39 + X + _ < _; omega) (by rw [hh2]; exact hD) hS
      have hh3 : s3.r._enq_hdr = { _rhdr := h, _xidsize := X, _dsize := D } := by rw [r3, hh2]
      have o3 : s3.rec_offs = 39 + X +
          (if is_enq_external { _rhdr := h, _xidsize := X, _dsize := D } then 0 else D) := by
        rw [o3, hh2]
      have hl3 : s3.ifs.buf.length +
          (if is_enq_external { _rhdr := h, _xidsize := X, _dsize := D } then 0 else D) =
            s2.ifs.buf.length := by
        rw [b3, List.length_drop]; omega
      rw [e3, decode_tail_eq, hh3, show sizeof_enq_hdr = 39 from rfl,
        show sizeof_rec_tail = 24 from rfl]
      simp only []
      rw [Nat.mod_eq_of_lt hfit, if_pos (by rw [o3]; omega),
        tail_offs_zero s3 _ (by rw [hh3]; exact o3) (by rw [hh3]) (by rw [hh3]; show 39 + X + _ < _; omega)]
      obtain ⟨f1, f2, f3, f4, -⟩ := tail_read_short s3 0 hg3 (by omega) (by omega)
      refine ⟨f1, ?_, by rw [f2, a3, a2], by rw [f4]; exact hh3⟩
      rw [f3, o3]
      omega

theorem take_add_append (a b : List Byte) (n k : Nat) (h : a.length = n) :
    (a ++ b).take (n + k) = a ++ b.take k := by
  subst h
  rw [List.take_append_eq_append_take, List.take_of_length_le (by omega)]
  congr 2
  omega

/-- The short read in general.  For every record whose data, unless external, is
shorter than the largest `std::streamsize`, and every `k` with
`sizeof(hdr) + k < rec_size()`: when the stream supplies the full header and then
only `k` further bytes of the record, `decode` started with watermark 0
returns false, raises nothing, keeps its assertions and leaves the watermark
on `sizeof(hdr) + k`, the number of record bytes consumed. -/
theorem short_read_general (r : enq_rec) (tb : List Byte) (k : Nat)
    (ht : r._enq_hdr.typed) (hfit : r.size < 2 ^ 64) (hl : tb.length = 24)
    (hk : sizeof_enq_hdr + k < r.rec_size) (hskip : r.data_bytes.length < 2 ^ 63 - 1) :
    (decode_bytes ((r.frame tb).take (sizeof_enq_hdr + k)) []).outcome =
      dec_outcome.returned false ∧
    (decode_bytes ((r.frame tb).take (sizeof_enq_hdr + k)) []).st.rec_offs =
      sizeof_enq_hdr + k ∧
    (decode_bytes ((r.frame tb).take (sizeof_enq_hdr + k)) []).st.asserts = true ∧
    ((r.frame tb).take (sizeof_enq_hdr + k)).length = sizeof_enq_hdr + k := by
  obtain ⟨t1, t2, t3, t4, t5, t6, t7⟩ := ht
  rw [rec_size_eq_size r hfit] at hk
  have hsz : r.size = 39 + r._enq_hdr._xidsize +
      (if is_enq_external r._enq_hdr then 0 else r._enq_hdr._dsize) + 24 := rfl
  have hbl : (r.xid_bytes ++ (r.data_bytes ++ tb)).length + 39 = r.size := by
    rw [List.length_append, List.length_append, xid_bytes_length, data_bytes_length, hl, hsz]
    omega
  have hf : (r.frame tb).take (sizeof_enq_hdr + k) =
      rec_hdr_bytes r._enq_hdr._rhdr ++ (le_bytes 8 r._enq_hdr._xidsize ++
        (le_bytes 8 r._enq_hdr._dsize ++ (r.xid_bytes ++ (r.data_bytes ++ tb)).take k)) := by
    unfold enq_rec.frame
    simp only [List.append_assoc]
    rw [take_add_append _ _ sizeof_enq_hdr k (enq_hdr_bytes_length _)]
    unfold enq_hdr_bytes
    simp only [List.append_assoc]
  have hpl : ((r.xid_bytes ++ (r.data_bytes ++ tb)).take k).length = k := by
    rw [List.length_take]
    rw [show sizeof_enq_hdr = 39 from rfl] at hk
    omega
  have hT : ((r.frame tb).take (sizeof_enq_hdr + k)).take sizeof_rec_hdr =
      rec_hdr_bytes r._enq_hdr._rhdr := by
    rw [hf]; exact take_append_len _ _ sizeof_rec_hdr (rec_hdr_bytes_length _)
  have hD : ((r.frame tb).take (sizeof_enq_hdr + k)).drop sizeof_rec_hdr ++ [] =
      le_bytes 8 r._enq_hdr._xidsize ++ le_bytes 8 r._enq_hdr._dsize ++
        (r.xid_bytes ++ (r.data_bytes ++ tb)).take k := by
    rw [hf, List.append_nil, drop_append_len _ _ sizeof_rec_hdr (rec_hdr_bytes_length _)]
    simp only [List.append_assoc]
  unfold decode_bytes
  rw [hT, hD, rec_hdr_of_bytes_bytes _ t1 t2 t3 t4 t5]
  obtain ⟨e1, e2, e3, -⟩ := decode_short enq_rec.ctor r._enq_hdr._rhdr
    (ifstream.on (le_bytes 8 r._enq_hdr._xidsize ++ le_bytes 8 r._enq_hdr._dsize ++
        (r.xid_bytes ++ (r.data_bytes ++ tb)).take k))
    r._enq_hdr._xidsize r._enq_hdr._dsize _ (good_on _) rfl t7
    (by rw [← hsz]; exact hfit)
    (by rw [← hsz, hpl]; exact hk)
    (by rw [← data_bytes_length]; exact hskip)
  rw [hpl] at e2
  refine ⟨e1, e2, e3, ?_⟩
  rw [List.length_take]
  have : (r.frame tb).length = r.size := by
    unfold enq_rec.frame
    rw [List.length_append, List.length_append, List.length_append, enq_hdr_bytes_length,
      xid_bytes_length, data_bytes_length, hl]
    rfl
  rw [this, show sizeof_enq_hdr = 39 from rfl] at *
  omega

/-- C8 (fails on the code): the file `huge_file` supplies the full header of a
record with `dsize = 2 ^ 63` and then `k = 26` further bytes, and
`sizeof(hdr) + 26 < rec_size()`.  The count `2 ^ 63` of the `ignore` that skips
the data is negative as a `std::streamsize`: nothing is skipped, `gcount()` is 0
and the end of the file is not met.  `decode` returns false with the watermark
on `sizeof(hdr)`, not on `sizeof(hdr) + 26`, leaves the 26 bytes in the stream,
and its assertion `assert(ifsp->eof())` fails.  With `dsize = 2 ^ 63 - 2` the
same call consumes the 26 bytes, keeps its assertions and leaves the watermark
on `sizeof(hdr) + 26`. -/
theorem short_read_negative_skip :
    huge_file.length = 65 ∧
    sizeof_enq_hdr + 26 < enq_rec.rec_size_of huge_hdr._xidsize huge_hdr._dsize false ∧
    is_enq_external huge_hdr = false ∧
    (decode_bytes huge_file []).st.r._enq_hdr = huge_hdr ∧
    (decode_bytes huge_file []).outcome = dec_outcome.returned false ∧
    (decode_bytes huge_file []).st.rec_offs = sizeof_enq_hdr ∧
    (decode_bytes huge_file []).st.rec_offs ≠ sizeof_enq_hdr + 26 ∧
    (decode_bytes huge_file []).st.asserts = false ∧
    (decode_bytes huge_file []).st.ifs.buf.length = 26 ∧
    (decode_bytes huge_file []).st.ifs.eofbit = false ∧
    (decode_bytes large_file []).outcome = dec_outcome.returned false ∧
    (decode_bytes large_file []).st.rec_offs = sizeof_enq_hdr + 26 ∧
    (decode_bytes large_file []).st.asserts = true := by
  refine ⟨by decide, by decide, by decide, by decide, by decide, by decide, by decide,
    by decide, by decide, by decide, by decide, by decide, by decide⟩

/-- The record `decode` leaves after a complete record, whatever the tail
check says. -/
theorem decode_complete_rec (r0 : enq_rec) (h : rec_hdr_t) (ifs : ifstream) (X D : Nat)
    (xid data tb rest : List Byte) (hg : ifs.good = true)
    (hb : ifs.buf = le_bytes 8 X ++ le_bytes 8 D ++ xid ++ data ++ tb ++ rest)
    (hX : xid.length = X)
    (hdl : data.length =
      if is_enq_external { _rhdr := h, _xidsize := X, _dsize := D } then 0 else D)
    (ht : tb.length = 24) (hfit : 39 + X + data.length + 24 < 2 ^ 64) (hD : D < 2 ^ 64)
    (hS : data.length < 2 ^ 63 - 1) :
    (r0.decode h ifs 0).st.r = r0.decoded h X D xid tb ∧
    ((r0.decode h ifs 0).outcome = dec_outcome.returned true ↔
      rec_tail_check (rec_tail_of_bytes tb) h 0 = 0) := by
  rw [decode_complete r0 h ifs X D xid data tb rest hg hb hX hdl ht hfit hD hS]
  have e := decode_finish_spec
    { r := r0.decoded h X D xid tb
      ifs := { buf := rest, eofbit := false, failbit := false, badbit := false, gcount := 24 }
      rec_offs := 39 + X + data.length + 24
      asserts := true } rfl
  rw [e]
  refine ⟨rfl, ?_⟩
  show ((if rec_tail_check (rec_tail_of_bytes tb) h 0 = 0 then dec_outcome.returned true
    else _) = dec_outcome.returned true ↔ _)
  constructor
  · intro h1
    by_contra hc
    rw [if_neg hc] at h1
    exact dec_outcome.noConfusion h1
  · intro h1
    rw [if_pos h1]

theorem read_bad (s : ifstream) (n : Nat) (hg : s.good = false) :
    s.read n = ([], { s with failbit := true, gcount := 0 }) := by
  unfold ifstream.read
  rw [if_neg (by rw [hg]; decide)]

theorem tail_read_bad (s : dec_st) (o : Nat) (hg : s.ifs.good = false) (ho : o < 24) :
    (s.tail_read o).outcome = dec_outcome.returned false := by
  unfold dec_st.tail_read
  rw [read_bad s.ifs _ hg]
  simp only []
  rw [if_pos (by rw [show sizeof_rec_tail = 24 from rfl, sub_sz_eq 24 o (by norm_num) (by omega)]
                 omega)]
  rfl

/-- A record whose data is not shorter than the largest `std::streamsize` is
never decoded to the end: the count of the `ignore` that skips the data is
negative, or is no limit, and the call returns false. -/
theorem decode_unskippable (r0 : enq_rec) (h : rec_hdr_t) (ifs : ifstream) (X D : Nat)
    (xid data tb rest : List Byte) (hg : ifs.good = true)
    (hb : ifs.buf = le_bytes 8 X ++ le_bytes 8 D ++ xid ++ data ++ tb ++ rest)
    (hX : xid.length = X)
    (hdl : data.length =
      if is_enq_external { _rhdr := h, _xidsize := X, _dsize := D } then 0 else D)
    (hfit : 39 + X + data.length + 24 < 2 ^ 64) (hD : D < 2 ^ 64)
    (hS : ¬ data.length < 2 ^ 63 - 1) :
    (r0.decode h ifs 0).outcome = dec_outcome.returned false := by
  have hext : is_enq_external { _rhdr := h, _xidsize := X, _dsize := D } = false := by
    cases he : is_enq_external { _rhdr := h, _xidsize := X, _dsize := D }
    · rfl
    · rw [he] at hdl; simp only [if_true] at hdl; omega
  have hdD : data.length = D := by rw [hext] at hdl; simpa using hdl
  rw [decode_start r0 h ifs X D (xid ++ (data ++ (tb ++ rest))) hg
    (by rw [hb]; simp only [List.append_assoc]) (by omega) hD]
  obtain ⟨s2, e2, hg2, b2, o2, a2, r2⟩ := xid_stage
    { r := { r0 with
        _enq_hdr := { _rhdr := h, _xidsize := X, _dsize := D }
        _buff := if X > 0 then some (List.replicate X 0) else r0._buff }
      ifs := { ifs with buf := xid ++ (data ++ (tb ++ rest)), gcount := 8 }
      rec_offs := 39
      asserts := true }
    xid (data ++ (tb ++ rest)) rfl hg rfl hX (by show 39 + X < 2 ^ 64; omega)
  have hh2 : s2.r._enq_hdr = { _rhdr := h, _xidsize := X, _dsize := D } := by
    rw [r2]
    show (if X > 0 then _ else _ : enq_rec)._enq_hdr = _
    split <;> rfl
  have o2 : s2.rec_offs = 39 + X := o2
  have hbl : D ≤ s2.ifs.buf.length := by
    rw [b2, List.length_append]; omega
  rw [e2, decode_data_eq, hh2, if_pos hext, show sizeof_enq_hdr = 39 from rfl]
  simp only []
  rw [o2, Nat.mod_eq_of_lt (by omega), if_pos (by omega),
    sub_sz_eq _ 39 (by omega) (by omega), Nat.add_sub_cancel_left,
    sub_sz_eq _ _ (by omega) le_rfl, Nat.sub_self]
  have hs : sub_sz s2.r._enq_hdr._dsize 0 = D := by
    rw [hh2]
    show sub_sz D 0 = D
    rw [sub_sz_eq D 0 hD (Nat.zero_le _)]
    rfl
  unfold dec_st.data_skip
  rw [hs]
  by_cases hneg : 2 ^ 63 ≤ D
  · rw [ignore_neg s2.ifs D hg2 hneg]
    simp only []
    rw [if_pos (by omega)]
    rfl
  · have hmax : s2.ifs.ignore D = { s2.ifs with buf := [], eofbit := true, gcount := D } := by
      have hDm : D = 2 ^ 63 - 1 := by omega
      unfold ifstream.ignore
      rw [if_pos hg2, if_neg (by omega), if_pos hDm, ← hDm, Nat.min_eq_right hbl]
    rw [hmax]
    simp only []
    rw [if_neg (lt_irrefl _), decode_tail_eq]
    simp only []
    rw [hh2, show sizeof_enq_hdr = 39 from rfl, show sizeof_rec_tail = 24 from rfl]
    simp only []
    rw [hext]
    simp only [Bool.false_eq_true, if_false]
    rw [o2, add_sz_eq _ _ (by omega), Nat.mod_eq_of_lt (by omega), if_pos (by omega)]
    apply tail_read_bad
    · show ifstream.good { s2.ifs with buf := [], eofbit := true, gcount := D } = false
      unfold ifstream.good
      simp
    · rw [tail_offs_zero _ D (by show 39 + X + D = 39 + s2.r._enq_hdr._xidsize + D; rw [hh2])
        (by show D = if is_enq_external s2.r._enq_hdr then 0 else s2.r._enq_hdr._dsize
            rw [hh2, hext]; rfl)
        (by show 39 + s2.r._enq_hdr._xidsize + D < 2 ^ 64; rw [hh2]; show 39 + X + D < _; omega)]
      omega

/-- C13 -- The accessor `get_xid` after `decode`.  For every record on which
`decode` (from watermark 0, on a stream that holds the two size fields, `xidsize`
bytes of xid, the data unless external and the tail) has returned true:
`get_xid` writes null and returns 0 when the header's `xidsize` is 0, and
otherwise writes the pointer to the start of the owned buffer and returns
`xidsize`, the `xidsize` bytes at that pointer being the xid bytes of the
stream. -/
theorem get_xid_after_decode (r0 : enq_rec) (h : rec_hdr_t) (ifs : ifstream) (X D : Nat)
    (xid data tb rest : List Byte) (hg : ifs.good = true)
    (hb : ifs.buf = le_bytes 8 X ++ le_bytes 8 D ++ xid ++ data ++ tb ++ rest)
    (hX : xid.length = X)
    (hdl : data.length =
      if is_enq_external { _rhdr := h, _xidsize := X, _dsize := D } then 0 else D)
    (ht : tb.length = 24) (hfit : 39 + X + data.length + 24 < 2 ^ 64) (hD : D < 2 ^ 64)
    (_hret : (r0.decode h ifs 0).outcome = dec_outcome.returned true) :
    (r0.decode h ifs 0).st.r._enq_hdr._xidsize = X ∧
    (X = 0 → (r0.decode h ifs 0).st.r.get_xid = (none, 0)) ∧
    (X ≠ 0 →
      (r0.decode h ifs 0).st.r.get_xid = ((r0.decode h ifs 0).st.r._buff, X) ∧
      (r0.decode h ifs 0).st.r._buff = some xid ∧
      mem_read (r0.decode h ifs 0).st.r.get_xid.1 0 (r0.decode h ifs 0).st.r.get_xid.2 = xid) := by
  have hS : data.length < 2 ^ 63 - 1 := by
    by_contra hc
    rw [decode_unskippable r0 h ifs X D xid data tb rest hg hb hX hdl hfit hD hc] at _hret
    cases _hret
  obtain ⟨e, -⟩ := decode_complete_rec r0 h ifs X D xid data tb rest hg hb hX hdl ht hfit hD hS
  rw [e]
  refine ⟨rfl, ?_, ?_⟩
  · intro hx
    unfold enq_rec.get_xid enq_rec.decoded
    simp [hx]
  · intro hx
    have hb2 : (r0.decoded h X D xid tb)._buff = some xid := by
      unfold enq_rec.decoded
      simp only [if_pos (Nat.pos_of_ne_zero hx)]
    have hg2 : (r0.decoded h X D xid tb).get_xid = (some xid, X) := by
      unfold enq_rec.get_xid
      rw [hb2]
      show (if _ ∨ X = 0 then _ else _) = _
      rw [if_neg (by simp [hx])]
      rfl
    rw [hg2, hb2]
    refine ⟨rfl, rfl, ?_⟩
    show mem_read (some xid) 0 X = xid
    rw [← hX]
    exact mem_read_full xid

theorem get_xid_after_decode_witness :
    (enq_rec.ctor.decode (bound_rec 1 1 [116, 120, 49] [] false false)._enq_hdr._rhdr
      (ifstream.on (le_bytes 8 3 ++ le_bytes 8 0 ++ [116, 120, 49] ++ [] ++
        rec_tail_bytes (bound_rec 1 1 [116, 120, 49] [] false false)._enq_tail ++ [])) 0
      ).st.r.get_xid = (some [116, 120, 49], 3) :=
  ((get_xid_after_decode enq_rec.ctor (bound_rec 1 1 [116, 120, 49] [] false false)._enq_hdr._rhdr
    (ifstream.on (le_bytes 8 3 ++ le_bytes 8 0 ++ [116, 120, 49] ++ [] ++
        rec_tail_bytes (bound_rec 1 1 [116, 120, 49] [] false false)._enq_tail ++ []))
    3 0 [116, 120, 49] [] _ [] rfl rfl rfl (by decide) (by decide) (by decide) (by decide)
    (by decide)).2.2 (by decide)).1.trans
  (by decide)

/-- C7 -- EOF idempotence fails when the stream ends inside the `xidsize` field.
The minimal record decodes to true from its 65 bytes.  From the first 27 bytes
(the 23 header bytes and 4 of the 8 bytes of `xidsize`) `decode` returns false
with watermark 39 and all assertions kept, the sizes it has stored being 0 and
0; called again with that watermark on the missing suffix it reads the rest of
the size fields as the tail and raises `JERR_JREC_BADRECTAIL`. -/
theorem truncated_size_field_breaks_resume :
    minimal_bytes.length = 65 ∧
    (decode_bytes minimal_bytes []).outcome = dec_outcome.returned true ∧
    (decode_bytes minimal_bytes []).st.r._enq_hdr._dsize = 2 ∧
    (decode_bytes (minimal_bytes.take 27) []).outcome = dec_outcome.returned false ∧
    (decode_bytes (minimal_bytes.take 27) []).st.rec_offs = 39 ∧
    (decode_bytes (minimal_bytes.take 27) []).st.asserts = true ∧
    (decode_bytes (minimal_bytes.take 27) []).st.r._enq_hdr._dsize = 0 ∧
    ((decode_bytes (minimal_bytes.take 27) []).st.r.decode
        (rec_hdr_of_bytes (minimal_bytes.take sizeof_rec_hdr))
        (ifstream.on (minimal_bytes.drop 27))
        (decode_bytes (minimal_bytes.take 27) []).st.rec_offs).outcome =
      dec_outcome.thrown
        { err_code := jerrno.JERR_JREC_BADRECTAIL
          additional_info := "Magic: expected 0x9aacb3ae; found 0x0"
          throwing_class := "enq_rec"
          throwing_fn := "decode" } := by
  decide

/-- C12 counterexample -- A record decoded with an empty xid has no buffer:
`get_data` returns 0 and a null pointer although the header's `dsize` is 2. -/
theorem get_data_length_counterexample :
    (decode_bytes minimal_bytes []).outcome = dec_outcome.returned true ∧
    (decode_bytes minimal_bytes []).st.r._enq_hdr._dsize = 2 ∧
    (decode_bytes minimal_bytes []).st.r.get_data = (none, 0) ∧
    (decode_bytes minimal_bytes []).st.r.get_data.2 ≠
      (decode_bytes minimal_bytes []).st.r._enq_hdr._dsize := by
  decide

/-- C12 as amended -- For every record state, `get_data` returns the header's
`dsize` when a buffer is present and 0 when none is; it writes a non-null
pointer exactly when a buffer is present and the record is not external, and
that pointer is the buffer advanced by `xidsize`; for the decoded external
record with xid "tx1" and data "ignored" it returns 7 with a null pointer. -/
theorem get_data_length (r : enq_rec) :
    r.get_data.2 = (if r._buff.isSome then r._enq_hdr._dsize else 0) ∧
    (r.get_data.1.isSome = true ↔
      (r._buff.isSome = true ∧ is_enq_external r._enq_hdr = false)) ∧
    (∀ b : List Byte, r._buff = some b → is_enq_external r._enq_hdr = false →
      r.get_data = (some (b, r._enq_hdr._xidsize), r._enq_hdr._dsize)) ∧
    (decode_bytes external_bytes []).outcome = dec_outcome.returned true ∧
    (decode_bytes external_bytes []).st.r.get_data = (none, 7) := by
  refine ⟨?_, ?_, ?_, by decide, by decide⟩
  · unfold enq_rec.get_data
    cases r._buff <;> cases is_enq_external r._enq_hdr <;> simp
  · unfold enq_rec.get_data
    cases r._buff <;> cases is_enq_external r._enq_hdr <;> simp
  · intro b hb he
    unfold enq_rec.get_data
    rw [hb, he]
    simp

theorem get_data_length_witness :
    ({ fields_rec with _buff := some [97, 98, 99] } : enq_rec).get_data =
      (some ([97, 98, 99], 3), 7) :=
  (get_data_length { fields_rec with _buff := some [97, 98, 99] }).2.2.1 [97, 98, 99] rfl
    (by decide)

/-- C14 -- The view of `get_data` leaves the owned buffer.  The record decoded
from the bytes of serial 7, rid 100, xid "abc", data "payload" owns a buffer of
`xidsize = 3` bytes; `get_xid` yields the range [0, 3) of it, but `get_data`
yields a non-null pointer at offset 3 with length 7, the range [3, 10), all of
it outside the buffer. -/
theorem get_data_view_outside_buffer :
    (decode_bytes fields_bytes []).outcome = dec_outcome.returned true ∧
    (decode_bytes fields_bytes []).st.r._buff = some [97, 98, 99] ∧
    (decode_bytes fields_bytes []).st.r.get_xid = (some [97, 98, 99], 3) ∧
    (decode_bytes fields_bytes []).st.r.get_data = (some ([97, 98, 99], 3), 7) ∧
    ¬ (3 + 7 ≤ ([97, 98, 99] : List Byte).length) := by
  decide

/-- C18 -- Debug render.  For every record and every string `s`, `str(s)` is
`s` followed by "enq_rec: m=(magic) v=(version) rid=(rid)" with the numbers in
decimal, then an xid part (the text of the pointer between quotes) only when
the xid pointer is bound, then " len=(dsize)" in decimal; for rid = 100 and a
7-byte payload the result contains "rid=100" and ends with "len=7". -/
theorem str_render (r : enq_rec) (xidp_text s : String) :
    r.str xidp_text s =
      s ++ ("enq_rec: m=" ++ Nat.repr r._enq_hdr._rhdr._magic ++
        " v=" ++ Nat.repr r._enq_hdr._rhdr._version ++
        " rid=" ++ Nat.repr r._enq_hdr._rhdr._rid ++
        (if r._xidp.isSome then " xid=\"" ++ xidp_text ++ "\"" else "") ++
        " len=" ++ Nat.repr r._enq_hdr._dsize) ∧
    (∃ text : String, r.str xidp_text s = s ++ text) ∧
    fields_rec.str xidp_text s =
      (s ++ "enq_rec: m=1699957841 v=2 ") ++ "rid=100" ++
        (" xid=\"" ++ xidp_text ++ "\" len=7") ∧
    fields_rec.str xidp_text s =
      (s ++ "enq_rec: m=1699957841 v=2 rid=100 xid=\"" ++ xidp_text ++ "\" ") ++ "len=7" ∧
    ({ fields_rec with _xidp := none } : enq_rec).str xidp_text s =
      s ++ "enq_rec: m=1699957841 v=2 rid=100 len=7" := by
  have e : r.str xidp_text s =
      s ++ ("enq_rec: m=" ++ Nat.repr r._enq_hdr._rhdr._magic ++
        " v=" ++ Nat.repr r._enq_hdr._rhdr._version ++
        " rid=" ++ Nat.repr r._enq_hdr._rhdr._rid ++
        (if r._xidp.isSome then " xid=\"" ++ xidp_text ++ "\"" else "") ++
        " len=" ++ Nat.repr r._enq_hdr._dsize) := by
    unfold enq_rec.str
    cases r._xidp <;> simp [String.append_assoc] <;> rfl
  have f : fields_rec.str xidp_text s =
      s ++ ("enq_rec: m=1699957841 v=2 rid=100" ++ (" xid=\"" ++ (xidp_text ++ "\" len=7"))) := by
    have h1 : fields_rec.str xidp_text s =
        s ++ ((("enq_rec: m=" ++ toString (1699957841 : Nat) ++ " v=" ++ toString (2 : Nat) ++
          " rid=" ++ toString (100 : Nat)) ++ " xid=\"" ++ xidp_text ++ "\"") ++
          " len=" ++ toString (7 : Nat)) := rfl
    rw [h1, show ("enq_rec: m=" ++ toString (1699957841 : Nat) ++ " v=" ++ toString (2 : Nat) ++
          " rid=" ++ toString (100 : Nat)) = "enq_rec: m=1699957841 v=2 rid=100" by decide,
      show toString (7 : Nat) = "7" by decide]
    simp only [String.append_assoc]
    rw [show "\"" ++ (" len=" ++ "7") = "\" len=7" by decide]
  refine ⟨e, ⟨_, e⟩, ?_, ?_, ?_⟩
  · rw [f]
    simp only [String.append_assoc]
    rw [show "enq_rec: m=1699957841 v=2 " ++ ("rid=100" ++ (" xid=\"" ++
      (xidp_text ++ "\" len=7"))) = ("enq_rec: m=1699957841 v=2 " ++ "rid=100") ++ (" xid=\"" ++
      (xidp_text ++ "\" len=7")) by rw [String.append_assoc]]
    rfl
  · rw [f]
    simp only [String.append_assoc]
    rw [show "\" " ++ "len=7" = "\" len=7" by decide,
      show "enq_rec: m=1699957841 v=2 rid=100 xid=\"" =
        "enq_rec: m=1699957841 v=2 rid=100" ++ " xid=\"" by decide]
    simp only [String.append_assoc]
  · have h1 : ({ fields_rec with _xidp := none } : enq_rec).str xidp_text s =
        s ++ ((("enq_rec: m=" ++ toString (1699957841 : Nat) ++ " v=" ++ toString (2 : Nat) ++
          " rid=" ++ toString (100 : Nat))) ++ " len=" ++ toString (7 : Nat)) := rfl
    rw [h1]
    congr 1

theorem slice_step (A B : List Byte) (ro ro2 n rem : Nat) (h : step_ok A.length ro ro2 n rem) :
    ((A ++ B).drop ro).take rem = (A.drop ro).take n ++ (B.drop ro2).take (rem - n) := by
  obtain ⟨hn, ⟨rfl, rfl⟩ | h1 | h2⟩ := h
  · simp
  · obtain ⟨h1, rfl, h3⟩ := h1
    rw [List.drop_append_eq_append_drop, List.drop_of_length_le h1, List.take_zero,
      List.nil_append, List.nil_append, Nat.sub_zero, show ro - A.length = ro2 by omega]
  · obtain ⟨h1, rfl, h3, h4⟩ := h2
    rw [List.drop_append_eq_append_drop, show ro - A.length = 0 by omega, List.drop_zero,
      List.take_append_eq_append_take, List.length_drop]
    rcases h4 with h4 | h4
    · subst h4
      rw [show n - (A.length - ro) = 0 by omega, Nat.sub_self]
    · have ha : (A.drop ro).take rem = A.drop ro :=
        List.take_of_length_le (by rw [List.length_drop]; omega)
      have hb : (A.drop ro).take n = A.drop ro :=
        List.take_of_length_le (by rw [List.length_drop]; omega)
      rw [ha, hb, show A.length - ro = n by omega]

/-- Three segment copies in a row write the slice of the concatenation of the
segments that starts at the first offset and has the length of the room. -/
theorem three_steps (X D T : List Byte) (ro ro1 ro2 ro3 n1 n2 n3 rem : Nat)
    (h1 : step_ok X.length ro ro1 n1 rem) (h2 : step_ok D.length ro1 ro2 n2 (rem - n1))
    (h3 : step_ok T.length ro2 ro3 n3 (rem - n1 - n2)) :
    ((X ++ (D ++ T)).drop ro).take rem =
      (X.drop ro).take n1 ++ ((D.drop ro1).take n2 ++ (T.drop ro2).take n3) := by
  have h4 := slice_step T [] ro2 ro3 n3 (rem - n1 - n2) h3
  simp only [List.append_nil, List.drop_nil, List.take_nil] at h4
  rw [slice_step X (D ++ T) ro ro1 n1 rem h1, slice_step D T ro1 ro2 n2 (rem - n1) h2, h4]

theorem mem_read_getElem? (p : Option (List Byte)) (offs n i : Nat) :
    (mem_read p offs n)[i]? =
      if i < n then some ((p.getD [])[offs + i]?.getD 0) else none := by
  unfold mem_read
  rw [List.getElem?_append, List.getElem?_take, List.getElem?_drop, List.getElem?_replicate,
    List.length_take, List.length_drop]
  by_cases h1 : i < n
  · by_cases h2 : offs + i < (p.getD []).length
    · rw [if_pos (by omega), if_pos h1, if_pos h1]
      rw [List.getElem?_eq_getElem h2]
      rfl
    · rw [if_neg (by omega), if_pos (by omega), if_pos h1,
        List.getElem?_eq_none (by omega)]
      rfl
  · by_cases h2 : i < min n ((p.getD []).length - offs)
    · omega
    · rw [if_neg h2, if_neg (by omega), if_neg h1]

theorem mem_read_slice (p : Option (List Byte)) (len ro n : Nat) (h : ro + n ≤ len) :
    mem_read p ro n = ((mem_read p 0 len).drop ro).take n := by
  apply List.ext_getElem?
  intro i
  rw [mem_read_getElem?, List.getElem?_take, List.getElem?_drop, mem_read_getElem?]
  by_cases h1 : i < n
  · rw [if_pos h1, if_pos h1, if_pos (by omega), Nat.zero_add]
  · rw [if_neg h1, if_neg h1]

theorem mem_read_some_slice (l : List Byte) (ro n : Nat) (h : ro + n ≤ l.length) :
    mem_read (some l) ro n = (l.drop ro).take n := by
  rw [mem_read_slice (some l) l.length ro n h, mem_read_full]

/-- One segment copy of the further-split branch, in terms of the bytes of the
segment. -/
theorem seg_split_step (src : Option (List Byte)) (len : Nat) (s : enc_st)
    (out w0 : List Byte)
    (hro : s.rec_offs < 2 ^ 64) (hlen : len < 2 ^ 64) (hwr : s.wr_cnt + s.rem < 2 ^ 64)
    (hh : s.holds out w0) :
    ∃ n, step_ok len s.rec_offs (seg_split src len s).rec_offs n s.rem ∧
      (seg_split src len s).rem + n = s.rem ∧
      (seg_split src len s).wr_cnt = s.wr_cnt + n ∧
      (seg_split src len s).asserts = s.asserts ∧
      (seg_split src len s).holds (out ++ ((mem_read src 0 len).drop s.rec_offs).take n) w0 := by
  obtain ⟨n, c, m, a, d, b⟩ := seg_split_spec src len s hro hlen hwr
  have hb := b out w0 hh.1 hh.2
  have e : mem_read src s.rec_offs n = ((mem_read src 0 len).drop s.rec_offs).take n := by
    rcases d with ⟨d1, d2, d3⟩ | ⟨d1, d2, d3, d4⟩
    · subst d2
      rw [mem_read_zero, List.take_zero]
    · exact mem_read_slice src len s.rec_offs n (by omega)
  refine ⟨n, ⟨by omega, Or.inr d⟩, m, c, a, ?_, ?_⟩
  · rw [← e]; exact hb
  · rw [← e, c, hh.2, List.length_append, mem_read_length]

/-- One segment copy of the first-invocation split branch, in terms of the
bytes of the segment. -/
theorem seg_first_step (src : Option (List Byte)) (len : Nat) (s : enc_st)
    (out w0 : List Byte) (hwr : s.wr_cnt + s.rem < 2 ^ 64) (hh : s.holds out w0) :
    ∃ n, step_ok len 0 0 n s.rem ∧
      (seg_first src len s).rem + n = s.rem ∧
      (seg_first src len s).wr_cnt = s.wr_cnt + n ∧
      (seg_first src len s).asserts = s.asserts ∧
      (seg_first src len s).rec_offs = s.rec_offs ∧
      (seg_first src len s).holds (out ++ ((mem_read src 0 len).drop 0).take n) w0 := by
  obtain ⟨n, c, m, o, a, l, d, b⟩ := seg_first_spec src len s hwr
  have hb := b out w0 hh.1 hh.2
  have e : mem_read src 0 n = ((mem_read src 0 len).drop 0).take n :=
    mem_read_slice src len 0 n (by omega)
  refine ⟨n, ⟨by omega, ?_⟩, m, c, a, o, ?_, ?_⟩
  · by_cases hl : len = 0
    · exact Or.inr (Or.inl ⟨by omega, by omega, by omega⟩)
    · exact Or.inr (Or.inr ⟨by omega, rfl, by omega, by omega⟩)
  · rw [← e]; exact hb
  · rw [← e, c, hh.2, List.length_append, mem_read_length]

theorem holds_skip (s : enc_st) (out w0 : List Byte) (l : List Byte) (ro : Nat)
    (hh : s.holds out w0) : s.holds (out ++ (l.drop ro).take 0) w0 := by
  rw [List.take_zero, List.append_nil]; exact hh

theorem data_bytes_eq (r : enq_rec) (he : is_enq_external r._enq_hdr = false) :
    r.data_bytes = mem_read r._data 0 r._enq_hdr._dsize := by
  unfold enq_rec.data_bytes; rw [he]; rfl

theorem data_bytes_nil (r : enq_rec) (he : is_enq_external r._enq_hdr = true) :
    r.data_bytes = [] := by
  unfold enq_rec.data_bytes; rw [he]; rfl

theorem tail_read_eq (r : enq_rec) :
    mem_read (some (rec_tail_bytes r._enq_tail)) 0 24 = rec_tail_bytes r._enq_tail := by
  have h := mem_read_full (rec_tail_bytes r._enq_tail)
  rw [rec_tail_bytes_length] at h
  exact h

theorem fs_xid_step (r : enq_rec) (s0 : enc_st) (out w0 : List Byte)
    (hR : 39 ≤ s0.rem) (hw : s0.wr_cnt = 39) (hR2 : s0.rem < 2 ^ 64) (hh : s0.holds out w0) :
    ∃ n, step_ok r.xid_bytes.length 0 0 n (s0.rem - 39) ∧
      (r.fs_xid s0).rem + n + 39 = s0.rem ∧
      (r.fs_xid s0).wr_cnt = s0.wr_cnt + n ∧
      (r.fs_xid s0).asserts = s0.asserts ∧
      (r.fs_xid s0).holds (out ++ (r.xid_bytes.drop 0).take n) w0 := by
  have e0 : sub_sz s0.rem sizeof_enq_hdr = s0.rem - 39 := by
    unfold sizeof_enq_hdr; rw [sub_sz_eq] <;> omega
  rw [fs_xid_eq, e0, xid_bytes_length]
  by_cases hr : s0.rem - 39 ≠ 0
  · rw [if_pos hr]
    obtain ⟨n, k, m, c, a, -, h⟩ := seg_first_step r._xidp r._enq_hdr._xidsize
      { s0 with rem := s0.rem - 39 } out w0 (by simp only; omega) hh
    exact ⟨n, k, by simp only at m; omega, c, a, h⟩
  · rw [if_neg hr]
    exact ⟨0, ⟨Nat.zero_le _, Or.inl ⟨by omega, rfl⟩⟩, by simp only; omega, rfl, rfl,
      holds_skip _ out w0 _ 0 hh⟩

theorem fs_data_step (r : enq_rec) (s : enc_st) (out w0 : List Byte)
    (hwr : s.wr_cnt + s.rem < 2 ^ 64) (hh : s.holds out w0) :
    ∃ n, step_ok r.data_bytes.length 0 0 n s.rem ∧
      (r.fs_data s).rem + n = s.rem ∧
      (r.fs_data s).wr_cnt = s.wr_cnt + n ∧
      (r.fs_data s).asserts = s.asserts ∧
      (r.fs_data s).holds (out ++ (r.data_bytes.drop 0).take n) w0 := by
  rw [fs_data_eq]
  by_cases hc : s.rem ≠ 0 ∧ is_enq_external r._enq_hdr = false
  · rw [if_pos hc, data_bytes_eq r hc.2, mem_read_length]
    obtain ⟨n, k, m, c, a, -, h⟩ := seg_first_step r._data r._enq_hdr._dsize s out w0 hwr hh
    exact ⟨n, k, m, c, a, h⟩
  · rw [if_neg hc]
    refine ⟨0, ⟨Nat.zero_le _, ?_⟩, rfl, rfl, rfl, holds_skip _ out w0 _ 0 hh⟩
    by_cases hr : s.rem = 0
    · exact Or.inl ⟨hr, rfl⟩
    · have he : is_enq_external r._enq_hdr = true := by
        cases h : is_enq_external r._enq_hdr
        · exact absurd ⟨hr, h⟩ hc
        · rfl
      rw [data_bytes_nil r he]
      exact Or.inr (Or.inl ⟨le_refl _, rfl, rfl⟩)

theorem fs_tail_step (r : enq_rec) (s : enc_st) (out w0 : List Byte)
    (hwr : s.wr_cnt + s.rem < 2 ^ 64) (hh : s.holds out w0) :
    ∃ n, step_ok (rec_tail_bytes r._enq_tail).length 0 0 n s.rem ∧
      (r.fs_tail s).rem + n = s.rem ∧
      (r.fs_tail s).wr_cnt = s.wr_cnt + n ∧
      (r.fs_tail s).asserts = (s.asserts && decide ((r.fs_tail s).rem = 0)) ∧
      (r.fs_tail s).holds (out ++ ((rec_tail_bytes r._enq_tail).drop 0).take n) w0 := by
  rw [fs_tail_eq, rec_tail_bytes_length]
  by_cases hc : s.rem ≠ 0
  · rw [if_pos hc, show sizeof_rec_tail = 24 from rfl]
    obtain ⟨n, k, m, c, a, -, h⟩ :=
      seg_first_step (some (rec_tail_bytes r._enq_tail)) 24 s out w0 hwr hh
    rw [tail_read_eq] at h
    exact ⟨n, k, m, c, by simp only [fs_assert]; rw [a], h⟩
  · rw [if_neg hc]
    exact ⟨0, ⟨Nat.zero_le _, Or.inl ⟨by omega, rfl⟩⟩, rfl, rfl, rfl,
      holds_skip _ out w0 _ 0 hh⟩

/-- The bytes the first-invocation split branch leaves in the buffer: the
first `rem` bytes of the image of the record. -/
theorem first_split_bytes (r : enq_rec) (s0 : enc_st) (w0 : List Byte)
    (hR : 39 ≤ s0.rem) (hR2 : s0.rem < 2 ^ 64) (hw : s0.wr_cnt = 39)
    (hh : s0.holds (enq_hdr_bytes r._enq_hdr) w0) :
    (r.encode_first_split s0).holds (r.image.take s0.rem) w0 := by
  rw [encode_first_split_eq]
  obtain ⟨n1, k1, m1, c1, -, h1⟩ := fs_xid_step r s0 _ w0 hR hw hR2 hh
  obtain ⟨n2, k2, m2, c2, -, h2⟩ := fs_data_step r (r.fs_xid s0) _ w0 (by omega) h1
  obtain ⟨n3, k3, m3, c3, -, h3⟩ := fs_tail_step r (r.fs_data (r.fs_xid s0)) _ w0 (by omega) h2
  have e1 : (r.fs_xid s0).rem = s0.rem - 39 - n1 := by omega
  have e2 : (r.fs_data (r.fs_xid s0)).rem = s0.rem - 39 - n1 - n2 := by omega
  rw [e1] at k2
  rw [e2] at k3
  have key := three_steps r.xid_bytes r.data_bytes (rec_tail_bytes r._enq_tail) 0 0 0 0
    n1 n2 n3 (s0.rem - 39) k1 k2 k3
  have hi : r.image.take s0.rem = enq_hdr_bytes r._enq_hdr ++
      ((r.xid_bytes ++ (r.data_bytes ++ rec_tail_bytes r._enq_tail)).drop 0).take
        (s0.rem - 39) := by
    unfold enq_rec.image
    simp only [List.append_assoc, List.drop_zero]
    rw [← take_add_append _ _ 39 (s0.rem - 39) (enq_hdr_bytes_length _),
      show 39 + (s0.rem - 39) = s0.rem by omega]
  rw [hi, key]
  simp only [List.append_assoc] at h3 ⊢
  exact h3

theorem holds_written (s : enc_st) (out w0 : List Byte) (hh : s.holds out w0) :
    s.written = out ∧ s.wptr.drop out.length = w0.drop out.length := by
  obtain ⟨h1, h2⟩ := hh
  unfold enc_st.written
  rw [h1, h2]
  exact ⟨List.take_left _ _, List.drop_left _ _⟩

theorem enc_hdr_holds (r : enq_rec) (wptr : List Byte) (rec_offs_dblks max_size_dblks : Nat) :
    (r.enc_hdr wptr rec_offs_dblks max_size_dblks).holds (enq_hdr_bytes r._enq_hdr) wptr := by
  constructor
  · show mem_write wptr 0 (enq_hdr_bytes r._enq_hdr) = _
    rw [mem_write_zero]
  · show sizeof_enq_hdr = _
    rw [enq_hdr_bytes_length]; rfl

/-- C19 -- First-invocation split.  For every record (sizes that fit
`std::size_t`) with `size_dblks(rec_size()) > max_size_dblks` and
`max_size_dblks > 0`, `encode` with `rec_offs_dblks = 0` writes exactly the first
`max_size_dblks * DBLK_BYTES` bytes of the logical stream header ++ xid ++ (data
unless external) ++ tail at the start of the buffer and leaves the rest of the
buffer as it was, ends with `rem == 0` (the assertion holds, as do the
preconditions asserted on entry), and returns `max_size_dblks`. -/
theorem encode_first_split_chunk (clean : Bool) (r : enq_rec) (wptr : List Byte)
    (max_size_dblks : Nat)
    (hfit : r.size < 2 ^ 64) (hmax : 0 < max_size_dblks)
    (hsplit : size_dblks r.rec_size > max_size_dblks) (h32 : max_size_dblks < 2 ^ 32) :
    (r.encode_run clean wptr 0 max_size_dblks).written =
      (enq_hdr_bytes r._enq_hdr ++ mem_read r._xidp 0 r._enq_hdr._xidsize ++
        (if is_enq_external r._enq_hdr then [] else mem_read r._data 0 r._enq_hdr._dsize) ++
        rec_tail_bytes r._enq_tail).take (max_size_dblks * QLS_DBLK_SIZE_BYTES) ∧
    (r.encode_run clean wptr 0 max_size_dblks).wr_cnt = max_size_dblks * QLS_DBLK_SIZE_BYTES ∧
    (r.encode_run clean wptr 0 max_size_dblks).written.length =
      max_size_dblks * QLS_DBLK_SIZE_BYTES ∧
    (r.encode_run clean wptr 0 max_size_dblks).wptr.drop
        (max_size_dblks * QLS_DBLK_SIZE_BYTES) =
      wptr.drop (max_size_dblks * QLS_DBLK_SIZE_BYTES) ∧
    (r.encode_run clean wptr 0 max_size_dblks).rem = 0 ∧
    (r.encode_run clean wptr 0 max_size_dblks).asserts =
      (r._xidp.isSome || decide (r._enq_hdr._xidsize = 0)) ∧
    r.encode clean wptr 0 max_size_dblks = max_size_dblks := by
  have hq : QLS_DBLK_SIZE_BYTES = 128 := rfl
  have hs := rec_size_eq_size r hfit
  have hlt : max_size_dblks * 128 < r.size := by
    rw [hs, size_dblks_eq] at hsplit; omega
  have hrem : (r.enc_hdr wptr 0 max_size_dblks).rem = max_size_dblks * 128 := rfl
  have hbytes := first_split_bytes r (r.enc_hdr wptr 0 max_size_dblks) wptr
    (by rw [hrem]; omega) (by rw [hrem]; omega) rfl (enc_hdr_holds r wptr 0 max_size_dblks)
  obtain ⟨a1, a2, -, a4⟩ := first_split_arith r (r.enc_hdr wptr 0 max_size_dblks)
    (by rw [hrem]; omega) (by rw [hrem]; omega) rfl (by rw [hrem]; exact hlt)
  rw [hrem] at hbytes a1
  have hlen : (r.image.take (max_size_dblks * 128)).length = max_size_dblks * 128 := by
    rw [List.length_take, image_length r (fits_of_size r hfit), hs]; omega
  obtain ⟨w1, w2⟩ := holds_written _ _ _ hbytes
  rw [hlen] at w2
  have hrun : r.encode_run clean wptr 0 max_size_dblks =
      r.encode_first_split (r.enc_hdr wptr 0 max_size_dblks) := by
    rw [encode_run_eq, if_neg (by simp), if_pos hsplit]
  unfold enq_rec.encode
  rw [hrun, hq, w1, a1]
  refine ⟨rfl, rfl, hlen, w2, a2, ?_, ?_⟩
  · rw [a4]
    show (decide (max_size_dblks > 0) && _) = _
    simp [hmax]
  · rw [size_dblks_eq, Nat.mod_eq_of_lt (by omega)]
    omega

theorem encode_first_split_chunk_witness :
    (ten_block_rec.encode_run false [] 0 4).written.length = 4 * QLS_DBLK_SIZE_BYTES ∧
    ten_block_rec.encode false [] 0 4 = 4 :=
  ⟨(encode_first_split_chunk false ten_block_rec [] 4 (by decide) (by decide) (by decide)
      (by decide)).2.2.1,
   (encode_first_split_chunk false ten_block_rec [] 4 (by decide) (by decide) (by decide)
      (by decide)).2.2.2.2.2.2⟩

theorem cs_xid_step (r : enq_rec) (s0 : enc_st) (w0 : List Byte)
    (hw : s0.wr_cnt = 0) (hrem : s0.rem < 2 ^ 64) (ho : 39 ≤ s0.rec_offs)
    (hro : s0.rec_offs < 2 ^ 64) (hx : r._enq_hdr._xidsize < 2 ^ 64) (hh : s0.holds [] w0) :
    ∃ n, step_ok r.xid_bytes.length (s0.rec_offs - 39) (r.cs_xid s0).rec_offs n s0.rem ∧
      (r.cs_xid s0).rem + n = s0.rem ∧
      (r.cs_xid s0).wr_cnt = s0.wr_cnt + n ∧
      (r.cs_xid s0).asserts = s0.asserts ∧
      (r.cs_xid s0).holds ([] ++ (r.xid_bytes.drop (s0.rec_offs - 39)).take n) w0 := by
  have e0 : sub_sz s0.rec_offs sizeof_enq_hdr = s0.rec_offs - 39 := by
    unfold sizeof_enq_hdr; rw [sub_sz_eq] <;> omega
  rw [cs_xid_eq r s0 hw hrem, e0, xid_bytes_length]
  exact seg_split_step r._xidp r._enq_hdr._xidsize { s0 with rec_offs := s0.rec_offs - 39 }
    [] w0 (by simp only; omega) hx (by simp only; omega) hh

theorem cs_data_step (r : enq_rec) (s : enc_st) (out w0 : List Byte)
    (hro : s.rem ≠ 0 → s.rec_offs < 2 ^ 64) (hds : r._enq_hdr._dsize < 2 ^ 64)
    (hwr : s.wr_cnt + s.rem < 2 ^ 64) (hh : s.holds out w0) :
    ∃ n, step_ok r.data_bytes.length s.rec_offs (r.cs_data s).rec_offs n s.rem ∧
      (r.cs_data s).rem + n = s.rem ∧
      (r.cs_data s).wr_cnt = s.wr_cnt + n ∧
      (r.cs_data s).asserts = s.asserts ∧
      (r.cs_data s).holds (out ++ (r.data_bytes.drop s.rec_offs).take n) w0 := by
  rw [cs_data_eq]
  by_cases hc : s.rem ≠ 0 ∧ is_enq_external r._enq_hdr = false
  · rw [if_pos hc, data_bytes_eq r hc.2, mem_read_length]
    exact seg_split_step r._data r._enq_hdr._dsize s out w0 (hro hc.1) hds hwr hh
  · rw [if_neg hc]
    refine ⟨0, ⟨Nat.zero_le _, ?_⟩, rfl, rfl, rfl, holds_skip _ out w0 _ _ hh⟩
    by_cases hr : s.rem = 0
    · exact Or.inl ⟨hr, rfl⟩
    · have he : is_enq_external r._enq_hdr = true := by
        cases h : is_enq_external r._enq_hdr
        · exact absurd ⟨hr, h⟩ hc
        · rfl
      rw [data_bytes_nil r he]
      exact Or.inr (Or.inl ⟨Nat.zero_le _, rfl, rfl⟩)

theorem cs_tail_step (r : enq_rec) (s : enc_st) (out w0 : List Byte)
    (hro : s.rem ≠ 0 → s.rec_offs < 2 ^ 64)
    (hwr : s.wr_cnt + s.rem < 2 ^ 64) (hh : s.holds out w0) :
    ∃ n, step_ok (rec_tail_bytes r._enq_tail).length s.rec_offs (r.cs_tail s).rec_offs n
        s.rem ∧
      (r.cs_tail s).rem + n = s.rem ∧
      (r.cs_tail s).wr_cnt = s.wr_cnt + n ∧
      (r.cs_tail s).holds (out ++ ((rec_tail_bytes r._enq_tail).drop s.rec_offs).take n) w0 := by
  rw [cs_tail_eq, rec_tail_bytes_length]
  by_cases hc : s.rem ≠ 0
  · rw [if_pos hc, show sizeof_rec_tail = 24 from rfl]
    obtain ⟨n, k, m, c, -, h⟩ :=
      seg_split_step (some (rec_tail_bytes r._enq_tail)) 24 s out w0 (hro hc) (by norm_num)
        hwr hh
    rw [tail_read_eq] at h
    exact ⟨n, k, m, c, h⟩
  · rw [if_neg hc]
    exact ⟨0, ⟨Nat.zero_le _, Or.inl ⟨by omega, rfl⟩⟩, rfl, rfl, holds_skip _ out w0 _ _ hh⟩

theorem step_ok_offs (len ro ro2 n rem : Nat) (h : step_ok len ro ro2 n rem) (hro : ro < 2 ^ 64)
    (hr : rem - n ≠ 0) : ro2 < 2 ^ 64 := by
  obtain ⟨h1, ⟨h2, h3⟩ | ⟨h2, h3, h4⟩ | ⟨h2, h3, h4⟩⟩ := h <;> omega

theorem image_drop (r : enq_rec) (ro : Nat) (ho : 39 ≤ ro) :
    r.image.drop ro =
      (r.xid_bytes ++ (r.data_bytes ++ rec_tail_bytes r._enq_tail)).drop (ro - 39) := by
  unfold enq_rec.image
  simp only [List.append_assoc]
  rw [List.drop_append_eq_append_drop, enq_hdr_bytes_length,
    List.drop_of_length_le (by rw [enq_hdr_bytes_length]; exact ho), List.nil_append]

/-- The bytes the continuation branch with further split leaves in the
buffer: the bytes of the image of the record from the offset `rec_offs` on, as
many as the room `rem`. -/
theorem cont_split_bytes (r : enq_rec) (s0 : enc_st) (w0 : List Byte)
    (hw : s0.wr_cnt = 0) (hrem : s0.rem < 2 ^ 64) (ho : 39 ≤ s0.rec_offs)
    (hro : s0.rec_offs < 2 ^ 64) (hx : r._enq_hdr._xidsize < 2 ^ 64)
    (hds : r._enq_hdr._dsize < 2 ^ 64) (hh : s0.holds [] w0) :
    (r.encode_cont_split s0).holds ((r.image.drop s0.rec_offs).take s0.rem) w0 := by
  rw [encode_cont_split_eq]
  obtain ⟨n1, k1, m1, c1, -, h1⟩ := cs_xid_step r s0 w0 hw hrem ho hro hx hh
  have e1 : (r.cs_xid s0).rem = s0.rem - n1 := by omega
  obtain ⟨n2, k2, m2, c2, -, h2⟩ := cs_data_step r (r.cs_xid s0) _ w0
    (fun hr => step_ok_offs _ _ _ _ _ k1 (by omega) (by rw [← e1]; exact hr)) hds (by omega) h1
  have e2 : (r.cs_data (r.cs_xid s0)).rem = s0.rem - n1 - n2 := by omega
  rw [e1] at k2
  obtain ⟨n3, k3, m3, c3, h3⟩ := cs_tail_step r (r.cs_data (r.cs_xid s0)) _ w0
    (fun hr => step_ok_offs _ _ _ _ _ k2
      (by
        by_cases hz : s0.rem - n1 = 0
        · omega
        · exact step_ok_offs _ _ _ _ _ k1 (by omega) hz)
      (by rw [← e2]; exact hr)) (by omega) h2
  rw [e2] at k3
  have key := three_steps r.xid_bytes r.data_bytes (rec_tail_bytes r._enq_tail) _ _ _ _
    n1 n2 n3 s0.rem k1 k2 k3
  rw [image_drop r _ ho, key]
  simp only [List.append_assoc, List.nil_append] at h3 ⊢
  exact h3

theorem step_fin_ok (len ro ro2 n rem : Nat) (h : step_fin len ro ro2 n) (hn : n ≤ rem) :
    step_ok len ro ro2 n rem := by
  refine ⟨hn, ?_⟩
  rcases h with ⟨h1, h2, h3⟩ | ⟨h1, h2, h3⟩
  · exact Or.inr (Or.inl ⟨h1, h2, h3⟩)
  · exact Or.inr (Or.inr ⟨h1, h2, by omega, Or.inr h3⟩)

theorem cf_xid_step (r : enq_rec) (s0 : enc_st) (w0 : List Byte)
    (hw : s0.wr_cnt = 0) (ho : 39 ≤ s0.rec_offs) (hro : s0.rec_offs < 2 ^ 64)
    (hxs : r._enq_hdr._xidsize < 2 ^ 64) (hh : s0.holds [] w0) :
    ∃ n, step_fin r.xid_bytes.length (s0.rec_offs - 39) (r.cf_xid s0).rec_offs n ∧
      (r.cf_xid s0).wr_cnt = n ∧ (r.cf_xid s0).rem = s0.rem ∧
      (r.cf_xid s0).asserts = s0.asserts ∧
      (r.cf_xid s0).holds ([] ++ (r.xid_bytes.drop (s0.rec_offs - 39)).take n) w0 := by
  have hw0 : s0.wptr = w0 := by
    have := hh.1
    simpa using this
  have e0 : sub_sz s0.rec_offs sizeof_enq_hdr = s0.rec_offs - 39 := by
    unfold sizeof_enq_hdr; rw [sub_sz_eq] <;> omega
  rw [xid_bytes_length]
  by_cases h1 : r._enq_hdr._xidsize > s0.rec_offs - 39
  · have e1 : sub_sz r._enq_hdr._xidsize (s0.rec_offs - 39) =
        r._enq_hdr._xidsize - (s0.rec_offs - 39) := sub_sz_eq _ _ hxs (by omega)
    have h2 : r._enq_hdr._xidsize - (s0.rec_offs - 39) ≠ 0 := by omega
    have e3 : sub_sz r._enq_hdr._xidsize (r._enq_hdr._xidsize - (s0.rec_offs - 39)) =
        s0.rec_offs - 39 := by rw [sub_sz_eq _ _ hxs (by omega)]; omega
    have e4 : sub_sz (s0.rec_offs - 39) (s0.rec_offs - 39) = 0 := by
      rw [sub_sz_eq _ _ (by omega) (le_refl _)]; omega
    have E : r.cf_xid s0 =
        { s0 with wptr := mem_write s0.wptr 0
                    (mem_read r._xidp (s0.rec_offs - 39) (r._enq_hdr._xidsize - (s0.rec_offs - 39)))
                  wr_cnt := r._enq_hdr._xidsize - (s0.rec_offs - 39)
                  rec_offs := 0 } := by
      unfold enq_rec.cf_xid
      simp only [e0, h1, if_true, e1, h2, ne_eq, not_false_eq_true, e3, e4, hw]
      rw [add_sz_eq _ _ (by omega), Nat.zero_add]
    have hle : s0.rec_offs - 39 + (r._enq_hdr._xidsize - (s0.rec_offs - 39)) ≤
        r._enq_hdr._xidsize := by omega
    have hsl : mem_read r._xidp (s0.rec_offs - 39) (r._enq_hdr._xidsize - (s0.rec_offs - 39)) =
        (r.xid_bytes.drop (s0.rec_offs - 39)).take
          (r._enq_hdr._xidsize - (s0.rec_offs - 39)) :=
      mem_read_slice r._xidp r._enq_hdr._xidsize _ _ hle
    rw [E]
    refine ⟨r._enq_hdr._xidsize - (s0.rec_offs - 39), Or.inr ⟨h1, rfl, by omega⟩, rfl, rfl,
      rfl, ?_, ?_⟩
    · show mem_write s0.wptr 0 _ = _
      rw [hw0, mem_write_zero, List.nil_append, hsl]
    · show r._enq_hdr._xidsize - (s0.rec_offs - 39) = _
      rw [List.nil_append, ← hsl, mem_read_length]
  · have e1 : sub_sz r._enq_hdr._xidsize 0 = r._enq_hdr._xidsize := by
      rw [sub_sz_eq _ _ hxs (by omega)]; omega
    have E : r.cf_xid s0 = { s0 with rec_offs := s0.rec_offs - 39 - r._enq_hdr._xidsize } := by
      unfold enq_rec.cf_xid
      simp only [e0, h1, if_false, ne_eq, not_true_eq_false, e1]
      rw [sub_sz_eq _ _ (by omega) (by omega)]
    rw [E]
    refine ⟨0, Or.inl ⟨by omega, rfl, by simp only; omega⟩, hw, rfl, rfl, ?_⟩
    exact holds_skip _ [] w0 _ _ hh

theorem cf_data_step (r : enq_rec) (s : enc_st) (out w0 : List Byte)
    (hds : r._enq_hdr._dsize < 2 ^ 64) (hro : s.rec_offs < 2 ^ 64)
    (hwr : is_enq_external r._enq_hdr = false → s.wr_cnt + r._enq_hdr._dsize < 2 ^ 64)
    (hh : s.holds out w0) :
    ∃ n, (r.cf_data s).wr_cnt = s.wr_cnt + n ∧ (r.cf_data s).rem = s.rem ∧
      (r.cf_data s).asserts = s.asserts ∧
      (r.cf_data s).holds (out ++ (r.data_bytes.drop s.rec_offs).take n) w0 ∧
      ((is_enq_external r._enq_hdr = false ∨ r._enq_hdr._dsize = 0) →
        step_fin r.data_bytes.length s.rec_offs (r.cf_data s).rec_offs n) := by
  by_cases h1 : r._enq_hdr._dsize > s.rec_offs
  · have e1 : sub_sz r._enq_hdr._dsize s.rec_offs = r._enq_hdr._dsize - s.rec_offs :=
      sub_sz_eq _ _ hds (by omega)
    have h2 : r._enq_hdr._dsize - s.rec_offs ≠ 0 := by omega
    have e3 : sub_sz r._enq_hdr._dsize (r._enq_hdr._dsize - s.rec_offs) = s.rec_offs := by
      rw [sub_sz_eq _ _ hds (by omega)]; omega
    have e4 : sub_sz s.rec_offs s.rec_offs = 0 := by
      rw [sub_sz_eq _ _ hro (le_refl _)]; omega
    cases hx : is_enq_external r._enq_hdr
    · have E : r.cf_data s =
          { s with wptr := mem_write s.wptr s.wr_cnt
                     (mem_read r._data s.rec_offs (r._enq_hdr._dsize - s.rec_offs))
                   wr_cnt := s.wr_cnt + (r._enq_hdr._dsize - s.rec_offs)
                   rec_offs := 0 } := by
        unfold enq_rec.cf_data
        simp only [h1, if_true, e1, h2, ne_eq, not_false_eq_true, hx, and_self, e3, e4]
        rw [add_sz_eq _ _ (by have := hwr hx; omega)]
      have hsl : mem_read r._data s.rec_offs (r._enq_hdr._dsize - s.rec_offs) =
          (r.data_bytes.drop s.rec_offs).take (r._enq_hdr._dsize - s.rec_offs) := by
        rw [data_bytes_eq r hx]
        exact mem_read_slice r._data _ _ _ (by omega)
      rw [E]
      refine ⟨r._enq_hdr._dsize - s.rec_offs, rfl, rfl, rfl, ⟨?_, ?_⟩, ?_⟩
      · show mem_write s.wptr s.wr_cnt _ = _
        rw [hh.1, mem_write_append w0 out _ _ hh.2, hsl]
      · show s.wr_cnt + _ = _
        rw [← hsl, List.length_append, mem_read_length, hh.2]
      · intro _
        refine Or.inr ⟨?_, rfl, ?_⟩
        · rw [data_bytes_length, hx]; simpa using h1
        · rw [data_bytes_length, hx]; simp only [Bool.false_eq_true, if_false]; omega
    · have E : r.cf_data s = { s with rec_offs := 0 } := by
        unfold enq_rec.cf_data
        simp only [h1, if_true, e1, h2, ne_eq, not_false_eq_true, hx, Bool.true_eq_false,
          and_false, if_false, e3, e4]
      rw [E]
      refine ⟨0, rfl, rfl, rfl, holds_skip _ out w0 _ _ hh, ?_⟩
      rintro (h | h)
      · exact Bool.noConfusion h
      · omega
  · have e1 : sub_sz r._enq_hdr._dsize 0 = r._enq_hdr._dsize := by
      rw [sub_sz_eq _ _ hds (by omega)]; omega
    have E : r.cf_data s = { s with rec_offs := s.rec_offs - r._enq_hdr._dsize } := by
      unfold enq_rec.cf_data
      simp only [h1, if_false, ne_eq, not_true_eq_false, false_and, e1]
      rw [sub_sz_eq _ _ hro (by omega)]
    rw [E]
    refine ⟨0, rfl, rfl, rfl, holds_skip _ out w0 _ _ hh, ?_⟩
    intro hns
    refine Or.inl ⟨?_, rfl, ?_⟩
    · rw [data_bytes_length]; split <;> omega
    · rw [data_bytes_length]
      show s.rec_offs - r._enq_hdr._dsize + _ = _
      rcases hns with h | h
      · rw [h]; simp only [Bool.false_eq_true, if_false]; omega
      · split <;> omega

theorem cf_tail_step (clean : Bool) (r : enq_rec) (rec_offs_dblks : Nat) (s : enc_st)
    (out w0 : List Byte) (hlt : s.rec_offs < 24) (hwr : s.wr_cnt + 24 < 2 ^ 64)
    (hh : s.holds out w0) :
    (r.cf_tail clean rec_offs_dblks s).wptr =
      ((out ++ (rec_tail_bytes r._enq_tail).drop s.rec_offs) ++
        cont_fill clean r rec_offs_dblks (r.cf_tail clean rec_offs_dblks s).wr_cnt) ++
        w0.drop ((out ++ (rec_tail_bytes r._enq_tail).drop s.rec_offs) ++
          cont_fill clean r rec_offs_dblks (r.cf_tail clean rec_offs_dblks s).wr_cnt).length ∧
    (r.cf_tail clean rec_offs_dblks s).wr_cnt =
      (out ++ (rec_tail_bytes r._enq_tail).drop s.rec_offs).length ∧
    (r.cf_tail clean rec_offs_dblks s).wr_cnt = s.wr_cnt + (24 - s.rec_offs) := by
  have h1 : 24 > s.rec_offs := hlt
  have e1 : sub_sz 24 s.rec_offs = 24 - s.rec_offs := sub_sz_eq _ _ (by omega) (by omega)
  have h2 : 24 - s.rec_offs ≠ 0 := by omega
  have e3 : sub_sz 24 (24 - s.rec_offs) = s.rec_offs := by
    rw [sub_sz_eq _ _ (by omega) (by omega)]; omega
  have e4 : sub_sz s.rec_offs s.rec_offs = 0 := by
    rw [sub_sz_eq _ _ (by omega) (le_refl _)]; omega
  have e5 : add_sz s.wr_cnt (24 - s.rec_offs) = s.wr_cnt + (24 - s.rec_offs) :=
    add_sz_eq _ _ (by omega)
  have hsl : mem_read (some (rec_tail_bytes r._enq_tail)) s.rec_offs (24 - s.rec_offs) =
      (rec_tail_bytes r._enq_tail).drop s.rec_offs := by
    rw [mem_read_some_slice _ _ _ (by rw [rec_tail_bytes_length]; omega),
      List.take_of_length_le (by rw [List.length_drop, rec_tail_bytes_length])]
  have hlen : (out ++ (rec_tail_bytes r._enq_tail).drop s.rec_offs).length =
      s.wr_cnt + (24 - s.rec_offs) := by
    rw [List.length_append, List.length_drop, rec_tail_bytes_length, hh.2]
  cases clean
  · have E : r.cf_tail false rec_offs_dblks s =
        { s with wptr := mem_write s.wptr s.wr_cnt
                   (mem_read (some (rec_tail_bytes r._enq_tail)) s.rec_offs (24 - s.rec_offs))
                 wr_cnt := s.wr_cnt + (24 - s.rec_offs)
                 rec_offs := 0
                 asserts := s.asserts && decide ((0 : Nat) = 0) } := by
      unfold enq_rec.cf_tail
      simp only [sizeof_rec_tail, h1, if_true, e1, h2, ne_eq, not_false_eq_true,
        Bool.false_eq_true, if_false, e3, e4, e5]
    rw [E]
    refine ⟨?_, hlen.symm, rfl⟩
    show mem_write s.wptr s.wr_cnt _ = _
    rw [hh.1, mem_write_append w0 out _ _ hh.2, hsl]
    simp [cont_fill]
  · have E : r.cf_tail true rec_offs_dblks s =
        { s with wptr := mem_write
                   (mem_write s.wptr s.wr_cnt
                     (mem_read (some (rec_tail_bytes r._enq_tail)) s.rec_offs
                       (24 - s.rec_offs)))
                   (s.wr_cnt + (24 - s.rec_offs))
                   (List.replicate
                     (sub_sz (size_dblks (sub_sz r.rec_size
                        (rec_offs_dblks * QLS_DBLK_SIZE_BYTES)) *
                          QLS_DBLK_SIZE_BYTES % 2 ^ 64) (s.wr_cnt + (24 - s.rec_offs)))
                     QLS_CLEAN_CHAR)
                 wr_cnt := s.wr_cnt + (24 - s.rec_offs)
                 rec_offs := 0
                 asserts := s.asserts && decide ((0 : Nat) = 0) } := by
      unfold enq_rec.cf_tail
      simp only [sizeof_rec_tail, h1, if_true, e1, h2, ne_eq, not_false_eq_true,
        e3, e4, e5]
    rw [E]
    refine ⟨?_, hlen.symm, rfl⟩
    show mem_write (mem_write s.wptr s.wr_cnt _) _ _ = _
    rw [hh.1, mem_write_append w0 out _ _ hh.2, hsl,
      mem_write_append w0 _ _ _ hlen.symm]
    rfl

/-- The buffer after the continuation branch without further split: the
bytes written, then the fill of the clean mode, then the buffer as it was; for
a record that is not external, or has `dsize = 0`, the bytes written are the
rest of the image of the record. -/
theorem cont_final_frame (clean : Bool) (r : enq_rec) (rec_offs_dblks : Nat) (s0 : enc_st)
    (w0 : List Byte)
    (hfit : r.size < 2 ^ 64) (hds : r._enq_hdr._dsize < 2 ^ 64)
    (ho : 39 ≤ s0.rec_offs) (hS : s0.rec_offs < r.size) (hw : s0.wr_cnt = 0)
    (hh : s0.holds [] w0) :
    ∃ W : List Byte,
      (r.encode_cont_final clean rec_offs_dblks s0).wptr =
        (W ++ cont_fill clean r rec_offs_dblks
            (r.encode_cont_final clean rec_offs_dblks s0).wr_cnt) ++
          w0.drop (W ++ cont_fill clean r rec_offs_dblks
            (r.encode_cont_final clean rec_offs_dblks s0).wr_cnt).length ∧
      (r.encode_cont_final clean rec_offs_dblks s0).wr_cnt = W.length ∧
      ((is_enq_external r._enq_hdr = false ∨ r._enq_hdr._dsize = 0) →
        W = r.image.drop s0.rec_offs) := by
  unfold enq_rec.size at hfit hS
  have hxs : r._enq_hdr._xidsize < 2 ^ 64 := by omega
  rw [encode_cont_final_eq]
  obtain ⟨n1, f1, c1, m1, a1, h1⟩ := cf_xid_step r s0 w0 hw ho (by omega) hxs hh
  obtain ⟨-, -, d1⟩ := cf_xid_arith r s0 hxs ho (by omega) hw
  have hro1 : (r.cf_xid s0).rec_offs < 2 ^ 64 := by omega
  have hwr1 : is_enq_external r._enq_hdr = false →
      (r.cf_xid s0).wr_cnt + r._enq_hdr._dsize < 2 ^ 64 := by
    intro hx
    simp only [hx, Bool.false_eq_true, if_false] at hfit hS
    omega
  obtain ⟨n2, c2, m2, a2, h2, f2⟩ := cf_data_step r (r.cf_xid s0) _ w0 hds hro1 hwr1 h1
  obtain ⟨-, -, d2⟩ := cf_data_arith r (r.cf_xid s0) hds hro1 hwr1
  have hlt : (r.cf_data (r.cf_xid s0)).rec_offs < 24 ∧
      (r.cf_data (r.cf_xid s0)).wr_cnt + 24 < 2 ^ 64 := by
    cases hx : is_enq_external r._enq_hdr
    · simp only [hx, Bool.false_eq_true, if_false] at hfit hS
      rcases d2 with d2 | ⟨_, _, ⟨_, d2⟩ | ⟨h, _⟩⟩
      · omega
      · omega
      · rw [hx] at h; exact Bool.noConfusion h
    · simp only [hx, if_true] at hfit hS
      rcases d2 with d2 | ⟨_, _, ⟨h, _⟩ | ⟨_, d2⟩⟩
      · omega
      · rw [hx] at h; exact Bool.noConfusion h
      · omega
  obtain ⟨w3, l3, c3⟩ := cf_tail_step clean r rec_offs_dblks (r.cf_data (r.cf_xid s0)) _ w0
    hlt.1 hlt.2 h2
  refine ⟨_, w3, l3, ?_⟩
  intro hns
  have f2 := f2 hns
  have hdl := data_bytes_length r
  have hxl := xid_bytes_length r
  have htl := rec_tail_bytes_length r._enq_tail
  have hdl2 : r.data_bytes.length =
      (if is_enq_external r._enq_hdr then 0 else r._enq_hdr._dsize) := hdl
  unfold step_fin at f1 f2
  have k1 : step_ok r.xid_bytes.length (s0.rec_offs - 39) (r.cf_xid s0).rec_offs n1
      (n1 + n2 + (24 - (r.cf_data (r.cf_xid s0)).rec_offs)) :=
    step_fin_ok _ _ _ _ _ f1 (by omega)
  have k2 : step_ok r.data_bytes.length (r.cf_xid s0).rec_offs
      (r.cf_data (r.cf_xid s0)).rec_offs n2
      (n1 + n2 + (24 - (r.cf_data (r.cf_xid s0)).rec_offs) - n1) :=
    step_fin_ok _ _ _ _ _ f2 (by omega)
  have k3 : step_ok (rec_tail_bytes r._enq_tail).length (r.cf_data (r.cf_xid s0)).rec_offs 0
      (24 - (r.cf_data (r.cf_xid s0)).rec_offs)
      (n1 + n2 + (24 - (r.cf_data (r.cf_xid s0)).rec_offs) - n1 - n2) :=
    step_fin_ok _ _ _ _ _ (Or.inr ⟨by omega, rfl, by omega⟩) (by omega)
  have key := three_steps r.xid_bytes r.data_bytes (rec_tail_bytes r._enq_tail) _ _ _ _
    _ _ _ _ k1 k2 k3
  have hfull : ((r.xid_bytes ++ (r.data_bytes ++ rec_tail_bytes r._enq_tail)).drop
      (s0.rec_offs - 39)).take (n1 + n2 + (24 - (r.cf_data (r.cf_xid s0)).rec_offs)) =
      (r.xid_bytes ++ (r.data_bytes ++ rec_tail_bytes r._enq_tail)).drop (s0.rec_offs - 39) := by
    apply List.take_of_length_le
    rw [List.length_drop, List.length_append, List.length_append, hxl, hdl2, htl]
    rw [hxl] at f1
    rw [hdl2] at f2
    omega
  have ht : ((rec_tail_bytes r._enq_tail).drop (r.cf_data (r.cf_xid s0)).rec_offs).take
      (24 - (r.cf_data (r.cf_xid s0)).rec_offs) =
      (rec_tail_bytes r._enq_tail).drop (r.cf_data (r.cf_xid s0)).rec_offs :=
    List.take_of_length_le (by rw [List.length_drop, htl])
  rw [image_drop r _ ho, ← hfull, key, ht]
  simp only [List.append_assoc, List.nil_append]

theorem enc_init_holds (r : enq_rec) (wptr : List Byte) (rec_offs_dblks max_size_dblks : Nat) :
    (r.enc_init wptr rec_offs_dblks max_size_dblks).holds [] wptr :=
  ⟨rfl, rfl⟩

theorem written_of_frame (s : enc_st) (W F w0 : List Byte)
    (h1 : s.wptr = (W ++ F) ++ w0.drop (W ++ F).length) (h2 : s.wr_cnt = W.length) :
    s.written = W := by
  unfold enc_st.written
  rw [h1, h2, List.append_assoc]
  exact List.take_left _ _

/-- What one continuation invocation writes, for a record that is not
external or has `dsize = 0`. -/
theorem cont_chunk (clean : Bool) (r : enq_rec) (wptr : List Byte)
    (rec_offs_dblks max_size_dblks : Nat)
    (hfit : r.size < 2 ^ 64) (hds : r._enq_hdr._dsize < 2 ^ 64)
    (hns : is_enq_external r._enq_hdr = false ∨ r._enq_hdr._dsize = 0)
    (ho : 0 < rec_offs_dblks) (hoffs : rec_offs_dblks < size_dblks r.rec_size)
    (hmax : 0 < max_size_dblks) (h32 : max_size_dblks < 2 ^ 32) :
    (r.encode_run clean wptr rec_offs_dblks max_size_dblks).written =
      ((enq_hdr_bytes r._enq_hdr ++ mem_read r._xidp 0 r._enq_hdr._xidsize ++
        (if is_enq_external r._enq_hdr then [] else mem_read r._data 0 r._enq_hdr._dsize) ++
        rec_tail_bytes r._enq_tail).drop (rec_offs_dblks * QLS_DBLK_SIZE_BYTES)).take
          (max_size_dblks * QLS_DBLK_SIZE_BYTES) ∧
    (r.encode_run clean wptr rec_offs_dblks max_size_dblks).written.length =
      min r.rec_size ((rec_offs_dblks + max_size_dblks) * QLS_DBLK_SIZE_BYTES) -
        rec_offs_dblks * QLS_DBLK_SIZE_BYTES ∧
    (r.encode_run clean wptr rec_offs_dblks max_size_dblks).wr_cnt =
      (r.encode_run clean wptr rec_offs_dblks max_size_dblks).written.length := by
  have hq : QLS_DBLK_SIZE_BYTES = 128 := rfl
  have hs := rec_size_eq_size r hfit
  have hil : r.image.length = r.size := by rw [image_length r (fits_of_size r hfit), hs]
  rw [hs, size_dblks_eq] at hoffs
  have hro : rec_offs_dblks * 128 < r.size := by omega
  have h39 : 39 ≤ rec_offs_dblks * 128 := by omega
  have hxs : r._enq_hdr._xidsize < 2 ^ 64 := by unfold enq_rec.size at hfit; omega
  have himg : (enq_hdr_bytes r._enq_hdr ++ mem_read r._xidp 0 r._enq_hdr._xidsize ++
        (if is_enq_external r._enq_hdr then [] else mem_read r._data 0 r._enq_hdr._dsize) ++
        rec_tail_bytes r._enq_tail) = r.image := rfl
  have hlen : ((r.image.drop (rec_offs_dblks * 128)).take (max_size_dblks * 128)).length =
      min r.size ((rec_offs_dblks + max_size_dblks) * 128) - rec_offs_dblks * 128 := by
    rw [List.length_take, List.length_drop, hil]; omega
  rw [himg, hs, hq, encode_run_eq, if_pos (by omega), size_dblks_eq, hs,
    sub_sz_eq _ _ (by omega) (by omega)]
  by_cases hb : (r.size + 127) / 128 - rec_offs_dblks > max_size_dblks
  · rw [if_pos hb]
    have hh := cont_split_bytes r (r.enc_init wptr rec_offs_dblks max_size_dblks) wptr rfl
      (by show max_size_dblks * 128 < 2 ^ 64; omega) h39
      (by show rec_offs_dblks * 128 < 2 ^ 64; omega) hxs hds
      (enc_init_holds r wptr rec_offs_dblks max_size_dblks)
    obtain ⟨w1, -⟩ := holds_written _ _ _ hh
    have hw2 := hh.2
    refine ⟨w1, by rw [w1]; exact hlen, ?_⟩
    rw [w1]; exact hw2
  · rw [if_neg hb]
    obtain ⟨W, f1, f2, f3⟩ := cont_final_frame clean r rec_offs_dblks
      (r.enc_init wptr rec_offs_dblks max_size_dblks) wptr hfit hds h39 hro rfl
      (enc_init_holds r wptr rec_offs_dblks max_size_dblks)
    have hW := written_of_frame _ _ _ _ f1 f2
    have hW2 : W = (r.image.drop (rec_offs_dblks * 128)).take (max_size_dblks * 128) := by
      rw [f3 hns]
      symm
      apply List.take_of_length_le
      rw [List.length_drop, hil]
      omega
    rw [hW, hW2]
    refine ⟨rfl, hlen, ?_⟩
    rw [f2, hW2]

/-- What any invocation writes, for a record that is not external or has
`dsize = 0`: the bytes of the image from the block offset on, as many as the
budget holds. -/
theorem chunk_any (clean : Bool) (r : enq_rec) (wptr : List Byte)
    (rec_offs_dblks max_size_dblks : Nat)
    (hfit : r.size < 2 ^ 64) (hds : r._enq_hdr._dsize < 2 ^ 64)
    (hns : is_enq_external r._enq_hdr = false ∨ r._enq_hdr._dsize = 0)
    (hoffs : rec_offs_dblks < size_dblks r.size)
    (hmax : 0 < max_size_dblks) (h32 : max_size_dblks < 2 ^ 32) :
    (r.encode_run clean wptr rec_offs_dblks max_size_dblks).written =
      (r.image.drop (rec_offs_dblks * 128)).take (max_size_dblks * 128) ∧
    (r.encode_run clean wptr rec_offs_dblks max_size_dblks).wr_cnt =
      (r.encode_run clean wptr rec_offs_dblks max_size_dblks).written.length := by
  have hs := rec_size_eq_size r hfit
  have hil : r.image.length = r.size := by rw [image_length r (fits_of_size r hfit), hs]
  by_cases h0 : rec_offs_dblks = 0
  · subst h0
    rw [Nat.zero_mul, List.drop_zero]
    by_cases hsp : size_dblks r.rec_size > max_size_dblks
    · have hlt : max_size_dblks * 128 < r.size := by
        rw [hs, size_dblks_eq] at hsp; omega
      have hrem : (r.enc_hdr wptr 0 max_size_dblks).rem = max_size_dblks * 128 := rfl
      have hbytes := first_split_bytes r (r.enc_hdr wptr 0 max_size_dblks) wptr
        (by rw [hrem]; omega) (by rw [hrem]; omega) rfl (enc_hdr_holds r wptr 0 max_size_dblks)
      rw [hrem] at hbytes
      have hrun : r.encode_run clean wptr 0 max_size_dblks =
          r.encode_first_split (r.enc_hdr wptr 0 max_size_dblks) := by
        rw [encode_run_eq, if_neg (by simp), if_pos hsp]
      rw [hrun]
      obtain ⟨w1, -⟩ := holds_written _ _ _ hbytes
      exact ⟨w1, by rw [w1]; exact hbytes.2⟩
    · have hw := encode_fit_written clean r wptr max_size_dblks hfit (by omega)
      obtain ⟨-, h2⟩ := encode_fit_run clean r wptr max_size_dblks hfit (by omega)
      rw [hw, h2, image_length r (fits_of_size r hfit)]
      refine ⟨?_, rfl⟩
      symm
      apply List.take_of_length_le
      rw [hil]
      rw [hs, size_dblks_eq] at hsp
      omega
  · obtain ⟨c1, -, c3⟩ := cont_chunk clean r wptr rec_offs_dblks max_size_dblks hfit hds hns
      (by omega) (by rw [hs]; exact hoffs) hmax h32
    exact ⟨c1, c3⟩

/-- Split invariance for the records that are not external or have
`dsize = 0`: the invocations of a split encode write, one after the other, the
bytes of the image from the block offset on. -/
theorem split_concat (clean : Bool) (r : enq_rec)
    (hfit : r.size < 2 ^ 64) (hds : r._enq_hdr._dsize < 2 ^ 64)
    (hns : is_enq_external r._enq_hdr = false ∨ r._enq_hdr._dsize = 0)
    (bs : List (List Byte × Nat)) :
    ∀ offs, offs < size_dblks r.size → (∀ b ∈ bs, 0 < b.2 ∧ b.2 < 2 ^ 32) →
      ((r.encode_split clean offs bs).map (fun p => p.1.written)).flatten =
        (r.image.drop (offs * 128)).take
          (((r.encode_split clean offs bs).map (fun p => p.2)).sum * 128) ∧
      ((r.encode_split clean offs bs).map (fun p => p.1.wr_cnt)).sum =
        ((r.encode_split clean offs bs).map (fun p => p.1.written)).flatten.length := by
  have hil : r.image.length = r.size := by
    rw [image_length r (fits_of_size r hfit), rec_size_eq_size r hfit]
  induction bs with
  | nil =>
    intro offs _ _
    simp [enq_rec.encode_split]
  | cons b rest ih =>
    intro offs ho hb
    obtain ⟨wptr, m⟩ := b
    have hm := hb (wptr, m) (List.mem_cons_self _ _)
    simp only at hm
    obtain ⟨r1, r2⟩ := encode_ret clean r wptr offs m hfit hds hm.1 ho hm.2
    obtain ⟨k1, k2⟩ := chunk_any clean r wptr offs m hfit hds hns ho hm.1 hm.2
    have hrs : r.rec_size_dblks = size_dblks r.size := by
      unfold enq_rec.rec_size_dblks; rw [rec_size_eq_size r hfit]
    by_cases hc : offs + m < size_dblks r.size
    · have hret := r1 hc
      have E : r.encode_split clean offs ((wptr, m) :: rest) =
          (r.encode_run clean wptr offs m, m) :: r.encode_split clean (offs + m) rest := by
        rw [enq_rec.encode_split, hret, hrs, if_neg (by omega)]
      obtain ⟨i1, i2⟩ := ih (offs + m) hc (fun b hb2 => hb b (List.mem_cons_of_mem _ hb2))
      rw [E]
      simp only [List.map_cons, List.sum_cons, List.flatten_cons, List.length_append]
      refine ⟨?_, by rw [i2, k2]⟩
      rw [k1, i1, Nat.add_mul m, List.take_add, List.drop_drop,
        show (offs + m) * 128 = offs * 128 + m * 128 by omega]
    · have hret := r2 (by omega)
      have E : r.encode_split clean offs ((wptr, m) :: rest) =
          [(r.encode_run clean wptr offs m, r.encode clean wptr offs m)] := by
        rw [enq_rec.encode_split, hrs, if_pos (by omega)]
      rw [E]
      simp only [List.map_cons, List.map_nil, List.sum_cons, List.sum_nil, List.flatten_cons,
        List.flatten_nil, List.append_nil, Nat.add_zero]
      refine ⟨?_, k2⟩
      rw [k1]
      rw [size_dblks_eq] at ho hc hret
      rw [List.take_of_length_le (by rw [List.length_drop, hil]; omega),
        List.take_of_length_le (by rw [List.length_drop, hil]; omega)]

/-- C20 -- Continuation chunk.  For every record that is not external, or is
external with `dsize = 0` (sizes that fit `std::size_t`), and every
`rec_offs_dblks` with `0 < rec_offs_dblks < size_dblks(rec_size())` and
`max_size_dblks > 0`: `encode` writes at offset 0 of the buffer exactly the bytes
of the logical stream header ++ xid ++ data ++ tail in the range
`[rec_offs_dblks * DBLK_BYTES, min(rec_size(), (rec_offs_dblks + max_size_dblks) *
DBLK_BYTES))`, in the branch with further split and in the final branch.  Hence,
for these records, the invocations of every split sequence of budgets that
reaches `size_dblks(rec_size())` write, concatenated, the bytes a single
invocation with that budget writes, and `rec_size()` bytes in total. -/
theorem encode_continuation_chunk (clean : Bool) (r : enq_rec) (wptr : List Byte)
    (rec_offs_dblks max_size_dblks : Nat)
    (hfit : r.size < 2 ^ 64) (hds : r._enq_hdr._dsize < 2 ^ 64)
    (hns : is_enq_external r._enq_hdr = false ∨ r._enq_hdr._dsize = 0)
    (ho : 0 < rec_offs_dblks) (hoffs : rec_offs_dblks < size_dblks r.rec_size)
    (hmax : 0 < max_size_dblks) (h32 : max_size_dblks < 2 ^ 32) :
    (r.encode_run clean wptr rec_offs_dblks max_size_dblks).written =
      ((enq_hdr_bytes r._enq_hdr ++ mem_read r._xidp 0 r._enq_hdr._xidsize ++
        (if is_enq_external r._enq_hdr then [] else mem_read r._data 0 r._enq_hdr._dsize) ++
        rec_tail_bytes r._enq_tail).drop (rec_offs_dblks * QLS_DBLK_SIZE_BYTES)).take
          (max_size_dblks * QLS_DBLK_SIZE_BYTES) ∧
    (r.encode_run clean wptr rec_offs_dblks max_size_dblks).written.length =
      min r.rec_size ((rec_offs_dblks + max_size_dblks) * QLS_DBLK_SIZE_BYTES) -
        rec_offs_dblks * QLS_DBLK_SIZE_BYTES ∧
    (r.encode_run clean wptr rec_offs_dblks max_size_dblks).wr_cnt =
      (r.encode_run clean wptr rec_offs_dblks max_size_dblks).written.length ∧
    (∀ bs : List (List Byte × Nat), (∀ b ∈ bs, 0 < b.2 ∧ b.2 < 2 ^ 32) →
      size_dblks r.rec_size ≤ (bs.map (fun b => b.2)).sum →
      ((r.encode_split clean 0 bs).map (fun p => p.1.written)).flatten =
        (r.encode_run clean wptr 0 (size_dblks r.rec_size)).written ∧
      ((r.encode_split clean 0 bs).map (fun p => p.1.wr_cnt)).sum = r.rec_size) := by
  obtain ⟨c1, c2, c3⟩ := cont_chunk clean r wptr rec_offs_dblks max_size_dblks hfit hds hns ho
    hoffs hmax h32
  refine ⟨c1, c2, c3, ?_⟩
  intro bs hb hsum
  have hs := rec_size_eq_size r hfit
  have hil : r.image.length = r.size := by rw [image_length r (fits_of_size r hfit), hs]
  have h0 : 0 < size_dblks r.size := by
    rw [size_dblks_eq]; unfold enq_rec.size; omega
  obtain ⟨s1, -, -⟩ := encode_split_core clean r hfit hds bs 0 h0 hb
  obtain ⟨t1, t2⟩ := split_concat clean r hfit hds hns bs 0 h0 hb
  rw [hs] at hsum
  have hret : ((r.encode_split clean 0 bs).map (fun p => p.2)).sum = size_dblks r.size := by
    omega
  have hall : ((r.encode_split clean 0 bs).map (fun p => p.1.written)).flatten = r.image := by
    rw [t1, hret, Nat.zero_mul, List.drop_zero]
    apply List.take_of_length_le
    rw [hil, size_dblks_eq]
    omega
  refine ⟨?_, ?_⟩
  · rw [hall, encode_fit_written clean r wptr _ hfit (le_refl _)]
  · rw [t2, hall, hil, hs]

theorem encode_continuation_chunk_witness :
    (ten_block_rec.encode_run false [] 4 6).written =
      (ten_block_rec.image.drop (4 * QLS_DBLK_SIZE_BYTES)).take (6 * QLS_DBLK_SIZE_BYTES) ∧
    (ten_block_rec.encode_run false [] 4 6).written.length =
      min ten_block_rec.rec_size ((4 + 6) * QLS_DBLK_SIZE_BYTES) - 4 * QLS_DBLK_SIZE_BYTES ∧
    ((ten_block_rec.encode_split false 0 [([], 4), ([], 3), ([], 5)]).map
        (fun p => p.1.wr_cnt)).sum = ten_block_rec.rec_size :=
  ⟨(encode_continuation_chunk false ten_block_rec [] 4 6 (by decide) (by decide) (by decide)
      (by decide) (by decide) (by decide) (by decide)).1,
   (encode_continuation_chunk false ten_block_rec [] 4 6 (by decide) (by decide) (by decide)
      (by decide) (by decide) (by decide) (by decide)).2.1,
   ((encode_continuation_chunk false ten_block_rec [] 4 6 (by decide) (by decide) (by decide)
      (by decide) (by decide) (by decide) (by decide)).2.2.2
        [([], 4), ([], 3), ([], 5)] (by decide) (by decide)).2⟩

theorem first_fit_frame (r : enq_rec) (wptr : List Byte) (max_size_dblks : Nat)
    (hfit : r.size + 127 < 2 ^ 64) (hmax : size_dblks r.rec_size ≤ max_size_dblks) :
    (r.encode_run true wptr 0 max_size_dblks).wptr =
      ((r.encode_run true wptr 0 max_size_dblks).written ++
        List.replicate (size_dblks r.rec_size * 128 - r.rec_size) QLS_CLEAN_CHAR) ++
        wptr.drop (size_dblks r.rec_size * 128) ∧
    (r.encode_run true wptr 0 max_size_dblks).wr_cnt = r.rec_size ∧
    (r.encode_run true wptr 0 max_size_dblks).written.length = r.rec_size := by
  have hs := rec_size_eq_size r (by omega)
  obtain ⟨h1, h2⟩ := encode_fit_run true r wptr max_size_dblks (by omega) hmax
  have hw := encode_fit_written true r wptr max_size_dblks (by omega) hmax
  have hil := image_length r (fits_of_size r (by omega))
  have hcf : clean_fill true r.rec_size r.rec_size =
      List.replicate (size_dblks r.rec_size * 128 - r.rec_size) QLS_CLEAN_CHAR := by
    unfold clean_fill
    rw [if_pos rfl, show QLS_DBLK_SIZE_BYTES = 128 from rfl, hs, size_dblks_eq,
      Nat.mod_eq_of_lt (by omega), sub_sz_eq _ _ (by omega) (by omega)]
  refine ⟨?_, h2, by rw [hw, hil]⟩
  rw [h1, hw, hcf, List.length_append, List.length_replicate, hil]
  congr 2
  rw [hs, size_dblks_eq]
  omega

theorem cont_fill_eq (r : enq_rec) (rec_offs_dblks n : Nat) (hfit : r.size + 127 < 2 ^ 64)
    (hro : rec_offs_dblks * 128 < r.size)
    (hn : (n + 127) / 128 + rec_offs_dblks = (r.size + 127) / 128) :
    cont_fill true r rec_offs_dblks n =
      List.replicate ((n + 127) / 128 * 128 - n) QLS_CLEAN_CHAR := by
  have hs := rec_size_eq_size r (by omega)
  unfold cont_fill
  rw [if_pos rfl, show QLS_DBLK_SIZE_BYTES = 128 from rfl, hs,
    sub_sz_eq r.size (rec_offs_dblks * 128) (by omega) (by omega), size_dblks_eq,
    show (r.size - rec_offs_dblks * 128 + 127) / 128 = (n + 127) / 128 by omega,
    Nat.mod_eq_of_lt (by omega), sub_sz_eq _ _ (by omega) (by omega)]

theorem cont_final_clean_frame (r : enq_rec) (wptr : List Byte)
    (rec_offs_dblks max_size_dblks : Nat)
    (hfit : r.size + 127 < 2 ^ 64) (hds : r._enq_hdr._dsize < 2 ^ 64)
    (ho : 0 < rec_offs_dblks) (hoffs : rec_offs_dblks < size_dblks r.rec_size)
    (hcomp : size_dblks r.rec_size ≤ rec_offs_dblks + max_size_dblks)
    (hmax : 0 < max_size_dblks) :
    (r.encode_run true wptr rec_offs_dblks max_size_dblks).wptr =
      ((r.encode_run true wptr rec_offs_dblks max_size_dblks).written ++
        List.replicate
          (size_dblks (r.encode_run true wptr rec_offs_dblks max_size_dblks).wr_cnt * 128 -
            (r.encode_run true wptr rec_offs_dblks max_size_dblks).wr_cnt) QLS_CLEAN_CHAR) ++
        wptr.drop
          (size_dblks (r.encode_run true wptr rec_offs_dblks max_size_dblks).wr_cnt * 128) ∧
    (r.encode_run true wptr rec_offs_dblks max_size_dblks).written.length =
      (r.encode_run true wptr rec_offs_dblks max_size_dblks).wr_cnt := by
  have hs := rec_size_eq_size r (by omega)
  rw [hs] at hoffs hcomp
  obtain ⟨-, a1, -, a3⟩ := encode_arith true r wptr rec_offs_dblks max_size_dblks (by omega) hds
    hmax hoffs
  obtain ⟨b1, b2, -⟩ := a3 hcomp
  simp only [size_dblks_eq] at hoffs hcomp b2 ⊢
  have hrun : r.encode_run true wptr rec_offs_dblks max_size_dblks =
      r.encode_cont_final true rec_offs_dblks
        (r.enc_init wptr rec_offs_dblks max_size_dblks) := by
    rw [encode_run_eq, if_pos (by omega), hs, size_dblks_eq,
      sub_sz_eq _ _ (by omega) (by omega), if_neg (by omega)]
  have hro : rec_offs_dblks * 128 < r.size := by omega
  obtain ⟨W, f1, f2, -⟩ := cont_final_frame true r rec_offs_dblks
    (r.enc_init wptr rec_offs_dblks max_size_dblks) wptr (by omega) hds
    (by show 39 ≤ rec_offs_dblks * 128; omega) hro rfl
    (enc_init_holds r wptr rec_offs_dblks max_size_dblks)
  rw [← hrun] at f1 f2
  have hW := written_of_frame _ _ _ _ f1 f2
  rw [cont_fill_eq r rec_offs_dblks _ hfit hro b2] at f1
  rw [hW]
  refine ⟨?_, f2.symm⟩
  rw [f1, List.length_append, List.length_replicate, ← f2]
  congr 2
  omega

/-- C17 -- Clean padding.  With the clean mode on, for every invocation of
`encode` that completes the record (sizes whose block count fits): the value
returned is the value returned with the clean mode off; the buffer holds the
record bytes written, then `CLEAN_CHAR` up to `returned * DBLK_BYTES`, then from
`returned * DBLK_BYTES` on the bytes it held before; and when the record ends
on a block boundary no fill byte is written. -/
theorem clean_padding (r : enq_rec) (wptr : List Byte) (rec_offs_dblks max_size_dblks : Nat)
    (hfit : r.size + 127 < 2 ^ 64) (hds : r._enq_hdr._dsize < 2 ^ 64)
    (hmax : 0 < max_size_dblks) (hoffs : rec_offs_dblks < size_dblks r.rec_size)
    (hcomp : size_dblks r.rec_size ≤ rec_offs_dblks + max_size_dblks)
    (h32 : max_size_dblks < 2 ^ 32) :
    r.encode true wptr rec_offs_dblks max_size_dblks =
      r.encode false wptr rec_offs_dblks max_size_dblks ∧
    (r.encode_run true wptr rec_offs_dblks max_size_dblks).wptr =
      ((r.encode_run true wptr rec_offs_dblks max_size_dblks).written ++
        List.replicate
          (r.encode true wptr rec_offs_dblks max_size_dblks * QLS_DBLK_SIZE_BYTES -
            (r.encode_run true wptr rec_offs_dblks max_size_dblks).wr_cnt) QLS_CLEAN_CHAR) ++
        wptr.drop (r.encode true wptr rec_offs_dblks max_size_dblks * QLS_DBLK_SIZE_BYTES) ∧
    (r.encode_run true wptr rec_offs_dblks max_size_dblks).written.length =
      (r.encode_run true wptr rec_offs_dblks max_size_dblks).wr_cnt ∧
    (r.encode_run true wptr rec_offs_dblks max_size_dblks).wr_cnt ≤
      r.encode true wptr rec_offs_dblks max_size_dblks * QLS_DBLK_SIZE_BYTES ∧
    (r.rec_size % QLS_DBLK_SIZE_BYTES = 0 →
      (r.encode_run true wptr rec_offs_dblks max_size_dblks).wptr =
        (r.encode_run true wptr rec_offs_dblks max_size_dblks).written ++
          wptr.drop (r.encode_run true wptr rec_offs_dblks max_size_dblks).wr_cnt) := by
  have hq : QLS_DBLK_SIZE_BYTES = 128 := rfl
  have hs := rec_size_eq_size r (by omega)
  have hoffs2 := hoffs
  have hcomp2 := hcomp
  rw [hs] at hoffs2 hcomp2
  obtain ⟨-, t2⟩ := encode_ret true r wptr rec_offs_dblks max_size_dblks (by omega) hds hmax
    hoffs2 h32
  obtain ⟨-, u2⟩ := encode_ret false r wptr rec_offs_dblks max_size_dblks (by omega) hds hmax
    hoffs2 h32
  obtain ⟨-, a1, -, a3⟩ := encode_arith true r wptr rec_offs_dblks max_size_dblks (by omega) hds
    hmax hoffs2
  obtain ⟨b1, b2, b3⟩ := a3 hcomp2
  have hret : r.encode true wptr rec_offs_dblks max_size_dblks =
      size_dblks (r.encode_run true wptr rec_offs_dblks max_size_dblks).wr_cnt := by
    have := t2 hcomp2
    omega
  have hframe : (r.encode_run true wptr rec_offs_dblks max_size_dblks).wptr =
      ((r.encode_run true wptr rec_offs_dblks max_size_dblks).written ++
        List.replicate
          (size_dblks (r.encode_run true wptr rec_offs_dblks max_size_dblks).wr_cnt * 128 -
            (r.encode_run true wptr rec_offs_dblks max_size_dblks).wr_cnt) QLS_CLEAN_CHAR) ++
        wptr.drop
          (size_dblks (r.encode_run true wptr rec_offs_dblks max_size_dblks).wr_cnt * 128) ∧
      (r.encode_run true wptr rec_offs_dblks max_size_dblks).written.length =
        (r.encode_run true wptr rec_offs_dblks max_size_dblks).wr_cnt := by
    by_cases h0 : rec_offs_dblks = 0
    · subst h0
      obtain ⟨h1, h2, h3⟩ := first_fit_frame r wptr max_size_dblks hfit (by omega)
      rw [h2]
      exact ⟨h1, h3⟩
    · exact cont_final_clean_frame r wptr rec_offs_dblks max_size_dblks hfit hds (by omega)
        hoffs hcomp hmax
  obtain ⟨hframe, hwl⟩ := hframe
  have hle : (r.encode_run true wptr rec_offs_dblks max_size_dblks).wr_cnt ≤
      size_dblks (r.encode_run true wptr rec_offs_dblks max_size_dblks).wr_cnt * 128 := by
    rw [size_dblks_eq]; omega
  refine ⟨by have := t2 hcomp2; have := u2 hcomp2; omega, ?_, hwl, ?_, ?_⟩
  · rw [hret, hq]; exact hframe
  · rw [hret, hq]; exact hle
  · intro hb
    rw [hs, hq] at hb
    have hz : size_dblks (r.encode_run true wptr rec_offs_dblks max_size_dblks).wr_cnt * 128 =
        (r.encode_run true wptr rec_offs_dblks max_size_dblks).wr_cnt := by
      have hsum : (r.encode_run true wptr rec_offs_dblks max_size_dblks).wr_cnt +
          rec_offs_dblks * 128 = r.size := by
        by_cases hn : is_enq_external r._enq_hdr = false ∨ r._enq_hdr._dsize = 0 ∨
            rec_offs_dblks * 128 ≤ 39 + r._enq_hdr._xidsize
        · exact b3 hn
        · exfalso
          have hx : is_enq_external r._enq_hdr = true := by
            cases h : is_enq_external r._enq_hdr
            · exact absurd (Or.inl h) hn
            · rfl
          have hsz : r.size = 39 + r._enq_hdr._xidsize + 24 := by
            unfold enq_rec.size; rw [hx]; rfl
          rw [size_dblks_eq] at hoffs2
          omega
      rw [size_dblks_eq] at b2 ⊢
      rw [size_dblks_eq] at b2
      omega
    rw [hframe, hz, Nat.sub_self, List.replicate_zero, List.append_nil]

theorem clean_padding_witness :
    (minimal_rec.encode_run true (List.replicate 200 0) 0 1).wptr =
      ((minimal_rec.encode_run true (List.replicate 200 0) 0 1).written ++
        List.replicate 63 QLS_CLEAN_CHAR) ++ List.replicate 72 0 ∧
    minimal_rec.encode true (List.replicate 200 0) 0 1 =
      minimal_rec.encode false (List.replicate 200 0) 0 1 :=
  ⟨((clean_padding minimal_rec (List.replicate 200 0) 0 1 (by decide) (by decide) (by decide)
      (by decide) (by decide) (by decide)).2.1).trans (by decide),
   (clean_padding minimal_rec (List.replicate 200 0) 0 1 (by decide) (by decide) (by decide)
      (by decide) (by decide) (by decide)).1⟩

theorem tail_suffix_image (r : enq_rec) (t : Nat) :
    (rec_tail_bytes r._enq_tail).drop t <:+ r.image := by
  unfold enq_rec.image
  exact (List.drop_suffix t _).trans (List.suffix_append _ _)

/-- The bytes the continuation branch without further split writes are the
last bytes of the image of the record, for every record. -/
theorem cont_final_suffix (clean : Bool) (r : enq_rec) (rec_offs_dblks : Nat) (s0 : enc_st)
    (w0 : List Byte)
    (hfit : r.size < 2 ^ 64) (hds : r._enq_hdr._dsize < 2 ^ 64)
    (ho : 39 ≤ s0.rec_offs) (hS : s0.rec_offs < r.size) (hw : s0.wr_cnt = 0)
    (hh : s0.holds [] w0) :
    ∃ W : List Byte,
      (r.encode_cont_final clean rec_offs_dblks s0).wptr =
        (W ++ cont_fill clean r rec_offs_dblks
            (r.encode_cont_final clean rec_offs_dblks s0).wr_cnt) ++
          w0.drop (W ++ cont_fill clean r rec_offs_dblks
            (r.encode_cont_final clean rec_offs_dblks s0).wr_cnt).length ∧
      (r.encode_cont_final clean rec_offs_dblks s0).wr_cnt = W.length ∧
      W <:+ r.image := by
  by_cases hns : is_enq_external r._enq_hdr = false ∨ r._enq_hdr._dsize = 0
  · obtain ⟨W, f1, f2, f3⟩ := cont_final_frame clean r rec_offs_dblks s0 w0 hfit hds ho hS hw hh
    exact ⟨W, f1, f2, by rw [f3 hns]; exact List.drop_suffix _ _⟩
  · have hx : is_enq_external r._enq_hdr = true := by
      cases he : is_enq_external r._enq_hdr
      · exact absurd (Or.inl he) hns
      · rfl
    have hd0 : r._enq_hdr._dsize ≠ 0 := fun h => hns (Or.inr h)
    have hsz : r.size = 39 + r._enq_hdr._xidsize + 24 := by
      unfold enq_rec.size; simp [hx]
    rw [hsz] at hfit hS
    have hxs : r._enq_hdr._xidsize < 2 ^ 64 := by omega
    rw [encode_cont_final_eq]
    obtain ⟨n1, f1, c1, m1, a1, h1⟩ := cf_xid_step r s0 w0 hw ho (by omega) hxs hh
    obtain ⟨-, -, d1⟩ := cf_xid_arith r s0 hxs ho (by omega) hw
    have hro1 : (r.cf_xid s0).rec_offs < 2 ^ 64 := by omega
    have hwr1 : is_enq_external r._enq_hdr = false →
        (r.cf_xid s0).wr_cnt + r._enq_hdr._dsize < 2 ^ 64 := by
      intro h; rw [hx] at h; exact Bool.noConfusion h
    obtain ⟨n2, c2, m2, a2, h2, -⟩ := cf_data_step r (r.cf_xid s0) _ w0 hds hro1 hwr1 h1
    obtain ⟨-, -, d2⟩ := cf_data_arith r (r.cf_xid s0) hds hro1 hwr1
    have hlt : (r.cf_data (r.cf_xid s0)).rec_offs < 24 ∧
        (r.cf_data (r.cf_xid s0)).wr_cnt + 24 < 2 ^ 64 := by
      rcases d2 with d2 | ⟨_, _, ⟨h, _⟩ | ⟨_, d2⟩⟩
      · omega
      · rw [hx] at h; exact Bool.noConfusion h
      · omega
    obtain ⟨w3, l3, -⟩ := cf_tail_step clean r rec_offs_dblks (r.cf_data (r.cf_xid s0)) _ w0
      hlt.1 hlt.2 h2
    refine ⟨_, w3, l3, ?_⟩
    rw [data_bytes_nil r hx, List.drop_nil, List.take_nil, List.append_nil, List.nil_append]
    rw [xid_bytes_length] at f1
    rcases f1 with ⟨g1, g2, g3⟩ | ⟨g1, g2, g3⟩
    · -- the xid was written by earlier invocations
      rw [g2, List.take_zero, List.nil_append]
      exact tail_suffix_image r _
    · -- the rest of the xid is written, then the whole tail
      have hz : (r.cf_data (r.cf_xid s0)).rec_offs = 0 := by
        rcases d2 with ⟨d, _, _⟩ | ⟨_, d, _⟩
        · omega
        · exact d
      rw [hz, List.drop_zero,
        List.take_of_length_le (by rw [List.length_drop, xid_bytes_length]; omega)]
      have hi : r.image = (enq_hdr_bytes r._enq_hdr ++ r.xid_bytes.take (s0.rec_offs - 39)) ++
          (r.xid_bytes.drop (s0.rec_offs - 39) ++ rec_tail_bytes r._enq_tail) := by
        unfold enq_rec.image
        rw [data_bytes_nil r hx, List.append_nil]
        simp only [List.append_assoc]
        rw [← List.append_assoc (r.xid_bytes.take _), List.take_append_drop]
      rw [hi]
      exact List.suffix_append _ _

/-- The buffer after any invocation of `encode` that meets its preconditions:
the bytes written, which are consecutive bytes of the image of the record, then
the fill of the clean mode, then the buffer as it was. -/
theorem encode_frame_all (clean : Bool) (r : enq_rec) (wptr : List Byte)
    (rec_offs_dblks max_size_dblks : Nat)
    (hfit : r.size < 2 ^ 64) (hds : r._enq_hdr._dsize < 2 ^ 64)
    (hmax : 0 < max_size_dblks) (hoffs : rec_offs_dblks < size_dblks r.size)
    (ho32 : rec_offs_dblks * 128 < 2 ^ 32) (hm32 : max_size_dblks * 128 < 2 ^ 32) :
    ∃ W F : List Byte,
      (r.encode_run clean wptr rec_offs_dblks max_size_dblks).wptr =
        (W ++ F) ++ wptr.drop (W ++ F).length ∧
      (r.encode_run clean wptr rec_offs_dblks max_size_dblks).wr_cnt = W.length ∧
      W <:+: r.image ∧
      (W ++ F).length ≤
        size_dblks (r.encode_run clean wptr rec_offs_dblks max_size_dblks).wr_cnt * 128 ∧
      (∀ b ∈ F, b = QLS_CLEAN_CHAR) ∧
      (clean = false → F = []) := by
  have hs := rec_size_eq_size r hfit
  have hil : r.image.length = r.size := by rw [image_length r (fits_of_size r hfit), hs]
  have hsd := size_dblks_eq r.size
  obtain ⟨-, a1, a2, a3⟩ := encode_arith clean r wptr rec_offs_dblks max_size_dblks hfit hds
    hmax hoffs
  have hxs : r._enq_hdr._xidsize < 2 ^ 64 := by unfold enq_rec.size at hfit; omega
  by_cases h0 : rec_offs_dblks = 0
  · subst h0
    by_cases hsp : size_dblks r.rec_size > max_size_dblks
    · -- start of the record, split required
      have hlt : max_size_dblks * 128 < r.size := by
        rw [hs, size_dblks_eq] at hsp; omega
      have hrem : (r.enc_hdr wptr 0 max_size_dblks).rem = max_size_dblks * 128 := rfl
      have hbytes := first_split_bytes r (r.enc_hdr wptr 0 max_size_dblks) wptr
        (by rw [hrem]; omega) (by rw [hrem]; omega) rfl (enc_hdr_holds r wptr 0 max_size_dblks)
      rw [hrem] at hbytes
      have hrun : r.encode_run clean wptr 0 max_size_dblks =
          r.encode_first_split (r.enc_hdr wptr 0 max_size_dblks) := by
        rw [encode_run_eq, if_neg (by simp), if_pos hsp]
      rw [hrun]
      refine ⟨r.image.take (max_size_dblks * 128), [], ?_, hbytes.2,
        (List.take_prefix _ _).isInfix, ?_, by simp, fun _ => rfl⟩
      · rw [List.append_nil]; exact hbytes.1
      · rw [List.append_nil, hbytes.2, size_dblks_eq]; omega
    · -- start of the record, no split required
      obtain ⟨h1, h2⟩ := encode_fit_run clean r wptr max_size_dblks hfit (by omega)
      rw [hs, size_dblks_eq] at hsp
      refine ⟨r.image, clean_fill clean r.rec_size r.rec_size, h1, by rw [h2, hil, hs],
        List.infix_refl _, ?_, ?_, ?_⟩
      · rw [h2, List.length_append, hil, hs, size_dblks_eq]
        unfold clean_fill
        cases clean
        · simp only [Bool.false_eq_true, if_false, List.length_nil]; omega
        · simp only [if_true, List.length_replicate]
          rw [show QLS_DBLK_SIZE_BYTES = 128 from rfl, size_dblks_eq,
            Nat.mod_eq_of_lt (by omega), sub_sz_eq _ _ (by omega) (by omega)]
          omega
      · intro b hb
        unfold clean_fill at hb
        cases clean
        · simp at hb
        · simp only [if_true] at hb
          exact List.eq_of_mem_replicate hb
      · intro hc
        unfold clean_fill
        rw [hc]
        rfl
  · have hro : (r.enc_init wptr rec_offs_dblks max_size_dblks).rec_offs = rec_offs_dblks * 128 :=
      rfl
    have hrem : (r.enc_init wptr rec_offs_dblks max_size_dblks).rem = max_size_dblks * 128 :=
      rfl
    have e1 : sub_sz (size_dblks r.size) rec_offs_dblks =
        size_dblks r.size - rec_offs_dblks := by
      rw [sub_sz_eq]
      · rw [hsd]; omega
      · omega
    rw [hsd] at hoffs
    by_cases hsp : size_dblks r.size - rec_offs_dblks > max_size_dblks
    · -- continuation, further split required
      have hrun : r.encode_run clean wptr rec_offs_dblks max_size_dblks =
          r.encode_cont_split (r.enc_init wptr rec_offs_dblks max_size_dblks) := by
        rw [encode_run_eq, hs, if_pos h0, e1, if_pos hsp]
      rw [hsd] at hsp
      have hbytes := cont_split_bytes r (r.enc_init wptr rec_offs_dblks max_size_dblks) wptr
        rfl (by rw [hrem]; omega) (by rw [hro]; omega) (by rw [hro]; omega) hxs hds
        (enc_init_holds r wptr rec_offs_dblks max_size_dblks)
      rw [hro, hrem] at hbytes
      rw [hrun]
      refine ⟨(r.image.drop (rec_offs_dblks * 128)).take (max_size_dblks * 128), [], ?_,
        hbytes.2, ((List.take_prefix _ _).isInfix).trans (List.drop_suffix _ _).isInfix, ?_,
        by simp, fun _ => rfl⟩
      · rw [List.append_nil]; exact hbytes.1
      · rw [List.append_nil, hbytes.2, size_dblks_eq]; omega
    · -- continuation, no further split required
      have hrun : r.encode_run clean wptr rec_offs_dblks max_size_dblks =
          r.encode_cont_final clean rec_offs_dblks
            (r.enc_init wptr rec_offs_dblks max_size_dblks) := by
        rw [encode_run_eq, hs, if_pos h0, e1, if_neg hsp]
      rw [hsd] at hsp
      have hro2 : rec_offs_dblks * 128 < r.size := by omega
      obtain ⟨b1, b2, -⟩ := a3 (by rw [hsd]; omega)
      obtain ⟨W, f1, f2, f3⟩ := cont_final_suffix clean r rec_offs_dblks
        (r.enc_init wptr rec_offs_dblks max_size_dblks) wptr hfit hds
        (by rw [hro]; omega) (by rw [hro]; exact hro2) rfl
        (enc_init_holds r wptr rec_offs_dblks max_size_dblks)
      rw [← hrun] at f1 f2
      simp only [size_dblks_eq] at b2
      refine ⟨W, cont_fill clean r rec_offs_dblks
        (r.encode_run clean wptr rec_offs_dblks max_size_dblks).wr_cnt, f1, f2, f3.isInfix,
        ?_, ?_, ?_⟩
      · rw [List.length_append, ← f2, size_dblks_eq]
        cases clean
        · simp only [cont_fill, Bool.false_eq_true, if_false, List.length_nil]; omega
        · rw [cont_fill_eq r rec_offs_dblks _ (by omega) hro2 b2, List.length_replicate]
          omega
      · intro b hb
        unfold cont_fill at hb
        cases clean
        · simp at hb
        · simp only [if_true] at hb
          exact List.eq_of_mem_replicate hb
      · intro hc
        unfold cont_fill
        rw [hc]
        rfl

/-- C6: for every record (sizes that fit `std::size_t`) and every call of
`encode` with `max_size_dblks > 0`, `rec_offs_dblks < size_dblks(rec_size())`
and block-to-byte products below `2 ^ 32`: the buffer after the call holds, from
its start, the bytes written `W`, which are consecutive bytes of the logical
stream of the record, then the fill bytes `F` of the clean mode (none with the
clean mode off), then the bytes it held before; `W` has between 1 and
`max_size_dblks * DBLK_BYTES` bytes, `W` and `F` together end within
`returned * DBLK_BYTES <= max_size_dblks * DBLK_BYTES`, so nothing is written
past the budget; the counter `wr_cnt` is the length of `W`, and the value
returned is `size_dblks` of it and lies between 1 and `max_size_dblks`. -/
theorem encode_bound_progress (clean : Bool) (r : enq_rec) (wptr : List Byte)
    (rec_offs_dblks max_size_dblks : Nat)
    (hfit : r.size < 2 ^ 64) (hds : r._enq_hdr._dsize < 2 ^ 64)
    (hmax : 0 < max_size_dblks) (hoffs : rec_offs_dblks < size_dblks r.rec_size)
    (ho32 : rec_offs_dblks * QLS_DBLK_SIZE_BYTES < 2 ^ 32)
    (hm32 : max_size_dblks * QLS_DBLK_SIZE_BYTES < 2 ^ 32) :
    (∃ W F : List Byte,
      (r.encode_run clean wptr rec_offs_dblks max_size_dblks).wptr =
        (W ++ F) ++ wptr.drop (W ++ F).length ∧
      (r.encode_run clean wptr rec_offs_dblks max_size_dblks).written = W ∧
      (r.encode_run clean wptr rec_offs_dblks max_size_dblks).wr_cnt = W.length ∧
      W <:+: r.image ∧
      1 ≤ W.length ∧ W.length ≤ max_size_dblks * QLS_DBLK_SIZE_BYTES ∧
      (W ++ F).length ≤
        r.encode clean wptr rec_offs_dblks max_size_dblks * QLS_DBLK_SIZE_BYTES ∧
      (W ++ F).length ≤ max_size_dblks * QLS_DBLK_SIZE_BYTES ∧
      (∀ b ∈ F, b = QLS_CLEAN_CHAR) ∧
      (clean = false → F = [])) ∧
    1 ≤ (r.encode_run clean wptr rec_offs_dblks max_size_dblks).wr_cnt ∧
    (r.encode_run clean wptr rec_offs_dblks max_size_dblks).wr_cnt ≤
      max_size_dblks * QLS_DBLK_SIZE_BYTES ∧
    1 ≤ r.encode clean wptr rec_offs_dblks max_size_dblks ∧
    r.encode clean wptr rec_offs_dblks max_size_dblks ≤ max_size_dblks ∧
    r.encode clean wptr rec_offs_dblks max_size_dblks =
      size_dblks (r.encode_run clean wptr rec_offs_dblks max_size_dblks).wr_cnt := by
  rw [rec_size_eq_size r hfit] at hoffs
  obtain ⟨-, h1, h2, h3⟩ := encode_arith clean r wptr rec_offs_dblks max_size_dblks hfit hds
    hmax hoffs
  have hq : QLS_DBLK_SIZE_BYTES = 128 := rfl
  rw [hq] at ho32 hm32
  obtain ⟨W, F, f1, f2, f3, f4, f5, f6⟩ := encode_frame_all clean r wptr rec_offs_dblks
    max_size_dblks hfit hds hmax hoffs ho32 hm32
  have hW := written_of_frame _ W F wptr f1 f2
  have hret : r.encode clean wptr rec_offs_dblks max_size_dblks =
      size_dblks (r.encode_run clean wptr rec_offs_dblks max_size_dblks).wr_cnt := by
    unfold enq_rec.encode
    simp only [size_dblks_eq] at *
    by_cases hc : rec_offs_dblks + max_size_dblks < (r.size + 127) / 128
    · have := h2 hc
      apply Nat.mod_eq_of_lt
      omega
    · obtain ⟨h4, h5, -⟩ := h3 (by omega)
      apply Nat.mod_eq_of_lt
      omega
  have hb : 1 ≤ (r.encode_run clean wptr rec_offs_dblks max_size_dblks).wr_cnt ∧
      (r.encode_run clean wptr rec_offs_dblks max_size_dblks).wr_cnt ≤ max_size_dblks * 128 ∧
      1 ≤ size_dblks (r.encode_run clean wptr rec_offs_dblks max_size_dblks).wr_cnt ∧
      size_dblks (r.encode_run clean wptr rec_offs_dblks max_size_dblks).wr_cnt ≤
        max_size_dblks := by
    simp only [size_dblks_eq] at *
    by_cases hc : rec_offs_dblks + max_size_dblks < (r.size + 127) / 128
    · have := h2 hc
      omega
    · obtain ⟨h4, h5, -⟩ := h3 (by omega)
      omega
  obtain ⟨b1, b2, b3, b4⟩ := hb
  rw [hq, hret]
  refine ⟨⟨W, F, f1, hW, f2, f3, by rw [← f2]; exact b1, by rw [← f2]; exact b2, f4, ?_, f5,
    f6⟩, b1, b2, b3, b4, rfl⟩
  have : size_dblks (r.encode_run clean wptr rec_offs_dblks max_size_dblks).wr_cnt * 128 ≤
      max_size_dblks * 128 := Nat.mul_le_mul_right _ b4
  omega

/-- C6 at the fifth block of the ten-block record with a budget of three
blocks: the buffer `[]` holds afterwards exactly the 384 bytes written, bytes
512 to 895 of the logical stream of the record. -/
theorem encode_bound_progress_witness :
    (ten_block_rec.encode_run false [] 4 3).wptr = (ten_block_rec.image.drop 512).take 384 ∧
    (ten_block_rec.encode_run false [] 4 3).wr_cnt = 384 ∧
    1 ≤ (ten_block_rec.encode_run false [] 4 3).wr_cnt ∧
    (ten_block_rec.encode_run false [] 4 3).wr_cnt ≤ 3 * QLS_DBLK_SIZE_BYTES ∧
    1 ≤ ten_block_rec.encode false [] 4 3 ∧
    ten_block_rec.encode false [] 4 3 ≤ 3 ∧
    ten_block_rec.encode false [] 4 3 =
      size_dblks (ten_block_rec.encode_run false [] 4 3).wr_cnt :=
  ⟨by decide, by decide,
   (encode_bound_progress false ten_block_rec [] 4 3 (by decide) (by decide) (by decide)
    (by decide) (by decide) (by decide)).2⟩

theorem sub_sz_lt (a b : Nat) : sub_sz a b < 2 ^ 64 := by
  unfold sub_sz
  exact Nat.mod_lt _ (by decide)

theorem seg_split_ok_true (len : Nat) (s : enc_st) (hl : len < 2 ^ 64) :
    seg_split_ok len s = true := by
  unfold seg_split_ok sub_ok
  by_cases h : len > s.rec_offs
  · have e : sub_sz len s.rec_offs = len - s.rec_offs := sub_sz_eq len s.rec_offs hl (by omega)
    have e2 : sub_sz len (len - s.rec_offs) = s.rec_offs := by
      rw [sub_sz_eq len (len - s.rec_offs) hl (by omega)]; omega
    simp only [if_pos h, e, e2]
    have hne : len - s.rec_offs ≠ 0 := by omega
    simp only [ne_eq, hne, not_false_eq_true, if_true, Bool.and_eq_true, decide_eq_true_eq]
    refine ⟨⟨⟨by omega, ?_⟩, by omega⟩, le_refl _⟩
    split <;> omega
  · have e2 : sub_sz len 0 = len := by
      rw [sub_sz_eq len 0 hl (by omega)]; omega
    simp only [if_neg h, e2]
    simp only [ne_eq, not_true_eq_false, if_false, Bool.and_eq_true, decide_eq_true_eq,
      Bool.true_and]
    omega

theorem seg_final_ok_true (len : Nat) (s : enc_st) (hl : len < 2 ^ 64) :
    seg_final_ok len s = true := by
  unfold seg_final_ok sub_ok
  by_cases h : len > s.rec_offs
  · have e : sub_sz len s.rec_offs = len - s.rec_offs := sub_sz_eq len s.rec_offs hl (by omega)
    have e2 : sub_sz len (len - s.rec_offs) = s.rec_offs := by
      rw [sub_sz_eq len (len - s.rec_offs) hl (by omega)]; omega
    simp only [if_pos h, e, e2]
    simp only [Bool.and_eq_true, decide_eq_true_eq]
    omega
  · have e2 : sub_sz len 0 = len := by
      rw [sub_sz_eq len 0 hl (by omega)]; omega
    simp only [if_neg h, e2]
    simp only [Bool.and_eq_true, decide_eq_true_eq, Bool.true_and]
    omega

theorem cs_ok_true (r : enq_rec) (s0 : enc_st)
    (hxs : r._enq_hdr._xidsize < 2 ^ 64) (hds : r._enq_hdr._dsize < 2 ^ 64)
    (ho : 39 ≤ s0.rec_offs) : r.cs_ok s0 = true := by
  unfold enq_rec.cs_ok
  simp only [Bool.and_eq_true]
  refine ⟨⟨⟨?_, seg_split_ok_true _ _ hxs⟩, ?_⟩, ?_⟩
  · unfold sub_ok; simp only [decide_eq_true_eq]; exact ho
  · split
    · exact seg_split_ok_true _ _ hds
    · rfl
  · split
    · exact seg_split_ok_true _ _ (by decide)
    · rfl

theorem cf_ok_true (clean : Bool) (r : enq_rec) (wptr : List Byte)
    (rec_offs_dblks max_size_dblks : Nat)
    (hfit : r.size < 2 ^ 64) (hds : r._enq_hdr._dsize < 2 ^ 64)
    (h0 : 0 < rec_offs_dblks) (hoffs : rec_offs_dblks < size_dblks r.size) :
    r.cf_ok clean rec_offs_dblks (r.enc_init wptr rec_offs_dblks max_size_dblks) = true := by
  have hrs := rec_size_eq_size r hfit
  have hxs : r._enq_hdr._xidsize < 2 ^ 64 := by
    unfold enq_rec.size at hfit; omega
  rw [size_dblks_eq] at hoffs
  have hro : (r.enc_init wptr rec_offs_dblks max_size_dblks).rec_offs = rec_offs_dblks * 128 :=
    rfl
  obtain ⟨-, -, -, -, x, y⟩ := cont_final_arith clean r rec_offs_dblks
    (r.enc_init wptr rec_offs_dblks max_size_dblks) hfit hds (by rw [hro]; omega)
    (by rw [hro]; omega) rfl
  rw [hro, encode_cont_final_eq] at x y
  unfold enq_rec.cf_ok
  simp only [Bool.and_eq_true]
  refine ⟨⟨⟨⟨?_, seg_final_ok_true _ _ hxs⟩, seg_final_ok_true _ _ hds⟩,
    seg_final_ok_true _ _ (by decide)⟩, ?_⟩
  · unfold sub_ok; simp only [decide_eq_true_eq]; rw [hro]
    show 39 ≤ _
    omega
  · split
    · rw [hrs]
      have e : sub_sz r.size (rec_offs_dblks * QLS_DBLK_SIZE_BYTES)
          = r.size - rec_offs_dblks * 128 :=
        sub_sz_eq _ _ hfit (by show rec_offs_dblks * 128 ≤ _; omega)
      rw [e, size_dblks_eq]
      unfold sub_ok
      simp only [Bool.and_eq_true, decide_eq_true_eq]
      refine ⟨by show rec_offs_dblks * 128 ≤ _; omega, ?_⟩
      have hm : (r.size - rec_offs_dblks * 128 + 127) / 128 * QLS_DBLK_SIZE_BYTES % 2 ^ 64
          = (r.size - rec_offs_dblks * 128 + 127) / 128 * 128 := by
        show _ * 128 % 2 ^ 64 = _
        apply Nat.mod_eq_of_lt
        omega
      rw [hm]
      by_cases hslip : is_enq_external r._enq_hdr = false ∨ r._enq_hdr._dsize = 0 ∨
          rec_offs_dblks * 128 ≤ 39 + r._enq_hdr._xidsize
      · have := x hslip
        omega
      · have hs : is_enq_external r._enq_hdr = true ∧
            39 + r._enq_hdr._xidsize < rec_offs_dblks * 128 := by
          refine ⟨?_, by omega⟩
          cases hx : is_enq_external r._enq_hdr
          · exact absurd (Or.inl hx) hslip
          · rfl
        have := y hs
        omega
    · rfl

/-- C21: for every record, external or not, and every continuation call of
`encode` with `0 < rec_offs_dblks < size_dblks(rec_size())` and
`max_size_dblks > 0`: when the record does not complete on the invocation, the
further-split branch runs, none of its subtractions on `rec_offs` and `rem`
wraps, and it ends with `rem == 0` and `rec_offs == 0`; when the record
completes, the other branch runs, none of its subtractions wraps, and it ends
with `rec_offs == 0`.  In both cases every closing assertion holds: the only
assertion of the call that can fail is the entry assertion on a null xid
pointer. -/
theorem encode_assertions_valid (clean : Bool) (r : enq_rec) (wptr : List Byte)
    (rec_offs_dblks max_size_dblks : Nat)
    (hfit : r.size < 2 ^ 64) (hds : r._enq_hdr._dsize < 2 ^ 64)
    (h0 : 0 < rec_offs_dblks) (hoffs : rec_offs_dblks < size_dblks r.rec_size)
    (hmax : 0 < max_size_dblks) :
    (rec_offs_dblks + max_size_dblks < size_dblks r.rec_size →
      r.encode_run clean wptr rec_offs_dblks max_size_dblks
        = r.encode_cont_split (r.enc_init wptr rec_offs_dblks max_size_dblks) ∧
      r.cs_ok (r.enc_init wptr rec_offs_dblks max_size_dblks) = true ∧
      (r.encode_run clean wptr rec_offs_dblks max_size_dblks).rem = 0 ∧
      (r.encode_run clean wptr rec_offs_dblks max_size_dblks).rec_offs = 0) ∧
    (size_dblks r.rec_size ≤ rec_offs_dblks + max_size_dblks →
      r.encode_run clean wptr rec_offs_dblks max_size_dblks
        = r.encode_cont_final clean rec_offs_dblks
            (r.enc_init wptr rec_offs_dblks max_size_dblks) ∧
      r.cf_ok clean rec_offs_dblks (r.enc_init wptr rec_offs_dblks max_size_dblks) = true ∧
      (r.encode_run clean wptr rec_offs_dblks max_size_dblks).rec_offs = 0) ∧
    (r.encode_run clean wptr rec_offs_dblks max_size_dblks).asserts
      = (r._xidp.isSome || decide (r._enq_hdr._xidsize = 0)) := by
  have hrs := rec_size_eq_size r hfit
  rw [hrs] at hoffs ⊢
  have hxs : r._enq_hdr._xidsize < 2 ^ 64 := by
    unfold enq_rec.size at hfit; omega
  have hA := (encode_arith clean r wptr rec_offs_dblks max_size_dblks hfit hds hmax hoffs).1
  have hsd := size_dblks_eq r.size
  have hne : rec_offs_dblks ≠ 0 := by omega
  have e1 : sub_sz (size_dblks r.size) rec_offs_dblks = size_dblks r.size - rec_offs_dblks := by
    rw [sub_sz_eq]
    · rw [hsd]; omega
    · omega
  have hro : (r.enc_init wptr rec_offs_dblks max_size_dblks).rec_offs = rec_offs_dblks * 128 :=
    rfl
  have hrem : (r.enc_init wptr rec_offs_dblks max_size_dblks).rem = max_size_dblks * 128 :=
    rfl
  refine ⟨fun h => ?_, fun h => ?_, hA⟩
  · have hb : r.encode_run clean wptr rec_offs_dblks max_size_dblks
        = r.encode_cont_split (r.enc_init wptr rec_offs_dblks max_size_dblks) := by
      rw [encode_run_eq, hrs, if_pos hne, e1, if_pos (by omega)]
    rw [hsd] at h
    obtain ⟨-, m, o, -⟩ := cont_split_arith r (r.enc_init wptr rec_offs_dblks max_size_dblks)
      hfit hds (by rw [hro]; omega) (by rw [hrem]; omega) rfl (by rw [hro, hrem]; omega)
    refine ⟨hb, cs_ok_true r _ hxs hds (by rw [hro]; omega), ?_, ?_⟩
    · rw [hb]; exact m
    · rw [hb]; exact o
  · have hb : r.encode_run clean wptr rec_offs_dblks max_size_dblks
        = r.encode_cont_final clean rec_offs_dblks
            (r.enc_init wptr rec_offs_dblks max_size_dblks) := by
      rw [encode_run_eq, hrs, if_pos hne, e1, if_neg (by omega)]
    rw [hsd] at hoffs
    obtain ⟨o, -, -, -, -, -⟩ := cont_final_arith clean r rec_offs_dblks
      (r.enc_init wptr rec_offs_dblks max_size_dblks) hfit hds (by rw [hro]; omega)
      (by rw [hro]; omega) rfl
    refine ⟨hb, cf_ok_true clean r wptr rec_offs_dblks max_size_dblks hfit hds h0
      (by rw [hsd]; exact hoffs), ?_⟩
    rw [hb]; exact o

/-- C21 at the second block of the ten-block record, which does not complete
within one block, and at the second block of the external record `slip_rec`,
which completes. -/
theorem encode_assertions_valid_witness :
    (ten_block_rec.cs_ok (ten_block_rec.enc_init [] 1 1) = true ∧
      (ten_block_rec.encode_run false [] 1 1).rem = 0 ∧
      (ten_block_rec.encode_run false [] 1 1).rec_offs = 0) ∧
    (slip_rec.cf_ok false 1 (slip_rec.enc_init [] 1 1) = true ∧
      (slip_rec.encode_run false [] 1 1).rec_offs = 0) ∧
    (slip_rec.encode_run false [] 1 1).asserts = true :=
  ⟨((encode_assertions_valid false ten_block_rec [] 1 1 (by decide) (by decide) (by decide)
      (by decide) (by decide)).1 (by decide)).2,
   ((encode_assertions_valid false slip_rec [] 1 1 (by decide) (by decide) (by decide)
      (by decide) (by decide)).2.1 (by decide)).2,
   (encode_assertions_valid false slip_rec [] 1 1 (by decide) (by decide) (by decide)
      (by decide) (by decide)).2.2⟩

theorem ite_checked (c : Prop) [Decidable c] (a b : dec_result)
    (ha : a.checked) (hb : b.checked) : (if c then a else b).checked := by
  split
  · exact ha
  · exact hb

theorem finish_checked (s : dec_st) : (enq_rec.decode_finish s).checked := by
  intro h
  rw [decode_finish_eq] at h ⊢
  by_cases c : rec_tail_check s.r._enq_tail s.r._enq_hdr._rhdr 0 ≠ 0
  · rw [if_pos c] at h
    cases h
  · rw [if_neg c]
    exact not_not.1 c

theorem eof_checked (s : dec_st) : (decode_eof s).checked := by
  intro h
  cases h

theorem tail_checked (s : dec_st) : (enq_rec.decode_tail s).checked := by
  rw [decode_tail_eq]
  apply ite_checked
  · unfold dec_st.tail_read
    apply ite_checked
    · exact eof_checked _
    · exact finish_checked _
  · exact finish_checked _

theorem data_checked (s : dec_st) : (enq_rec.decode_data s).checked := by
  rw [decode_data_eq]
  apply ite_checked
  · apply ite_checked
    · unfold dec_st.data_skip
      apply ite_checked
      · exact eof_checked _
      · exact tail_checked _
    · exact tail_checked _
  · exact tail_checked _

theorem xid_checked (s : dec_st) : (enq_rec.decode_xid s).checked := by
  rw [decode_xid_eq]
  apply ite_checked
  · unfold dec_st.xid_read
    apply ite_checked
    · exact eof_checked _
    · exact data_checked _
  · exact data_checked _

theorem decode_true (r : enq_rec) (h : rec_hdr_t) (ifsp : ifstream) (rec_offs : Nat)
    (ht : (r.decode h ifsp rec_offs).outcome = dec_outcome.returned true) :
    rec_tail_check (r.decode h ifsp rec_offs).st.r._enq_tail
      (r.decode h ifsp rec_offs).st.r._enq_hdr._rhdr 0 = 0 := by
  have := xid_checked
    (if rec_offs = 0 then
      enq_rec.decode_hdr h { r := r, ifs := ifsp, rec_offs := rec_offs, asserts := true }
     else { r := r, ifs := ifsp, rec_offs := rec_offs, asserts := true })
  rw [← decode_eq] at this
  exact this ht

theorem check_zero (t : rec_tail_t) (h : rec_hdr_t) (c : rec_tail_check t h 0 = 0) :
    t._xmagic = not32 h._magic ∧ t._serial = h._serial ∧ t._rid = h._rid ∧ t._checksum = 0 := by
  unfold rec_tail_check at c
  by_cases h1 : t._xmagic ≠ not32 h._magic
  · rw [if_pos h1] at c; cases c
  · rw [if_neg h1] at c
    by_cases h2 : t._serial ≠ h._serial
    · rw [if_pos h2] at c; cases c
    · rw [if_neg h2] at c
      by_cases h3 : t._rid ≠ h._rid
      · rw [if_pos h3] at c; cases c
      · rw [if_neg h3] at c
        by_cases h4 : t._checksum ≠ 0
        · rw [if_pos h4] at c; cases c
        · exact ⟨not_not.1 h1, not_not.1 h2, not_not.1 h3, not_not.1 h4⟩

theorem zero_check (t : rec_tail_t) (h : rec_hdr_t) (h1 : t._xmagic = not32 h._magic)
    (h2 : t._serial = h._serial) (h3 : t._rid = h._rid) (h4 : t._checksum = 0) :
    rec_tail_check t h 0 = 0 := by
  unfold rec_tail_check
  rw [if_neg (not_not.2 h1), if_neg (not_not.2 h2), if_neg (not_not.2 h3),
    if_neg (not_not.2 h4)]

theorem reset_tail (r : enq_rec) (a : reset_args) :
    (r.call (rec_call.reset a))._enq_tail
        = { r._enq_tail with _serial := a.serial, _rid := a.rid } ∧
    (r.call (rec_call.reset a))._enq_hdr._rhdr._magic = r._enq_hdr._rhdr._magic ∧
    (r.call (rec_call.reset a))._enq_hdr._rhdr._serial = a.serial ∧
    (r.call (rec_call.reset a))._enq_hdr._rhdr._rid = a.rid :=
  ⟨rfl, rfl, rfl, rfl⟩

theorem calls_keep (cs : List rec_call) :
    ∀ (r : enq_rec) (b : Bool),
      (b = true → r._enq_tail._xmagic = not32 r._enq_hdr._rhdr._magic ∧
        r._enq_tail._checksum = 0) →
      r.last_decode_true cs b = true →
      (r.calls cs)._enq_tail._xmagic = not32 (r.calls cs)._enq_hdr._rhdr._magic ∧
        (r.calls cs)._enq_tail._checksum = 0 := by
  induction cs with
  | nil =>
    intro r b hb hl
    exact hb hl
  | cons c cs ih =>
    intro r b hb hl
    cases c with
    | reset a =>
      have e : r.calls (rec_call.reset a :: cs) = (r.call (rec_call.reset a)).calls cs := rfl
      rw [e]
      refine ih _ b (fun hbt => ?_) hl
      obtain ⟨t, m, -, -⟩ := reset_tail r a
      rw [t, m]
      exact hb hbt
    | decode h ifsp rec_offs =>
      have e : r.calls (rec_call.decode h ifsp rec_offs :: cs)
          = (r.call (rec_call.decode h ifsp rec_offs)).calls cs := rfl
      rw [e]
      refine ih _ _ (fun hbt => ?_) hl
      have ht := decode_true r h ifsp rec_offs (of_decide_eq_true hbt)
      obtain ⟨x, -, -, k⟩ := check_zero _ _ ht
      exact ⟨x, k⟩

/-- C23 (amended): for every record state reached from the constructor by a
sequence of `reset` calls and `decode` calls on arbitrary streams in which the
last `decode`, if there is one, returned true, the record after a subsequent
`reset(serial, rid, ...)` has `tail.xmagic == ~header.magic`,
`tail.checksum == 0`, `tail.serial == serial` and `tail.rid == rid`, its tail
passes the check against its header, and the bytes one invocation of `encode`
then emits decode to true (data in the stream of fewer bytes than the largest
`std::streamsize`).  From every state, `reset` writes `serial` and `rid`
of the tail and nothing else of it, and leaves the magic of the header. -/
theorem reset_restores_tail (cs : List rec_call) (a : reset_args)
    (hlast : enq_rec.ctor.last_decode_true cs true = true)
    (hs : a.serial < 2 ^ 64) (hr : a.rid < 2 ^ 64) :
    ((enq_rec.ctor.calls cs).call (rec_call.reset a))._enq_tail._xmagic
      = not32 ((enq_rec.ctor.calls cs).call (rec_call.reset a))._enq_hdr._rhdr._magic ∧
    ((enq_rec.ctor.calls cs).call (rec_call.reset a))._enq_tail._checksum = 0 ∧
    ((enq_rec.ctor.calls cs).call (rec_call.reset a))._enq_tail._serial = a.serial ∧
    ((enq_rec.ctor.calls cs).call (rec_call.reset a))._enq_tail._rid = a.rid ∧
    rec_tail_check ((enq_rec.ctor.calls cs).call (rec_call.reset a))._enq_tail
      ((enq_rec.ctor.calls cs).call (rec_call.reset a))._enq_hdr._rhdr 0 = 0 ∧
    (∀ (clean : Bool) (wptr rest : List Byte) (max_size_dblks : Nat),
      ((enq_rec.ctor.calls cs).call (rec_call.reset a))._enq_hdr.typed →
      ((enq_rec.ctor.calls cs).call (rec_call.reset a)).size < 2 ^ 64 →
      size_dblks ((enq_rec.ctor.calls cs).call (rec_call.reset a)).rec_size ≤ max_size_dblks →
      ((enq_rec.ctor.calls cs).call (rec_call.reset a)).data_bytes.length < 2 ^ 63 - 1 →
      (decode_bytes
          (((enq_rec.ctor.calls cs).call (rec_call.reset a)).encode_run clean wptr 0
            max_size_dblks).written rest).outcome = dec_outcome.returned true) ∧
    (∀ r : enq_rec,
      (r.call (rec_call.reset a))._enq_tail
          = { r._enq_tail with _serial := a.serial, _rid := a.rid } ∧
      (r.call (rec_call.reset a))._enq_hdr._rhdr._magic = r._enq_hdr._rhdr._magic) := by
  obtain ⟨x, k⟩ := calls_keep cs enq_rec.ctor true (fun _ => ⟨rfl, rfl⟩) hlast
  obtain ⟨t, m, es, er⟩ := reset_tail (enq_rec.ctor.calls cs) a
  have hx : ((enq_rec.ctor.calls cs).call (rec_call.reset a))._enq_tail._xmagic
      = not32 ((enq_rec.ctor.calls cs).call (rec_call.reset a))._enq_hdr._rhdr._magic := by
    rw [t, m]; exact x
  have hk : ((enq_rec.ctor.calls cs).call (rec_call.reset a))._enq_tail._checksum = 0 := by
    rw [t]; exact k
  have hts : ((enq_rec.ctor.calls cs).call (rec_call.reset a))._enq_tail._serial = a.serial := by
    rw [t]
  have htr : ((enq_rec.ctor.calls cs).call (rec_call.reset a))._enq_tail._rid = a.rid := by
    rw [t]
  have hc := zero_check _ _ hx (hts.trans es.symm) (htr.trans er.symm) hk
  refine ⟨hx, hk, hts, htr, hc, ?_, fun r => ⟨(reset_tail r a).1, (reset_tail r a).2.1⟩⟩
  intro clean wptr rest max_size_dblks ht hfit hmax hskip
  rw [encode_fit_written clean _ wptr max_size_dblks hfit hmax, image_eq_frame,
    decode_frame_result _ _ rest ht hfit (rec_tail_bytes_length _) hskip]
  have hb : rec_tail_of_bytes
      (rec_tail_bytes ((enq_rec.ctor.calls cs).call (rec_call.reset a))._enq_tail)
      = ((enq_rec.ctor.calls cs).call (rec_call.reset a))._enq_tail :=
    rec_tail_of_bytes_bytes _ (by rw [hx]; exact not32_lt _) (by rw [hk]; decide)
      (by rw [hts]; exact hs) (by rw [htr]; exact hr)
  simp only [hb, hc, if_true]

/-- C23 (amended) at a record that is bound, then decoded from the bytes of the
minimal record, which returns true, and then bound again: the tail mirrors the
header and the bytes `encode` emits decode to true. -/
theorem reset_restores_tail_witness :
    (enq_rec.ctor.calls [rec_call.reset rebind_args, good_call,
        rec_call.reset rebind_args])._enq_tail
      = { _xmagic := not32 QLS_ENQ_MAGIC, _checksum := 0, _serial := 7, _rid := 100 } ∧
    (decode_bytes
        ((enq_rec.ctor.calls [rec_call.reset rebind_args, good_call,
            rec_call.reset rebind_args]).encode_run false [] 0 1).written []).outcome
      = dec_outcome.returned true :=
  ⟨by decide,
   (reset_restores_tail [rec_call.reset rebind_args, good_call] rebind_args (by decide)
      (by decide) (by decide)).2.2.2.2.2.1 false [] [] 1 (by decide) (by decide) (by decide)
      (by decide)⟩

/-- C23 as stated fails: decoded from the bytes `bad_tail_bytes`, `decode`
raises the bad-tail exception for the magic and leaves the `xmagic` it read in
the tail; after `reset(7, 100, ...)` the tail still holds that `xmagic`, which
is not the complement of the magic of the header, and the bytes `encode` then
emits raise the same exception when decoded.  The same holds when the stream
ends four bytes into the tail and `decode` returns false. -/
theorem reset_restores_tail_counterexample :
    (enq_rec.ctor.decode (rec_hdr_of_bytes (bad_tail_bytes.take sizeof_rec_hdr))
        (ifstream.on (bad_tail_bytes.drop sizeof_rec_hdr)) 0).outcome
      = dec_outcome.thrown
          { err_code := jerrno.JERR_JREC_BADRECTAIL
            additional_info := "Magic: expected 0x9aacb3ae; found 0x9aacb300"
            throwing_class := "enq_rec"
            throwing_fn := "decode" } ∧
    (enq_rec.ctor.calls [bad_call, rec_call.reset rebind_args])._enq_tail
      = { _xmagic := 0x9aacb300, _checksum := 0, _serial := 7, _rid := 100 } ∧
    not32 (enq_rec.ctor.calls [bad_call, rec_call.reset rebind_args])._enq_hdr._rhdr._magic
      = 0x9aacb3ae ∧
    (enq_rec.ctor.calls [bad_call, rec_call.reset rebind_args])._enq_tail._xmagic
      ≠ not32 (enq_rec.ctor.calls [bad_call, rec_call.reset rebind_args])._enq_hdr._rhdr._magic ∧
    (decode_bytes
        ((enq_rec.ctor.calls [bad_call, rec_call.reset rebind_args]).encode_run false [] 0
          1).written []).outcome
      = dec_outcome.thrown
          { err_code := jerrno.JERR_JREC_BADRECTAIL
            additional_info := "Magic: expected 0x9aacb3ae; found 0x9aacb300"
            throwing_class := "enq_rec"
            throwing_fn := "decode" } ∧
    (enq_rec.ctor.decode (rec_hdr_of_bytes (bad_tail_bytes.take sizeof_rec_hdr))
        (ifstream.on ((bad_tail_bytes.take 45).drop sizeof_rec_hdr)) 0).outcome
      = dec_outcome.returned false ∧
    (enq_rec.ctor.calls [cut_call, rec_call.reset rebind_args])._enq_tail._xmagic
      ≠ not32 (enq_rec.ctor.calls [cut_call, rec_call.reset rebind_args])._enq_hdr._rhdr._magic := by
  refine ⟨by decide, by decide, by decide, by decide, by decide, by decide, by decide⟩

theorem decode_short_rec (r0 : enq_rec) (h : rec_hdr_t) (ifs : ifstream) (X D : Nat)
    (part : List Byte) (hg : ifs.good = true)
    (hb : ifs.buf = le_bytes 8 X ++ le_bytes 8 D ++ part) (hD : D < 2 ^ 64)
    (hfit : 39 + X +
      (if is_enq_external { _rhdr := h, _xidsize := X, _dsize := D } then 0 else D) + 24 <
        2 ^ 64)
    (hk : 39 + part.length < 39 + X +
      (if is_enq_external { _rhdr := h, _xidsize := X, _dsize := D } then 0 else D) + 24)
    (hS : (if is_enq_external { _rhdr := h, _xidsize := X, _dsize := D } then 0 else D) <
      2 ^ 63 - 1) :
    (part.length < X →
      (r0.decode h ifs 0).st.r = { r0 with
        _enq_hdr := { _rhdr := h, _xidsize := X, _dsize := D }
        _buff := some (mem_write (List.replicate X 0) 0 part) }) ∧
    (X ≤ part.length →
      part.length < X +
        (if is_enq_external { _rhdr := h, _xidsize := X, _dsize := D } then 0 else D) →
      (r0.decode h ifs 0).st.r = { r0 with
        _enq_hdr := { _rhdr := h, _xidsize := X, _dsize := D }
        _buff := if X > 0 then some (part.take X) else r0._buff }) ∧
    (X + (if is_enq_external { _rhdr := h, _xidsize := X, _dsize := D } then 0 else D) ≤
        part.length →
      (r0.decode h ifs 0).st.r = { r0 with
        _enq_hdr := { _rhdr := h, _xidsize := X, _dsize := D }
        _buff := if X > 0 then some (part.take X) else r0._buff
        _enq_tail := rec_tail_of_bytes (mem_write (rec_tail_bytes r0._enq_tail) 0
          (part.drop (X +
            (if is_enq_external { _rhdr := h, _xidsize := X, _dsize := D } then 0 else D)))) }) := by
  rw [decode_start r0 h ifs X D part hg hb (by omega) hD]
  by_cases c1 : part.length < X
  · -- the stream ends inside the xid
    refine ⟨fun _ => ?_, fun c => absurd c1 (by omega), fun c => absurd c1 (by omega)⟩
    rw [decode_xid_eq, show sizeof_enq_hdr = 39 from rfl]
    simp only []
    rw [Nat.mod_eq_of_lt (by omega), if_pos (by omega), sub_sz_eq 39 39 (by norm_num) le_rfl,
      Nat.sub_self]
    obtain ⟨-, -, -, e4, -⟩ := xid_read_short
      { r := { r0 with
          _enq_hdr := { _rhdr := h, _xidsize := X, _dsize := D }
          _buff := if X > 0 then some (List.replicate X 0) else r0._buff }
        ifs := { ifs with buf := part, gcount := 8 }
        rec_offs := 39
        asserts := true } 0 hg (by show X < 2 ^ 64; omega)
        (by show part.length + 0 < X; omega) (by show 39 + part.length < 2 ^ 64; omega)
    rw [e4]
    have hx : X > 0 := by omega
    simp only [if_pos hx, Option.getD_some]
  · -- the whole xid is there
    obtain ⟨s2, e2, hg2, b2, o2, a2, r2⟩ := xid_stage
      { r := { r0 with
          _enq_hdr := { _rhdr := h, _xidsize := X, _dsize := D }
          _buff := if X > 0 then some (List.replicate X 0) else r0._buff }
        ifs := { ifs with buf := part, gcount := 8 }
        rec_offs := 39
        asserts := true }
      (part.take X) (part.drop X) rfl hg (List.take_append_drop X part).symm
      (by show (part.take X).length = X; rw [List.length_take]; omega)
      (by show 39 + X < 2 ^ 64; omega)
    have hlt : (part.take X).length = X := by rw [List.length_take]; omega
    have hr2 : s2.r = { r0 with
        _enq_hdr := { _rhdr := h, _xidsize := X, _dsize := D }
        _buff := if X > 0 then some (part.take X) else r0._buff } := by
      rw [r2]
      show (if X > 0 then _ else _) = _
      by_cases hx : X > 0
      · simp only [if_pos hx, Option.getD_some]
        have := mem_write_fresh (part.take X)
        rw [hlt] at this
        rw [this]
      · simp only [if_neg hx]
    have hh2 : s2.r._enq_hdr = { _rhdr := h, _xidsize := X, _dsize := D } := by rw [hr2]
    have o2 : s2.rec_offs = 39 + s2.r._enq_hdr._xidsize := by rw [hh2]; exact o2
    have hl2 : s2.ifs.buf.length + X = part.length := by
      rw [b2, List.length_drop]; omega
    rw [e2]
    by_cases c2 : is_enq_external { _rhdr := h, _xidsize := X, _dsize := D } = false ∧
        s2.ifs.buf.length < D
    · -- the stream ends inside the data
      obtain ⟨c2a, c2b⟩ := c2
      refine ⟨fun c => absurd c c1, fun _ _ => ?_, fun c => ?_⟩
      · rw [decode_data_eq, hh2, if_pos c2a, show sizeof_enq_hdr = 39 from rfl]
        simp only []
        rw [o2, hh2]
        simp only []
        rw [Nat.mod_eq_of_lt (by rw [c2a] at hfit; simp at hfit; omega), if_pos (by omega),
          sub_sz_eq _ 39 (by omega) (by omega), Nat.add_sub_cancel_left,
          sub_sz_eq _ _ (by omega) le_rfl, Nat.sub_self]
        obtain ⟨-, -, -, f4, -⟩ := data_skip_short s2 0 hg2 (by rw [hh2]; exact hD)
          (by rw [hh2]; show s2.ifs.buf.length + 0 < D; omega)
          (by rw [o2, hh2]; show 39 + X + _ < _; omega)
          (by rw [hh2]; show D < 2 ^ 63; rw [c2a] at hS; simp at hS; omega)
        rw [f4, hr2]
      · exfalso
        rw [c2a] at c
        simp only [Bool.false_eq_true, if_false] at c
        omega
    · -- the stream ends inside the tail
      have hn : (if is_enq_external { _rhdr := h, _xidsize := X, _dsize := D } then 0 else D) ≤
          s2.ifs.buf.length := by
        cases he : is_enq_external { _rhdr := h, _xidsize := X, _dsize := D }
        · simp only [Bool.false_eq_true, if_false]
          rw [he] at c2
          simp only [true_and, not_lt] at c2
          exact c2
        · simp
      refine ⟨fun c => absurd c c1, fun _ c => absurd c (by omega), fun _ => ?_⟩
      obtain ⟨s3, e3, hg3, b3, o3, a3, r3⟩ := data_stage s2
        (if is_enq_external { _rhdr := h, _xidsize := X, _dsize := D } then 0 else D) o2 hg2
        (by rw [hh2]) hn (by rw [hh2]; show 39 + X + _ < _; omega) (by rw [hh2]; exact hD) hS
      have hh3 : s3.r._enq_hdr = { _rhdr := h, _xidsize := X, _dsize := D } := by rw [r3, hh2]
      have o3 : s3.rec_offs = 39 + X +
          (if is_enq_external { _rhdr := h, _xidsize := X, _dsize := D } then 0 else D) := by
        rw [o3, hh2]
      have hl3 : s3.ifs.buf.length +
          (if is_enq_external { _rhdr := h, _xidsize := X, _dsize := D } then 0 else D) =
            s2.ifs.buf.length := by
        rw [b3, List.length_drop]; omega
      rw [e3, decode_tail_eq, hh3, show sizeof_enq_hdr = 39 from rfl,
        show sizeof_rec_tail = 24 from rfl]
      simp only []
      rw [Nat.mod_eq_of_lt hfit, if_pos (by rw [o3]; omega),
        tail_offs_zero s3 _ (by rw [hh3]; exact o3) (by rw [hh3])
          (by rw [hh3]; show 39 + X + _ < _; omega)]
      obtain ⟨-, -, -, f4, -⟩ := tail_read_short s3 0 hg3 (by omega) (by omega)
      rw [f4, r3, hr2, b3, b2, List.drop_drop]

theorem rec_tail_bytes_of_bytes (b : List Byte) (hl : b.length = 24) :
    rec_tail_bytes (rec_tail_of_bytes b) = b := by
  unfold rec_tail_bytes rec_tail_of_bytes
  simp only []
  have h1 := le_bytes_le_val (b.take 4)
  have h2 := le_bytes_le_val ((b.drop 4).take 4)
  have h3 := le_bytes_le_val ((b.drop 8).take 8)
  have h4 := le_bytes_le_val ((b.drop 16).take 8)
  rw [List.length_take, List.length_drop, hl] at h2 h3 h4
  rw [List.length_take, hl] at h1
  simp only [show min 4 24 = 4 from rfl, show min 4 (24 - 4) = 4 from rfl,
    show min 8 (24 - 8) = 8 from rfl, show min 8 (24 - 16) = 8 from rfl] at h1 h2 h3 h4
  rw [h1, h2, h3, h4]
  have e4 : (b.drop 16).take 8 = b.drop 16 :=
    List.take_of_length_le (by rw [List.length_drop]; omega)
  have d1 : b.drop 16 = (b.drop 8).drop 8 := by rw [List.drop_drop]
  have d2 : b.drop 8 = (b.drop 4).drop 4 := by rw [List.drop_drop]
  rw [e4, List.append_assoc, List.append_assoc, d1, List.take_append_drop, d2,
    List.take_append_drop, List.take_append_drop]

theorem finish_gcount (r : enq_rec) (buf : List Byte) (g1 g2 rec_offs : Nat) (a : Bool) :
    enq_rec.decode_finish
        { r := r
          ifs := { buf := buf, eofbit := false, failbit := false, badbit := false, gcount := g1 }
          rec_offs := rec_offs
          asserts := a }
      = enq_rec.decode_finish
        { r := r
          ifs := { buf := buf, eofbit := false, failbit := false, badbit := false, gcount := g2 }
          rec_offs := rec_offs
          asserts := a } := by
  have e1 := decode_finish_spec
    { r := r
      ifs := { buf := buf, eofbit := false, failbit := false, badbit := false, gcount := g1 }
      rec_offs := rec_offs
      asserts := a } rfl
  have e2 := decode_finish_spec
    { r := r
      ifs := { buf := buf, eofbit := false, failbit := false, badbit := false, gcount := g2 }
      rec_offs := rec_offs
      asserts := a } rfl
  rw [e1, e2]
  simp [ifstream.ignore, ifstream.good]

theorem tail_offs_eq (s : dec_st) (n t : Nat)
    (ho : s.rec_offs = 39 + s.r._enq_hdr._xidsize + n + t)
    (hn : n = if is_enq_external s.r._enq_hdr then 0 else s.r._enq_hdr._dsize)
    (hfit : 39 + s.r._enq_hdr._xidsize + n + t < 2 ^ 64) : s.tail_offs = t := by
  unfold dec_st.tail_offs
  rw [show sizeof_enq_hdr = 39 from rfl, ho]
  cases he : is_enq_external s.r._enq_hdr
  · rw [he] at hn
    simp only [Bool.false_eq_true, if_false] at hn
    subst hn
    rw [if_pos rfl, sub_sz_eq _ 39 (by omega) (by omega),
      sub_sz_eq _ s.r._enq_hdr._xidsize (by omega) (by omega),
      sub_sz_eq _ s.r._enq_hdr._dsize (by omega) (by omega)]
    omega
  · rw [he] at hn
    simp only [if_true] at hn
    subst hn
    rw [if_neg (by simp), sub_sz_eq _ 39 (by omega) (by omega),
      sub_sz_eq _ s.r._enq_hdr._xidsize (by omega) (by omega)]
    omega

theorem resume_xid (r1 : enq_rec) (h h2 : rec_hdr_t) (ifs2 : ifstream) (X D k : Nat)
    (xid data tb rest : List Byte)
    (hh : r1._enq_hdr = { _rhdr := h, _xidsize := X, _dsize := D })
    (hbuf : r1._buff = some (mem_write (List.replicate X 0) 0 (xid.take k)))
    (hk : k < X) (hX : xid.length = X)
    (hdl : data.length =
      if is_enq_external { _rhdr := h, _xidsize := X, _dsize := D } then 0 else D)
    (ht : tb.length = 24) (hfit : 39 + X + data.length + 24 < 2 ^ 64) (hD : D < 2 ^ 64)
    (hS : data.length < 2 ^ 63 - 1)
    (hg : ifs2.good = true) (hb : ifs2.buf = xid.drop k ++ (data ++ (tb ++ rest))) :
    r1.decode h2 ifs2 (39 + k) = enq_rec.decode_finish
      { r := { r1 with _buff := some xid, _enq_tail := rec_tail_of_bytes tb }
        ifs := { buf := rest, eofbit := false, failbit := false, badbit := false, gcount := 24 }
        rec_offs := 39 + X + data.length + 24
        asserts := true } := by
  obtain ⟨hdr, tail, xp, dp, bf⟩ := r1
  simp only [] at hh hbuf
  subst hh hbuf
  have hdl2 : (xid.drop k).length + k = X := by rw [List.length_drop]; omega
  rw [decode_eq, if_neg (by omega), decode_xid_eq, show sizeof_enq_hdr = 39 from rfl]
  simp only []
  rw [Nat.mod_eq_of_lt (by omega), if_pos (by omega), sub_sz_eq _ 39 (by omega) (by omega),
    Nat.add_sub_cancel_left,
    xid_read_full _ k (xid.drop k) (data ++ (tb ++ rest)) hg (by show X < 2 ^ 64; omega) hb
      hdl2 (by show 39 + k + _ < 2 ^ 64; omega)]
  simp only [Option.getD_some]
  have hw : mem_write (mem_write (List.replicate X 0) 0 (xid.take k)) k (xid.drop k) = xid := by
    rw [mem_write_zero, mem_write_append _ _ _ k (by rw [List.length_take]; omega),
      List.take_append_drop, List.drop_of_length_le (by rw [List.length_replicate]; omega),
      List.append_nil]
  rw [hw]
  obtain ⟨s3, e3, hg3, b3, o3, a3, r3⟩ := data_stage
    { r := { _enq_hdr := { _rhdr := h, _xidsize := X, _dsize := D }, _enq_tail := tail,
             _xidp := xp, _data := dp, _buff := some xid }
      ifs := { ifs2 with buf := data ++ (tb ++ rest), gcount := (xid.drop k).length }
      rec_offs := 39 + k + (xid.drop k).length
      asserts := true } data.length (by show 39 + k + _ = 39 + X; omega) hg hdl
    (by show data.length ≤ (data ++ (tb ++ rest)).length; simp)
    (by show 39 + X + _ < _; omega) hD hS
  have b3 : s3.ifs.buf = tb ++ rest := by rw [b3]; exact List.drop_left _ _
  have hh3 : s3.r._enq_hdr = { _rhdr := h, _xidsize := X, _dsize := D } := by rw [r3]
  have e4 := tail_stage s3 data.length tb rest (by rw [o3, r3]) (by rw [hh3]; exact hdl) hg3 b3 ht
    (by rw [hh3]; show 39 + X + _ + 24 < _; omega)
  rw [e3, e4]
  obtain ⟨g1, g2, g3⟩ := good_bits s3.ifs hg3
  apply congrArg enq_rec.decode_finish
  rw [dec_st.mk.injEq]
  refine ⟨?_, ?_, ?_, ?_⟩
  · rw [r3]
  · rw [ifstream.mk.injEq]; exact ⟨rfl, g1, g2, g3, rfl⟩
  · rw [hh3]
  · rw [a3]

theorem resume_data (r1 : enq_rec) (h h2 : rec_hdr_t) (ifs2 : ifstream) (X D j : Nat)
    (skip tb rest : List Byte)
    (hh : r1._enq_hdr = { _rhdr := h, _xidsize := X, _dsize := D })
    (hext : is_enq_external { _rhdr := h, _xidsize := X, _dsize := D } = false)
    (hj : skip.length + j = D) (hjD : j < D)
    (ht : tb.length = 24) (hfit : 39 + X + D + 24 < 2 ^ 64) (hS : D < 2 ^ 63 - 1)
    (hg : ifs2.good = true) (hb : ifs2.buf = skip ++ (tb ++ rest)) :
    r1.decode h2 ifs2 (39 + X + j) = enq_rec.decode_finish
      { r := { r1 with _enq_tail := rec_tail_of_bytes tb }
        ifs := { buf := rest, eofbit := false, failbit := false, badbit := false, gcount := 24 }
        rec_offs := 39 + X + D + 24
        asserts := true } := by
  obtain ⟨hdr, tail, xp, dp, bf⟩ := r1
  simp only [] at hh
  subst hh
  rw [decode_eq, if_neg (by omega), decode_xid_eq, show sizeof_enq_hdr = 39 from rfl]
  simp only []
  rw [Nat.mod_eq_of_lt (by omega), if_neg (by omega), decode_data_eq,
    show sizeof_enq_hdr = 39 from rfl]
  simp only []
  rw [if_pos hext, Nat.mod_eq_of_lt (by omega), if_pos (by omega),
    sub_sz_eq _ 39 (by omega) (by omega),
    sub_sz_eq _ X (by omega) (by omega),
    show 39 + X + j - 39 - X = j by omega,
    data_skip_full _ j skip.length hg (by show D < 2 ^ 64; omega) hj
      (by rw [hb, List.length_append]; omega) (by show 39 + X + j + _ < 2 ^ 64; omega)
      (by omega)]
  simp only []
  obtain ⟨g1, g2, g3⟩ := good_bits ifs2 hg
  have e4 := tail_stage
    { r := { _enq_hdr := { _rhdr := h, _xidsize := X, _dsize := D }, _enq_tail := tail,
             _xidp := xp, _data := dp, _buff := bf }
      ifs := { ifs2 with buf := ifs2.buf.drop skip.length, gcount := skip.length }
      rec_offs := 39 + X + j + skip.length
      asserts := true } D tb rest (by show 39 + X + j + _ = 39 + X + D; omega)
    (by show D = if _ then 0 else D; rw [hext]; rfl) hg
    (by show ifs2.buf.drop skip.length = _; rw [hb]; exact List.drop_left _ _) ht
    (by show 39 + X + D + 24 < _; omega)
  rw [e4]
  apply congrArg enq_rec.decode_finish
  rw [dec_st.mk.injEq]
  refine ⟨rfl, ?_, rfl, rfl⟩
  rw [ifstream.mk.injEq]; exact ⟨rfl, g1, g2, g3, rfl⟩

theorem resume_tail (r1 : enq_rec) (h h2 : rec_hdr_t) (ifs2 : ifstream) (X D t : Nat)
    (c0 tb rest : List Byte)
    (hh : r1._enq_hdr = { _rhdr := h, _xidsize := X, _dsize := D })
    (htl : r1._enq_tail = rec_tail_of_bytes (mem_write c0 0 (tb.take t)))
    (hc : c0.length = 24) (ht24 : t < 24) (ht : tb.length = 24)
    (hfit : 39 + X +
      (if is_enq_external { _rhdr := h, _xidsize := X, _dsize := D } then 0 else D) + 24 <
        2 ^ 64)
    (hg : ifs2.good = true) (hb : ifs2.buf = tb.drop t ++ rest) :
    r1.decode h2 ifs2
        (39 + X +
          (if is_enq_external { _rhdr := h, _xidsize := X, _dsize := D } then 0 else D) + t)
      = enq_rec.decode_finish
      { r := { r1 with _enq_tail := rec_tail_of_bytes tb }
        ifs := { buf := rest, eofbit := false, failbit := false, badbit := false, gcount := 24 }
        rec_offs := 39 + X +
          (if is_enq_external { _rhdr := h, _xidsize := X, _dsize := D } then 0 else D) + 24
        asserts := true } := by
  obtain ⟨hdr, tail, xp, dp, bf⟩ := r1
  simp only [] at hh htl
  subst hh htl
  have hdl2 : (tb.drop t).length + t = 24 := by rw [List.length_drop]; omega
  have e_tail : enq_rec.decode_tail
      { r := { _enq_hdr := { _rhdr := h, _xidsize := X, _dsize := D },
               _enq_tail := rec_tail_of_bytes (mem_write c0 0 (tb.take t)),
               _xidp := xp, _data := dp, _buff := bf }
        ifs := ifs2
        rec_offs := 39 + X +
          (if is_enq_external { _rhdr := h, _xidsize := X, _dsize := D } then 0 else D) + t
        asserts := true }
      = enq_rec.decode_finish
        { r := { _enq_hdr := { _rhdr := h, _xidsize := X, _dsize := D },
                 _enq_tail := rec_tail_of_bytes tb,
                 _xidp := xp, _data := dp, _buff := bf }
          ifs := { buf := rest, eofbit := false, failbit := false, badbit := false,
                   gcount := 24 }
          rec_offs := 39 + X +
            (if is_enq_external { _rhdr := h, _xidsize := X, _dsize := D } then 0 else D) + 24
          asserts := true } := by
    rw [decode_tail_eq, show sizeof_enq_hdr = 39 from rfl, show sizeof_rec_tail = 24 from rfl]
    simp only []
    rw [Nat.mod_eq_of_lt hfit, if_pos (by omega),
      tail_offs_eq _ (if is_enq_external { _rhdr := h, _xidsize := X, _dsize := D } then 0 else D)
        t rfl rfl (by show 39 + X + _ + t < 2 ^ 64; omega),
      tail_read_full _ t (tb.drop t) rest hg hb hdl2
        (by show 39 + X + _ + t + _ < 2 ^ 64; omega)]
    simp only []
    have hlen : (mem_write c0 0 (tb.take t)).length = 24 := by
      rw [mem_write_zero, List.length_append, List.length_drop, List.length_take, hc, ht]
      omega
    have hw : mem_write (rec_tail_bytes (rec_tail_of_bytes (mem_write c0 0 (tb.take t)))) t
        (tb.drop t) = tb := by
      rw [rec_tail_bytes_of_bytes _ hlen, mem_write_zero,
        mem_write_append _ _ _ t (by rw [List.length_take]; omega),
        List.take_append_drop, List.drop_of_length_le (by omega), List.append_nil]
    rw [hw]
    obtain ⟨g1, g2, g3⟩ := good_bits ifs2 hg
    have hfin := finish_gcount
      { _enq_hdr := { _rhdr := h, _xidsize := X, _dsize := D },
        _enq_tail := rec_tail_of_bytes tb, _xidp := xp, _data := dp, _buff := bf }
      rest (tb.drop t).length 24
      (39 + X +
        (if is_enq_external { _rhdr := h, _xidsize := X, _dsize := D } then 0 else D) + 24) true
    rw [← hfin]
    apply congrArg enq_rec.decode_finish
    rw [dec_st.mk.injEq]
    refine ⟨rfl, ?_, ?_, rfl⟩
    · rw [ifstream.mk.injEq]; exact ⟨rfl, g1, g2, g3, rfl⟩
    · show 39 + X + _ + t + (tb.drop t).length = _
      omega
  rw [decode_eq, if_neg (by omega), decode_xid_eq, show sizeof_enq_hdr = 39 from rfl]
  simp only []
  rw [Nat.mod_eq_of_lt (by omega), if_neg (by omega), decode_data_eq,
    show sizeof_enq_hdr = 39 from rfl]
  simp only []
  cases hext : is_enq_external { _rhdr := h, _xidsize := X, _dsize := D }
  · rw [hext] at hfit e_tail
    simp only [Bool.false_eq_true, if_false] at hfit e_tail ⊢
    rw [if_pos trivial, Nat.mod_eq_of_lt (by omega), if_neg (by omega)]
    exact e_tail
  · rw [hext] at e_tail
    simp only [if_true] at e_tail ⊢
    rw [if_neg (by simp)]
    exact e_tail

theorem drop_add_append (a b : List Byte) (n k : Nat) (h : a.length = n) :
    (a ++ b).drop (n + k) = b.drop k := by
  subst h
  rw [← List.drop_drop, List.drop_left]

theorem decode_resume_core (r0 : enq_rec) (h h2 : rec_hdr_t) (ifs1 ifs2 : ifstream)
    (X D k : Nat) (xid data tb rest : List Byte)
    (hg1 : ifs1.good = true)
    (hb1 : ifs1.buf = le_bytes 8 X ++ le_bytes 8 D ++ (xid ++ (data ++ tb)).take k)
    (hX : xid.length = X)
    (hdl : data.length =
      if is_enq_external { _rhdr := h, _xidsize := X, _dsize := D } then 0 else D)
    (ht : tb.length = 24) (hfit : 39 + X + data.length + 24 < 2 ^ 64) (hD : D < 2 ^ 64)
    (hk : k < X + data.length + 24) (hS : data.length < 2 ^ 63 - 1)
    (hg2 : ifs2.good = true) (hb2 : ifs2.buf = (xid ++ (data ++ tb)).drop k ++ rest) :
    (r0.decode h ifs1 0).st.r.decode h2 ifs2 (39 + k) = enq_rec.decode_finish
      { r := r0.decoded h X D xid tb
        ifs := { buf := rest, eofbit := false, failbit := false, badbit := false, gcount := 24 }
        rec_offs := 39 + X + data.length + 24
        asserts := true } := by
  have hpl : ((xid ++ (data ++ tb)).take k).length = k := by
    rw [List.length_take, List.length_append, List.length_append]; omega
  obtain ⟨A, B, C⟩ := decode_short_rec r0 h ifs1 X D _ hg1 hb1 hD (by rw [← hdl]; exact hfit)
    (by rw [← hdl, hpl]; omega) (by rw [← hdl]; exact hS)
  rw [hpl] at A B C
  rw [← hdl] at B C
  by_cases c1 : k < X
  · -- the first call stopped inside the xid
    have hp : (xid ++ (data ++ tb)).take k = xid.take k :=
      List.take_append_of_le_length (by omega)
    have hd : (xid ++ (data ++ tb)).drop k = xid.drop k ++ (data ++ tb) :=
      List.drop_append_of_le_length (by omega)
    have A := A c1
    rw [hp] at A
    rw [resume_xid _ h h2 ifs2 X D k xid data tb rest (by rw [A]) (by rw [A]) c1 hX hdl ht hfit
      hD hS hg2 (by rw [hb2, hd]; simp only [List.append_assoc])]
    apply congrArg enq_rec.decode_finish
    rw [dec_st.mk.injEq]
    refine ⟨?_, rfl, rfl, rfl⟩
    rw [A]
    unfold enq_rec.decoded
    rw [if_pos (by omega)]
  · obtain ⟨j, rfl⟩ := Nat.exists_eq_add_of_le (Nat.le_of_not_lt c1)
    have hp : (xid ++ (data ++ tb)).take (X + j) = xid ++ (data ++ tb).take j :=
      take_add_append _ _ X j hX
    have hd : (xid ++ (data ++ tb)).drop (X + j) = (data ++ tb).drop j :=
      drop_add_append _ _ X j hX
    have hpx : (xid ++ (data ++ tb).take j).take X = xid := take_append_len _ _ X hX
    by_cases c2 : j < data.length
    · -- the first call stopped inside the data
      have hext : is_enq_external { _rhdr := h, _xidsize := X, _dsize := D } = false := by
        cases he : is_enq_external { _rhdr := h, _xidsize := X, _dsize := D }
        · rfl
        · rw [he] at hdl; simp only [if_true] at hdl; omega
      have hdD : data.length = D := by rw [hext] at hdl; simpa using hdl
      have hd2 : (data ++ tb).drop j = data.drop j ++ tb :=
        List.drop_append_of_le_length (by omega)
      have B := B (by omega) (by omega)
      rw [hp, hpx] at B
      rw [show 39 + (X + j) = 39 + X + j by omega,
        resume_data _ h h2 ifs2 X D j (data.drop j) tb rest (by rw [B]) hext
        (by rw [List.length_drop]; omega) (by omega) ht (by omega) (by omega) hg2
          (by rw [hb2, hd, hd2]; simp only [List.append_assoc])]
      apply congrArg enq_rec.decode_finish
      rw [dec_st.mk.injEq]
      refine ⟨?_, rfl, by rw [hdD], rfl⟩
      rw [B]
      rfl
    · -- the first call stopped inside the tail
      obtain ⟨t, rfl⟩ := Nat.exists_eq_add_of_le (Nat.le_of_not_lt c2)
      have hp2 : (data ++ tb).take (data.length + t) = data ++ tb.take t :=
        take_add_append _ _ data.length t rfl
      have hd2 : (data ++ tb).drop (data.length + t) = tb.drop t :=
        drop_add_append _ _ data.length t rfl
      have C := C (by omega)
      rw [hp, hpx, hp2] at C
      have hpd : (xid ++ (data ++ tb.take t)).drop (X + data.length) = tb.take t := by
        rw [drop_add_append _ _ X data.length hX]
        exact List.drop_left _ _
      rw [hpd] at C
      have e := resume_tail (r0.decode h ifs1 0).st.r h h2 ifs2 X D t
        (rec_tail_bytes r0._enq_tail) tb rest (by rw [C]) (by rw [C])
        (rec_tail_bytes_length _) (by omega) ht (by rw [← hdl]; exact hfit) hg2
        (by rw [hb2, hd, hd2])
      rw [← hdl] at e
      rw [show 39 + (X + (data.length + t)) = 39 + X + data.length + t by omega, e]
      apply congrArg enq_rec.decode_finish
      rw [dec_st.mk.injEq]
      refine ⟨?_, rfl, rfl, rfl⟩
      rw [C]
      rfl

/-- C22: for every record stream (header, xid, data unless external, of fewer
bytes than the largest `std::streamsize`, and any 24 bytes `tb` for a tail) and
every split point `p` with
`sizeof(hdr) <= p < rec_size()`: `decode` on the first `p` bytes returns false
with watermark `p`; called again on the record it left, with that watermark and
a stream in good state on the remaining bytes, it ends exactly as one `decode`
call on the whole stream does: same return value or exception, same final
watermark, header, tail, xid buffer and stream.  The watermark goes from `p` to
`rec_size()`, and the result is true when the tail passes the check. -/
theorem decode_resume_equivalence (r : enq_rec) (tb rest : List Byte) (p : Nat)
    (h2 : rec_hdr_t) (ifs2 : ifstream)
    (ht : r._enq_hdr.typed) (hfit : r.size < 2 ^ 64) (hl : tb.length = 24)
    (hp1 : sizeof_enq_hdr ≤ p) (hp2 : p < r.rec_size)
    (hskip : r.data_bytes.length < 2 ^ 63 - 1)
    (hg2 : ifs2.good = true) (hb2 : ifs2.buf = (r.frame tb).drop p ++ rest) :
    (decode_bytes ((r.frame tb).take p) []).outcome = dec_outcome.returned false ∧
    (decode_bytes ((r.frame tb).take p) []).st.rec_offs = p ∧
    (decode_bytes ((r.frame tb).take p) []).st.r.decode h2 ifs2
        (decode_bytes ((r.frame tb).take p) []).st.rec_offs
      = decode_bytes (r.frame tb) rest ∧
    ((decode_bytes ((r.frame tb).take p) []).st.r.decode h2 ifs2
        (decode_bytes ((r.frame tb).take p) []).st.rec_offs).outcome
      = (decode_bytes (r.frame tb) rest).outcome ∧
    ((decode_bytes ((r.frame tb).take p) []).st.r.decode h2 ifs2
        (decode_bytes ((r.frame tb).take p) []).st.rec_offs).st.rec_offs
      = (decode_bytes (r.frame tb) rest).st.rec_offs ∧
    ((decode_bytes ((r.frame tb).take p) []).st.r.decode h2 ifs2
        (decode_bytes ((r.frame tb).take p) []).st.rec_offs).st.r._enq_hdr
      = (decode_bytes (r.frame tb) rest).st.r._enq_hdr ∧
    ((decode_bytes ((r.frame tb).take p) []).st.r.decode h2 ifs2
        (decode_bytes ((r.frame tb).take p) []).st.rec_offs).st.r._enq_tail
      = (decode_bytes (r.frame tb) rest).st.r._enq_tail ∧
    ((decode_bytes ((r.frame tb).take p) []).st.r.decode h2 ifs2
        (decode_bytes ((r.frame tb).take p) []).st.rec_offs).st.r._buff
      = (decode_bytes (r.frame tb) rest).st.r._buff ∧
    (rec_tail_check (rec_tail_of_bytes tb) r._enq_hdr._rhdr 0 = 0 →
      ((decode_bytes ((r.frame tb).take p) []).st.r.decode h2 ifs2
          (decode_bytes ((r.frame tb).take p) []).st.rec_offs).outcome
        = dec_outcome.returned true) ∧
    (decode_bytes ((r.frame tb).take p) []).st.rec_offs
      ≤ ((decode_bytes ((r.frame tb).take p) []).st.r.decode h2 ifs2
          (decode_bytes ((r.frame tb).take p) []).st.rec_offs).st.rec_offs ∧
    ((decode_bytes ((r.frame tb).take p) []).st.r.decode h2 ifs2
        (decode_bytes ((r.frame tb).take p) []).st.rec_offs).st.rec_offs = r.rec_size := by
  obtain ⟨k, rfl⟩ := Nat.exists_eq_add_of_le hp1
  have hrs := rec_size_eq_size r hfit
  have hW := decode_frame r tb rest ht hfit hl hskip
  have hR := decode_frame_result r tb rest ht hfit hl hskip
  obtain ⟨t1, t2, t3, t4, t5, t6, t7⟩ := ht
  rw [hrs] at hp2 ⊢
  have hsz : r.size = 39 + r._enq_hdr._xidsize +
      (if is_enq_external r._enq_hdr then 0 else r._enq_hdr._dsize) + 24 := rfl
  have hsz2 : 39 + r._enq_hdr._xidsize + r.data_bytes.length + 24 = r.size := by
    rw [data_bytes_length]; rfl
  have hf : (r.frame tb).take (sizeof_enq_hdr + k) =
      rec_hdr_bytes r._enq_hdr._rhdr ++ (le_bytes 8 r._enq_hdr._xidsize ++
        (le_bytes 8 r._enq_hdr._dsize ++ (r.xid_bytes ++ (r.data_bytes ++ tb)).take k)) := by
    unfold enq_rec.frame
    simp only [List.append_assoc]
    rw [take_add_append _ _ sizeof_enq_hdr k (enq_hdr_bytes_length _)]
    unfold enq_hdr_bytes
    simp only [List.append_assoc]
  have hdr : (r.frame tb).drop (sizeof_enq_hdr + k) =
      (r.xid_bytes ++ (r.data_bytes ++ tb)).drop k := by
    unfold enq_rec.frame
    simp only [List.append_assoc]
    exact drop_add_append _ _ sizeof_enq_hdr k (enq_hdr_bytes_length _)
  have hpl : ((r.xid_bytes ++ (r.data_bytes ++ tb)).take k).length = k := by
    rw [List.length_take, List.length_append, List.length_append, xid_bytes_length,
      data_bytes_length, hl]
    rw [show sizeof_enq_hdr = 39 from rfl] at hp2
    omega
  have hT : ((r.frame tb).take (sizeof_enq_hdr + k)).take sizeof_rec_hdr =
      rec_hdr_bytes r._enq_hdr._rhdr := by
    rw [hf]; exact take_append_len _ _ sizeof_rec_hdr (rec_hdr_bytes_length _)
  have hD : ((r.frame tb).take (sizeof_enq_hdr + k)).drop sizeof_rec_hdr ++ [] =
      le_bytes 8 r._enq_hdr._xidsize ++ le_bytes 8 r._enq_hdr._dsize ++
        (r.xid_bytes ++ (r.data_bytes ++ tb)).take k := by
    rw [hf, List.append_nil, drop_append_len _ _ sizeof_rec_hdr (rec_hdr_bytes_length _)]
    simp only [List.append_assoc]
  have hF : decode_bytes ((r.frame tb).take (sizeof_enq_hdr + k)) [] =
      enq_rec.ctor.decode r._enq_hdr._rhdr
        (ifstream.on (le_bytes 8 r._enq_hdr._xidsize ++ le_bytes 8 r._enq_hdr._dsize ++
          (r.xid_bytes ++ (r.data_bytes ++ tb)).take k)) 0 := by
    unfold decode_bytes
    rw [hT, hD, rec_hdr_of_bytes_bytes _ t1 t2 t3 t4 t5]
  obtain ⟨e1, e2, -, -⟩ := decode_short enq_rec.ctor r._enq_hdr._rhdr
    (ifstream.on (le_bytes 8 r._enq_hdr._xidsize ++ le_bytes 8 r._enq_hdr._dsize ++
        (r.xid_bytes ++ (r.data_bytes ++ tb)).take k))
    r._enq_hdr._xidsize r._enq_hdr._dsize _ (good_on _) rfl t7
    (by rw [← hsz]; exact hfit)
    (by rw [← hsz, hpl]; exact hp2)
    (by rw [← data_bytes_length]; exact hskip)
  rw [hpl] at e2
  have hC := decode_resume_core enq_rec.ctor r._enq_hdr._rhdr h2
    (ifstream.on (le_bytes 8 r._enq_hdr._xidsize ++ le_bytes 8 r._enq_hdr._dsize ++
        (r.xid_bytes ++ (r.data_bytes ++ tb)).take k)) ifs2
    r._enq_hdr._xidsize r._enq_hdr._dsize k r.xid_bytes r.data_bytes tb rest (good_on _) rfl
    (xid_bytes_length r) (data_bytes_length r) hl (by rw [hsz2]; exact hfit) t7
    (by rw [show sizeof_enq_hdr = 39 from rfl] at hp2; omega) hskip hg2 (by rw [hb2, hdr])
  rw [hsz2, ← hW] at hC
  rw [hF, e2]
  have hro : (decode_bytes (r.frame tb) rest).st.rec_offs = r.size := by rw [hR]
  refine ⟨e1, rfl, hC, by rw [hC], by rw [hC], by rw [hC], by rw [hC], by rw [hC], ?_, ?_, ?_⟩
  · intro hc
    rw [hC, hR]
    simp only [hc, if_true]
  · rw [hC, hro]
    exact Nat.le_of_lt hp2
  · rw [hC, hro]

/-- C22 at the record with a 1024-byte xid and the data "hi", split 100 bytes
into the xid, inside the data and 10 bytes into the tail. -/
theorem decode_resume_equivalence_witness :
    ((decode_bytes (((bound_rec 1 42 (List.replicate 1024 120) [104, 105] false false).frame
          (rec_tail_bytes (bound_rec 1 42 (List.replicate 1024 120) [104, 105] false
            false)._enq_tail)).take 139) []).st.r.decode
        (bound_rec 1 42 (List.replicate 1024 120) [104, 105] false false)._enq_hdr._rhdr
        (ifstream.on
          (((bound_rec 1 42 (List.replicate 1024 120) [104, 105] false false).frame
            (rec_tail_bytes (bound_rec 1 42 (List.replicate 1024 120) [104, 105] false
              false)._enq_tail)).drop 139 ++ []))
        (decode_bytes (((bound_rec 1 42 (List.replicate 1024 120) [104, 105] false false).frame
          (rec_tail_bytes (bound_rec 1 42 (List.replicate 1024 120) [104, 105] false
            false)._enq_tail)).take 139) []).st.rec_offs)
      = decode_bytes ((bound_rec 1 42 (List.replicate 1024 120) [104, 105] false false).frame
          (rec_tail_bytes (bound_rec 1 42 (List.replicate 1024 120) [104, 105] false
            false)._enq_tail)) [] :=
  (decode_resume_equivalence (bound_rec 1 42 (List.replicate 1024 120) [104, 105] false false)
    (rec_tail_bytes (bound_rec 1 42 (List.replicate 1024 120) [104, 105] false false)._enq_tail)
    [] 139 (bound_rec 1 42 (List.replicate 1024 120) [104, 105] false false)._enq_hdr._rhdr
    (ifstream.on _) (by decide) (by decide) (by decide) (by decide) (by decide) (by decide)
    rfl rfl).2.2.1

end journal

namespace ha

set_option maxRecDepth 100000

theorem set_front_headD (list : List Variant) (values : Variant.Map) :
    (set_front_values list values).headD Variant.VAR_VOID
      = (list.headD Variant.VAR_VOID).set_values values := by
  cases list with
  | nil => rfl
  | cons a l => rfl

/-- The event loop reads the list only through `list.front()` and the number of
positions that are left. -/
theorem event_loop_front {σ : Type} (run : Handlers σ) :
    ∀ (i i2 list list2 : List Variant) (calls : List Call) (broker : σ),
      i.length = i2.length →
      list.headD Variant.VAR_VOID = list2.headD Variant.VAR_VOID →
      event_loop run list i calls broker = event_loop run list2 i2 calls broker := by
  intro i
  induction i with
  | nil =>
    intro i2 list list2 calls broker hl _
    cases i2 with
    | nil => rfl
    | cons a l => simp at hl
  | cons a i ih =>
    intro i2 list list2 calls broker hl hf
    cases i2 with
    | nil => simp at hl
    | cons a2 i2 =>
      have hl2 : i.length = i2.length := by simpa using hl
      unfold event_loop
      rw [← hf]
      cases dispatch_event (list.headD Variant.VAR_VOID) with
      | error e => rfl
      | ok o =>
        cases o with
        | none => exact ih i2 list list2 calls broker hl2 hf
        | some call =>
          dsimp only
          cases hr : (run call.handler call.values broker).raised with
          | some e => rfl
          | none =>
            exact ih i2 _ _ _ _ hl2 (by rw [set_front_headD, set_front_headD, hf])

theorem route_front {σ : Type} (run : Handlers σ) (broker : σ) (first : Variant)
    (rest rest2 : List Variant) (h : rest.length = rest2.length) :
    route run broker ⟨some QMF2, first :: rest⟩ (some event_headers)
      = route run broker ⟨some QMF2, first :: rest2⟩ (some event_headers) := by
  have e : ∀ l : List Variant, route run broker ⟨some QMF2, l⟩ (some event_headers)
      = event_loop run l l [] broker := fun l => rfl
  rw [e, e]
  exact event_loop_front run _ _ _ _ _ _ (by simp [h]) rfl

theorem route_single {σ : Type} (run : Handlers σ) (broker : σ) (entry : Variant) :
    route run broker ⟨some QMF2, [entry]⟩ (some event_headers)
      = entry_by_entry run [entry] [] broker := by
  have e : route run broker ⟨some QMF2, [entry]⟩ (some event_headers)
      = event_loop run [entry] [entry] [] broker := rfl
  rw [e]
  unfold event_loop entry_by_entry
  simp only [List.headD_cons]
  cases dispatch_event entry with
  | error e => rfl
  | ok o =>
    cases o with
    | none => rfl
    | some call =>
      dsimp only
      cases hr : (run call.handler call.values broker).raised with
      | some e => rfl
      | none => rfl

theorem dispatch_subscribe :
    dispatch_event (event_entry EventClass.EventSubscribe [("qName", Variant.VAR_STRING "q0")])
      = Except.ok none := by
  rfl

theorem dispatch_declare :
    dispatch_event (event_entry EventClass.EventQueueDeclare queue_values)
      = Except.ok (some ⟨Handler.doEventQueueDeclare, queue_values⟩) := by
  rfl

theorem entry_by_entry_declare {σ : Type} (run : Handlers σ) (broker : σ) :
    (entry_by_entry run subscribe_then_declare.content [] broker).calls
      = [⟨Handler.doEventQueueDeclare, queue_values⟩] := by
  show (entry_by_entry run
    [event_entry EventClass.EventSubscribe [("qName", Variant.VAR_STRING "q0")],
     event_entry EventClass.EventQueueDeclare queue_values] [] broker).calls = _
  unfold entry_by_entry
  rw [dispatch_subscribe]
  dsimp only
  unfold entry_by_entry
  rw [dispatch_declare]
  dsimp only
  cases hr : (run Handler.doEventQueueDeclare queue_values broker).raised with
  | some e => rfl
  | none => rfl

theorem route_subscribe_then_declare {σ : Type} (run : Handlers σ) (broker : σ) :
    route run broker subscribe_then_declare (some event_headers)
      = { calls := [], caught := none, ignored := false, broker := broker } := by
  rfl

/-- C24 (fails on the code): the event loop of `route` takes the map of
`list.front()` at every position of the list and never reads the entry at the
position.  For every behaviour of the handlers and every broker: what `route`
does on an event message stays the same when the entries after the first are
replaced by any others; on the message `subscribe_then_declare` (a
subscription, then the declaration of the replicated queue `q1`) `route` runs
no handler at all, raises nothing and leaves the broker as it was, where entry
by entry `doEventQueueDeclare` is run with the values of the second entry; on
a message of one entry `route` is the dispatch entry by entry. -/
theorem route_event_dispatch_front :
    (∀ (σ : Type) (run : Handlers σ) (broker : σ) (first : Variant) (rest : List Variant)
        (f : Variant → Variant),
        route run broker ⟨some QMF2, first :: rest⟩ (some event_headers)
          = route run broker ⟨some QMF2, first :: rest.map f⟩ (some event_headers))
    ∧ (∀ (σ : Type) (run : Handlers σ) (broker : σ),
        route run broker subscribe_then_declare (some event_headers)
          = { calls := [], caught := none, ignored := false, broker := broker })
    ∧ (∀ (σ : Type) (run : Handlers σ) (broker : σ),
        (entry_by_entry run subscribe_then_declare.content [] broker).calls
          = [⟨Handler.doEventQueueDeclare, queue_values⟩])
    ∧ (∀ (σ : Type) (run : Handlers σ) (broker : σ),
        (route run broker subscribe_then_declare (some event_headers)).calls
          ≠ (entry_by_entry run subscribe_then_declare.content [] broker).calls)
    ∧ (∀ (σ : Type) (run : Handlers σ) (broker : σ) (entry : Variant),
        route run broker ⟨some QMF2, [entry]⟩ (some event_headers)
          = entry_by_entry run [entry] [] broker) :=
  ⟨fun _ run broker first rest f => route_front run broker first rest (rest.map f) (by simp),
   fun _ run broker => route_subscribe_then_declare run broker,
   fun _ run broker => entry_by_entry_declare run broker,
   fun _ run broker => by
     rw [route_subscribe_then_declare, entry_by_entry_declare]
     exact fun h => List.noConfusion h,
   fun _ run broker entry => route_single run broker entry⟩

theorem string_compare_zero (name pfx : String) :
    string_compare name 0 pfx.length pfx = 0 ↔ name.data.take pfx.data.length = pfx.data := by
  unfold string_compare substr
  simp only [List.drop_zero]
  have hl : pfx.length = pfx.data.length := rfl
  rw [hl]
  constructor
  · intro h
    by_cases e : (⟨name.data.take pfx.data.length⟩ : String) = pfx
    · have := congrArg String.data e
      exact this
    · rw [if_neg e] at h
      split at h <;> omega
  · intro h
    have e : (⟨name.data.take pfx.data.length⟩ : String) = pfx := by
      apply String.ext
      exact h
    rw [if_pos e]

theorem take_eq_iff_append (a b : List Char) :
    b.take a.length = a ↔ ∃ s, b = a ++ s := by
  constructor
  · intro h
    exact ⟨b.drop a.length, by conv_lhs => rw [← List.take_append_drop a.length b, h]⟩
  · rintro ⟨s, rfl⟩
    simp

theorem getRefName_spec (pfx : String) (map : Variant.Map) :
    getRefName pfx (Variant.VAR_MAP map)
      = match map.find OBJECT_NAME with
        | none => Except.error (Exception.invalid_object_reference (Variant.VAR_MAP map))
        | some second =>
          match second.asString with
          | Except.error e => Except.error e
          | Except.ok name =>
            if name.data.take pfx.data.length = pfx.data then
              Except.ok ⟨name.data.drop pfx.data.length⟩
            else Except.error (Exception.unexpected_reference_name name) := by
  unfold getRefName
  simp only [Variant.asMap]
  cases map.find OBJECT_NAME with
  | none => rfl
  | some v =>
    simp only []
    cases hv : v.asString with
    | error e => rfl
    | ok name =>
      simp only []
      by_cases h : name.data.take pfx.data.length = pfx.data
      · rw [if_pos h, if_neg (by rw [ne_eq, not_not]; exact (string_compare_zero name pfx).2 h)]
        unfold substr_from
        have hl : pfx.length = pfx.data.length := rfl
        have hn : name.length = name.data.length := rfl
        have : pfx.data.length ≤ name.data.length := by
          have := congrArg List.length h
          rw [List.length_take] at this
          omega
        rw [if_neg (by rw [hl, hn]; omega), hl]
      · rw [if_neg h, if_pos (by rw [ne_eq]; exact fun c => h ((string_compare_zero name pfx).1 c))]

/-- C25: for every prefix and every reference map, `getRefName` returns `s`
exactly when the map has an `_object_name` entry whose string is the prefix
followed by `s`; it raises the invalid-reference exception when the key is
absent, and the unexpected-prefix exception when the stored name does not start
with the prefix, in particular when the name is shorter than the prefix. -/
theorem getRefName_extracts (pfx : String) (map : Variant.Map) :
    (∀ s : String, getRefName pfx (Variant.VAR_MAP map) = Except.ok s
        ↔ ∃ second, map.find OBJECT_NAME = some second
            ∧ second.asString = Except.ok (pfx ++ s))
    ∧ (∀ s : String, map.find OBJECT_NAME = some (Variant.VAR_STRING (pfx ++ s)) →
        getRefName pfx (Variant.VAR_MAP map) = Except.ok s)
    ∧ (map.find OBJECT_NAME = none →
        getRefName pfx (Variant.VAR_MAP map)
          = Except.error (Exception.invalid_object_reference (Variant.VAR_MAP map)))
    ∧ (∀ name : String, map.find OBJECT_NAME = some (Variant.VAR_STRING name) →
        ¬ (pfx.data <+: name.data) →
        getRefName pfx (Variant.VAR_MAP map)
          = Except.error (Exception.unexpected_reference_name name))
    ∧ (∀ name : String, map.find OBJECT_NAME = some (Variant.VAR_STRING name) →
        name.length < pfx.length →
        getRefName pfx (Variant.VAR_MAP map)
          = Except.error (Exception.unexpected_reference_name name)) := by
  have key : ∀ name : String, ¬ (pfx.data <+: name.data) →
      ¬ name.data.take pfx.data.length = pfx.data := by
    intro name hp h
    obtain ⟨s, hs⟩ := (take_eq_iff_append _ _).1 h
    exact hp ⟨s, hs.symm⟩
  refine ⟨?_, ?_, ?_, ?_, ?_⟩
  · intro s
    rw [getRefName_spec]
    cases map.find OBJECT_NAME with
    | none => simp
    | some v =>
      simp only [Option.some.injEq, exists_eq_left']
      cases hv : v.asString with
      | error e => simp
      | ok name =>
        simp only [Except.ok.injEq]
        by_cases h : name.data.take pfx.data.length = pfx.data
        · rw [if_pos h]
          simp only [Except.ok.injEq]
          constructor
          · intro e
            apply String.ext
            rw [String.data_append, ← e, ← h]
            simp only [List.length_take]
            have : pfx.data.length ≤ name.data.length := by
              have := congrArg List.length h
              rw [List.length_take] at this
              omega
            rw [Nat.min_eq_left this, List.take_append_drop]
          · intro e
            apply String.ext
            rw [e, String.data_append]
            simp
        · rw [if_neg h]
          constructor
          · intro e; cases e
          · intro e
            exfalso
            apply h
            rw [e, String.data_append]
            simp
  · intro s hs
    rw [getRefName_spec, hs]
    simp only [Variant.asString]
    rw [if_pos (by rw [String.data_append]; simp)]
    congr 1
    apply String.ext
    rw [String.data_append]
    simp
  · intro hn
    rw [getRefName_spec, hn]
  · intro name hs hp
    rw [getRefName_spec, hs]
    simp only [Variant.asString]
    rw [if_neg (key name hp)]
  · intro name hs hl
    rw [getRefName_spec, hs]
    simp only [Variant.asString]
    rw [if_neg]
    intro h
    have := congrArg List.length h
    rw [List.length_take] at this
    have h1 : pfx.length = pfx.data.length := rfl
    have h2 : name.length = name.data.length := rfl
    omega

/-- C25 at the reference `org.apache.qpid.broker:queue:q1` of a queue: the name
`q1` is returned; a map without the key and an exchange reference raise. -/
theorem getRefName_extracts_witness :
    getRefName QUEUE_REF_PREFIX
        (Variant.VAR_MAP [(OBJECT_NAME, Variant.VAR_STRING (QUEUE_REF_PREFIX ++ "q1"))])
      = Except.ok "q1"
    ∧ getRefName QUEUE_REF_PREFIX (Variant.VAR_MAP [])
      = Except.error (Exception.invalid_object_reference (Variant.VAR_MAP []))
    ∧ getRefName QUEUE_REF_PREFIX
        (Variant.VAR_MAP [(OBJECT_NAME, Variant.VAR_STRING "q1")])
      = Except.error (Exception.unexpected_reference_name "q1") :=
  ⟨(getRefName_extracts QUEUE_REF_PREFIX
      [(OBJECT_NAME, Variant.VAR_STRING (QUEUE_REF_PREFIX ++ "q1"))]).2.1 "q1" rfl,
   (getRefName_extracts QUEUE_REF_PREFIX []).2.2.1 rfl,
   (getRefName_extracts QUEUE_REF_PREFIX
      [(OBJECT_NAME, Variant.VAR_STRING "q1")]).2.2.2.2 "q1" rfl (by decide)⟩

end ha
